import Mathlib

/-!
Verification of the ctest execution engine.

A shallow embedding of the partitioner, the run dispatch, the failure
flattening, the event codec, the abort handling of the test-case driver, the
output buffers, the per-case functions of the forking and the direct runner, the
assertion macros, the signal capture, the creation of tests and test cases and the
Roman-numeral example, with the properties proved about them.
-/

namespace Ctest

/-! ## Partitioner (src/exec/runner_utils.c) -/

/-- The C library `memmove(a + dst, a + src, n * sizeof *a)` on an array held as a list:
the `n` cells starting at `src` are copied to the cells starting at `dst`
(both ranges inside the array). -/
def memmove {α : Type} (a : List α) (dst src n : Nat) : List α :=
  a.take dst ++ ((a.drop src).take n ++ a.drop (dst + n))

/-- Local variables of `repartition_testcases__` that the loops update. -/
structure PartState (TC T : Type) where
  sorted_testcases : List TC
  i_write_testcase : Nat
  next_test : Option T

section Partition
variable {TC T S : Type} [DecidableEq T] [DecidableEq S]
variable (get_test : TC → T) (get_testsuite : T → S)

/-- The body of the `for (i_read_testcase = i_write_testcase; i_read_testcase < testcase_count;
++i_read_testcase)` loop of `repartition_testcases__`, run for the `k` remaining
iterations starting at index `i_read_testcase` (the loop has no `break`, so it runs
exactly `testcase_count - i_read_testcase` times). -/
def read_loop (test : T) : Nat → Nat → PartState TC T → PartState TC T
  | 0, _, s => s
  | k + 1, i_read_testcase, s =>
    match s.sorted_testcases[i_read_testcase]? with
    | none => s
    | some read_testcase =>
      let read_test := get_test read_testcase
      if read_test ≠ test then
        if s.next_test = none ∧ get_testsuite read_test = get_testsuite test then
          read_loop test k (i_read_testcase + 1) { s with next_test := some read_test }
        else
          read_loop test k (i_read_testcase + 1) s
      else
        let moved :=
          if s.i_write_testcase ≠ i_read_testcase then
            (memmove s.sorted_testcases (s.i_write_testcase + 1) s.i_write_testcase
              (i_read_testcase - s.i_write_testcase)).set s.i_write_testcase read_testcase
          else s.sorted_testcases
        read_loop test k (i_read_testcase + 1)
          { s with sorted_testcases := moved, i_write_testcase := s.i_write_testcase + 1 }

/-- The `while (next_test != NULL)` loop of `repartition_testcases__`; `none` when the
iteration budget `fuel` runs out before the loop exits. -/
def test_loop : Nat → PartState TC T → Option (PartState TC T)
  | fuel, s =>
    match s.next_test with
    | none => some s
    | some test =>
      match fuel with
      | 0 => none
      | fuel + 1 =>
        test_loop fuel
          (read_loop get_test get_testsuite test
            (s.sorted_testcases.length - s.i_write_testcase) s.i_write_testcase
            { s with next_test := none })

/-- The outer `for (i_write_testcase = 0; i_write_testcase < testcase_count; )` loop of
`repartition_testcases__`; `none` when the iteration budget runs out. -/
def write_loop : Nat → List TC → Nat → Option (List TC)
  | fuel, sorted_testcases, i_write_testcase =>
    match sorted_testcases[i_write_testcase]? with
    | none => some sorted_testcases
    | some first =>
      match fuel with
      | 0 => none
      | fuel + 1 =>
        match test_loop get_test get_testsuite (sorted_testcases.length + 1)
            { sorted_testcases := sorted_testcases,
              i_write_testcase := i_write_testcase + 1,
              next_test := some (get_test first) } with
        | none => none
        | some s => write_loop fuel s.sorted_testcases s.i_write_testcase

/-- The function `repartition_testcases__`: `calloc_ok` says whether the `calloc` of the working
copy succeeds; `none` is the `NULL` return. -/
def repartition_testcases__ (calloc_ok : Bool) (testcases : List TC) : Option (List TC) :=
  if calloc_ok then
    write_loop get_test get_testsuite testcases.length testcases 0
  else none

end Partition

/-- Test cases of the partitioning scenario: the number is the position inside the test. -/
inductive ExCase | a1 | a2 | a3 | b1 | b2 | c1
  deriving DecidableEq, Repr
inductive ExTest | A | B | C
  deriving DecidableEq, Repr
inductive ExSuite | S | T
  deriving DecidableEq, Repr

def ExCase.test : ExCase → ExTest
  | .a1 | .a2 | .a3 => .A
  | .b1 | .b2 => .B
  | .c1 => .C

def ExTest.suite : ExTest → ExSuite
  | .A | .B => .S
  | .C => .T

section PartitionAux
variable {TC T S : Type} [DecidableEq T] [DecidableEq S]
variable (get_test : TC → T) (get_testsuite : T → S)

/-- The value of `next_test` after the read loop has walked over the cases `C`, starting
from the value `nt`: the test of the first case of another test of the same suite. -/
def pick_next (test : T) (nt : Option T) (C : List TC) : Option T :=
  match nt with
  | some t => some t
  | none =>
    (C.find? (fun c => decide (get_test c ≠ test ∧
      get_testsuite (get_test c) = get_testsuite test))).map get_test

end PartitionAux

section PartitionSpec
variable {TC T S : Type} [DecidableEq T] [DecidableEq S]
variable (get_test : TC → T) (get_testsuite : T → S)

/-- Position in the input `l` of the first case that belongs to test `t`
(`l.length` when there is none). -/
def first_case_of_test (l : List TC) (t : T) : Nat :=
  (l.map get_test).indexOf t

/-- Position in the input `l` of the first case whose test belongs to suite `s`
(`l.length` when there is none). -/
def first_case_of_suite (l : List TC) (s : S) : Nat :=
  (l.map (fun c => get_testsuite (get_test c))).indexOf s

/-- The order in which two cases may follow each other in a partitioned sequence: cases of
one test in any order, tests of one suite by first occurrence in `l`, suites by first
occurrence in `l`. -/
def grouped_before (l : List TC) (x y : TC) : Prop :=
  get_test x = get_test y ∨
  (get_testsuite (get_test x) = get_testsuite (get_test y) ∧
    first_case_of_test get_test l (get_test x) < first_case_of_test get_test l (get_test y)) ∨
  first_case_of_suite get_test get_testsuite l (get_testsuite (get_test x))
    < first_case_of_suite get_test get_testsuite l (get_testsuite (get_test y))

/-- Loop invariant of `repartition_testcases__` for the input `l`, the array being
`done ++ rest` with `i_write_testcase = done.length`. -/
structure PartBase (l done rest : List TC) : Prop where
  sorted : done.Pairwise (grouped_before get_test get_testsuite l)
  cross : ∀ x ∈ done, ∀ y ∈ rest, get_test x ≠ get_test y ∧
    (get_testsuite (get_test x) = get_testsuite (get_test y) →
      first_case_of_test get_test l (get_test x) < first_case_of_test get_test l (get_test y)) ∧
    (get_testsuite (get_test x) ≠ get_testsuite (get_test y) →
      first_case_of_suite get_test get_testsuite l (get_testsuite (get_test x))
        < first_case_of_suite get_test get_testsuite l (get_testsuite (get_test y)))
  rest_eq : rest = l.filter (fun c => decide (get_test c ∉ done.map get_test))
  stable : ∀ t, (done ++ rest).filter (fun c => decide (get_test c = t))
    = l.filter (fun c => decide (get_test c = t))
  perm : (done ++ rest).Perm l

/-- Invariant at the head of the outer loop: no suite is split between `done` and `rest`. -/
structure PartHead (l done rest : List TC) extends
    PartBase get_test get_testsuite l done rest : Prop where
  split : ∀ x ∈ done, ∀ y ∈ rest,
    get_testsuite (get_test x) ≠ get_testsuite (get_test y)

/-- Invariant at the head of the `while (next_test != NULL)` loop while the tests of suite
`s` are being moved. -/
structure PartSuite (l : List TC) (s : S) (done rest : List TC) (nt : Option T) extends
    PartBase get_test get_testsuite l done rest : Prop where
  later : ∀ y ∈ rest, get_testsuite (get_test y) ≠ s →
    first_case_of_suite get_test get_testsuite l s
      < first_case_of_suite get_test get_testsuite l (get_testsuite (get_test y))
  only : ∀ x ∈ done, ∀ y ∈ rest,
    get_testsuite (get_test x) = get_testsuite (get_test y) → get_testsuite (get_test y) = s
  next : ∀ t, nt = some t → get_testsuite t = s ∧ (∃ c ∈ rest, get_test c = t) ∧
    ∀ y ∈ rest, get_testsuite (get_test y) = s → get_test y ≠ t →
      first_case_of_test get_test l t < first_case_of_test get_test l (get_test y)
  last : nt = none → ∀ y ∈ rest, get_testsuite (get_test y) ≠ s

end PartitionSpec

/-! ## Run dispatch (src/exec/runner_utils.c) -/

/-- The calls the run dispatch makes on the reporter hierarchy and on the per-case callback,
in the order made. A reporter is named by the object it reports on; `ok = false` records
that a reporter could not be created (`NULL`), `rc` is what the callback returned. -/
inductive RunEvent (TC T S : Type) where
  /-- The event `ctest_reporter_report_testsuite(reporter, s)`. -/
  | report_testsuite (s : S) (ok : Bool)
  /-- The event `ctest_testsuite_reporter_destroy` of the reporter of suite `s`. -/
  | testsuite_reporter_destroy (s : S)
  /-- The event `ctest_testsuite_reporter_report_test(r, t)`, `r` the reporter of suite `s`. -/
  | report_test (s : S) (t : T) (ok : Bool)
  /-- The event `ctest_test_reporter_destroy` of the reporter of test `t`. -/
  | test_reporter_destroy (t : T)
  /-- The event `ctest_test_reporter_report_testcase(r, c)`, `r` the reporter of test `t`. -/
  | report_testcase (t : T) (c : TC) (ok : Bool)
  /-- The callback `(*run_testcase)(runner, r, c)`, `r` minted by the reporter of test `t`. -/
  | run_testcase (t : T) (c : TC) (rc : Int)
  /-- The event `ctest_testcase_reporter_destroy` of the reporter of case `c`. -/
  | testcase_reporter_destroy (c : TC)

/-- The collaborators of the run dispatch: whether a reporter can be created and what the
per-case callback returns, each as a function of the calls made so far. -/
structure RunEnv (TC T S : Type) where
  report_testsuite : List (RunEvent TC T S) → S → Bool
  report_test : List (RunEvent TC T S) → S → T → Bool
  report_testcase : List (RunEvent TC T S) → T → TC → Bool
  run_testcase : List (RunEvent TC T S) → T → TC → Int

section Dispatch
variable {TC T S : Type}

/-- The function `run_testcases_in_test__`: `reporter` is the test reporter (named by its
test), `result` the running sum, `log` the calls made so far. C `int` sums are taken in
`Int` (a run cannot reach `2^31` failed cases). -/
def run_testcases_in_test__ (env : RunEnv TC T S) (reporter : T) :
    List TC → Int → List (RunEvent TC T S) → Int × List (RunEvent TC T S)
  | [], result, log => (result, log)
  | testcase :: rest, result, log =>
    if env.report_testcase log reporter testcase then
      let log1 := log ++ [RunEvent.report_testcase reporter testcase true]
      let rc := env.run_testcase log1 reporter testcase
      let log2 := log1 ++ [RunEvent.run_testcase reporter testcase rc,
        RunEvent.testcase_reporter_destroy testcase]
      if rc < 0 then (-1, log2)
      else run_testcases_in_test__ env reporter rest (result + (if rc > 0 then 1 else 0)) log2
    else (-1, log ++ [RunEvent.report_testcase reporter testcase false])

/-- The function `run_tests_in_testsuite__`: `reporter` is the suite reporter (named by its
suite). -/
def run_tests_in_testsuite__ (env : RunEnv TC T S) (get_testcases : T → List TC)
    (reporter : S) :
    List T → Int → List (RunEvent TC T S) → Int × List (RunEvent TC T S)
  | [], result, log => (result, log)
  | test :: rest, result, log =>
    if env.report_test log reporter test then
      let log1 := log ++ [RunEvent.report_test reporter test true]
      let r := run_testcases_in_test__ env test (get_testcases test) 0 log1
      let log2 := r.2 ++ [RunEvent.test_reporter_destroy test]
      if r.1 < 0 then (r.1, log2)
      else run_tests_in_testsuite__ env get_testcases reporter rest (result + r.1) log2
    else (-1, log ++ [RunEvent.report_test reporter test false])

/-- The loop of `runner_run_testsuites` over the suites not yet run. -/
def run_testsuites_loop (env : RunEnv TC T S) (get_tests : S → List T)
    (get_testcases : T → List TC) :
    List S → Int → List (RunEvent TC T S) → Int × List (RunEvent TC T S)
  | [], result, log => (result, log)
  | testsuite :: rest, result, log =>
    if env.report_testsuite log testsuite then
      let log1 := log ++ [RunEvent.report_testsuite testsuite true]
      let r := run_tests_in_testsuite__ env get_testcases testsuite (get_tests testsuite) 0 log1
      let log2 := r.2 ++ [RunEvent.testsuite_reporter_destroy testsuite]
      if r.1 < 0 then (r.1, log2)
      else run_testsuites_loop env get_tests get_testcases rest (result + r.1) log2
    else (-1, log ++ [RunEvent.report_testsuite testsuite false])

/-- The function `runner_run_testsuites`, started with no call made yet. -/
def runner_run_testsuites (env : RunEnv TC T S) (get_tests : S → List T)
    (get_testcases : T → List TC) (testsuites : List S) : Int × List (RunEvent TC T S) :=
  run_testsuites_loop env get_tests get_testcases testsuites 0 []

/-- The case the callback was run on, for a callback event. -/
def RunEvent.run_case : RunEvent TC T S → Option TC
  | RunEvent.run_testcase _ c _ => some c
  | _ => none

end Dispatch

/-! ## `runner_run_testcases` (src/exec/runner_utils.c) -/

/-- Local variables of the loop of `runner_run_testcases`; `testsuite_reporter` is named by
the suite it reports on, `none` is `NULL`. -/
structure CasesState (TC T S : Type) where
  testsuite : Option S
  testsuite_reporter : Option S
  result : Int
  log : List (RunEvent TC T S)

section RunCases
variable {TC T S : Type} [DecidableEq TC] [DecidableEq T] [DecidableEq S]
variable (get_test : TC → T) (get_testsuite : T → S)

/-- The loop `for (i_testcase += 1; i_testcase < testcase_count; ++i_testcase)` that stops at
the first case of another test: the number of cases it steps over, given the cases that
follow the first case of the run. -/
def same_test_count (test : T) : List TC → Nat
  | [] => 0
  | c :: rest => if get_test c ≠ test then 0 else same_test_count test rest + 1

/-- The main loop of `runner_run_testcases` over the cases from `i_testcase` on. The result is
the state at loop exit (by the loop condition or by `break`); `none` when the iteration
budget runs out or a `NULL` suite reporter would be used. -/
def run_testcases_loop (env : RunEnv TC T S) :
    Nat → List TC → CasesState TC T S → Option (CasesState TC T S)
  | _, [], st => some st
  | 0, _ :: _, _ => none
  | fuel + 1, first :: rest, st =>
    let test := get_test first
    let this_testsuite := get_testsuite test
    let log0 :=
      if st.testsuite ≠ some this_testsuite then
        match st.testsuite_reporter with
        | some r => st.log ++ [RunEvent.testsuite_reporter_destroy r]
        | none => st.log
      else st.log
    if st.testsuite ≠ some this_testsuite ∧ env.report_testsuite log0 this_testsuite = false then
      some { testsuite := st.testsuite, testsuite_reporter := none, result := -1,
             log := log0 ++ [RunEvent.report_testsuite this_testsuite false] }
    else
      let st1 : CasesState TC T S :=
        if st.testsuite ≠ some this_testsuite then
          { testsuite := some this_testsuite, testsuite_reporter := some this_testsuite,
            result := st.result,
            log := log0 ++ [RunEvent.report_testsuite this_testsuite true] }
        else st
      let n := same_test_count get_test test rest
      match st1.testsuite_reporter with
      | none => none
      | some testsuite_reporter =>
        if env.report_test st1.log testsuite_reporter test then
          let r := run_testcases_in_test__ env test (first :: rest.take n) 0
            (st1.log ++ [RunEvent.report_test testsuite_reporter test true])
          let log2 := r.2 ++ [RunEvent.test_reporter_destroy test]
          if r.1 < 0 then some { st1 with result := -1, log := log2 }
          else run_testcases_loop env fuel (rest.drop n)
            { st1 with result := st1.result + r.1, log := log2 }
        else
          some { st1 with result := -1,
                          log := st1.log ++ [RunEvent.report_test testsuite_reporter test false] }

/-- The function `runner_run_testcases`: the value returned and the calls made. `calloc_ok`
says whether the working copy of the partitioner can be allocated. -/
def runner_run_testcases (env : RunEnv TC T S) (calloc_ok : Bool) (testcases : List TC) :
    Option (Int × List (RunEvent TC T S)) :=
  if testcases.length = 0 then some (0, [])
  else
    match repartition_testcases__ get_test get_testsuite calloc_ok testcases with
    | none => some (-1, [])
    | some sorted =>
      match run_testcases_loop get_test get_testsuite env sorted.length sorted
          { testsuite := none, testsuite_reporter := none, result := 0, log := [] } with
      | none => none
      | some st =>
        match st.testsuite_reporter with
        | some r => some (st.result, st.log ++ [RunEvent.testsuite_reporter_destroy r])
        | none => some (st.result, st.log)

/-- Reporter creation never fails and the callback never returns a negative value. -/
def RunEnv.never_fails (env : RunEnv TC T S) : Prop :=
  (∀ log s, env.report_testsuite log s = true) ∧
  (∀ log s t, env.report_test log s t = true) ∧
  (∀ log t c, env.report_testcase log t c = true) ∧
  (∀ log t c, 0 ≤ env.run_testcase log t c)

/-- The reporters that are open at a point of a run: the suite reporter, the test reporter,
and the test-case reporter with a flag saying whether the callback has run with it. -/
structure NestState (TC T S : Type) where
  suite : Option S
  test : Option T
  case : Option (TC × Bool)
  deriving DecidableEq

/-- One call checked against the open reporters: a reporter is minted only by the open
reporter one level up and for an object that belongs to it, the callback runs once with
the open test-case reporter, and a reporter is destroyed only when nothing minted by it
is open. `none` rejects the call. -/
def nest_step (st : NestState TC T S) : RunEvent TC T S → Option (NestState TC T S)
  | RunEvent.report_testsuite s ok =>
    if ok = true ∧ st.suite = none then some { st with suite := some s } else none
  | RunEvent.report_test s t ok =>
    if ok = true ∧ st.suite = some s ∧ st.test = none ∧ get_testsuite t = s then
      some { st with test := some t } else none
  | RunEvent.report_testcase t c ok =>
    if ok = true ∧ st.test = some t ∧ st.case = none ∧ get_test c = t then
      some { st with case := some (c, false) } else none
  | RunEvent.run_testcase t c _ =>
    if st.test = some t ∧ st.case = some (c, false) then
      some { st with case := some (c, true) } else none
  | RunEvent.testcase_reporter_destroy c =>
    if st.case = some (c, true) then some { st with case := none } else none
  | RunEvent.test_reporter_destroy t =>
    if st.test = some t ∧ st.case = none then some { st with test := none } else none
  | RunEvent.testsuite_reporter_destroy s =>
    if st.suite = some s ∧ st.test = none then some { st with suite := none } else none

/-- The open reporters after the calls `log`, `none` if a call is rejected. -/
def nest_run (st : NestState TC T S) : List (RunEvent TC T S) → Option (NestState TC T S)
  | [] => some st
  | e :: es =>
    match nest_step get_test get_testsuite st e with
    | none => none
    | some st1 => nest_run st1 es

/-- A trace is well nested when every call is accepted starting with no reporter open and
no reporter is left open at the end. -/
def well_nested (log : List (RunEvent TC T S)) : Bool :=
  decide (nest_run get_test get_testsuite ⟨none, none, none⟩ log = some ⟨none, none, none⟩)

/-- The suite for which a suite reporter is created, for such a call. -/
def RunEvent.opened_suite : RunEvent TC T S → Option S
  | RunEvent.report_testsuite s true => some s
  | _ => none

/-- The test for which a test reporter is created, for such a call. -/
def RunEvent.opened_test : RunEvent TC T S → Option T
  | RunEvent.report_test _ t true => some t
  | _ => none

/-- The elements of a list that differ from their predecessor, `prev` standing before the
first one. -/
def changes {K : Type} [DecidableEq K] : Option K → List K → List K
  | _, [] => []
  | prev, k :: ks => (if prev = some k then [] else [k]) ++ changes (some k) ks

/-- The calls with which an iteration of the loop of `runner_run_testcases` moves from the
suite reporter `cur` to a reporter for the suite `this`, when the new one can be created. -/
def open_calls (cur : Option S) (this : S) : List (RunEvent TC T S) :=
  if cur = some this then []
  else
    (match cur with
      | some r => [RunEvent.testsuite_reporter_destroy r]
      | none => []) ++ [RunEvent.report_testsuite this true]

/-- Order of two tests in a partitioned sequence: by first occurrence inside a suite, by
first occurrence of the suites otherwise. -/
def test_precedes (l : List TC) (t u : T) : Prop :=
  (get_testsuite t = get_testsuite u ∧
    first_case_of_test get_test l t < first_case_of_test get_test l u) ∨
  first_case_of_suite get_test get_testsuite l (get_testsuite t)
    < first_case_of_suite get_test get_testsuite l (get_testsuite u)

end RunCases

/-- Collaborators that always succeed: every reporter is created and the callback
returns `0`. -/
def passing_env (TC T S : Type) : RunEnv TC T S where
  report_testsuite := fun _ _ => true
  report_test := fun _ _ _ => true
  report_testcase := fun _ _ _ => true
  run_testcase := fun _ _ _ => 0

/-! ## Flattened failures (src/exec/failure.c, location.c, stacktrace.c, serialization.h)

Buffers are lists of bytes (numbers below 256). Objects are laid out as on an LP64
little-endian machine: `int` has 4 bytes, pointers and `size_t` have 8, and

* `ctest_failure_t` has 32 bytes: `stage` at 0, `description` at 8, `location` at 16,
  `stacktrace` at 24;
* `ctest_location_t` has 16 bytes: `filename` at 0, `line` at 8;
* `ctest_stackframe_t` has 24 bytes: `addr` at 0, `filename` at 8, `line` at 16;
* `ctest_stacktrace_t` has `length` at 0 and `frames` from 8 on.
-/

/-- The stages of execution (`enum ctest_stage`). -/
inductive ctest_stage where
  | CTEST_STAGE_SETUP
  | CTEST_STAGE_EXECUTION
  | CTEST_STAGE_TEARDOWN
  deriving DecidableEq, Repr

/-- The value of a stage as a C enumerator. -/
def ctest_stage.value : ctest_stage → Nat
  | CTEST_STAGE_SETUP => 0
  | CTEST_STAGE_EXECUTION => 1
  | CTEST_STAGE_TEARDOWN => 2

/-- The stage with a given enumerator value, if any. -/
def ctest_stage.of_value : Nat → Option ctest_stage
  | 0 => some CTEST_STAGE_SETUP
  | 1 => some CTEST_STAGE_EXECUTION
  | 2 => some CTEST_STAGE_TEARDOWN
  | _ => none

/-- A `ctest_location_t` as seen through its pointers: the characters of the file name
(without the terminating NUL; `none` is a `NULL` pointer) and the line. -/
structure ctest_location where
  filename : Option (List Nat)
  line : Int
  deriving DecidableEq, Repr

/-- A `ctest_stackframe_t` as seen through its pointers. -/
structure ctest_stackframe where
  addr : Nat
  filename : Option (List Nat)
  line : Int
  deriving DecidableEq, Repr

/-- A `ctest_stacktrace_t`: `length` is the length of `frames`. -/
structure ctest_stacktrace where
  frames : List ctest_stackframe
  deriving DecidableEq, Repr

/-- A `ctest_failure_t` as seen through its pointers. -/
structure ctest_failure where
  stage : ctest_stage
  description : Option (List Nat)
  location : Option ctest_location
  stacktrace : Option ctest_stacktrace
  deriving DecidableEq, Repr

/-- The characters of a C string: bytes other than NUL. -/
def is_cstring (s : List Nat) : Prop := ∀ c ∈ s, 0 < c ∧ c < 256

/-- An optional C string. -/
def is_cstring_opt : Option (List Nat) → Prop
  | none => True
  | some s => is_cstring s

/-- A C `int`. -/
def is_int (v : Int) : Prop := -2147483648 ≤ v ∧ v < 2147483648

/-- A location whose fields are values of their C types. -/
def ctest_location.valid (l : ctest_location) : Prop :=
  is_cstring_opt l.filename ∧ is_int l.line

/-- A stack frame whose fields are values of their C types. -/
def ctest_stackframe.valid (f : ctest_stackframe) : Prop :=
  f.addr < 18446744073709551616 ∧ is_cstring_opt f.filename ∧ is_int f.line

/-- A stack trace whose frames are valid. -/
def ctest_stacktrace.valid (s : ctest_stacktrace) : Prop :=
  ∀ f ∈ s.frames, f.valid

/-- A failure whose fields are values of their C types. -/
def ctest_failure.valid (f : ctest_failure) : Prop :=
  is_cstring_opt f.description ∧
  (∀ l, f.location = some l → l.valid) ∧
  (∀ s, f.stacktrace = some s → s.valid)

/-- The `n` little-endian bytes of the value `v` (taken modulo `256 ^ n`). -/
def le_bytes : Nat → Nat → List Nat
  | 0, _ => []
  | n + 1, v => v % 256 :: le_bytes n (v / 256)

/-- The value of little-endian bytes. -/
def le_value : List Nat → Nat
  | [] => 0
  | b :: bs => b + 256 * le_value bs

/-- The 32 bits of a C `int`. -/
def int_bits (v : Int) : Nat := (v % 4294967296).toNat

/-- The C `int` with the given 32 bits. -/
def bits_int (v : Nat) : Int :=
  if v < 2147483648 then (v : Int) else (v : Int) - 4294967296

/-- The buffer `buf` after `bs` was copied to offset `ofs` (`memcpy(buf + ofs, bs, ...)`). -/
def write_bytes (buf : List Nat) (ofs : Nat) (bs : List Nat) : List Nat :=
  buf.take ofs ++ (bs ++ buf.drop (ofs + bs.length))

/-- The `n` bytes of `buf` from offset `ofs` on. -/
def read_bytes (buf : List Nat) (ofs n : Nat) : List Nat :=
  (buf.drop ofs).take n

/-- Store of a pointer or `size_t` at offset `ofs`. -/
def store64 (buf : List Nat) (ofs v : Nat) : List Nat := write_bytes buf ofs (le_bytes 8 v)

/-- Load of a pointer or `size_t` at offset `ofs`. -/
def load64 (buf : List Nat) (ofs : Nat) : Nat := le_value (read_bytes buf ofs 8)

/-- Store of an `int` at offset `ofs`. -/
def store32 (buf : List Nat) (ofs v : Nat) : List Nat := write_bytes buf ofs (le_bytes 4 v)

/-- Load of an `int` at offset `ofs`. -/
def load32 (buf : List Nat) (ofs : Nat) : Nat := le_value (read_bytes buf ofs 4)

/-- The function `serialize_pad_size`. -/
def serialize_pad_size (size alignment : Nat) : Nat :=
  ((size + alignment - 1) / alignment) * alignment

/-- The function `serialize_rel_ptr_from_abs`: `ptr - base` on 64-bit pointers. -/
def serialize_rel_ptr_from_abs (ptr base : Nat) : Nat :=
  (ptr + (18446744073709551616 - base % 18446744073709551616)) % 18446744073709551616

/-- The function `serialize_abs_ptr_from_rel`: `base + ptr` on 64-bit pointers. -/
def serialize_abs_ptr_from_rel (ptr base : Nat) : Nat :=
  (base + ptr) % 18446744073709551616

/-- The bytes of a C string with its terminating NUL (`strlen + 1` bytes). -/
def cstring_bytes (s : List Nat) : List Nat := s ++ [0]

/-- The function `location_storage_size`. -/
def location_storage_size (location : ctest_location) : Nat :=
  match location.filename with
  | some s => serialize_pad_size 16 1 + s.length + 1
  | none => 16

/-- The function `location_storage_format`, writing to the buffer `buf` that starts at
address `base`: the value returned and the buffer afterwards. The value is the offset `ofs`
itself, before the `return` converts it to `int`; `c_int.location_storage_format` has the
conversion. -/
def location_storage_format (base : Nat) (buf : List Nat) (location : ctest_location) :
    Int × List Nat :=
  if 16 > buf.length then (-1, buf)
  else
    match location.filename with
    | some s =>
      let filename_ofs := serialize_pad_size 16 1
      let ofs := filename_ofs + (s.length + 1)
      if ofs > buf.length then (-1, buf)
      else
        let buf1 := store64 buf 0 (base + filename_ofs)
        let buf2 := write_bytes buf1 filename_ofs (cstring_bytes s)
        ((ofs : Int), store32 buf2 8 (int_bits location.line))
    | none =>
      let buf1 := store64 buf 0 0
      (16, store32 buf1 8 (int_bits location.line))

/-- The loop of `stacktrace_storage_size` over the frames not yet counted. -/
def stacktrace_size_loop : List ctest_stackframe → Nat → Nat
  | [], ofs => ofs
  | frame :: rest, ofs =>
    match frame.filename with
    | some s => stacktrace_size_loop rest (serialize_pad_size ofs 1 + (s.length + 1))
    | none => stacktrace_size_loop rest ofs

/-- The function `stacktrace_storage_size`. -/
def stacktrace_storage_size (stacktrace : ctest_stacktrace) : Nat :=
  stacktrace_size_loop stacktrace.frames (8 + 24 * stacktrace.frames.length)

/-- The loop of `stacktrace_storage_format` over the frames from index `i` on, `ofs` being
the end of what is written. -/
def stacktrace_format_loop (base : Nat) :
    List ctest_stackframe → Nat → Nat → List Nat → Int × List Nat
  | [], _, ofs, buf => ((ofs : Int), buf)
  | frame :: rest, i, ofs, buf =>
    let dst_stackframe := 8 + 24 * i
    match frame.filename with
    | some s =>
      let file_ofs := serialize_pad_size ofs 1
      let ofs1 := file_ofs + (s.length + 1)
      if ofs1 > buf.length then (-1, buf)
      else
        let buf1 := store64 buf (dst_stackframe + 8) (base + file_ofs)
        let buf2 := write_bytes buf1 file_ofs (cstring_bytes s)
        let buf3 := store64 buf2 dst_stackframe frame.addr
        stacktrace_format_loop base rest (i + 1) ofs1
          (store32 buf3 (dst_stackframe + 16) (int_bits frame.line))
    | none =>
      let buf1 := store64 buf (dst_stackframe + 8) 0
      let buf3 := store64 buf1 dst_stackframe frame.addr
      stacktrace_format_loop base rest (i + 1) ofs
        (store32 buf3 (dst_stackframe + 16) (int_bits frame.line))

/-- The function `stacktrace_storage_format`, writing to the buffer `buf` at address
`base`. The value is the offset `ofs` itself, before the `return` converts it to `int`;
`c_int.stacktrace_storage_format` has the conversion. -/
def stacktrace_storage_format (base : Nat) (buf : List Nat) (stacktrace : ctest_stacktrace) :
    Int × List Nat :=
  let ofs := 8 + 24 * stacktrace.frames.length
  if ofs > buf.length then (-1, buf)
  else
    stacktrace_format_loop base stacktrace.frames 0 ofs
      (store64 buf 0 stacktrace.frames.length)

/-- The function `storage_size__`. -/
def storage_size__ (description_len : Nat) (location : Option ctest_location)
    (stacktrace : Option ctest_stacktrace) : Nat :=
  let size0 := 32
  let size1 := if description_len > 0 then serialize_pad_size size0 1 + description_len
    else size0
  let size2 := match location with
    | some l => serialize_pad_size size1 8 + location_storage_size l
    | none => size1
  match stacktrace with
  | some s => serialize_pad_size size2 8 + stacktrace_storage_size s
  | none => size2

/-- The part of `storage_format__` that lays out the stack trace, from offset `ofs`. -/
def storage_format_stacktrace (base : Nat) (buf : List Nat) (ofs : Nat)
    (stacktrace : Option ctest_stacktrace) : Int × List Nat :=
  match stacktrace with
  | some s =>
    let ofs1 := serialize_pad_size ofs 8
    if ofs1 > buf.length then (-1, buf)
    else
      let buf1 := store64 buf 24 (base + ofs1)
      let r := stacktrace_storage_format (base + ofs1) (buf1.drop ofs1) s
      if r.1 < 0 then (r.1, buf1.take ofs1 ++ r.2)
      else ((ofs1 : Int) + r.1, buf1.take ofs1 ++ r.2)
  | none => ((ofs : Int), store64 buf 24 0)

/-- The part of `storage_format__` that lays out the location, from offset `ofs`, and goes
on with the stack trace. -/
def storage_format_location (base : Nat) (buf : List Nat) (ofs : Nat)
    (location : Option ctest_location) (stacktrace : Option ctest_stacktrace) :
    Int × List Nat :=
  match location with
  | some l =>
    let ofs1 := serialize_pad_size ofs 8
    if ofs1 > buf.length then (-1, buf)
    else
      let buf1 := store64 buf 16 (base + ofs1)
      let r := location_storage_format (base + ofs1) (buf1.drop ofs1) l
      if r.1 < 0 then (r.1, buf1.take ofs1 ++ r.2)
      else storage_format_stacktrace base (buf1.take ofs1 ++ r.2) (ofs1 + r.1.toNat) stacktrace
  | none => storage_format_stacktrace base (store64 buf 16 0) ofs stacktrace

/-- The function `storage_format__`, writing to the buffer `buf` at address `base`. The
value is the offset `ofs` itself, before the `return` converts it to `int`;
`c_int.storage_format__` has the conversion. -/
def storage_format__ (base : Nat) (buf : List Nat) (stage : ctest_stage)
    (description_len : Nat) (location : Option ctest_location)
    (stacktrace : Option ctest_stacktrace) : Int × List Nat :=
  if 32 > buf.length then (-1, buf)
  else
    let buf0 := store32 (List.replicate buf.length 0) 0 stage.value
    if description_len > 0 then
      let description_ofs := serialize_pad_size 32 1
      let ofs := description_ofs + description_len
      if ofs > buf.length then (-1, buf0)
      else
        storage_format_location base (store64 buf0 8 (base + description_ofs)) ofs
          location stacktrace
    else
      storage_format_location base (store64 buf0 8 0) 32 location stacktrace

/-- The length `strlen(description) + 1`, or `0` for a `NULL` description. -/
def description_len (description : Option (List Nat)) : Nat :=
  match description with
  | some s => s.length + 1
  | none => 0

/-- The function `failure_storage_size`. -/
def failure_storage_size (failure : ctest_failure) : Nat :=
  storage_size__ (description_len failure.description) failure.location failure.stacktrace

/-- The function `failure_storage_format`, writing to the buffer `buf` at address `base`:
the value returned and the buffer afterwards. The value is the offset itself, before its
conversion to `int`; `c_int.failure_storage_format` has the conversion, and the two agree
for failures that flatten to fewer than `2^31` bytes. -/
def failure_storage_format (base : Nat) (buf : List Nat) (failure : ctest_failure) :
    Int × List Nat :=
  let r := storage_format__ base buf failure.stage (description_len failure.description)
    failure.location failure.stacktrace
  if r.1 ≥ 0 then
    match failure.description with
    | some s => (r.1, write_bytes r.2 (load64 r.2 8 - base) (cstring_bytes s))
    | none => r
  else r

/-- Load of a pointer at the address `addr` from the buffer `buf` that starts at address
`base`; `none` when the 8 bytes are not inside the buffer. -/
def mem_load64 (base : Nat) (buf : List Nat) (addr : Nat) : Option Nat :=
  if base ≤ addr ∧ addr + 8 ≤ base + buf.length then some (load64 buf (addr - base))
  else none

/-- Store of a pointer at the address `addr` into the buffer `buf` that starts at address
`base`; `none` when the 8 bytes are not inside the buffer. -/
def mem_store64 (base : Nat) (buf : List Nat) (addr v : Nat) : Option (List Nat) :=
  if base ≤ addr ∧ addr + 8 ≤ base + buf.length then some (store64 buf (addr - base) v)
  else none

/-- The function `location_storage_serialize` called with the pointer `location`; the memory
it may touch is the buffer `buf` at address `base`. -/
def location_storage_serialize (base : Nat) (buf : List Nat) (location : Nat) :
    Option (Int × List Nat) :=
  match mem_load64 base buf location with
  | none => none
  | some filename =>
    if filename ≠ 0 then
      match mem_store64 base buf location (serialize_rel_ptr_from_abs filename location) with
      | none => none
      | some buf1 => some (0, buf1)
    else some (0, buf)

/-- The function `location_storage_deserialize` called with the pointer `location`. -/
def location_storage_deserialize (base : Nat) (buf : List Nat) (location : Nat) :
    Option (Int × List Nat) :=
  match mem_load64 base buf location with
  | none => none
  | some filename =>
    if filename ≠ 0 then
      match mem_store64 base buf location (serialize_abs_ptr_from_rel filename location) with
      | none => none
      | some buf1 => some (0, buf1)
    else some (0, buf)

/-- The loop of `stacktrace_storage_serialize` for the `k` frames from index `i` on. -/
def stacktrace_serialize_loop (base stacktrace : Nat) : Nat → Nat → List Nat →
    Option (List Nat)
  | 0, _, buf => some buf
  | k + 1, i, buf =>
    let stackframe := stacktrace + 8 + 24 * i
    match mem_load64 base buf (stackframe + 8) with
    | none => none
    | some filename =>
      if filename ≠ 0 then
        match mem_store64 base buf (stackframe + 8)
            (serialize_rel_ptr_from_abs filename stacktrace) with
        | none => none
        | some buf1 => stacktrace_serialize_loop base stacktrace k (i + 1) buf1
      else stacktrace_serialize_loop base stacktrace k (i + 1) buf

/-- The function `stacktrace_storage_serialize` called with the pointer `stacktrace`. -/
def stacktrace_storage_serialize (base : Nat) (buf : List Nat) (stacktrace : Nat) :
    Option (Int × List Nat) :=
  match mem_load64 base buf stacktrace with
  | none => none
  | some frames_length =>
    match stacktrace_serialize_loop base stacktrace frames_length 0 buf with
    | none => none
    | some buf1 => some (0, buf1)

/-- The loop of `stacktrace_storage_deserialize` for the `k` frames from index `i` on. -/
def stacktrace_deserialize_loop (base stacktrace : Nat) : Nat → Nat → List Nat →
    Option (List Nat)
  | 0, _, buf => some buf
  | k + 1, i, buf =>
    let stackframe := stacktrace + 8 + 24 * i
    match mem_load64 base buf (stackframe + 8) with
    | none => none
    | some filename =>
      if filename ≠ 0 then
        match mem_store64 base buf (stackframe + 8)
            (serialize_abs_ptr_from_rel filename stacktrace) with
        | none => none
        | some buf1 => stacktrace_deserialize_loop base stacktrace k (i + 1) buf1
      else stacktrace_deserialize_loop base stacktrace k (i + 1) buf

/-- The function `stacktrace_storage_deserialize` called with the pointer `stacktrace`. -/
def stacktrace_storage_deserialize (base : Nat) (buf : List Nat) (stacktrace : Nat) :
    Option (Int × List Nat) :=
  match mem_load64 base buf stacktrace with
  | none => none
  | some frames_length =>
    match stacktrace_deserialize_loop base stacktrace frames_length 0 buf with
    | none => none
    | some buf1 => some (0, buf1)

/-- The stack trace part of `failure_storage_serialize`. -/
def failure_serialize_stacktrace (base : Nat) (buf : List Nat) : Option (Int × List Nat) :=
  match mem_load64 base buf (base + 24) with
  | none => none
  | some stacktrace =>
    if stacktrace ≠ 0 then
      match stacktrace_storage_serialize base buf stacktrace with
      | none => none
      | some (rc, buf1) =>
        if rc ≠ 0 then some (-1, buf1)
        else
          match mem_load64 base buf1 (base + 24) with
          | none => none
          | some p =>
            match mem_store64 base buf1 (base + 24) (serialize_rel_ptr_from_abs p base) with
            | none => none
            | some buf2 => some (0, buf2)
    else some (0, buf)

/-- The location part of `failure_storage_serialize`, followed by the stack trace part. -/
def failure_serialize_location (base : Nat) (buf : List Nat) : Option (Int × List Nat) :=
  match mem_load64 base buf (base + 16) with
  | none => none
  | some location =>
    if location ≠ 0 then
      match location_storage_serialize base buf location with
      | none => none
      | some (rc, buf1) =>
        if rc ≠ 0 then some (-1, buf1)
        else
          match mem_load64 base buf1 (base + 16) with
          | none => none
          | some p =>
            match mem_store64 base buf1 (base + 16) (serialize_rel_ptr_from_abs p base) with
            | none => none
            | some buf2 => failure_serialize_stacktrace base buf2
    else failure_serialize_stacktrace base buf

/-- The function `failure_storage_serialize(buf, len)`, the buffer `buf` of `len` bytes
being at address `base`: the value returned and the buffer afterwards, `none` when the
function reaches outside the buffer. -/
def failure_storage_serialize (base : Nat) (buf : List Nat) : Option (Int × List Nat) :=
  match mem_load64 base buf (base + 8) with
  | none => none
  | some description =>
    if description ≠ 0 then
      match mem_store64 base buf (base + 8) (serialize_rel_ptr_from_abs description base) with
      | none => none
      | some buf1 => failure_serialize_location base buf1
    else failure_serialize_location base buf

/-- The stack trace part of `failure_storage_deserialize`. The length the source passes
down (`len = (stacktrace - buf)`) is not used by `stacktrace_storage_deserialize`. -/
def failure_deserialize_stacktrace (base : Nat) (buf : List Nat) : Option (Int × List Nat) :=
  match mem_load64 base buf (base + 24) with
  | none => none
  | some p =>
    if p ≠ 0 then
      let stacktrace := serialize_abs_ptr_from_rel p base
      match mem_store64 base buf (base + 24) stacktrace with
      | none => none
      | some buf1 =>
        match stacktrace_storage_deserialize base buf1 stacktrace with
        | none => none
        | some (rc, buf2) => if rc ≠ 0 then some (-1, buf2) else some (0, buf2)
    else some (0, buf)

/-- The location part of `failure_storage_deserialize`, followed by the stack trace
part. -/
def failure_deserialize_location (base : Nat) (buf : List Nat) : Option (Int × List Nat) :=
  match mem_load64 base buf (base + 16) with
  | none => none
  | some p =>
    if p ≠ 0 then
      let location := serialize_abs_ptr_from_rel p base
      match mem_store64 base buf (base + 16) location with
      | none => none
      | some buf1 =>
        match location_storage_deserialize base buf1 location with
        | none => none
        | some (rc, buf2) =>
          if rc ≠ 0 then some (-1, buf2) else failure_deserialize_stacktrace base buf2
    else failure_deserialize_stacktrace base buf

/-- The function `failure_storage_deserialize(buf, len)`, the buffer `buf` of `len` bytes
being at address `base`: the value returned and the buffer afterwards, `none` when the
function reaches outside the buffer. -/
def failure_storage_deserialize (base : Nat) (buf : List Nat) : Option (Int × List Nat) :=
  match mem_load64 base buf (base + 8) with
  | none => none
  | some description =>
    if description ≠ 0 then
      match mem_store64 base buf (base + 8) (serialize_abs_ptr_from_rel description base) with
      | none => none
      | some buf1 => failure_deserialize_location base buf1
    else failure_deserialize_location base buf

/-! ## Reading a failure through its pointers -/

/-- The C string at offset `ofs` of `buf`: the bytes before the first NUL; `none` when
the offset is outside the buffer or no NUL follows inside it. -/
def read_cstring (buf : List Nat) (ofs : Nat) : Option (List Nat) :=
  if ofs < buf.length ∧ 0 ∈ buf.drop ofs then
    some ((buf.drop ofs).takeWhile (fun c => decide (c ≠ 0)))
  else none

/-- The C string a pointer `ptr` points to, `none` for `NULL`, in the buffer `buf` at
address `base`; the outer `none` is a pointer that does not point into the buffer. -/
def read_cstring_ptr (base : Nat) (buf : List Nat) (ptr : Nat) : Option (Option (List Nat)) :=
  if ptr = 0 then some none
  else if base ≤ ptr then (read_cstring buf (ptr - base)).map some
  else none

/-- The `ctest_location_t` at the address `location`, read through its pointers. -/
def read_location (base : Nat) (buf : List Nat) (location : Nat) : Option ctest_location :=
  if base ≤ location ∧ location + 16 ≤ base + buf.length then
    match read_cstring_ptr base buf (load64 buf (location - base)) with
    | none => none
    | some filename =>
      some { filename := filename, line := bits_int (load32 buf (location - base + 8)) }
  else none

/-- The `k` stack frames from index `i` on of the `ctest_stacktrace_t` at the address
`stacktrace`, read through their pointers. -/
def read_frames (base : Nat) (buf : List Nat) (stacktrace : Nat) :
    Nat → Nat → Option (List ctest_stackframe)
  | 0, _ => some []
  | k + 1, i =>
    let stackframe := stacktrace + 8 + 24 * i
    if stackframe + 24 ≤ base + buf.length then
      match read_cstring_ptr base buf (load64 buf (stackframe - base + 8)),
          read_frames base buf stacktrace k (i + 1) with
      | some filename, some rest =>
        some ({ addr := load64 buf (stackframe - base), filename := filename,
                line := bits_int (load32 buf (stackframe - base + 16)) } :: rest)
      | _, _ => none
    else none

/-- The `ctest_stacktrace_t` at the address `stacktrace`, read through its pointers. -/
def read_stacktrace (base : Nat) (buf : List Nat) (stacktrace : Nat) :
    Option ctest_stacktrace :=
  if base ≤ stacktrace ∧ stacktrace + 8 ≤ base + buf.length then
    (read_frames base buf stacktrace (load64 buf (stacktrace - base)) 0).map
      (fun frames => { frames := frames })
  else none

/-- The failure a consumer sees when it is handed the buffer `buf` at address `base` as a
`ctest_failure_t *` and follows its pointers; `none` when a pointer leads outside the
buffer, a string is not terminated, or the stage is no enumerator. -/
def read_failure (base : Nat) (buf : List Nat) : Option ctest_failure :=
  if 32 ≤ buf.length then
    match ctest_stage.of_value (load32 buf 0), read_cstring_ptr base buf (load64 buf 8) with
    | some stage, some description =>
      let location :=
        if load64 buf 16 = 0 then some none
        else (read_location base buf (load64 buf 16)).map some
      let stacktrace :=
        if load64 buf 24 = 0 then some none
        else (read_stacktrace base buf (load64 buf 24)).map some
      match location, stacktrace with
      | some l, some s =>
        some { stage := stage, description := description, location := l, stacktrace := s }
      | _, _ => none
    | _, _ => none
  else none

/-! ## Event codec (src/exec/exec_events.c) -/

/-- The function `exec_event_writer_op_on_failure__`, every `write` writing all its bytes:
the bytes written to the descriptor (the 4-byte header, then the body). `base` is the
address of the local array `buf`; `none` when serialization reaches outside it. -/
def exec_event_writer_op_on_failure__ (base : Nat) (failure : ctest_failure) :
    Option (List Nat) :=
  let len := failure_storage_size failure
  let r := failure_storage_format base (List.replicate len 0) failure
  if r.1 ≠ (len : Int) then some []
  else
    match failure_storage_serialize base r.2 with
    | none => none
    | some (rc, buf) =>
      if rc ≠ 0 then some []
      else
        -- header.type = EXEC_EVENT_FAILURE__, header.length = len (a uint16_t)
        some (le_bytes 2 1 ++ le_bytes 2 len ++ buf)

/-- The function `exec_event_writer_op_on_stage_change__`, every `write` writing all its
bytes: the bytes written to the descriptor. -/
def exec_event_writer_op_on_stage_change__ (stage : ctest_stage) : List Nat :=
  le_bytes 2 0 ++ le_bytes 2 4 ++ le_bytes 4 stage.value

/-- Where `reader->buf` points: the header storage, the stage storage, the body allocated
for a failure, or nowhere (`NULL`, bytes are dropped). -/
inductive ReaderBuf where
  | header
  | stage
  | failure
  | null
  deriving DecidableEq, Repr

/-- The function `reader->on_done` points to. -/
inductive ReaderDone where
  | reader_prep_next_msg__
  | reader_on_msg_header_done__
  | reader_on_msg_body_done__
  deriving DecidableEq, Repr

/-- The function `reader->state.read_body.on_done` points to. -/
inductive BodyDone where
  | reader_on_ignored_msg_done__
  | reader_on_state_change_done__
  | reader_on_failure_done__
  deriving DecidableEq, Repr

/-- A call the reader makes on its consumer, or a `free` of a body. `on_failure` hands over
the body buffer: its address and its bytes. -/
inductive ReaderCall where
  | on_stage_change (stage : Nat)
  | on_failure (base : Nat) (buf : List Nat)
  | free (base : Nat)
  deriving DecidableEq, Repr

/-- The fields of `exec_event_reader_t` with the storage they point to, and the calls made
so far. `body_base` is the address `malloc` returned for the body. -/
structure exec_event_reader where
  buf : ReaderBuf
  ofs : Nat
  cap : Nat
  len : Nat
  header : List Nat
  stage : List Nat
  body_base : Nat
  body : List Nat
  on_done : ReaderDone
  body_on_done : BodyDone
  calls : List ReaderCall
  deriving DecidableEq, Repr

/-- The function `reader_prep_next_msg__`. -/
def reader_prep_next_msg__ (reader : exec_event_reader) : exec_event_reader :=
  { reader with buf := ReaderBuf.header, ofs := 0, cap := 4, len := 4,
                on_done := ReaderDone.reader_on_msg_header_done__ }

/-- The reader after `exec_event_reader_init`. -/
def exec_event_reader_init : exec_event_reader :=
  reader_prep_next_msg__
    { buf := ReaderBuf.null, ofs := 0, cap := 0, len := 0, header := [0, 0, 0, 0],
      stage := [0, 0, 0, 0], body_base := 0, body := [],
      on_done := ReaderDone.reader_prep_next_msg__,
      body_on_done := BodyDone.reader_on_ignored_msg_done__, calls := [] }

/-- The function `reader_on_msg_header_done__`; `malloc` gives the address of a fresh block
of the requested size, `0` when the allocation fails. -/
def reader_on_msg_header_done__ (malloc : Nat → Nat) (reader : exec_event_reader) :
    exec_event_reader :=
  let type := le_value (reader.header.take 2)
  let length := le_value ((reader.header.drop 2).take 2)
  let r0 : exec_event_reader :=
    { reader with buf := ReaderBuf.null, ofs := 0, cap := length, len := length,
                  body_on_done := BodyDone.reader_on_ignored_msg_done__ }
  let r1 : exec_event_reader :=
    if type = 0 then
      if r0.len ≥ 4 then
        { r0 with buf := ReaderBuf.stage, cap := 4,
                  body_on_done := BodyDone.reader_on_state_change_done__ }
      else r0
    else if type = 1 then
      if malloc r0.len = 0 then
        { r0 with buf := ReaderBuf.null, body_base := 0, body := [],
                  body_on_done := BodyDone.reader_on_failure_done__ }
      else
        { r0 with buf := ReaderBuf.failure, body_base := malloc r0.len,
                  body := List.replicate r0.len 0,
                  body_on_done := BodyDone.reader_on_failure_done__ }
    else r0
  { r1 with on_done := ReaderDone.reader_on_msg_body_done__ }

/-- The function `reader_on_failure_done__`. The memory `failure_storage_deserialize` may
touch is the allocated body (the length it is passed, `reader->ofs`, is not used by it);
`none` when it reaches outside the body (also for the `NULL` body of a failed
allocation). -/
def reader_on_failure_done__ (reader : exec_event_reader) : Option exec_event_reader :=
  match reader.buf with
  | ReaderBuf.failure =>
    match failure_storage_deserialize reader.body_base reader.body with
    | none => none
    | some (rc, body) =>
      if rc = 0 then
        some { reader with body := body, calls := reader.calls ++
          [ReaderCall.on_failure reader.body_base body] }
      else
        some { reader with calls := reader.calls ++ [ReaderCall.free reader.body_base] }
  | _ => none

/-- The function `reader_on_msg_body_done__`. -/
def reader_on_msg_body_done__ (reader : exec_event_reader) : Option exec_event_reader :=
  let after : Option exec_event_reader :=
    match reader.body_on_done with
    | BodyDone.reader_on_ignored_msg_done__ => some reader
    | BodyDone.reader_on_state_change_done__ =>
      some { reader with calls := reader.calls ++
        [ReaderCall.on_stage_change (le_value reader.stage)] }
    | BodyDone.reader_on_failure_done__ => reader_on_failure_done__ reader
  match after with
  | none => none
  | some r =>
    if r.cap < r.len then
      some { r with buf := ReaderBuf.null, cap := r.len,
                    on_done := ReaderDone.reader_prep_next_msg__ }
    else some (reader_prep_next_msg__ r)

/-- The call `(*reader->on_done)(reader)`. -/
def reader_call_on_done (malloc : Nat → Nat) (reader : exec_event_reader) :
    Option exec_event_reader :=
  match reader.on_done with
  | ReaderDone.reader_prep_next_msg__ => some (reader_prep_next_msg__ reader)
  | ReaderDone.reader_on_msg_header_done__ => some (reader_on_msg_header_done__ malloc reader)
  | ReaderDone.reader_on_msg_body_done__ => reader_on_msg_body_done__ reader

/-- The function `reader_op_on_data_available__`. `pipe` holds the bytes waiting in the
descriptor and `want` is the most the `read` call hands over this time (it returns
`min want len` bytes, or what is left). The result is the value returned, the reader and
the bytes left in the descriptor; `-1` is the `EFAULT` of a `read` into `NULL + ofs`, and
`none` an access outside a buffer. -/
def reader_op_on_data_available__ (malloc : Nat → Nat) (reader : exec_event_reader)
    (pipe : List Nat) (want : Nat) : Option (Int × exec_event_reader × List Nat) :=
  let len := reader.cap - reader.ofs
  -- `buf == NULL` holds when `reader->buf` is `NULL` and `reader->ofs` is 0
  let len1 := if reader.buf = ReaderBuf.null ∧ reader.ofs = 0 then min len 1024 else len
  if reader.buf = ReaderBuf.null ∧ reader.ofs ≠ 0 ∧ 0 < min want len1 ∧ pipe ≠ [] then
    some (-1, reader, pipe)
  else
    let data := pipe.take (min want len1)
    let rest := pipe.drop (min want len1)
    let r1 : exec_event_reader :=
      match reader.buf with
      | ReaderBuf.header => { reader with header := write_bytes reader.header reader.ofs data }
      | ReaderBuf.stage => { reader with stage := write_bytes reader.stage reader.ofs data }
      | ReaderBuf.failure => { reader with body := write_bytes reader.body reader.ofs data }
      | ReaderBuf.null => reader
    let r2 : exec_event_reader := { r1 with ofs := r1.ofs + data.length }
    if r2.ofs ≥ r2.cap then
      match reader_call_on_done malloc r2 with
      | none => none
      | some r3 => some ((data.length : Int), r3, rest)
    else some ((data.length : Int), r2, rest)

/-- The reader driven by data-available calls until the descriptor is drained: `wants`
gives for each call the most its `read` hands over. The calls stop when the descriptor
is empty, a call returns a negative value, or `wants` is used up. -/
def reader_feed (malloc : Nat → Nat) :
    List Nat → exec_event_reader → List Nat → Option (exec_event_reader × List Nat)
  | [], reader, pipe => some (reader, pipe)
  | want :: wants, reader, pipe =>
    if pipe = [] then some (reader, pipe)
    else
      match reader_op_on_data_available__ malloc reader pipe want with
      | none => none
      | some (rc, r1, rest) =>
        if rc < 0 then some (r1, rest) else reader_feed malloc wants r1 rest

/-! ## The shape of a flattened failure -/

/-- A pointer after `serialize_rel_ptr_from_abs`, `NULL` being left alone. -/
def ser_ptr (base p : Nat) : Nat :=
  if p ≠ 0 then serialize_rel_ptr_from_abs p base else p

/-- A pointer after `serialize_abs_ptr_from_rel`, `NULL` being left alone. -/
def deser_ptr (base p : Nat) : Nat :=
  if p ≠ 0 then serialize_abs_ptr_from_rel p base else p

/-- A stack frame in a buffer: the 8 bytes of `addr`, the `filename` pointer, and the 8
bytes of `line` with its padding. -/
structure FrameCell where
  addr_bytes : List Nat
  filename : Nat
  line_bytes : List Nat

/-- The frame has 24 bytes and its pointer is a 64-bit value. -/
def FrameCell.wf (c : FrameCell) : Prop :=
  c.addr_bytes.length = 8 ∧ c.filename < 18446744073709551616 ∧ c.line_bytes.length = 8

/-- The bytes of consecutive stack frames. -/
def frame_cells : List FrameCell → List Nat
  | [] => []
  | c :: rest => c.addr_bytes ++ le_bytes 8 c.filename ++ c.line_bytes ++ frame_cells rest

/-- The frames with every `filename` pointer changed by `g`. -/
def map_frames (g : Nat → Nat) (cells : List FrameCell) : List FrameCell :=
  cells.map (fun c => { c with filename := g c.filename })

/-- A location in a buffer: the `filename` pointer and the bytes after it (`line`, padding
and the name). -/
structure LocationPart where
  filename : Nat
  rest : List Nat

/-- The bytes of a location. -/
def LocationPart.bytes (l : LocationPart) : List Nat := le_bytes 8 l.filename ++ l.rest

/-- A stack trace in a buffer: its frames and the bytes after them (the names). -/
structure StacktracePart where
  cells : List FrameCell
  rest : List Nat

/-- The bytes of a stack trace: `length`, the frames and the rest. -/
def StacktracePart.bytes (s : StacktracePart) : List Nat :=
  le_bytes 8 s.cells.length ++ frame_cells s.cells ++ s.rest

/-- The bytes of an optional part. -/
def opt_bytes {α : Type} (bytes : α → List Nat) : Option α → List Nat
  | none => []
  | some a => bytes a

/-- A flattened failure as a sequence of bytes: the 8 bytes of `stage` with its padding,
the three pointers of the header, the bytes `gap1` up to the location, the location, the
bytes `gap2` up to the stack trace, the stack trace and the bytes `tail` after it. -/
structure FlatFailure where
  stage_bytes : List Nat
  description : Nat
  location : Nat
  stacktrace : Nat
  gap1 : List Nat
  loc : Option LocationPart
  gap2 : List Nat
  st : Option StacktracePart
  tail : List Nat

/-- The bytes of a flattened failure. -/
def FlatFailure.bytes (f : FlatFailure) : List Nat :=
  f.stage_bytes ++ le_bytes 8 f.description ++ le_bytes 8 f.location ++
    le_bytes 8 f.stacktrace ++ f.gap1 ++ opt_bytes LocationPart.bytes f.loc ++ f.gap2 ++
    opt_bytes StacktracePart.bytes f.st ++ f.tail

/-- The offset of the location in a flattened failure. -/
def FlatFailure.loc_ofs (f : FlatFailure) : Nat := 32 + f.gap1.length

/-- The offset of the stack trace in a flattened failure. -/
def FlatFailure.st_ofs (f : FlatFailure) : Nat :=
  32 + f.gap1.length + (opt_bytes LocationPart.bytes f.loc).length + f.gap2.length

/-- The header pointer `lp` fits the location part: `NULL` for a missing part, else the
value `at_` other than `NULL`, the pointer of the part being a 64-bit value. -/
def LocOk (lp at_ : Nat) : Option LocationPart → Prop
  | none => lp = 0
  | some l => lp ≠ 0 ∧ lp = at_ ∧ l.filename < 18446744073709551616

/-- The header pointer `sp` fits the stack trace part: `NULL` for a missing part, else the
value `at_` other than `NULL`, the frames being well formed. -/
def StOk (sp at_ : Nat) : Option StacktracePart → Prop
  | none => sp = 0
  | some s => sp ≠ 0 ∧ sp = at_ ∧ s.cells.length < 18446744073709551616 ∧ ∀ c ∈ s.cells, c.wf

/-- The pointers of a flattened failure are 64-bit values, and the header pointers of the
location and of the stack trace are `la` and `sa` when the part is present and `NULL`
when it is missing. -/
def FlatFailure.wf (f : FlatFailure) (la sa : Nat) : Prop :=
  f.stage_bytes.length = 8 ∧
  f.description < 18446744073709551616 ∧
  f.location < 18446744073709551616 ∧
  f.stacktrace < 18446744073709551616 ∧
  LocOk f.location la f.loc ∧ StOk f.stacktrace sa f.st

/-- A flattened failure with its pointers changed: the header pointers by `g`, the pointer
of the location by `gl` and the pointers of the frames by `gs`. -/
def FlatFailure.map_ptrs (f : FlatFailure) (g gl gs : Nat → Nat) : FlatFailure :=
  { f with
    description := g f.description
    location := g f.location
    stacktrace := g f.stacktrace
    loc := f.loc.map (fun l => { l with filename := gl l.filename })
    st := f.st.map (fun s => { s with cells := map_frames gs s.cells }) }

/-! ## The flattened form of a failure -/

/-- The bytes after the `filename` pointer of a formatted `ctest_location_t`: `line`, four
bytes of padding and the file name. -/
def location_rest (l : ctest_location) : List Nat :=
  le_bytes 4 (int_bits l.line) ++ [0, 0, 0, 0] ++
    (match l.filename with
      | some s => cstring_bytes s
      | none => [])

/-- The location part of a flattened failure, `lb` being the address the `filename`
pointer is relative to. -/
def flat_location (lb : Nat) (l : ctest_location) : LocationPart where
  filename := match l.filename with
    | some _ => lb + 16
    | none => 0
  rest := location_rest l

/-- The number of bytes the file name of a frame takes. -/
def frame_name_size (f : ctest_stackframe) : Nat :=
  match f.filename with
  | some s => s.length + 1
  | none => 0

/-- The frames of a formatted stack trace: `sb` is the address the `filename` pointers are
relative to and `ofs` the offset of the next file name. -/
def flat_cells (sb : Nat) : List ctest_stackframe → Nat → List FrameCell
  | [], _ => []
  | f :: rest, ofs =>
    { addr_bytes := le_bytes 8 f.addr
      filename := match f.filename with
        | some _ => sb + ofs
        | none => 0
      line_bytes := le_bytes 4 (int_bits f.line) ++ [0, 0, 0, 0] } ::
    flat_cells sb rest (ofs + frame_name_size f)

/-- The file names of the frames, each with its NUL. -/
def frame_names : List ctest_stackframe → List Nat
  | [] => []
  | f :: rest =>
    (match f.filename with
      | some s => cstring_bytes s
      | none => []) ++ frame_names rest

/-- The stack trace part of a flattened failure. -/
def flat_stacktrace (sb : Nat) (s : ctest_stacktrace) : StacktracePart where
  cells := flat_cells sb s.frames (8 + 24 * s.frames.length)
  rest := frame_names s.frames

/-- The offset of the end of the description in a flattened failure. -/
def description_end (f : ctest_failure) : Nat := 32 + description_len f.description

/-- The offset of the end of the location in a flattened failure. -/
def location_end (f : ctest_failure) : Nat :=
  match f.location with
  | some l => serialize_pad_size (description_end f) 8 + location_storage_size l
  | none => description_end f

/-- The flattened form of the failure `f`: the header pointers are offsets added to `hb`,
the pointer of the location is relative to `lb` and those of the frames to `sb`; `desc`
are the bytes where the description goes and `tail` the bytes after the failure. -/
def flat_failure (hb lb sb : Nat) (f : ctest_failure) (desc tail : List Nat) : FlatFailure where
  stage_bytes := le_bytes 4 f.stage.value ++ [0, 0, 0, 0]
  description := match f.description with
    | some _ => hb + 32
    | none => 0
  location := match f.location with
    | some _ => hb + serialize_pad_size (description_end f) 8
    | none => 0
  stacktrace := match f.stacktrace with
    | some _ => hb + serialize_pad_size (location_end f) 8
    | none => 0
  gap1 := desc ++ (match f.location with
    | some _ => List.replicate (serialize_pad_size (description_end f) 8 - description_end f) 0
    | none => [])
  loc := f.location.map (flat_location lb)
  gap2 := match f.stacktrace with
    | some _ => List.replicate (serialize_pad_size (location_end f) 8 - location_end f) 0
    | none => []
  st := f.stacktrace.map (flat_stacktrace sb)
  tail := tail

/-- The bytes of the description of a failure with its NUL. -/
def description_bytes (f : ctest_failure) : List Nat :=
  match f.description with
  | some s => cstring_bytes s
  | none => []

/-- The flattened failure as `failure_storage_format` leaves it in a buffer at address
`base`, followed by `tail`. -/
def flat_abs (base : Nat) (f : ctest_failure) (tail : List Nat) : FlatFailure :=
  flat_failure base (base + serialize_pad_size (description_end f) 8)
    (base + serialize_pad_size (location_end f) 8) f (description_bytes f) tail

/-- The flattened failure as `failure_storage_serialize` leaves it, followed by `tail`. -/
def flat_rel (f : ctest_failure) (tail : List Nat) : FlatFailure :=
  flat_failure 0 0 0 f (description_bytes f) tail

/-- The bytes `storage_format__` needs from offset `ofs` on for the stack trace: the
padding and the flattened stack trace. -/
def stacktrace_need (ofs : Nat) : Option ctest_stacktrace → Nat
  | some s => serialize_pad_size ofs 8 - ofs + stacktrace_storage_size s
  | none => 0

/-- The `stacktrace` pointer `storage_format__` stores for a stack trace laid out after
offset `ofs`. -/
def stacktrace_ptr (base ofs : Nat) : Option ctest_stacktrace → Nat
  | some _ => base + serialize_pad_size ofs 8
  | none => 0

/-- The padding `storage_format__` leaves before a stack trace laid out after offset
`ofs`. -/
def stacktrace_pad (ofs : Nat) : Option ctest_stacktrace → List Nat
  | some _ => List.replicate (serialize_pad_size ofs 8 - ofs) 0
  | none => []

/-- The bytes `storage_format__` needs from offset `ofs` on for the location: the padding
and the flattened location. -/
def location_need (ofs : Nat) : Option ctest_location → Nat
  | some l => serialize_pad_size ofs 8 - ofs + location_storage_size l
  | none => 0

/-- The `location` pointer `storage_format__` stores for a location laid out after offset
`ofs`. -/
def location_ptr (base ofs : Nat) : Option ctest_location → Nat
  | some _ => base + serialize_pad_size ofs 8
  | none => 0

/-- The padding `storage_format__` leaves before a location laid out after offset `ofs`. -/
def location_pad (ofs : Nat) : Option ctest_location → List Nat
  | some _ => List.replicate (serialize_pad_size ofs 8 - ofs) 0
  | none => []

/-- A failure with every part present: the description "oops", the location a.c:42 and
two frames, the second without a file name. -/
def sample_failure : ctest_failure :=
  { stage := ctest_stage.CTEST_STAGE_EXECUTION
    description := some [111, 111, 112, 115]
    location := some { filename := some [97, 46, 99], line := 42 }
    stacktrace := some { frames := [
      { addr := 4198400, filename := some [98, 46, 99], line := 7 },
      { addr := 4198500, filename := none, line := -1 }] } }

/-- A failure body of 32 bytes whose `description` offset is 1000, far outside the body;
`location` and `stacktrace` are `NULL`. -/
def malformed_body : List Nat :=
  [1, 0, 0, 0, 0, 0, 0, 0] ++ le_bytes 8 1000 ++ List.replicate 16 0

/-- A reader that has just received `malformed_body` as the body of a failure message, in a
block at address 4096. -/
def malformed_reader : exec_event_reader :=
  { buf := ReaderBuf.failure, ofs := 32, cap := 32, len := 32, header := [1, 0, 32, 0],
    stage := [0, 0, 0, 0], body_base := 4096, body := malformed_body,
    on_done := ReaderDone.reader_on_msg_body_done__,
    body_on_done := BodyDone.reader_on_failure_done__, calls := [] }

/-! ## The states of the reader while a failure message arrives -/

/-- A buffer that held `old` after the first `o` bytes of `msg` were written to it. -/
def fill (msg old : List Nat) (o : Nat) : List Nat := msg.take o ++ old.drop o

/-- The reader `r0` waiting for a header of which the first `o` bytes, those of `hdr`,
have arrived. -/
def header_phase (r0 : exec_event_reader) (hdr : List Nat) (o : Nat) : exec_event_reader :=
  { r0 with buf := ReaderBuf.header, ofs := o, cap := 4, len := 4,
            header := fill hdr r0.header o,
            on_done := ReaderDone.reader_on_msg_header_done__ }

/-- The reader `r0` after the header `hdr` of a failure message of `n` bytes, the body
allocated at `mb`, of which the first `o` bytes, those of `body`, have arrived. -/
def body_phase (r0 : exec_event_reader) (hdr : List Nat) (mb n : Nat) (body : List Nat)
    (o : Nat) : exec_event_reader :=
  { r0 with buf := ReaderBuf.failure, ofs := o, cap := n, len := n, header := hdr,
            body_base := mb, body := fill body (List.replicate n 0) o,
            on_done := ReaderDone.reader_on_msg_body_done__,
            body_on_done := BodyDone.reader_on_failure_done__ }

/-- The reader `r0` after it has delivered the failure in `body` at `mb`, which arrived
after the header `hdr`: it waits for the next header. -/
def delivered_phase (r0 : exec_event_reader) (hdr : List Nat) (mb : Nat) (body : List Nat) :
    exec_event_reader :=
  { r0 with buf := ReaderBuf.header, ofs := 0, cap := 4, len := 4, header := hdr,
            body_base := mb, body := body,
            on_done := ReaderDone.reader_on_msg_header_done__,
            body_on_done := BodyDone.reader_on_failure_done__,
            calls := r0.calls ++ [ReaderCall.on_failure mb body] }

/-- A failure whose description has `n` characters and that has no location and no stack
trace. -/
def long_failure_of (n : Nat) : ctest_failure :=
  { stage := ctest_stage.CTEST_STAGE_EXECUTION
    description := some (List.replicate n 97)
    location := none
    stacktrace := none }

/-- A failure whose description has 65504 characters: flattened it takes 65537 bytes. -/
def long_failure : ctest_failure := long_failure_of 65504

/-! ## The test-case driver (src/exec/loader.c) -/

/-- The tags of an abort (`enum ctest_dynamic_ops_abort_type__`). -/
inductive ctest_dynamic_ops_abort_type where
  | CTEST_DYNAMIC_OPS_ABORT_NONE
  | CTEST_DYNAMIC_OPS_ABORT_FAIL
  | CTEST_DYNAMIC_OPS_ABORT_SKIP
  deriving DecidableEq, Repr

/-- What a callback of the module (setup, the test body, teardown) does next through the
dynamic-ops cell: it reports a failure (`description` is the formatted text, `create_ok`
says whether `ctest_failure_create_va` succeeds at this call) or it aborts. -/
inductive ModuleAction where
  | report (file : Option (List Nat)) (line : Int) (description : List Nat) (create_ok : Bool)
  | abort (abort_type : ctest_dynamic_ops_abort_type)
  deriving DecidableEq, Repr

/-- What the driver does that can be seen from outside: calls of the execution hooks, calls
of the module's callbacks and `free`. -/
inductive LoaderEvent where
  | on_stage_change (stage : ctest_stage)
  | setup (fixture : Nat)
  | caller (fixture : Nat) (data : Nat)
  | teardown (fixture : Nat)
  | free (ptr : Nat)
  | on_skip (failure : Option ctest_failure)
  | on_failure (failure : Option ctest_failure)
  deriving DecidableEq, Repr

/-- The fields of `loader_dynamic_ops_t__` (without `base` and `hooks`), the value of the
module's dynamic-ops cell `*p_dynamic_ops`, and the events so far. `has_cell` says that
`p_dynamic_ops` is not `NULL`; `self` is the address of `base`. -/
structure loader_dynamic_ops where
  self : Nat
  has_cell : Bool
  cell : Nat
  old_dynamic_ops : Nat
  failure : Option ctest_failure
  stage : ctest_stage
  fixture : Nat
  teardown : Option (List ModuleAction)
  abort_type : ctest_dynamic_ops_abort_type
  free_fixture : Bool
  events : List LoaderEvent
  deriving DecidableEq, Repr

/-- How a run of the driver ends: it returns, or a hook that does not return (`on_skip`,
`on_failure`) unwinds it. -/
inductive LoaderExit where
  | returned
  | unwound
  deriving DecidableEq, Repr

/-- The function `dynamic_ops_op_report_failure__`. -/
def dynamic_ops_op_report_failure__ (dynamic_ops : loader_dynamic_ops)
    (file : Option (List Nat)) (line : Int) (description : List Nat) (create_ok : Bool) :
    loader_dynamic_ops :=
  if dynamic_ops.failure = none then
    let location : ctest_location := { filename := file, line := line }
    -- `ctest_failure_create_va(dynamic_ops->stage, fmt, fmt_params, &location, NULL)`
    let created : ctest_failure :=
      { stage := dynamic_ops.stage, description := some description,
        location := some location, stacktrace := none }
    { dynamic_ops with failure := if create_ok then some created else none }
  else dynamic_ops

/-- A callback of the module running: its actions reach the driver through the cell, so
the cell has to hold the driver's dynamic ops (`none` otherwise). `on_abort` is the abort
entry, which does not return to the callback. The result is the state when the callback
returns (`Sum.inl`) or the end of the run the abort led to (`Sum.inr`). -/
def run_callback (on_abort : loader_dynamic_ops → ctest_dynamic_ops_abort_type →
      Option (LoaderExit × loader_dynamic_ops)) :
    List ModuleAction → loader_dynamic_ops →
      Option (loader_dynamic_ops ⊕ (LoaderExit × loader_dynamic_ops))
  | [], dynamic_ops => some (Sum.inl dynamic_ops)
  | action :: rest, dynamic_ops =>
    if dynamic_ops.has_cell = true ∧ dynamic_ops.cell = dynamic_ops.self then
      match action with
      | ModuleAction.report file line description create_ok =>
        run_callback on_abort rest
          (dynamic_ops_op_report_failure__ dynamic_ops file line description create_ok)
      | ModuleAction.abort abort_type => (on_abort dynamic_ops abort_type).map Sum.inr
    else none

/-- The part of `dynamic_ops_abort__` after the teardown: the fixture is freed, the cell
restored and the hooks unwound (`on_skip` and `on_failure` do not return). -/
def dynamic_ops_abort_finish (dynamic_ops : loader_dynamic_ops) :
    Option (LoaderExit × loader_dynamic_ops) :=
  let d1 : loader_dynamic_ops :=
    if dynamic_ops.free_fixture then
      { dynamic_ops with events := dynamic_ops.events ++ [LoaderEvent.free dynamic_ops.fixture],
                         fixture := 0, free_fixture := false }
    else dynamic_ops
  if d1.has_cell then
    let d2 : loader_dynamic_ops := { d1 with cell := d1.old_dynamic_ops }
    let failure := d2.failure
    let d3 : loader_dynamic_ops := { d2 with failure := none }
    match d3.abort_type with
    | ctest_dynamic_ops_abort_type.CTEST_DYNAMIC_OPS_ABORT_SKIP =>
      some (LoaderExit.unwound,
        { d3 with events := d3.events ++ [LoaderEvent.on_skip failure] })
    | _ =>
      some (LoaderExit.unwound,
        { d3 with events := d3.events ++ [LoaderEvent.on_failure failure] })
  else none

/-- The function `dynamic_ops_abort__`; the budget bounds the depth of aborts raised by
the teardown callback it calls (`none` when it runs out). -/
def dynamic_ops_abort__ : Nat → loader_dynamic_ops → ctest_dynamic_ops_abort_type →
    Option (LoaderExit × loader_dynamic_ops)
  | 0, _, _ => none
  | fuel + 1, dynamic_ops, abort_type =>
    let d1 : loader_dynamic_ops :=
      if dynamic_ops.abort_type = ctest_dynamic_ops_abort_type.CTEST_DYNAMIC_OPS_ABORT_NONE
      then { dynamic_ops with abort_type := abort_type }
      else dynamic_ops
    match d1.teardown with
    | some teardown =>
      let d2 : loader_dynamic_ops :=
        { d1 with teardown := none,
                  events := d1.events ++ [LoaderEvent.teardown d1.fixture] }
      match run_callback (dynamic_ops_abort__ fuel) teardown d2 with
      | none => none
      | some (Sum.inl d3) => dynamic_ops_abort_finish d3
      | some (Sum.inr r) => some r
    | none => dynamic_ops_abort_finish d1

/-- What `testcase_op_execute__` finds when it is called: the module's cell (`has_cell`
says whether `testsuite->p_dynamic_ops` is not `NULL`, `cell` is the value in the cell),
the fixture provider (`setup`, `teardown`, `size`; a callback that is `NULL` is `none`),
the test body `caller`, the test case's `data`, and what the allocations give
(`calloc_ok` and the block `heap` for the fixture; `alloc_failure` is what
`ctest_failure_create` returns for the message of a failed fixture allocation). `self`
is the address of the driver's `dynamic_ops.base`, `fixture_storage` that of its local
array, and `uninit` the indeterminate value of the never assigned `old_dynamic_ops`. -/
structure testcase_env where
  self : Nat
  has_cell : Bool
  cell : Nat
  uninit : Nat
  size : Nat
  setup : Option (List ModuleAction)
  teardown : Option (List ModuleAction)
  caller : List ModuleAction
  data : Nat
  calloc_ok : Bool
  heap : Nat
  fixture_storage : Nat
  alloc_failure : Option ctest_failure
  deriving DecidableEq, Repr

/-- The end of `testcase_op_execute__`, after the teardown callback has returned. -/
def execute_finish (fuel : Nat) (d : loader_dynamic_ops) :
    Option (LoaderExit × loader_dynamic_ops) :=
  if d.failure ≠ none then
    dynamic_ops_abort__ fuel d ctest_dynamic_ops_abort_type.CTEST_DYNAMIC_OPS_ABORT_FAIL
  else
    let d1 : loader_dynamic_ops := if d.has_cell then { d with cell := d.old_dynamic_ops } else d
    let d2 : loader_dynamic_ops :=
      if d1.free_fixture then { d1 with events := d1.events ++ [LoaderEvent.free d1.fixture] }
      else d1
    some (LoaderExit.returned, d2)

/-- The teardown stage of `testcase_op_execute__` and what follows it. -/
def execute_teardown (fuel : Nat) (d : loader_dynamic_ops) :
    Option (LoaderExit × loader_dynamic_ops) :=
  let d1 : loader_dynamic_ops :=
    { d with stage := ctest_stage.CTEST_STAGE_TEARDOWN,
             events := d.events ++ [LoaderEvent.on_stage_change ctest_stage.CTEST_STAGE_TEARDOWN] }
  match d1.teardown with
  | some teardown =>
    let d2 : loader_dynamic_ops :=
      { d1 with teardown := none, events := d1.events ++ [LoaderEvent.teardown d1.fixture] }
    match run_callback (dynamic_ops_abort__ fuel) teardown d2 with
    | none => none
    | some (Sum.inr r) => some r
    | some (Sum.inl d3) => execute_finish fuel d3
  | none => execute_finish fuel d1

/-- The execution stage of `testcase_op_execute__` and what follows it. -/
def execute_body (fuel : Nat) (env : testcase_env) (d : loader_dynamic_ops) :
    Option (LoaderExit × loader_dynamic_ops) :=
  let d1 : loader_dynamic_ops :=
    { d with stage := ctest_stage.CTEST_STAGE_EXECUTION,
             events := d.events ++
               [LoaderEvent.on_stage_change ctest_stage.CTEST_STAGE_EXECUTION,
                LoaderEvent.caller d.fixture env.data] }
  match run_callback (dynamic_ops_abort__ fuel) env.caller d1 with
  | none => none
  | some (Sum.inr r) => some r
  | some (Sum.inl d2) => execute_teardown fuel d2

/-- The call of the setup callback in `testcase_op_execute__` and what follows it. -/
def execute_setup (fuel : Nat) (env : testcase_env) (d : loader_dynamic_ops) :
    Option (LoaderExit × loader_dynamic_ops) :=
  match env.setup with
  | some setup =>
    match run_callback (dynamic_ops_abort__ fuel) setup
        { d with events := d.events ++ [LoaderEvent.setup d.fixture] } with
    | none => none
    | some (Sum.inr r) => some r
    | some (Sum.inl d1) => execute_body fuel env d1
  | none => execute_body fuel env d

/-- The function `testcase_op_execute__`: how the run ends and the state then. `fuel`
is the budget of `dynamic_ops_abort__`. -/
def testcase_op_execute__ (fuel : Nat) (env : testcase_env) :
    Option (LoaderExit × loader_dynamic_ops) :=
  let d0 : loader_dynamic_ops :=
    { self := env.self, has_cell := env.has_cell,
      cell := if env.has_cell then env.self else env.cell,
      old_dynamic_ops := if env.has_cell then env.cell else env.uninit,
      failure := none, stage := ctest_stage.CTEST_STAGE_SETUP, fixture := 0,
      teardown := env.teardown,
      abort_type := ctest_dynamic_ops_abort_type.CTEST_DYNAMIC_OPS_ABORT_NONE,
      free_fixture := false,
      events := [LoaderEvent.on_stage_change ctest_stage.CTEST_STAGE_SETUP] }
  if env.size > 128 then
    if env.calloc_ok = false then
      some (LoaderExit.unwound,
        { d0 with events := d0.events ++ [LoaderEvent.on_failure env.alloc_failure] })
    else execute_setup fuel env { d0 with fixture := env.heap, free_fixture := true }
  else execute_setup fuel env { d0 with fixture := env.fixture_storage }

/-! ## What a callback's actions amount to -/

/-- The failure `ctest_failure_create_va` builds for a report made in the stage `stage`. -/
def created_failure (stage : ctest_stage) (file : Option (List Nat)) (line : Int)
    (description : List Nat) : ctest_failure :=
  { stage := stage, description := some description,
    location := some { filename := file, line := line }, stacktrace := none }

/-- The failure kept after the reports a callback makes before its first abort, `cur`
being the failure kept before. -/
def reported (stage : ctest_stage) : Option ctest_failure → List ModuleAction →
    Option ctest_failure
  | cur, [] => cur
  | cur, ModuleAction.abort _ :: _ => cur
  | cur, ModuleAction.report file line description create_ok :: rest =>
    reported stage
      (match cur with
        | some f => some f
        | none => if create_ok then some (created_failure stage file line description)
                  else none) rest

/-- The tag of the first abort of a callback, `none` when it returns. -/
def script_abort : List ModuleAction → Option ctest_dynamic_ops_abort_type
  | [] => none
  | ModuleAction.abort abort_type :: _ => some abort_type
  | ModuleAction.report _ _ _ _ :: rest => script_abort rest

/-- The hook `dynamic_ops_abort__` ends in for an abort type. -/
def hook_event (abort_type : ctest_dynamic_ops_abort_type) (failure : Option ctest_failure) :
    LoaderEvent :=
  match abort_type with
  | ctest_dynamic_ops_abort_type.CTEST_DYNAMIC_OPS_ABORT_SKIP => LoaderEvent.on_skip failure
  | _ => LoaderEvent.on_failure failure

/-- The cell holds the driver's dynamic ops, so the module's calls reach the driver. -/
def loader_dynamic_ops.hooked (d : loader_dynamic_ops) : Prop :=
  d.has_cell = true ∧ d.cell = d.self

/-- The event is a call of the teardown callback. -/
def LoaderEvent.is_teardown : LoaderEvent → Bool
  | LoaderEvent.teardown _ => true
  | _ => false

/-- The event is a call of one of the hooks that unwind (`on_skip`, `on_failure`). -/
def LoaderEvent.is_unwind : LoaderEvent → Bool
  | LoaderEvent.on_skip _ => true
  | LoaderEvent.on_failure _ => true
  | _ => false

/-- The actions of the module in the order the driver lets the callbacks run when none
aborts, each with the stage it is made in. -/
def module_stream (env : testcase_env) : List (ctest_stage × ModuleAction) :=
  (env.setup.getD []).map (fun a => (ctest_stage.CTEST_STAGE_SETUP, a)) ++
  env.caller.map (fun a => (ctest_stage.CTEST_STAGE_EXECUTION, a)) ++
  (env.teardown.getD []).map (fun a => (ctest_stage.CTEST_STAGE_TEARDOWN, a))

/-- The abort type `dynamic_ops_abort__` keeps when it is entered with the tag
`abort_type`, `cur` being the one kept before. -/
def abort_type_after (cur abort_type : ctest_dynamic_ops_abort_type) :
    ctest_dynamic_ops_abort_type :=
  if cur = ctest_dynamic_ops_abort_type.CTEST_DYNAMIC_OPS_ABORT_NONE then abort_type else cur

/-- The state in which `dynamic_ops_abort__`, entered with the tag `abort_type`, goes on
after the teardown: the teardown callback, if still set, has been called and cleared, and
an abort it raised has left its mark on the abort type. -/
def abort_outcome (d : loader_dynamic_ops) (abort_type : ctest_dynamic_ops_abort_type) :
    loader_dynamic_ops :=
  match d.teardown with
  | none => { d with abort_type := abort_type_after d.abort_type abort_type }
  | some teardown =>
    { d with
      abort_type :=
        match script_abort teardown with
        | none => abort_type_after d.abort_type abort_type
        | some t2 => abort_type_after (abort_type_after d.abort_type abort_type) t2
      teardown := none
      events := d.events ++ [LoaderEvent.teardown d.fixture]
      failure := reported d.stage d.failure teardown }

/-- The events a run adds from the state `d` on when it ends with the result `r`: the
events `mid`, then the call of the teardown callback if it is still set in `d`, then the
`free` of a heap fixture, then the hook that unwinds the run, if any. The cell ends with
the value saved in `d`, and a failure kept in `d` is the one handed to the hook. -/
def EndsWith (d : loader_dynamic_ops) (mid : List LoaderEvent)
    (r : Option (LoaderExit × loader_dynamic_ops)) : Prop :=
  ∃ exit final hooks, r = some (exit, final) ∧
    final.events = d.events ++ mid
      ++ (match d.teardown with
          | some _ => [LoaderEvent.teardown d.fixture]
          | none => [])
      ++ (if d.free_fixture then [LoaderEvent.free d.fixture] else []) ++ hooks ∧
    ((exit = LoaderExit.returned ∧ hooks = []) ∨
      (exit = LoaderExit.unwound ∧ ∃ ty f, hooks = [hook_event ty f])) ∧
    (∀ g, d.failure = some g → exit = LoaderExit.unwound ∧ ∃ ty, hooks = [hook_event ty (some g)]) ∧
    (d.has_cell = true → final.cell = d.old_dynamic_ops)

/-- The run ends as `EndsWith` says, for some events `mid` that are neither teardown calls
nor unwinding hooks. -/
def Ends (d : loader_dynamic_ops) (r : Option (LoaderExit × loader_dynamic_ops)) : Prop :=
  ∃ mid, (∀ e ∈ mid, LoaderEvent.is_teardown e = false ∧ LoaderEvent.is_unwind e = false) ∧
    EndsWith d mid r

/-- The fixture pointer of a run whose fixture allocation succeeds: the heap block for a
fixture of more than 128 bytes, the driver's local array otherwise. -/
def testcase_env.fixture (env : testcase_env) : Nat :=
  if env.size > 128 then env.heap else env.fixture_storage

/-- The driver's `dynamic_ops` when `testcase_op_execute__` calls the setup callback, the
fixture allocation having succeeded: the cell is hooked and the setup stage announced. -/
def initial_state (env : testcase_env) : loader_dynamic_ops :=
  { self := env.self, has_cell := env.has_cell,
    cell := if env.has_cell then env.self else env.cell,
    old_dynamic_ops := if env.has_cell then env.cell else env.uninit,
    failure := none, stage := ctest_stage.CTEST_STAGE_SETUP, fixture := env.fixture,
    teardown := env.teardown,
    abort_type := ctest_dynamic_ops_abort_type.CTEST_DYNAMIC_OPS_ABORT_NONE,
    free_fixture := decide (env.size > 128),
    events := [LoaderEvent.on_stage_change ctest_stage.CTEST_STAGE_SETUP] }

/-- The run started in the state `d` ends in a hook that is handed the failure `g`, the
events before the hook including no other unwinding hook. -/
def HandsOver (g : ctest_failure) (d : loader_dynamic_ops)
    (r : Option (LoaderExit × loader_dynamic_ops)) : Prop :=
  ∃ final pre ty, r = some (LoaderExit.unwound, final) ∧
    final.events = d.events ++ pre ++ [hook_event ty (some g)] ∧
    ∀ e ∈ pre, LoaderEvent.is_unwind e = false

/-- A test case whose body reports two failures and aborts with the skip tag, and whose
teardown reports a failure and aborts with the fail tag; the fixture is on the heap. -/
def sample_env : testcase_env :=
  { self := 500, has_cell := true, cell := 77, uninit := 9, size := 200,
    setup := some [],
    teardown := some [ModuleAction.report none 3 [116] true,
      ModuleAction.abort ctest_dynamic_ops_abort_type.CTEST_DYNAMIC_OPS_ABORT_FAIL],
    caller := [ModuleAction.report (some [97]) 10 [120] true,
      ModuleAction.report none 11 [121] true,
      ModuleAction.abort ctest_dynamic_ops_abort_type.CTEST_DYNAMIC_OPS_ABORT_SKIP],
    data := 1, calloc_ok := true, heap := 9000, fixture_storage := 600,
    alloc_failure := none }

/-- The driver's dynamic ops in the test body of a test case with a heap fixture, hooked
into the cell, no abort so far, and a teardown callback that aborts with the skip tag. -/
def sample_dynamic_ops : loader_dynamic_ops :=
  { self := 500, has_cell := true, cell := 500, old_dynamic_ops := 77, failure := none,
    stage := ctest_stage.CTEST_STAGE_EXECUTION, fixture := 9000,
    teardown := some [ModuleAction.abort
      ctest_dynamic_ops_abort_type.CTEST_DYNAMIC_OPS_ABORT_SKIP],
    abort_type := ctest_dynamic_ops_abort_type.CTEST_DYNAMIC_OPS_ABORT_NONE,
    free_fixture := true, events := [] }

/-- The test case `sample_env` when the allocation of its fixture fails. -/
def alloc_failure_env : testcase_env :=
  { sample_env with calloc_ok := false,
                    alloc_failure := some { stage := ctest_stage.CTEST_STAGE_SETUP,
                                            description := some [102], location := none,
                                            stacktrace := none } }

/-- A test case whose setup and body do nothing and whose teardown reports a failure and
then does what `rest` says; the fixture is on the heap. -/
def teardown_env (rest : List ModuleAction) : testcase_env :=
  { self := 500, has_cell := true, cell := 77, uninit := 9, size := 200,
    setup := none, teardown := some (ModuleAction.report (some [116]) 5 [98] true :: rest),
    caller := [], data := 1, calloc_ok := true, heap := 9000, fixture_storage := 600,
    alloc_failure := none }

/-! ## Output buffers (src/exec/output.c, src/exec/output_reader.c) -/

/-- A `ctest_output_t` object: the `length` field and the bytes of `data` the block holds
(`sizeof(ctest_output_t)` is 8, the flexible array follows it). -/
structure ctest_output where
  length : Nat
  data : List Nat
  deriving DecidableEq, Repr

/-- The function `storage_size__` of output.c, in `size_t` arithmetic. -/
def output_storage_size__ (capacity : Nat) : Nat :=
  (8 + capacity * 1) % 18446744073709551616

/-- The function `ctest_output_create`; `calloc_ok` says whether `calloc` succeeds. The
outer `none` is a write outside the block, which happens when the size wraps. -/
def ctest_output_create (calloc_ok : Bool) (capacity : Nat) : Option (Option ctest_output) :=
  if calloc_ok then
    if output_storage_size__ capacity < 8 + capacity then none
    else some (some { length := capacity, data := List.replicate capacity 0 })
  else some none

/-- The length of the output `*p_output` refers to (`output == NULL ? 0 : output->length`). -/
def output_length : Option ctest_output → Nat
  | none => 0
  | some output => output.length

/-- The bytes of the block `*p_output` refers to (none for `NULL`). -/
def output_data : Option ctest_output → List Nat
  | none => []
  | some output => output.data

/-- The bytes of `data` after `realloc` to room for `capacity` bytes: the old bytes up to
the smaller size, then indeterminate bytes (`garbage` gives the byte at an index). -/
def realloc_data (garbage : Nat → Nat) (old : List Nat) (capacity : Nat) : List Nat :=
  old.take capacity ++
    (List.range (capacity - old.length)).map (fun i => garbage (old.length + i))

/-- The function `ctest_output_resize`, `p_output` being what `*p_output` refers to:
the value returned and `*p_output` afterwards. `realloc_ok` says whether `realloc`
succeeds; `none` is a write outside the block, which happens when the size wraps. -/
def ctest_output_resize (realloc_ok : Bool) (garbage : Nat → Nat)
    (p_output : Option ctest_output) (capacity : Nat) : Option (Int × Option ctest_output) :=
  let length := output_length p_output
  if realloc_ok = false then some (-1, p_output)
  else if output_storage_size__ capacity < 8 + capacity then none
  else
    let data1 := realloc_data garbage (output_data p_output) capacity
    let data2 :=
      if length < capacity then write_bytes data1 length (List.replicate (capacity - length) 0)
      else data1
    some (0, some { length := capacity, data := data2 })

/-- The fields `output` and `length` of an `output_reader_t`. -/
structure output_reader where
  output : Option ctest_output
  length : Nat
  deriving DecidableEq, Repr

/-- The reader after `output_reader_init`. -/
def output_reader_init : output_reader := { output := none, length := 0 }

/-- The value `read(fd, buf, count)` returns and the bytes it hands over: `want` is the
most bytes the call hands over this time, `none` a call that fails. -/
def read_call (pipe : List Nat) (count : Nat) : Option Nat → Int × List Nat
  | none => (-1, [])
  | some want => (((pipe.take (min want count)).length : Nat), pipe.take (min want count))

/-- The first statement of `op_on_data_available__` of output_reader.c: the buffer is
created when there is none and resized to twice the collected length when it is full
(`none` is an access outside a block, `some none` no buffer). -/
def output_reader_grow (alloc_ok : Bool) (garbage : Nat → Nat) (reader : output_reader) :
    Option (Option ctest_output) :=
  match reader.output with
  | none => ctest_output_create alloc_ok 128
  | some output =>
    if reader.length ≥ output.length then
      -- the value `ctest_output_resize` returns is not looked at
      (ctest_output_resize alloc_ok garbage (some output)
        ((reader.length * 2) % 18446744073709551616)).map (fun r => r.2)
    else some (some output)

/-- The second statement of `op_on_data_available__` of output_reader.c, `output` being
the buffer after the first: the `read` call, into a local array when there is no room. -/
def output_reader_read (reader : output_reader) (output : Option ctest_output)
    (pipe : List Nat) (want : Option Nat) : Option (Int × output_reader × List Nat) :=
  let length := reader.length
  if output = none ∨ length ≥ output_length output then
    -- unable to allocate storage for output, drain
    let rd := read_call pipe 4096 want
    some (rd.1, { reader with output := output }, pipe.drop rd.2.length)
  else
    let rd := read_call pipe (output_length output - length) want
    if length + rd.2.length ≤ (output_data output).length then
      some (rd.1,
        { output := some { length := output_length output,
                           data := write_bytes (output_data output) length rd.2 },
          length := if rd.1 ≥ 0 then reader.length + rd.2.length else reader.length },
        pipe.drop rd.2.length)
    else none

/-- The function `op_on_data_available__` of output_reader.c. `pipe` holds the bytes
waiting in the descriptor and `want` describes the `read` call; `alloc_ok` and `garbage`
describe the allocation the call makes, if any. The result is the value returned, the
reader and the bytes left in the descriptor; `none` is an access outside a block. -/
def output_reader_on_data_available__ (alloc_ok : Bool) (garbage : Nat → Nat)
    (reader : output_reader) (pipe : List Nat) (want : Option Nat) :
    Option (Int × output_reader × List Nat) :=
  match output_reader_grow alloc_ok garbage reader with
  | none => none
  | some output => output_reader_read reader output pipe want

/-- The function `output_reader_build`: the output returned (`none` is `NULL`) and the
reader afterwards; the outer `none` is a write outside the block. -/
def output_reader_build (realloc_ok : Bool) (garbage : Nat → Nat) (reader : output_reader) :
    Option (Option ctest_output × output_reader) :=
  let length := reader.length
  match reader.output with
  | none => some (none, reader)
  | some output =>
    if length = 0 then some (none, reader)
    else
      let reader1 : output_reader := { output := none, length := 0 }
      -- the value `ctest_output_resize` returns is not looked at
      match ctest_output_resize realloc_ok garbage (some output)
          ((length + 1) % 18446744073709551616) with
      | none => none
      | some (_, none) => none
      | some (_, some output1) =>
        if length < output1.data.length then
          some (some { output1 with data := write_bytes output1.data length [0] }, reader1)
        else none

/-- The reader driven by data-available calls until the descriptor is drained, as
`reader_feed` does for the event reader; every allocation succeeds, `garbage` giving the
indeterminate bytes. -/
def output_reader_feed (garbage : Nat → Nat) :
    List Nat → output_reader → List Nat → Option (output_reader × List Nat)
  | [], reader, pipe => some (reader, pipe)
  | want :: wants, reader, pipe =>
    if pipe = [] then some (reader, pipe)
    else
      match output_reader_on_data_available__ true garbage reader pipe (some want) with
      | none => none
      | some (rc, r1, rest) =>
        if rc < 0 then some (r1, rest) else output_reader_feed garbage wants r1 rest

/-- A reader that has collected `bytes` in a buffer of `capacity` bytes, the rest of the
buffer still zero. -/
def collected_reader (capacity : Nat) (bytes : List Nat) : output_reader :=
  { output := some { length := capacity,
                     data := bytes ++ List.replicate (capacity - bytes.length) 0 },
    length := bytes.length }

/-! ## The forking runner (src/exec/forking_runner.c, src/exec/result.c) -/

/-- The outcomes of a test case (`ctest_result_type_t`). -/
inductive ctest_result_type where
  | CTEST_RESULT_PASS
  | CTEST_RESULT_FAIL
  | CTEST_RESULT_SKIPPED
  | CTEST_RESULT_ERROR
  deriving DecidableEq, Repr

/-- The discriminator of an outcome. -/
def ctest_result_type.value : ctest_result_type → Int
  | CTEST_RESULT_PASS => 0
  | CTEST_RESULT_FAIL => 1
  | CTEST_RESULT_SKIPPED => 2
  | CTEST_RESULT_ERROR => 3

/-- The function `coerce_result_type__`. -/
def coerce_result_type__ (type : Int) : ctest_result_type :=
  if type = ctest_result_type.CTEST_RESULT_PASS.value then
    ctest_result_type.CTEST_RESULT_PASS
  else if type = ctest_result_type.CTEST_RESULT_FAIL.value then
    ctest_result_type.CTEST_RESULT_FAIL
  else if type = ctest_result_type.CTEST_RESULT_SKIPPED.value then
    ctest_result_type.CTEST_RESULT_SKIPPED
  else if type = ctest_result_type.CTEST_RESULT_ERROR.value then
    ctest_result_type.CTEST_RESULT_ERROR
  else ctest_result_type.CTEST_RESULT_ERROR

/-- The format the parent passes to `ctest_failure_create`, with its arguments. -/
inductive RunnerMessage where
  /-- The text "poll of child data failed: %s". -/
  | poll_failed (errno : Int)
  /-- The text "consumption of %s from child failed: %s"; `handler` is the index in
  `poll_handlers` ("execution hooks" is 0, "output" is 1). -/
  | consumption_failed (handler : Nat) (errno : Int)
  /-- The text "error waiting for child: %s". -/
  | wait_failed (errno : Int)
  /-- The text "unexpected pid waited: %ji (expecting %ji)". -/
  | unexpected_pid (wait_result child : Int)
  /-- The text "terminated by signal: %s (%d)". -/
  | terminated_by_signal (signum : Int)
  /-- The text "child exited with error: %#x". -/
  | exited_with_error (child_result : Int)
  /-- The text "unable to create result pipe: %s". -/
  | result_pipe (errno : Int)
  /-- The text "unable to create output pipe: %s". -/
  | output_pipe (errno : Int)
  /-- The text "unable to fork child process: %s". -/
  | fork_failed (errno : Int)
  /-- The text "Caught unexpected signal: %d" of the direct runner. -/
  | caught_signal (signum : Int)
  /-- The text "Unexpected error encountered: %s" of the direct runner. -/
  | unexpected_error (errno : Int)
  /-- The text "unexpected return from longjmp: %d" of the direct runner. -/
  | unexpected_longjmp (rc : Int)
  deriving DecidableEq, Repr

/-- A failure object a runner holds: the body block the event reader handed over
(`received`, its address and its bytes), one made by `ctest_failure_create` from a
stage and a format (`created`), or the one the test case driver handed to a hook
(`handed`). -/
inductive RunnerFailure where
  | received (base : Nat) (buf : List Nat)
  | created (stage : Nat) (message : RunnerMessage)
  | handed (failure : ctest_failure)
  deriving DecidableEq, Repr

/-- The call `ctest_failure_create(stage, fmt, NULL, NULL, ...)`; `create_ok` says whether
it succeeds (`none` is `NULL`). -/
def runner_failure_create (create_ok : Bool) (stage : Nat) (message : RunnerMessage) :
    Option RunnerFailure :=
  if create_ok then some (RunnerFailure.created stage message) else none

/-- The fields of `ctest_result_t`. -/
structure ctest_result where
  type : ctest_result_type
  output : Option ctest_output
  failure : Option RunnerFailure
  deriving DecidableEq, Repr

/-- The result `ctest_result_create_empty` makes. -/
def ctest_result_create_empty : ctest_result :=
  { type := ctest_result_type.CTEST_RESULT_PASS, output := none, failure := none }

/-- The function `ctest_result_set_failure`: the value returned and the result. -/
def ctest_result_set_failure (result : ctest_result) (type : ctest_result_type)
    (failure : Option RunnerFailure) : Int × ctest_result :=
  (0, { result with type := type, failure := failure })

/-- The fields `stage` and `last_failure` of `child_event_consumer_t__`. -/
structure child_event_consumer where
  stage : Nat
  last_failure : Option RunnerFailure
  deriving DecidableEq, Repr

/-- The consumer after `child_event_consumer_init__`. -/
def child_event_consumer_init__ : child_event_consumer :=
  { stage := ctest_stage.CTEST_STAGE_SETUP.value, last_failure := none }

/-- The function `child_event_consumer_op_on_stage_change__`. -/
def child_event_consumer_op_on_stage_change__ (consumer : child_event_consumer) (stage : Nat) :
    child_event_consumer :=
  { consumer with stage := stage }

/-- The function `child_event_consumer_op_on_failure__`. -/
def child_event_consumer_op_on_failure__ (consumer : child_event_consumer)
    (failure : RunnerFailure) : child_event_consumer :=
  { consumer with last_failure := some failure }

/-- One call of the event reader, as the consumer sees it (a `free` is not a call on the
consumer). -/
def child_event_consumer_call (consumer : child_event_consumer) :
    ReaderCall → child_event_consumer
  | ReaderCall.on_stage_change stage => child_event_consumer_op_on_stage_change__ consumer stage
  | ReaderCall.on_failure base buf =>
    child_event_consumer_op_on_failure__ consumer (RunnerFailure.received base buf)
  | ReaderCall.free _ => consumer

/-- The consumer after the calls the event reader has made so far. -/
def child_event_consumer_after (calls : List ReaderCall) : child_event_consumer :=
  calls.foldl child_event_consumer_call child_event_consumer_init__

/-- The failure a call of the event reader hands to the consumer, if any. -/
def ReaderCall.received : ReaderCall → Option RunnerFailure
  | ReaderCall.on_failure base buf => some (RunnerFailure.received base buf)
  | _ => none

/-- The failures received on the event channel, in the order received. -/
def received_failures (calls : List ReaderCall) : List RunnerFailure :=
  calls.filterMap ReaderCall.received

/-! ### The parent: `wait_for_child__` -/

/-- A `POLLIN` event on a descriptor and what the calls of its handler meet: `read` is the
most bytes the `read` call hands over (`none`: the call fails, with `errno`), `alloc_ok`
whether the allocation of the output reader succeeds, `create_ok` whether
`ctest_failure_create` succeeds. -/
structure PollIn where
  read : Option Nat
  errno : Int
  alloc_ok : Bool
  create_ok : Bool
  deriving DecidableEq, Repr

/-- The field `revents` of a polled descriptor, as the loop looks at it: `POLLIN` set,
else `POLLHUP` set, else neither. -/
inductive Revents where
  | pollin (p : PollIn)
  | pollhup
  | neither
  deriving DecidableEq, Repr

/-- One call of `poll`: it fails (`poll_errno` is `some errno`) or it returns the events of
the two descriptors. -/
structure PollStep where
  poll_errno : Option Int
  create_ok : Bool
  hooks : Revents
  output : Revents
  deriving DecidableEq, Repr

/-- What `waitpid` and the status macros report. -/
inductive WaitStatus where
  /-- The call `waitpid` returns a negative value. -/
  | wait_failed (errno : Int)
  /-- The call `waitpid` returns a pid that is not the child. -/
  | other_pid (wait_result : Int)
  /-- The macro `WIFEXITED` holds and `WEXITSTATUS` is `code`. -/
  | exited (code : Int)
  /-- The macro `WIFSIGNALED` holds and `WTERMSIG` is `signum`. -/
  | signaled (signum : Int)
  /-- Neither holds. -/
  | other (child_result : Int)
  deriving DecidableEq, Repr

/-- What the parent meets while it waits for one child: the bytes the child writes to the
two pipes, the `poll` calls, what `waitpid` reports, and whether the last
`ctest_failure_create` and the `realloc` of `output_reader_build` succeed. -/
structure ChildRun where
  hooks_bytes : List Nat
  output_bytes : List Nat
  steps : List PollStep
  status : WaitStatus
  create_ok : Bool
  realloc_ok : Bool
  deriving DecidableEq, Repr

/-- The locals of `wait_for_child__` with the result it updates: `hooks_fd` and `output_fd`
are `poll_handlers[0].fd` and `poll_handlers[1].fd`, the pipes hold the bytes not yet read,
`killed` says that `kill(child, SIGKILL)` was called. -/
structure wait_state where
  result : ctest_result
  retval : Int
  hooks_fd : Int
  output_fd : Int
  event_reader : exec_event_reader
  output_reader : output_reader
  hooks_pipe : List Nat
  output_pipe : List Nat
  killed : Bool
  deriving DecidableEq, Repr

/-- The state of `wait_for_child__` before its loop. -/
def wait_state_init (result : ctest_result) (hooks_fd output_fd : Int) (run : ChildRun) :
    wait_state :=
  { result := result, retval := -1, hooks_fd := hooks_fd, output_fd := output_fd,
    event_reader := exec_event_reader_init, output_reader := output_reader_init,
    hooks_pipe := run.hooks_bytes, output_pipe := run.output_bytes, killed := false }

/-- The stage of the consumer, `child_event_consumer.stage`. -/
def wait_state.stage (st : wait_state) : Nat :=
  (child_event_consumer_after st.event_reader.calls).stage

/-- The body of the inner `for` loop for the execution-hooks descriptor. A descriptor to
close is negated (`poll_handlers[i].fd = -poll_handlers[i].fd`). -/
def poll_hooks (malloc : Nat → Nat) (st : wait_state) : Revents → Option wait_state
  | Revents.neither => some st
  | Revents.pollhup => some { st with hooks_fd := -st.hooks_fd }
  | Revents.pollin p =>
    let called : Option (Int × exec_event_reader × List Nat) :=
      match p.read with
      | none => some (-1, st.event_reader, st.hooks_pipe)
      | some want => reader_op_on_data_available__ malloc st.event_reader st.hooks_pipe want
    match called with
    | none => none
    | some (rc, reader, rest) =>
      let st1 : wait_state := { st with event_reader := reader, hooks_pipe := rest }
      if rc < 0 then
        let failure := runner_failure_create p.create_ok st1.stage
          (RunnerMessage.consumption_failed 0 p.errno)
        let set := ctest_result_set_failure st1.result ctest_result_type.CTEST_RESULT_ERROR failure
        some { st1 with retval := set.1, result := set.2, hooks_fd := -st1.hooks_fd }
      else if rc = 0 then some { st1 with hooks_fd := -st1.hooks_fd }
      else some st1

/-- The body of the inner `for` loop for the output descriptor. -/
def poll_output (garbage : Nat → Nat) (st : wait_state) : Revents → Option wait_state
  | Revents.neither => some st
  | Revents.pollhup => some { st with output_fd := -st.output_fd }
  | Revents.pollin p =>
    match output_reader_on_data_available__ p.alloc_ok garbage st.output_reader
        st.output_pipe p.read with
    | none => none
    | some (rc, reader, rest) =>
      let st1 : wait_state := { st with output_reader := reader, output_pipe := rest }
      if rc < 0 then
        let failure := runner_failure_create p.create_ok st1.stage
          (RunnerMessage.consumption_failed 1 p.errno)
        let set := ctest_result_set_failure st1.result ctest_result_type.CTEST_RESULT_ERROR failure
        some { st1 with retval := set.1, result := set.2, output_fd := -st1.output_fd }
      else if rc = 0 then some { st1 with output_fd := -st1.output_fd }
      else some st1

/-- The loop of `wait_for_child__` up to the label `wait_for_child`: the state there. The
loop is left when no descriptor of `poll_handlers` is `>= 0`, or when `poll` fails. The
call `poll` ignores a negative descriptor (its `revents` is 0); `steps` gives what it
reports for the others. When no `poll` call is left while a descriptor is `>= 0` the
parent is still in its loop (`none`, as for an access outside a block). -/
def poll_loop (malloc garbage : Nat → Nat) : List PollStep → wait_state → Option wait_state
  | steps, st =>
    if st.hooks_fd < 0 ∧ st.output_fd < 0 then some st
    else
      match steps with
      | [] => none
      | step :: rest =>
        match step.poll_errno with
        | some errno =>
          let failure := runner_failure_create step.create_ok st.stage
            (RunnerMessage.poll_failed errno)
          let set := ctest_result_set_failure st.result ctest_result_type.CTEST_RESULT_ERROR
            failure
          some { st with retval := set.1, result := set.2, killed := true }
        | none =>
          match poll_hooks malloc st
              (if st.hooks_fd < 0 then Revents.neither else step.hooks) with
          | none => none
          | some st1 =>
            match poll_output garbage st1
                (if st.output_fd < 0 then Revents.neither else step.output) with
            | none => none
            | some st2 => poll_loop malloc garbage rest st2

/-- The part of `wait_for_child__` from `waitpid` to the label `done`: the value of
`retval` and the result. -/
def wait_status_result (st : wait_state) (child : Int) (create_ok : Bool) :
    WaitStatus → Int × ctest_result
  | WaitStatus.wait_failed errno =>
    ctest_result_set_failure st.result ctest_result_type.CTEST_RESULT_ERROR
      (runner_failure_create create_ok st.stage (RunnerMessage.wait_failed errno))
  | WaitStatus.other_pid wait_result =>
    ctest_result_set_failure st.result ctest_result_type.CTEST_RESULT_ERROR
      (runner_failure_create create_ok st.stage (RunnerMessage.unexpected_pid wait_result child))
  | WaitStatus.exited code =>
    let result_type := coerce_result_type__ code
    match result_type with
    | ctest_result_type.CTEST_RESULT_PASS =>
      (0, (ctest_result_set_failure st.result result_type none).2)
    | _ =>
      -- report a failure unless the test was skipped
      (if result_type ≠ ctest_result_type.CTEST_RESULT_SKIPPED then 1 else 0,
        (ctest_result_set_failure st.result result_type
          (child_event_consumer_after st.event_reader.calls).last_failure).2)
  | WaitStatus.signaled signum =>
    ctest_result_set_failure st.result ctest_result_type.CTEST_RESULT_ERROR
      (runner_failure_create create_ok st.stage (RunnerMessage.terminated_by_signal signum))
  | WaitStatus.other child_result =>
    ctest_result_set_failure st.result ctest_result_type.CTEST_RESULT_ERROR
      (runner_failure_create create_ok st.stage (RunnerMessage.exited_with_error child_result))

/-- The function `wait_for_child__`: the value returned and the result; `none` when the
run does not get there. -/
def wait_for_child__ (malloc garbage : Nat → Nat) (result : ctest_result) (child : Int)
    (hooks_fd output_fd : Int) (run : ChildRun) : Option (Int × ctest_result) :=
  match poll_loop malloc garbage run.steps (wait_state_init result hooks_fd output_fd run) with
  | none => none
  | some st =>
    let waited := wait_status_result st child run.create_ok run.status
    match output_reader_build run.realloc_ok garbage st.output_reader with
    | none => none
    | some (output, _) => some (waited.1, { waited.2 with output := output })

/-! ### The per-case function of the forking runner -/

/-- The calls a per-case function makes on the test case reporter. -/
inductive CaseReport where
  | start
  | complete (result : ctest_result)
  deriving DecidableEq, Repr

/-- What `fork` returns in the calling process: a negative value, or the pid of the child,
with what the parent then meets. (In the child the function does not return: the child
leaves through `exit_child__`.) -/
inductive ForkOutcome where
  | failed (errno : Int)
  | parent (pid : Int) (run : ChildRun)
  deriving DecidableEq, Repr

/-- What `runner_run_testcase__` of forking_runner.c meets: whether
`ctest_result_create_empty` succeeds, whether the two `pipe` calls fail (`some errno`), the
descriptors they store in `hooks_pipe` and `output_pipe` when they succeed (the read end
first), whether `ctest_failure_create` succeeds, and what `fork` returns. -/
structure ForkEnv where
  result_ok : Bool
  hooks_pipe_errno : Option Int
  output_pipe_errno : Option Int
  hooks_pipe : Int × Int
  output_pipe : Int × Int
  create_ok : Bool
  fork : ForkOutcome
  deriving DecidableEq, Repr

/-- The function `runner_run_testcase__` of forking_runner.c in the parent: the value
returned and the calls on the reporter. -/
def forking_runner_run_testcase__ (malloc garbage : Nat → Nat) (env : ForkEnv) :
    Option (Int × List CaseReport) :=
  if env.result_ok = false then some (-1, [])
  else
    let result := ctest_result_create_empty
    match env.hooks_pipe_errno with
    | some errno =>
      let set := ctest_result_set_failure result ctest_result_type.CTEST_RESULT_ERROR
        (runner_failure_create env.create_ok ctest_stage.CTEST_STAGE_SETUP.value
          (RunnerMessage.result_pipe errno))
      some (set.1, [CaseReport.start, CaseReport.complete set.2])
    | none =>
      match env.output_pipe_errno with
      | some errno =>
        let set := ctest_result_set_failure result ctest_result_type.CTEST_RESULT_ERROR
          (runner_failure_create env.create_ok ctest_stage.CTEST_STAGE_SETUP.value
            (RunnerMessage.output_pipe errno))
        some (set.1, [CaseReport.start, CaseReport.complete set.2])
      | none =>
        match env.fork with
        | ForkOutcome.failed errno =>
          let set := ctest_result_set_failure result ctest_result_type.CTEST_RESULT_ERROR
            (runner_failure_create env.create_ok ctest_stage.CTEST_STAGE_SETUP.value
              (RunnerMessage.fork_failed errno))
          some (set.1, [CaseReport.start, CaseReport.complete set.2])
        | ForkOutcome.parent pid run =>
          let hooks_fd := env.hooks_pipe.1
          let output_fd := env.output_pipe.1
          match wait_for_child__ malloc garbage result pid hooks_fd output_fd run with
          | none => none
          | some (retval, result1) =>
            some (retval, [CaseReport.start, CaseReport.complete result1])

/-! ## The direct runner (src/exec/direct_runner.c) -/

/-- The function `read_output__`: the output made from the temporary file holding `file`.
`seek_ok` and `calloc_ok` say whether `lseek` and `calloc` succeed, `read` describes the
`read` call. The outer `none` is an access outside a block. -/
def read_output__ (seek_ok calloc_ok : Bool) (file : List Nat) (read : Option Nat) :
    Option (Option ctest_output) :=
  if seek_ok = false then some none
  else
    let offset := file.length
    match ctest_output_create calloc_ok (offset + 1) with
    | none => none
    | some none => some none
    | some (some result) =>
      let rd := read_call file offset read
      let read_len : Int := if rd.1 < 0 then 0 else rd.1
      some (some { length := read_len.toNat, data := write_bytes result.data 0 rd.2 })

/-- The fields `result`, `error` and `stage` of the direct runner's `exec_hooks_t__`;
`result` is `none` when `ctest_result_create_empty` gave `NULL`. -/
structure direct_exec_hooks where
  result : Option ctest_result
  error : Int
  stage : ctest_stage
  deriving DecidableEq, Repr

/-- What reaches the direct runner while the test case executes: a call of one of its
hooks, or a captured signal (`handle_signal__`). -/
inductive HookCall where
  | on_stage_change (stage : ctest_stage)
  | on_skip (failure : Option ctest_failure)
  | on_failure (failure : Option ctest_failure)
  | signal (signum : Int)
  deriving DecidableEq, Repr

/-- The function `exec_hooks_on_short_circuit__` of direct_runner.c: the value
`sigsetjmp` then returns and the hooks; `none` is the use of a `NULL` result. -/
def direct_on_short_circuit__ (hooks : direct_exec_hooks) (type : ctest_result_type)
    (failure : Option ctest_failure) : Option (Int × direct_exec_hooks) :=
  match hooks.result with
  | none => none
  | some result =>
    some (1, { hooks with result := some (ctest_result_set_failure result type
      (failure.map RunnerFailure.handed)).2 })

/-- The call `ctest_testcase_execute(testcase, &exec_hooks.base)` under `sigsetjmp`: the
value `sigsetjmp` returns last (0 when the test case returns) and the hooks then. -/
def direct_execute : List HookCall → direct_exec_hooks → Option (Int × direct_exec_hooks)
  | [], hooks => some (0, hooks)
  | HookCall.on_stage_change stage :: rest, hooks =>
    direct_execute rest { hooks with stage := stage }
  | HookCall.on_skip failure :: _, hooks =>
    direct_on_short_circuit__ hooks ctest_result_type.CTEST_RESULT_SKIPPED failure
  | HookCall.on_failure failure :: _, hooks =>
    direct_on_short_circuit__ hooks ctest_result_type.CTEST_RESULT_FAIL failure
  | HookCall.signal signum :: _, hooks => some (2, { hooks with error := signum })

/-- What `runner_run_testcase__` of direct_runner.c meets: whether the result can be
created, whether the `dup`, `open` and `opentemp` calls succeed, what the test case does,
whether `ctest_failure_create` succeeds, and what reading the output back meets (`file`
holds what the test case wrote). -/
structure DirectEnv where
  result_ok : Bool
  stdin_saved_ok : Bool
  stdout_saved_ok : Bool
  stderr_saved_ok : Bool
  stdin_new_ok : Bool
  stdout_new_ok : Bool
  calls : List HookCall
  create_ok : Bool
  seek_ok : Bool
  calloc_ok : Bool
  file : List Nat
  read : Option Nat
  deriving DecidableEq, Repr

/-- The `switch` of `runner_run_testcase__` of direct_runner.c on the value `rc` of
`sigsetjmp`: the local `result` and the result object. -/
def direct_switch (env : DirectEnv) (rc : Int) (hooks : direct_exec_hooks)
    (result : ctest_result) : Int × ctest_result :=
  if rc = 0 then (0, { result with type := ctest_result_type.CTEST_RESULT_PASS })
  else if rc = 1 then (1, result)
  else if rc = 2 then
    (1, (ctest_result_set_failure result ctest_result_type.CTEST_RESULT_FAIL
      (runner_failure_create env.create_ok hooks.stage.value
        (RunnerMessage.caught_signal hooks.error))).2)
  else if rc = 3 then
    (1, (ctest_result_set_failure result ctest_result_type.CTEST_RESULT_ERROR
      (runner_failure_create env.create_ok hooks.stage.value
        (RunnerMessage.unexpected_error hooks.error))).2)
  else
    (1, (ctest_result_set_failure result ctest_result_type.CTEST_RESULT_ERROR
      (runner_failure_create env.create_ok hooks.stage.value
        (RunnerMessage.unexpected_longjmp rc))).2)

/-- The function `runner_run_testcase__` of direct_runner.c: the value returned and the
calls on the reporter; `none` is the use of a `NULL` result or an access outside a
block. -/
def direct_runner_run_testcase__ (env : DirectEnv) : Option (Int × List CaseReport) :=
  let hooks : direct_exec_hooks :=
    { result := if env.result_ok then some ctest_result_create_empty else none,
      error := 0, stage := ctest_stage.CTEST_STAGE_SETUP }
  if env.stdin_saved_ok = false ∨ env.stdout_saved_ok = false ∨ env.stderr_saved_ok = false
      ∨ env.stdin_new_ok = false ∨ env.stdout_new_ok = false then some (1, [])
  else
    match direct_execute env.calls hooks with
    | none => none
    | some (rc, hooks1) =>
      match hooks1.result with
      | none => none
      | some result =>
        let switched := direct_switch env rc hooks1 result
        match read_output__ env.seek_ok env.calloc_ok env.file env.read with
        | none => none
        | some output =>
          some (switched.1,
            [CaseReport.start, CaseReport.complete { switched.2 with output := output }])

/-- The hook calls among the events of the test case driver. -/
def LoaderEvent.hook_call : LoaderEvent → Option HookCall
  | LoaderEvent.on_stage_change stage => some (HookCall.on_stage_change stage)
  | LoaderEvent.on_skip failure => some (HookCall.on_skip failure)
  | LoaderEvent.on_failure failure => some (HookCall.on_failure failure)
  | _ => none

/-- The hook calls a run of `testcase_op_execute__` makes. -/
def testcase_hook_calls (fuel : Nat) (env : testcase_env) : Option (List HookCall) :=
  (testcase_op_execute__ fuel env).map (fun r => r.2.events.filterMap LoaderEvent.hook_call)

/-! ### Sample runs -/

/-- A test case without fixture callbacks whose body aborts with the skip tag. -/
def skip_env : testcase_env :=
  { self := 500, has_cell := true, cell := 77, uninit := 9, size := 0,
    setup := none, teardown := none,
    caller := [ModuleAction.abort ctest_dynamic_ops_abort_type.CTEST_DYNAMIC_OPS_ABORT_SKIP],
    data := 1, calloc_ok := true, heap := 9000, fixture_storage := 600,
    alloc_failure := none }

/-- What the direct runner meets when every system call and allocation succeeds, the test
case makes the hook calls `calls` and writes `file`. -/
def direct_env (calls : List HookCall) (file : List Nat) : DirectEnv :=
  { result_ok := true, stdin_saved_ok := true, stdout_saved_ok := true,
    stderr_saved_ok := true, stdin_new_ok := true, stdout_new_ok := true, calls := calls,
    create_ok := true, seek_ok := true, calloc_ok := true, file := file,
    read := some file.length }

/-- A `POLLIN` event whose `read` hands over up to `want` bytes, every allocation
succeeding. -/
def pollin (want : Nat) : Revents :=
  Revents.pollin { read := some want, errno := 0, alloc_ok := true, create_ok := true }

/-- A successful `poll` call with the given events. -/
def poll_step (hooks output : Revents) : PollStep :=
  { poll_errno := none, create_ok := true, hooks := hooks, output := output }

/-- A failure without description, location and stack trace, met in the test body. -/
def bare_failure : ctest_failure :=
  { stage := ctest_stage.CTEST_STAGE_EXECUTION, description := none, location := none,
    stacktrace := none }

/-- The bytes a child sends on the hooks pipe when it enters the test body and then hands
`bare_failure` to `on_failure`. -/
def sample_hooks_bytes : List Nat :=
  exec_event_writer_op_on_stage_change__ ctest_stage.CTEST_STAGE_EXECUTION
    ++ (exec_event_writer_op_on_failure__ 4096 bare_failure).getD []

/-- The `poll` calls of the sample run: the parent reads the two frames of the hooks pipe
header by header and body by body, the output in one `read`, and then sees the pipes
closed. -/
def sample_steps : List PollStep :=
  [poll_step (pollin 4096) (pollin 4096), poll_step (pollin 4096) Revents.pollhup,
    poll_step (pollin 4096) Revents.neither, poll_step (pollin 4096) Revents.neither,
    poll_step Revents.pollhup Revents.neither]

/-- A child that sends `sample_hooks_bytes`, writes "abc" to its output and ends as
`status` says. -/
def sample_child_run (status : WaitStatus) : ChildRun :=
  { hooks_bytes := sample_hooks_bytes, output_bytes := [97, 98, 99], steps := sample_steps,
    status := status, create_ok := true, realloc_ok := true }

/-- The body block the event reader hands over in the sample run. -/
def sample_body : List Nat :=
  [1, 0, 0, 0, 0, 0, 0, 0, 0, 0, 0, 0, 0, 0, 0, 0, 0, 0, 0, 0, 0, 0, 0, 0, 0, 0, 0, 0, 0, 0, 0, 0]

/-- The failure frame of the sample run. -/
def sample_failure_frame : List Nat := [1, 0, 32, 0] ++ sample_body

/-- The event reader of the sample run after the header of the stage-change frame. -/
def sample_reader_1 : exec_event_reader :=
  { buf := ReaderBuf.stage, ofs := 0, cap := 4, len := 4, header := [0, 0, 4, 0],
    stage := [0, 0, 0, 0], body_base := 0, body := [],
    on_done := ReaderDone.reader_on_msg_body_done__,
    body_on_done := BodyDone.reader_on_state_change_done__, calls := [] }

/-- The event reader of the sample run after the stage-change frame. -/
def sample_reader_2 : exec_event_reader :=
  { buf := ReaderBuf.header, ofs := 0, cap := 4, len := 4, header := [0, 0, 4, 0],
    stage := [1, 0, 0, 0], body_base := 0, body := [],
    on_done := ReaderDone.reader_on_msg_header_done__,
    body_on_done := BodyDone.reader_on_state_change_done__,
    calls := [ReaderCall.on_stage_change 1] }

/-- The event reader of the sample run after the header of the failure frame. -/
def sample_reader_3 : exec_event_reader :=
  { buf := ReaderBuf.failure, ofs := 0, cap := 32, len := 32, header := [1, 0, 32, 0],
    stage := [1, 0, 0, 0], body_base := 8192, body := List.replicate 32 0,
    on_done := ReaderDone.reader_on_msg_body_done__,
    body_on_done := BodyDone.reader_on_failure_done__,
    calls := [ReaderCall.on_stage_change 1] }

/-- The event reader of the sample run after the failure frame. -/
def sample_reader_4 : exec_event_reader :=
  { buf := ReaderBuf.header, ofs := 0, cap := 4, len := 4, header := [1, 0, 32, 0],
    stage := [1, 0, 0, 0], body_base := 8192, body := sample_body,
    on_done := ReaderDone.reader_on_msg_header_done__,
    body_on_done := BodyDone.reader_on_failure_done__,
    calls := [ReaderCall.on_stage_change 1, ReaderCall.on_failure 8192 sample_body] }

/-- A state of the parent of the sample run. -/
def sample_state (hooks_fd output_fd : Int) (event_reader : exec_event_reader)
    (hooks_pipe : List Nat) (output_reader : output_reader) (output_pipe : List Nat) :
    wait_state :=
  { result := ctest_result_create_empty, retval := -1, hooks_fd := hooks_fd,
    output_fd := output_fd, event_reader := event_reader,
    output_reader := output_reader, hooks_pipe := hooks_pipe, output_pipe := output_pipe,
    killed := false }

/-- The state of the parent of the sample run after its loop, the read ends of the pipes
being the descriptors 3 and 5. -/
def sample_waited_state : wait_state :=
  sample_state (-3) (-5) sample_reader_4 [] (collected_reader 128 [97, 98, 99]) []

/-- A child that announces the test body on the hooks pipe, hands over no failure,
writes "abc" to its output and ends as `status` says. -/
def quiet_child_run (status : WaitStatus) : ChildRun :=
  { hooks_bytes := [0, 0, 4, 0] ++ ([1, 0, 0, 0] ++ []), output_bytes := [97, 98, 99],
    steps := [poll_step (pollin 4096) (pollin 4096), poll_step (pollin 4096) Revents.pollhup,
      poll_step Revents.pollhup Revents.neither],
    status := status, create_ok := true, realloc_ok := true }

/-- The state of the parent of the quiet run after its loop, the read ends of the pipes
being the descriptors 3 and 5. -/
def quiet_waited_state : wait_state :=
  sample_state (-3) (-5) sample_reader_2 [] (collected_reader 128 [97, 98, 99]) []

/-- The output the parent builds in both sample runs. -/
def sample_output : ctest_output := { length := 4, data := [97, 98, 99, 0] }

/-- The result of the sample run with the outcome `type`: the failure is the one the
child handed over. -/
def sample_result (type : ctest_result_type) : ctest_result :=
  { type := type, output := some sample_output,
    failure := some (RunnerFailure.received 8192 sample_body) }

/-- The hook calls of the test case `skip_env`. -/
def skip_calls : List HookCall :=
  [HookCall.on_stage_change ctest_stage.CTEST_STAGE_SETUP,
    HookCall.on_stage_change ctest_stage.CTEST_STAGE_EXECUTION, HookCall.on_skip none]

/-- Collaborators of the run dispatch whose reporters are all created and whose per-case
callback returns `rc`. -/
def callback_env (rc : Int) : RunEnv Unit Unit Unit where
  report_testsuite := fun _ _ => true
  report_test := fun _ _ _ => true
  report_testcase := fun _ _ _ => true
  run_testcase := fun _ _ _ => rc

/-! ## Assertions on pointers (include/ctest/tests/assert.h, src/tests/stub.c) -/

/-- The operator texts of assert.h used for pointers: `CTEST_OPERATOR_EQ_STR__` is "be "
and `CTEST_OPERATOR_NE_STR__` is "be different from ". -/
inductive OperatorStr where
  | CTEST_OPERATOR_EQ_STR__
  | CTEST_OPERATOR_NE_STR__
  deriving DecidableEq, Repr

/-- The macro `CTEST_OPERATOR_EQ__`: `((a) == (b))`. -/
def CTEST_OPERATOR_EQ__ (a b : Nat) : Bool := a == b

/-- The macro `CTEST_OPERATOR_NE__`: `((a) != (b))`. -/
def CTEST_OPERATOR_NE__ (a b : Nat) : Bool := a != b

/-- The arguments of the format "%s evaluated to %p but should " operator_str "%p" that
`CTEST_ASSERT_CMP__` passes on: the text of the expression, the operator text and the
two operands. -/
structure CmpText where
  actual_expr : List Nat
  operator_str : OperatorStr
  actual : Nat
  expect : Nat
  deriving DecidableEq, Repr

/-- The function `ctest_fail` of stub.c, as what the test body does through the
dynamic-ops cell: it reports the failure and aborts with the fail tag. `description` is
the formatted text. -/
def ctest_fail (file : List Nat) (line : Int) (description : List Nat) : List ModuleAction :=
  [ModuleAction.report (some file) line description true,
    ModuleAction.abort ctest_dynamic_ops_abort_type.CTEST_DYNAMIC_OPS_ABORT_FAIL]

/-- The macro `CTEST_ASSERT__`: `if (!(expr)) CT_FAIL(fmt, ...)`; the empty list is a test
that goes on. -/
def CTEST_ASSERT__ (file : List Nat) (line : Int) (expr : Bool) (description : List Nat) :
    List ModuleAction :=
  if !expr then ctest_fail file line description else []

/-- The macro `CTEST_ASSERT_CMP__` for the type `void *`: `operator_` is applied to the
two operands; `render` stands for the formatting of the text. -/
def CTEST_ASSERT_CMP__ (render : CmpText → List Nat) (file : List Nat) (line : Int)
    (actual_expr : List Nat) (actual expect : Nat) (operator_ : Nat → Nat → Bool)
    (operator_str : OperatorStr) : List ModuleAction :=
  CTEST_ASSERT__ file line (operator_ actual expect)
    (render { actual_expr := actual_expr, operator_str := operator_str, actual := actual,
              expect := expect })

/-- The macro `CT_ASSERT_NULL(act)`: `CTEST_ASSERT_CMP__(void *, act, NULL,
CTEST_OPERATOR_EQ__, CTEST_OPERATOR_EQ_STR__, "%p", ...)`. -/
def CT_ASSERT_NULL (render : CmpText → List Nat) (file : List Nat) (line : Int)
    (actual_expr : List Nat) (act : Nat) : List ModuleAction :=
  CTEST_ASSERT_CMP__ render file line actual_expr act 0 CTEST_OPERATOR_EQ__
    OperatorStr.CTEST_OPERATOR_EQ_STR__

/-- The macro `CT_ASSERT_NONNULL(act)`: `CTEST_ASSERT_CMP__(void *, act, NULL,
CTEST_OPERATOR_EQ__, CTEST_OPERATOR_NE_STR__, "%p", ...)`. -/
def CT_ASSERT_NONNULL (render : CmpText → List Nat) (file : List Nat) (line : Int)
    (actual_expr : List Nat) (act : Nat) : List ModuleAction :=
  CTEST_ASSERT_CMP__ render file line actual_expr act 0 CTEST_OPERATOR_EQ__
    OperatorStr.CTEST_OPERATOR_NE_STR__

/-- The macro `CT_ASSERT_PTR_NE(act, exp)`: `CTEST_ASSERT_CMP__(void *, act, exp,
CTEST_OPERATOR_NE__, CTEST_OPERATOR_NE_STR__, "%p", ...)`. -/
def CT_ASSERT_PTR_NE (render : CmpText → List Nat) (file : List Nat) (line : Int)
    (actual_expr : List Nat) (act exp : Nat) : List ModuleAction :=
  CTEST_ASSERT_CMP__ render file line actual_expr act exp CTEST_OPERATOR_NE__
    OperatorStr.CTEST_OPERATOR_NE_STR__

/-- A test case without fixture callbacks whose body is `CT_ASSERT_NONNULL(p)` in line 7
of the file "t.c" (the expression `p` having the value `act`), the text being rendered as
the single byte 33. -/
def nonnull_env (act : Nat) : testcase_env :=
  { self := 500, has_cell := true, cell := 77, uninit := 9, size := 0,
    setup := none, teardown := none,
    caller := CT_ASSERT_NONNULL (fun _ => [33]) [116, 46, 99] 7 [112] act,
    data := 1, calloc_ok := true, heap := 9000, fixture_storage := 600,
    alloc_failure := none }

/-- The failure the driver makes of the report of `nonnull_env`. -/
def nonnull_failure : ctest_failure :=
  { stage := ctest_stage.CTEST_STAGE_EXECUTION
    description := some [33]
    location := some { filename := some [116, 46, 99], line := 7 }
    stacktrace := none }

/-! ### An overlong stage-change frame -/

/-- A stage-change frame whose header announces 8 body bytes: the stage (execution) and
four more bytes; then the stage-change frame to teardown as the writer makes it. -/
def overlong_stream : List Nat :=
  [0, 0, 8, 0] ++ [1, 0, 0, 0] ++ [9, 9, 9, 9]
    ++ exec_event_writer_op_on_stage_change__ ctest_stage.CTEST_STAGE_TEARDOWN

/-- The event reader after the first four body bytes of the overlong frame: the stage
change is delivered, `buf` is `NULL`, `ofs` is still 4 and `cap` is 8. -/
def overlong_reader : exec_event_reader :=
  { buf := ReaderBuf.null, ofs := 4, cap := 8, len := 8, header := [0, 0, 8, 0],
    stage := [1, 0, 0, 0], body_base := 0, body := [],
    on_done := ReaderDone.reader_prep_next_msg__,
    body_on_done := BodyDone.reader_on_state_change_done__,
    calls := [ReaderCall.on_stage_change 1] }

/-! ### Runs of the output reader -/

/-- What one data-available call of the output reader meets: whether its allocation
succeeds, the indeterminate bytes of a grown block, the bytes waiting in the descriptor
and the `read` call. -/
structure OutputCall where
  alloc_ok : Bool
  garbage : Nat → Nat
  pipe : List Nat
  want : Option Nat

/-- The reader after the data-available calls `calls`, started from `reader`; `none` is
an access outside a block. -/
def output_reader_run : List OutputCall → output_reader → Option output_reader
  | [], reader => some reader
  | c :: calls, reader =>
    match output_reader_on_data_available__ c.alloc_ok c.garbage reader c.pipe c.want with
    | none => none
    | some (_, reader1, _) => output_reader_run calls reader1

/-- The number of bytes offered to the reader over the calls. -/
def offered : List OutputCall → Nat
  | [] => 0
  | c :: calls => c.pipe.length + offered calls

/-- The capacity of the reader's buffer (`none` when there is no buffer). -/
def output_reader.capacity (reader : output_reader) : Option Nat :=
  reader.output.map (fun output => output.length)

/-- The state of a reader is sound: without a buffer nothing is collected; with a buffer
the block holds as many bytes as its `length` says, the collected bytes do not exceed it,
and it is 128 times a power of two. -/
def output_reader.sound (reader : output_reader) : Prop :=
  match reader.output with
  | none => reader.length = 0
  | some output => reader.length ≤ output.length ∧ output.data.length = output.length ∧
      ∃ k, output.length = 128 * 2 ^ k

/-- The capacity after a data-available call, from the state before it: a first buffer has
128 bytes; a full buffer doubles when the allocation succeeds; otherwise the capacity
stays. -/
def next_capacity (alloc_ok : Bool) (reader : output_reader) : Option Nat :=
  match reader.output with
  | none => if alloc_ok then some 128 else none
  | some output =>
    if reader.length ≥ output.length ∧ alloc_ok = true then some (2 * output.length)
    else some output.length

/-- A reader whose buffer of 128 bytes is full. -/
def full_reader : output_reader :=
  collected_reader 128 (List.replicate 128 65)

/-! ### Grouped sequences of test cases -/

/-- The cases with the same `key` are consecutive in `l`: a case that stands between two
cases with the same key has that key too. -/
def consecutive {TC K : Type} (key : TC → K) (l : List TC) : Prop :=
  ∀ (i j k : Nat) (x y z : TC), i < j → j < k →
    l[i]? = some x → l[j]? = some y → l[k]? = some z → key x = key z → key y = key x

/-! ## Roman numerals (src/examples/romnum.c, src/examples/suite_with_data.c)

Characters are their codes: `'i'` is 105, `'v'` 118, `'x'` 120, `'l'` 108, `'c'` 99, `'d'` 100
and `'m'` 109. A string is the list of its characters before the terminating NUL. -/

/-- The fields of `struct numeral`. -/
structure numeral where
  value : Nat
  max_follows : Nat
  max_consecutive : Nat
  subtracts_from : Nat
  deriving DecidableEq, Repr

namespace romnum

/-- The numeral `i`. -/
def i : numeral := { value := 1, max_follows := 0, max_consecutive := 3, subtracts_from := 0 }
/-- The numeral `v`. -/
def v : numeral := { value := 5, max_follows := 1, max_consecutive := 1, subtracts_from := 105 }
/-- The numeral `x`. -/
def x : numeral := { value := 10, max_follows := 9, max_consecutive := 3, subtracts_from := 105 }
/-- The numeral `l`. -/
def l : numeral := { value := 50, max_follows := 10, max_consecutive := 1, subtracts_from := 120 }
/-- The numeral `c`. -/
def c : numeral := { value := 100, max_follows := 90, max_consecutive := 3, subtracts_from := 120 }
/-- The numeral `d`. -/
def d : numeral := { value := 500, max_follows := 100, max_consecutive := 1, subtracts_from := 99 }
/-- The numeral `m`. -/
def m : numeral := { value := 1000, max_follows := 900, max_consecutive := 3, subtracts_from := 99 }
/-- The numeral `undef`. -/
def undef : numeral := { value := 0, max_follows := 0, max_consecutive := 0, subtracts_from := 0 }

end romnum

/-- The function `lval`; `none` is `NULL`. -/
def lval (ch : Nat) : Option numeral :=
  if ch = 105 then some romnum.i
  else if ch = 118 then some romnum.v
  else if ch = 120 then some romnum.x
  else if ch = 108 then some romnum.l
  else if ch = 99 then some romnum.c
  else if ch = 100 then some romnum.d
  else if ch = 109 then some romnum.m
  else none

/-- The function `tolower` of the C locale. -/
def tolower (ch : Nat) : Nat := if 65 ≤ ch ∧ ch ≤ 90 then ch + 32 else ch

/-- The `for` loop of `rntoi` from its test `i >= 0` on, `fuel` bounding the number of
tests: the value `rntoi` returns; `none` when the fuel runs out, a character outside the
string is read or the `NULL` result of `lval` is dereferenced. -/
def rntoi_loop (input : List Nat) :
    Nat → Int → Int → Int → Int → Nat → numeral → Option Int
  | 0, _, _, _, _, _, _ => none
  | fuel + 1, i, acc, value, count, prev_ch, prev_numeral =>
    if i ≥ 0 then
      match input[i.toNat]? with
      | none => none
      | some c =>
        let ch := tolower c
        if ch = prev_ch then
          if count + 1 > (prev_numeral.max_consecutive : Int) then some (-1)
          else
            rntoi_loop input fuel (i - 1) (acc + value) value (count + 1) prev_ch prev_numeral
        else
          match lval ch with
          | none => some (-1)
          | some numeral =>
            if i > 0 ∧ input[(i - 1).toNat]? = some numeral.subtracts_from then
              -- This numeral is preceded by the numeral that can be subtracted away from
              -- this one.
              match (input[(i - 1).toNat]?).bind lval with
              | none => none
              | some sub =>
                rntoi_loop input fuel (i - 1 - 1)
                  (acc + ((numeral.value : Int) - (sub.value : Int)))
                  ((numeral.value : Int) - (sub.value : Int)) 1 0 romnum.undef
            else if value ≤ (numeral.max_follows : Int) then
              -- The next numeral is going smaller, so this is OK
              rntoi_loop input fuel (i - 1) (acc + (numeral.value : Int)) (numeral.value : Int)
                1 ch numeral
            else some (-1)
    else some acc

/-- The function `rntoi` on the string `input`. -/
def rntoi (input : List Nat) : Option Int :=
  if input.length = 0 then some (-1)
  else rntoi_loop input (input.length + 1) ((input.length : Int) - 1) 0 0 0 0 romnum.undef

/-- The rows of `CT_DATA(valid_input)` in suite_with_data.c: the string `rn` and `value`. -/
def valid_input : List (List Nat × Int) :=
  [ ([105], 1),
    ([105, 105], 2),
    ([105, 105, 105], 3),
    ([105, 118], 4),
    ([118], 5),
    ([118, 105], 6),
    ([118, 105, 105], 7),
    ([118, 105, 105, 105], 8),
    ([105, 120], 9),
    ([120], 10),
    ([120, 105], 11),
    ([120, 105, 118], 14),
    ([120, 105, 120], 19),
    ([120, 120, 120, 105, 120], 39),
    ([120, 108], 40),
    ([120, 108, 105, 118], 44),
    ([108], 50),
    ([108, 105, 120], 59),
    ([108, 120], 60),
    ([120, 99], 90),
    ([120, 99, 105, 118], 94),
    ([99], 100),
    ([99, 120, 108, 105, 118], 144),
    ([99, 108], 150),
    ([99, 109], 900),
    ([109], 1000),
    ([109, 99, 109, 108, 120, 120], 1970) ]

/-- The lowercase Roman digit for `k` below 10 written with the letters `one`, `five` and
`ten` of its decimal place. -/
def roman_digit (one five ten : Nat) : Nat → List Nat
  | 0 => []
  | 1 => [one]
  | 2 => [one, one]
  | 3 => [one, one, one]
  | 4 => [one, five]
  | 5 => [five]
  | 6 => [five, one]
  | 7 => [five, one, one]
  | 8 => [five, one, one, one]
  | _ => [one, ten]

/-- The canonical lowercase Roman numeral of `n` (for `n` from 1 to 3999): the digits of
the thousands, the hundreds, the tens and the units. -/
def roman_numeral (n : Nat) : List Nat :=
  roman_digit 109 0 0 (n / 1000) ++ roman_digit 99 100 109 (n / 100 % 10)
    ++ roman_digit 120 108 99 (n / 10 % 10) ++ roman_digit 105 118 120 (n % 10)

/-- The loop of `rntoi` as a function of the characters not yet read, the last one first
(`input[i]`, `input[i-1]`, ...); `skip` says that the first of them was read as the numeral
subtracted away (the statement `i -= 1`). -/
def rntoi_rev : List Nat → Bool → Int → Int → Int → Nat → numeral → Option Int
  | [], _, acc, _, _, _, _ => some acc
  | _ :: rest, true, acc, value, count, prev_ch, prev_numeral =>
    rntoi_rev rest false acc value count prev_ch prev_numeral
  | c :: rest, false, acc, value, count, prev_ch, prev_numeral =>
    if tolower c = prev_ch then
      if count + 1 > (prev_numeral.max_consecutive : Int) then some (-1)
      else rntoi_rev rest false (acc + value) value (count + 1) prev_ch prev_numeral
    else
      match lval (tolower c) with
      | none => some (-1)
      | some numeral =>
        if rest.head? = some numeral.subtracts_from then
          match rest.head?.bind lval with
          | none => none
          | some sub =>
            rntoi_rev rest true (acc + ((numeral.value : Int) - (sub.value : Int)))
              ((numeral.value : Int) - (sub.value : Int)) 1 0 romnum.undef
        else if value ≤ (numeral.max_follows : Int) then
          rntoi_rev rest false (acc + (numeral.value : Int)) (numeral.value : Int) 1
            (tolower c) numeral
        else some (-1)

/-! ## Signal capture (src/exec/sig.c)

Signal numbers are those of Linux. A `struct sigaction` is kept as its three fields; the
disposition of a signal is the `struct sigaction` the kernel holds for it. -/

/-- The fields of `struct sigaction`: the handler (an address, `SIG_DFL` being 0), the mask
and the flags. -/
structure sigaction_t where
  sa_sigaction : Nat
  sa_mask : Nat
  sa_flags : Nat
  deriving DecidableEq, Repr

/-- The fields of `struct saved_sigaction__`. -/
structure saved_sigaction_t__ where
  f_saved : Int
  sigaction : sigaction_t
  deriving DecidableEq, Repr

/-- A `struct saved_sigaction__` after `memset(saved, 0, sizeof(*saved))`. -/
def saved_zero : saved_sigaction_t__ :=
  { f_saved := 0, sigaction := { sa_sigaction := 0, sa_mask := 0, sa_flags := 0 } }

/-- The array `signals__`: `SIGHUP`, `SIGINT`, `SIGQUIT`, `SIGILL`, `SIGTRAP`, `SIGABRT`,
`SIGFPE`, `SIGSEGV`, `SIGPIPE`, `SIGALRM`, `SIGTERM`, `SIGUSR1`, `SIGUSR2`, `SIGCHLD`,
`SIGCONT`, `SIGTSTP`, `SIGTTIN` and `SIGTTOU`. -/
def signals__ : List Int :=
  [1, 2, 3, 4, 5, 6, 8, 11, 13, 14, 15, 10, 12, 17, 18, 20, 21, 22]

/-- The value of `EINVAL`. -/
def EINVAL : Int := 22

/-- The value of `EBUSY`. -/
def EBUSY : Int := 16

/-- The state of the process the two functions work on: the disposition of every signal,
the set of blocked signals, `errno`, the statics `saved_sigaction__`, `handler__` and
`cookie__` (pointers are addresses, `NULL` being 0), and the number of `sigaction` calls
made so far. -/
structure sig_state where
  dispositions : Int → sigaction_t
  blocked : Int → Bool
  errno : Int
  saved_sigaction__ : List saved_sigaction_t__
  handler__ : Nat
  cookie__ : Nat
  calls : Nat

/-- The `struct sigaction` the loop of `sigcapture__` installs: `sa_sigaction` is the
address `sighandler` of `sighandler__`, `sa_mask` is full (`full_mask`) and `sa_flags` is
`SA_SIGINFO`. -/
def capture_sigaction (sighandler full_mask : Nat) : sigaction_t :=
  { sa_sigaction := sighandler, sa_mask := full_mask, sa_flags := 4 }

/-- The dispositions after `sigaction(signum, &act, ...)` has succeeded. -/
def set_disposition (dispositions : Int → sigaction_t) (signum : Int) (act : sigaction_t) :
    Int → sigaction_t :=
  fun s => if s = signum then act else dispositions s

/-- The first loop of `sigcapture__` over the signals not yet visited, `i` being the index
of the first of them. `env k` is what the `k`-th call of `sigaction` returns with the
`errno` it sets on failure. The first component is `some (result, result_errno)` when the
loop leaves by `goto failure`. -/
def capture_loop (env : Nat → Int × Int) (sighandler full_mask : Nat) :
    List Int → Nat → sig_state → Option (Int × Int) × sig_state
  | [], _, st => (none, st)
  | signum :: rest, i, st =>
    let saved := st.saved_sigaction__.getD i saved_zero
    let rc := (env st.calls).1
    if rc = 0 then
      -- the old disposition is stored unless the slot holds one
      let stored : sigaction_t :=
        if saved.f_saved ≠ 0 then saved.sigaction else st.dispositions signum
      capture_loop env sighandler full_mask rest (i + 1)
        { st with
          dispositions := set_disposition st.dispositions signum
            (capture_sigaction sighandler full_mask)
          saved_sigaction__ := st.saved_sigaction__.set i { f_saved := 1, sigaction := stored }
          calls := st.calls + 1 }
    else if (env st.calls).2 ≠ EINVAL then
      (some (rc, (env st.calls).2), { st with errno := (env st.calls).2, calls := st.calls + 1 })
    else
      -- Ignore invalid signal numbers -- EINVAL
      capture_loop env sighandler full_mask rest (i + 1)
        { st with errno := (env st.calls).2, calls := st.calls + 1 }

/-- The loop after the label `failure` of `sigcapture__`. -/
def capture_undo_loop (env : Nat → Int × Int) : List Int → Nat → sig_state → sig_state
  | [], _, st => st
  | signum :: rest, i, st =>
    let saved := st.saved_sigaction__.getD i saved_zero
    if saved.f_saved = 0 then capture_undo_loop env rest (i + 1) st
    else if (env st.calls).1 = 0 then
      capture_undo_loop env rest (i + 1)
        { st with
          dispositions := set_disposition st.dispositions signum saved.sigaction
          saved_sigaction__ := st.saved_sigaction__.set i saved_zero
          calls := st.calls + 1 }
    else
      capture_undo_loop env rest (i + 1)
        { st with errno := (env st.calls).2, calls := st.calls + 1 }

/-- The function `sigcapture__(handler, cookie)`: the value returned and the state
afterwards. `block_rc` is what `sigprocmask(SIG_BLOCK, ...)` returns. -/
def sigcapture__ (env : Nat → Int × Int) (sighandler full_mask : Nat) (block_rc : Int)
    (handler cookie : Nat) (st : sig_state) : Int × sig_state :=
  if handler = 0 then (-1, { st with errno := EINVAL })
  else if st.handler__ ≠ 0 then (-1, { st with errno := EBUSY })
  else if block_rc ≠ 0 then (-1, st)
  else
    let sigoldset := st.blocked
    let looped := capture_loop env sighandler full_mask signals__ 0
      { st with blocked := fun _ => true }
    match looped.1 with
    | none =>
      (0, { looped.2 with handler__ := handler, cookie__ := cookie, blocked := sigoldset,
                          errno := 0 })
    | some (result, result_errno) =>
      let undone := capture_undo_loop env signals__ 0 { looped.2 with blocked := sigoldset }
      (result, { undone with errno := result_errno })

/-- The loop of `sigrestore__` over the signals not yet visited: `result`, `result_errno`
and the state afterwards. -/
def restore_loop (env : Nat → Int × Int) :
    List Int → Nat → Int → Int → sig_state → Int × Int × sig_state
  | [], _, result, result_errno, st => (result, result_errno, st)
  | signum :: rest, i, result, result_errno, st =>
    let saved := st.saved_sigaction__.getD i saved_zero
    if saved.f_saved = 0 then restore_loop env rest (i + 1) result result_errno st
    else if (env st.calls).1 = 0 then
      restore_loop env rest (i + 1) result result_errno
        { st with
          dispositions := set_disposition st.dispositions signum saved.sigaction
          saved_sigaction__ := st.saved_sigaction__.set i saved_zero
          calls := st.calls + 1 }
    else
      restore_loop env rest (i + 1) (env st.calls).1 (env st.calls).2
        { st with errno := (env st.calls).2, calls := st.calls + 1 }

/-- The function `sigrestore__`: the value returned and the state afterwards. -/
def sigrestore__ (env : Nat → Int × Int) (block_rc : Int) (st : sig_state) : Int × sig_state :=
  if block_rc ≠ 0 then (-1, st)
  else
    let sigoldset := st.blocked
    let looped := restore_loop env signals__ 0 0 0 { st with blocked := fun _ => true }
    let result := looped.1
    let result_errno := looped.2.1
    let st1 := looped.2.2
    let st2 : sig_state :=
      if result = 0 then { st1 with handler__ := 0, cookie__ := 0 } else st1
    (result, { st2 with blocked := sigoldset, errno := result_errno })

/-- A process in which no capture is installed: every signal has the default disposition
but `SIGPIPE` (13), which is ignored (`SIG_IGN` is 1), and `SIGINT` (2), which has a handler
at the address 7340032 with the flag `SA_RESTART`. -/
def sample_sig_state : sig_state :=
  { dispositions := fun s =>
      if s = 13 then { sa_sigaction := 1, sa_mask := 0, sa_flags := 0 }
      else if s = 2 then { sa_sigaction := 7340032, sa_mask := 0, sa_flags := 268435456 }
      else { sa_sigaction := 0, sa_mask := 0, sa_flags := 0 }
    blocked := fun _ => false
    errno := 0
    saved_sigaction__ := List.replicate 18 saved_zero
    handler__ := 0
    cookie__ := 0
    calls := 0 }

/-- The call `sigcapture__(handler, cookie)` followed by the call `sigrestore__()`, the
`sigprocmask(SIG_BLOCK, ...)` call of the second returning 0: the value `sigrestore__`
returns and the state afterwards. -/
def capture_then_restore (env : Nat → Int × Int) (sighandler full_mask : Nat) (block_rc : Int)
    (handler cookie : Nat) (st : sig_state) : Int × sig_state :=
  sigrestore__ env 0 (sigcapture__ env sighandler full_mask block_rc handler cookie st).2

/-! ## Creation of tests and test cases (src/exec/loader.c, include/ctest/tests/tests.h) -/

/-- The fields of `ctest_def_data_provider_t__`. The function `to_string` is the one
`CT_DATA_PROVIDER` defines, `snprintf(buf, buflen, fmt, ...)`: `rendering` gives, for the
row at an address, the text the format renders (`none` when `snprintf` fails). -/
structure ctest_def_data_provider where
  data : Nat
  count : Nat
  size : Nat
  rendering : Nat → Option (List Nat)

/-- The call `(*data_provider->to_string)(buf + ofs, len, data)`, a call of `snprintf`: the
value returned and the buffer afterwards. At most `len - 1` characters and a NUL are
written; the value is the length of the whole text, or negative on failure. -/
def to_string_call (data_provider : ctest_def_data_provider) (buf : List Nat) (ofs len : Nat)
    (data : Nat) : Int × List Nat :=
  match data_provider.rendering data with
  | none => (-1, buf)
  | some text =>
    if len = 0 then ((text.length : Int), buf)
    else ((text.length : Int), write_bytes buf ofs (text.take (len - 1) ++ [0]))

/-- The provider `null_data_provider__`: one row, and `null_data_provider_to_string__`
writes the empty text and returns 0. -/
def null_data_provider__ : ctest_def_data_provider :=
  { data := 0, count := 1, size := 0, rendering := fun _ => some [] }

/-- The fields `name` and `data_provider` of `ctest_def_test_t__`; `name` is the string
without its NUL. -/
structure ctest_def_test where
  name : List Nat
  data_provider : Option ctest_def_data_provider

/-- The fields `name` and `data` of `testcase_t__`: `name_buf` is the block allocated for
the name, `none` when `name` is the pointer `test_def->name`. -/
structure testcase_t where
  name_buf : Option (List Nat)
  data : Nat
  deriving DecidableEq, Repr

/-- The function `testcase_create__`: `calloc_ok` and `malloc_ok` say whether its two
allocations succeed, `garbage` gives the bytes of the block `malloc` returns; `none` is the
`NULL` return. -/
def testcase_create__ (calloc_ok malloc_ok : Bool) (garbage : Nat → Nat)
    (test_def : ctest_def_test) (data_provider : ctest_def_data_provider) (index : Nat) :
    Option testcase_t :=
  let data := data_provider.data + index * data_provider.size
  if calloc_ok = false then none
  else
    let data_length := (to_string_call data_provider [] 0 0 data).1
    if data_length > 0 then
      let name_length := test_def.name.length
      -- format name[data]
      let length := name_length + 1 + data_length.toNat + 1 + 1
      if malloc_ok = false then none
      else
        let buf0 := (List.range length).map garbage
        let buf1 := write_bytes buf0 0 test_def.name
        let buf2 := write_bytes buf1 name_length [91]
        let buf3 := (to_string_call data_provider buf2 (name_length + 1)
          (length - name_length - 1) data).2
        let buf4 := write_bytes buf3 (name_length + 1 + data_length.toNat) [93]
        let buf5 := write_bytes buf4 (name_length + 1 + data_length.toNat + 1) [0]
        some { name_buf := some buf5, data := data }
    else
      -- The destructor won't free it if it's a copy
      some { name_buf := none, data := data }

/-- The name of a test case, the string at `testcase->name`. -/
def testcase_t.name (test_def : ctest_def_test) (testcase : testcase_t) : List Nat :=
  match testcase.name_buf with
  | none => test_def.name
  | some buf => buf.takeWhile (fun c => decide (c ≠ 0))

/-- The fields `testcases` and `testcase_count` of `test_t__`. -/
structure test_t where
  testcases : List testcase_t
  testcase_count : Nat
  deriving DecidableEq, Repr

/-- The loop of `test_create__` for the `k` rows from index `i` on: the test cases created,
`none` when a `testcase_create__` call returns `NULL` (label `testcase_create_failed`).
`calloc_ok i` and `malloc_ok i` say whether the allocations for row `i` succeed. -/
def test_create_loop (calloc_ok malloc_ok : Nat → Bool) (garbage : Nat → Nat)
    (test_def : ctest_def_test) (data_provider : ctest_def_data_provider) :
    Nat → Nat → Option (List testcase_t)
  | 0, _ => some []
  | k + 1, i =>
    match testcase_create__ (calloc_ok i) (malloc_ok i) garbage test_def data_provider i with
    | none => none
    | some testcase =>
      match test_create_loop calloc_ok malloc_ok garbage test_def data_provider k (i + 1) with
      | none => none
      | some rest => some (testcase :: rest)

/-- The function `test_create__`: `test_ok` and `testcases_ok` say whether its two `calloc`
calls succeed; `none` is the `NULL` return. -/
def test_create__ (test_ok testcases_ok : Bool) (calloc_ok malloc_ok : Nat → Bool)
    (garbage : Nat → Nat) (test_def : ctest_def_test) : Option test_t :=
  let data_provider := match test_def.data_provider with
    | some p => p
    | none => null_data_provider__
  if test_ok = false then none
  else if testcases_ok = false then none
  else
    match test_create_loop calloc_ok malloc_ok garbage test_def data_provider
        data_provider.count 0 with
    | none => none
    | some testcases => some { testcases := testcases, testcase_count := data_provider.count }

/-- A provider like that of the test `valid_input` of suite_with_data.c with only its first
three rows, at the address 8192 and 16 bytes each, rendered by the format
`{rn="%s", value=%d}` as `{rn="i", value=1}`, `{rn="ii", value=2}` and
`{rn="iii", value=3}`. -/
def sample_provider : ctest_def_data_provider :=
  { data := 8192, count := 3, size := 16,
    rendering := fun data =>
      if data = 8192 then
        some [123, 114, 110, 61, 34, 105, 34, 44, 32, 118, 97, 108, 117, 101, 61, 49, 125]
      else if data = 8208 then
        some [123, 114, 110, 61, 34, 105, 105, 34, 44, 32, 118, 97, 108, 117, 101, 61, 50, 125]
      else
        some [123, 114, 110, 61, 34, 105, 105, 105, 34, 44, 32, 118, 97, 108, 117, 101, 61,
          51, 125] }

/-- The test `valid_input` with the three rows of `sample_provider`. -/
def sample_test_def : ctest_def_test :=
  { name := [118, 97, 108, 105, 100, 95, 105, 110, 112, 117, 116],
    data_provider := some sample_provider }

/-- A provider of one row made with `CT_DATA_PROVIDER(name, "%s", data->text)`, the text of
the row being empty. -/
def empty_text_provider : ctest_def_data_provider :=
  { data := 8192, count := 1, size := 8, rendering := fun _ => some [] }

/-- A test `t` with the provider `empty_text_provider`. -/
def empty_text_test_def : ctest_def_test :=
  { name := [116], data_provider := some empty_text_provider }

/-! ## Streams of frames (src/exec/exec_events.c) -/

/-- The reader `r0` after the header `hdr` of a stage-change message, of whose 4 body bytes
the first `o`, those of `stg`, have arrived. -/
def stage_phase (r0 : exec_event_reader) (hdr stg : List Nat) (o : Nat) : exec_event_reader :=
  { r0 with buf := ReaderBuf.stage, ofs := o, cap := 4, len := 4, header := hdr,
            stage := fill stg r0.stage o,
            on_done := ReaderDone.reader_on_msg_body_done__,
            body_on_done := BodyDone.reader_on_state_change_done__ }

/-- The reader `r0` after it has delivered the stage in `stg`, which arrived after the
header `hdr`: it waits for the next header. -/
def stage_delivered_phase (r0 : exec_event_reader) (hdr stg : List Nat) : exec_event_reader :=
  { r0 with buf := ReaderBuf.header, ofs := 0, cap := 4, len := 4, header := hdr,
            stage := stg,
            on_done := ReaderDone.reader_on_msg_header_done__,
            body_on_done := BodyDone.reader_on_state_change_done__,
            calls := r0.calls ++ [ReaderCall.on_stage_change (le_value stg)] }

/-- The reader waits for a header: `buf` points to the header storage, `ofs` is 0, `cap`
and `len` are 4 and `on_done` is `reader_on_msg_header_done__`. -/
def exec_event_reader.awaiting_header (r : exec_event_reader) : Prop :=
  r.buf = ReaderBuf.header ∧ r.ofs = 0 ∧ r.cap = 4 ∧ r.len = 4 ∧
  r.on_done = ReaderDone.reader_on_msg_header_done__

/-- An event the writer is asked to send. -/
inductive ExecEvent where
  | stage_change (stage : ctest_stage)
  | failure (failure : ctest_failure)
  deriving DecidableEq, Repr

/-- The bytes the writer emits for one event (`exec_event_writer_op_on_stage_change__` or
`exec_event_writer_op_on_failure__`). -/
def event_frame (wbase : Nat) : ExecEvent → Option (List Nat)
  | ExecEvent.stage_change stage => some (exec_event_writer_op_on_stage_change__ stage)
  | ExecEvent.failure failure => exec_event_writer_op_on_failure__ wbase failure

/-- The bytes the writer emits for a sequence of events, frame after frame. -/
def event_stream (wbase : Nat) : List ExecEvent → Option (List Nat)
  | [] => some []
  | e :: rest =>
    match event_frame wbase e, event_stream wbase rest with
    | some frame, some stream => some (frame ++ stream)
    | _, _ => none

/-- The call `c` on the consumer delivers the event `e`: the stage, or a body that reads
back as the failure. -/
def delivers (e : ExecEvent) (c : ReaderCall) : Prop :=
  match e, c with
  | ExecEvent.stage_change stage, ReaderCall.on_stage_change v => v = stage.value
  | ExecEvent.failure failure, ReaderCall.on_failure base body =>
    read_failure base body = some failure
  | _, _ => False

/-- The failure of an event is made of C values, its flattened form takes fewer than 65536
bytes and fits below the end of the address space at the writer's buffer `wbase` and at the
block `malloc` hands the reader, `malloc` not failing. -/
def event_fits (wbase : Nat) (malloc : Nat → Nat) : ExecEvent → Prop
  | ExecEvent.stage_change _ => True
  | ExecEvent.failure f =>
    f.valid ∧ failure_storage_size f < 65536 ∧
    wbase + failure_storage_size f < 18446744073709551616 ∧
    malloc (failure_storage_size f) ≠ 0 ∧
    malloc (failure_storage_size f) + failure_storage_size f < 18446744073709551616

/-- A run of two events: the stage `EXECUTION`, then `sample_failure`. -/
def sample_events : List ExecEvent :=
  [ExecEvent.stage_change ctest_stage.CTEST_STAGE_EXECUTION, ExecEvent.failure sample_failure]

/-- The reader `r0` after the header `hdr` of a failure message of `n` bytes for which
`malloc` returned `NULL`, `o` bytes of the body having been read. -/
def null_phase (r0 : exec_event_reader) (hdr : List Nat) (n o : Nat) : exec_event_reader :=
  { r0 with buf := ReaderBuf.null, ofs := o, cap := n, len := n, header := hdr,
            body_base := 0, body := [],
            on_done := ReaderDone.reader_on_msg_body_done__,
            body_on_done := BodyDone.reader_on_failure_done__ }

/-! ## The `int` results of the formatters (src/exec/failure.c, location.c, stacktrace.c)

The formatters count the bytes they write in a `size_t ofs` and end with `return ofs;` in
a function that returns `int`. The definitions of the namespace `c_int` have this
conversion (modulo `2^32`, the low 32 bits read as two's complement, as on the LP64
platforms) and the `size_t` arithmetic of `ofs += rc`. The definitions of the same names
outside the namespace return the offset itself; they agree with these for failures that
flatten to fewer than `2^31` bytes.
-/

/-- The conversion of a `size_t` to `int`: the low 32 bits, read as two's complement. -/
def to_int (v : Nat) : Int := bits_int (v % 4294967296)

namespace c_int

/-- The function `location_storage_format`, writing to the buffer `buf` that starts at
address `base`: the `int` returned and the buffer afterwards. -/
def location_storage_format (base : Nat) (buf : List Nat) (location : ctest_location) :
    Int × List Nat :=
  if 16 > buf.length then (-1, buf)
  else
    match location.filename with
    | some s =>
      let filename_ofs := serialize_pad_size 16 1
      let ofs := filename_ofs + (s.length + 1)
      if ofs > buf.length then (-1, buf)
      else
        let buf1 := store64 buf 0 (base + filename_ofs)
        let buf2 := write_bytes buf1 filename_ofs (cstring_bytes s)
        -- `return ofs;`
        (to_int ofs, store32 buf2 8 (int_bits location.line))
    | none =>
      let buf1 := store64 buf 0 0
      (to_int 16, store32 buf1 8 (int_bits location.line))

/-- The loop of `stacktrace_storage_format` over the frames from index `i` on, `ofs` being
the end of what is written, and the `return ofs;` after it. -/
def stacktrace_format_loop (base : Nat) :
    List ctest_stackframe → Nat → Nat → List Nat → Int × List Nat
  | [], _, ofs, buf => (to_int ofs, buf)
  | frame :: rest, i, ofs, buf =>
    let dst_stackframe := 8 + 24 * i
    match frame.filename with
    | some s =>
      let file_ofs := serialize_pad_size ofs 1
      let ofs1 := file_ofs + (s.length + 1)
      if ofs1 > buf.length then (-1, buf)
      else
        let buf1 := store64 buf (dst_stackframe + 8) (base + file_ofs)
        let buf2 := write_bytes buf1 file_ofs (cstring_bytes s)
        let buf3 := store64 buf2 dst_stackframe frame.addr
        stacktrace_format_loop base rest (i + 1) ofs1
          (store32 buf3 (dst_stackframe + 16) (int_bits frame.line))
    | none =>
      let buf1 := store64 buf (dst_stackframe + 8) 0
      let buf3 := store64 buf1 dst_stackframe frame.addr
      stacktrace_format_loop base rest (i + 1) ofs
        (store32 buf3 (dst_stackframe + 16) (int_bits frame.line))

/-- The function `stacktrace_storage_format`, writing to the buffer `buf` at address
`base`: the `int` returned and the buffer afterwards. -/
def stacktrace_storage_format (base : Nat) (buf : List Nat) (stacktrace : ctest_stacktrace) :
    Int × List Nat :=
  let ofs := 8 + 24 * stacktrace.frames.length
  if ofs > buf.length then (-1, buf)
  else
    stacktrace_format_loop base stacktrace.frames 0 ofs
      (store64 buf 0 stacktrace.frames.length)

/-- The part of `storage_format__` that lays out the stack trace, from offset `ofs`, and
the `return ofs;` after it. -/
def storage_format_stacktrace (base : Nat) (buf : List Nat) (ofs : Nat)
    (stacktrace : Option ctest_stacktrace) : Int × List Nat :=
  match stacktrace with
  | some s =>
    let ofs1 := serialize_pad_size ofs 8
    if ofs1 > buf.length then (-1, buf)
    else
      let buf1 := store64 buf 24 (base + ofs1)
      let r := stacktrace_storage_format (base + ofs1) (buf1.drop ofs1) s
      if r.1 < 0 then (r.1, buf1.take ofs1 ++ r.2)
      else
        -- `ofs += rc; return ofs;`
        (to_int ((ofs1 + r.1.toNat) % 18446744073709551616), buf1.take ofs1 ++ r.2)
  | none => (to_int ofs, store64 buf 24 0)

/-- The part of `storage_format__` that lays out the location, from offset `ofs`, and goes
on with the stack trace. -/
def storage_format_location (base : Nat) (buf : List Nat) (ofs : Nat)
    (location : Option ctest_location) (stacktrace : Option ctest_stacktrace) :
    Int × List Nat :=
  match location with
  | some l =>
    let ofs1 := serialize_pad_size ofs 8
    if ofs1 > buf.length then (-1, buf)
    else
      let buf1 := store64 buf 16 (base + ofs1)
      let r := location_storage_format (base + ofs1) (buf1.drop ofs1) l
      if r.1 < 0 then (r.1, buf1.take ofs1 ++ r.2)
      else
        -- `ofs += rc;`
        storage_format_stacktrace base (buf1.take ofs1 ++ r.2)
          ((ofs1 + r.1.toNat) % 18446744073709551616) stacktrace
  | none => storage_format_stacktrace base (store64 buf 16 0) ofs stacktrace

/-- The function `storage_format__`, writing to the buffer `buf` at address `base`: the
`int` returned and the buffer afterwards. -/
def storage_format__ (base : Nat) (buf : List Nat) (stage : ctest_stage)
    (description_len : Nat) (location : Option ctest_location)
    (stacktrace : Option ctest_stacktrace) : Int × List Nat :=
  if 32 > buf.length then (-1, buf)
  else
    let buf0 := store32 (List.replicate buf.length 0) 0 stage.value
    if description_len > 0 then
      let description_ofs := serialize_pad_size 32 1
      let ofs := description_ofs + description_len
      if ofs > buf.length then (-1, buf0)
      else
        storage_format_location base (store64 buf0 8 (base + description_ofs)) ofs
          location stacktrace
    else
      storage_format_location base (store64 buf0 8 0) 32 location stacktrace

/-- The function `failure_storage_format`, writing to the buffer `buf` at address `base`:
the `int` returned and the buffer afterwards. The description is copied only when the
value `storage_format__` returned is not negative. -/
def failure_storage_format (base : Nat) (buf : List Nat) (failure : ctest_failure) :
    Int × List Nat :=
  let r := storage_format__ base buf failure.stage (description_len failure.description)
    failure.location failure.stacktrace
  if r.1 ≥ 0 then
    match failure.description with
    | some s => (r.1, write_bytes r.2 (load64 r.2 8 - base) (cstring_bytes s))
    | none => r
  else r

end c_int

/-! ## Runs of the parent's loop (src/exec/forking_runner.c) -/

/-- The reader `r` can be fed the bytes `p` waiting in its descriptor: however the next
reads split them (each handing over at least one byte), further reads drain the descriptor
without an access outside a buffer and leave the reader waiting for a header. -/
def reader_drains (malloc : Nat → Nat) (r : exec_event_reader) (p : List Nat) : Prop :=
  ∀ ws : List Nat, (∀ w ∈ ws, 0 < w) →
    ∃ ws1 r1, (∀ w ∈ ws1, 0 < w) ∧
      reader_feed malloc (ws ++ ws1) r p = some (r1, []) ∧ r1.awaiting_header

/-- A `read` of the execution-hooks descriptor that `poll` announced and that succeeds
hands over at least one byte when bytes wait (`want` is not 0): it returns 0 only at the
end of the data. -/
def PollStep.hooks_read_some (s : PollStep) : Prop :=
  ∀ p, s.hooks = Revents.pollin p → ∀ w, p.read = some w → 0 < w

/-- What holds of the state of `wait_for_child__` in every round of its loop when the read
ends of the pipes are not descriptor 0 and the child sends frames of the event writer:
the execution-hooks descriptor is closed (negative) or positive with a reader that can be
fed what waits; the output descriptor is not 0, its reader is sound and the bytes
collected and waiting are fewer than `2^62`. -/
def wait_state.sound (malloc : Nat → Nat) (st : wait_state) : Prop :=
  (st.hooks_fd < 0 ∨ (0 < st.hooks_fd ∧ reader_drains malloc st.event_reader st.hooks_pipe)) ∧
  st.output_fd ≠ 0 ∧ st.output_reader.sound ∧
  st.output_reader.length + st.output_pipe.length < 4611686018427387904

/-- The events the child of the sample run sends: the stage `EXECUTION`, then
`bare_failure`. -/
def sample_run_events : List ExecEvent :=
  [ExecEvent.stage_change ctest_stage.CTEST_STAGE_EXECUTION, ExecEvent.failure bare_failure]

section PartitionProofs
variable {TC T S : Type} [DecidableEq T] [DecidableEq S]
variable (get_test : TC → T) (get_testsuite : T → S)

theorem memmove_shift {α : Type} (A B C : List α) (x : α) :
    (memmove (A ++ B ++ x :: C) (A.length + 1) A.length B.length).set A.length x
      = A ++ x :: B ++ C := by
  unfold memmove
  have h2 : List.take B.length (List.drop A.length (A ++ B ++ x :: C)) = B := by
    rw [List.append_assoc, List.drop_left]
    simp
  have h3 : List.drop (A.length + 1 + B.length) (A ++ B ++ x :: C) = C := by
    have : A.length + 1 + B.length = (A ++ B ++ [x]).length := by simp; omega
    rw [this]
    have e : A ++ B ++ x :: C = (A ++ B ++ [x]) ++ C := by simp
    rw [e, List.drop_left]
  rw [h2, h3]
  cases B with
  | nil =>
    have h1 : List.take (A.length + 1) (A ++ [] ++ x :: C) = A ++ [x] := by
      rw [List.append_nil, List.take_append_eq_append_take]; simp
    rw [h1]; simp
  | cons b B' =>
    have h1 : List.take (A.length + 1) (A ++ b :: B' ++ x :: C) = A ++ [b] := by
      rw [List.append_assoc, List.take_append_eq_append_take]; simp
    rw [h1, List.append_assoc, List.set_append_right _ _ (by simp)]
    simp

theorem pick_next_cons_skip (test : T) (nt : Option T) (x : TC) (C : List TC)
    (hx : get_test x ≠ test) :
    pick_next get_test get_testsuite test
      (if nt = none ∧ get_testsuite (get_test x) = get_testsuite test then some (get_test x) else nt) C
      = pick_next get_test get_testsuite test nt (x :: C) := by
  cases nt with
  | some t => simp [pick_next]
  | none =>
    by_cases hs : get_testsuite (get_test x) = get_testsuite test
    · simp [pick_next, hs, hx]
    · simp [pick_next, hs, hx]

theorem pick_next_cons_same (test : T) (nt : Option T) (x : TC) (C : List TC)
    (hx : get_test x = test) :
    pick_next get_test get_testsuite test nt C
      = pick_next get_test get_testsuite test nt (x :: C) := by
  cases nt with
  | some t => simp [pick_next]
  | none => simp [pick_next, hx]

theorem read_loop_spec (test : T) : ∀ (C A B : List TC) (nt : Option T),
    read_loop get_test get_testsuite test C.length (A.length + B.length)
        ⟨A ++ B ++ C, A.length, nt⟩
      = ⟨A ++ C.filter (fun c => decide (get_test c = test)) ++ B
            ++ C.filter (fun c => !decide (get_test c = test)),
          A.length + (C.filter (fun c => decide (get_test c = test))).length,
          pick_next get_test get_testsuite test nt C⟩ := by
  intro C
  induction C with
  | nil =>
    intro A B nt
    cases nt <;> simp [read_loop, pick_next]
  | cons x C ih =>
    intro A B nt
    have hget : (A ++ B ++ x :: C)[A.length + B.length]? = some x := by
      have : A.length + B.length = (A ++ B).length := by simp
      rw [this, List.getElem?_append_right (Nat.le_refl _)]
      simp
    rw [List.length_cons, read_loop]
    simp only [hget]
    by_cases hx : get_test x = test
    · have hmv : (if A.length ≠ A.length + B.length then
            (memmove (A ++ B ++ x :: C) (A.length + 1) A.length
              (A.length + B.length - A.length)).set A.length x
          else A ++ B ++ x :: C) = (A ++ [x]) ++ B ++ C := by
        by_cases hB : B = []
        · subst hB; simp
        · have : A.length ≠ A.length + B.length := by
            have := List.length_pos.mpr hB
            omega
          rw [if_pos this, Nat.add_sub_cancel_left, memmove_shift]
          simp
      have hidx : A.length + B.length + 1 = (A ++ [x]).length + B.length := by
        simp; omega
      have hw : A.length + 1 = (A ++ [x]).length := by simp
      simp only [hx, ne_eq, not_true_eq_false, if_false, hmv]
      rw [hidx, hw, ih (A ++ [x]) B nt]
      rw [← pick_next_cons_same get_test get_testsuite test nt x C hx]
      simp [hx, List.filter_cons]
      omega
    · have harr : A ++ B ++ x :: C = A ++ (B ++ [x]) ++ C := by simp
      have hidx : A.length + B.length + 1 = A.length + (B ++ [x]).length := by
        simp; omega
      have key := ih A (B ++ [x])
        (if nt = none ∧ get_testsuite (get_test x) = get_testsuite test
          then some (get_test x) else nt)
      rw [pick_next_cons_skip get_test get_testsuite test nt x C hx] at key
      simp only [ne_eq, hx, not_false_eq_true, if_true]
      by_cases hc : nt = none ∧ get_testsuite (get_test x) = get_testsuite test
      · rw [if_pos hc] at key
        rw [if_pos hc, hidx, harr]
        rw [key]
        simp [hx, List.filter_cons]
      · rw [if_neg hc] at key
        rw [if_neg hc, hidx, harr, key]
        simp [hx, List.filter_cons]

theorem find_first_key {K : Type} [DecidableEq K] (f : TC → K) (q : TC → Bool) :
    ∀ (l : List TC) (c : TC), (∀ a ∈ l, ∀ b ∈ l, f a = f b → q a = q b) →
      l.find? q = some c → ∀ y ∈ l, q y = true → f y ≠ f c →
        (l.map f).indexOf (f c) < (l.map f).indexOf (f y) := by
  intro l
  induction l with
  | nil => intro c _ h; simp at h
  | cons a l ih =>
    intro c hresp hfind y hy hqy hne
    by_cases hqa : q a = true
    · have hc : a = c := by simpa [List.find?_cons, hqa] using hfind
      subst hc
      have hne' : ¬ (f a = f y) := fun h => hne h.symm
      simp [List.indexOf_cons, hne', beq_iff_eq]
    · have hfind' : l.find? q = some c := by
        simpa [List.find?_cons, hqa] using hfind
      have hcl : c ∈ l := List.mem_of_find?_eq_some hfind'
      have hqc : q c = true := List.find?_some hfind'
      have hac : ¬ (f a = f c) := by
        intro h
        have := hresp a (List.mem_cons_self _ _) c (List.mem_cons_of_mem _ hcl) h
        rw [hqc] at this; exact hqa this
      have hay : ¬ (f a = f y) := by
        intro h
        have := hresp a (List.mem_cons_self _ _) y hy h
        rw [hqy] at this; exact hqa this
      have hyl : y ∈ l := by
        rcases List.mem_cons.mp hy with h | h
        · subst h; exact absurd hqy hqa
        · exact h
      have := ih c (fun a ha b hb => hresp a (List.mem_cons_of_mem _ ha) b
        (List.mem_cons_of_mem _ hb)) hfind' y hyl hqy hne
      simp [List.indexOf_cons, hac, hay, beq_iff_eq]
      exact this

theorem pick_next_none_eq (test : T) (rest : List TC) :
    pick_next get_test get_testsuite test none rest
      = (rest.find? (fun c => decide (get_test c ≠ test ∧
          get_testsuite (get_test c) = get_testsuite test))).map get_test := rfl

theorem filter_split_stable (t u : T) (rest : List TC) :
    (rest.filter (fun c => decide (get_test c = t))).filter (fun c => decide (get_test c = u))
      ++ (rest.filter (fun c => !decide (get_test c = t))).filter
          (fun c => decide (get_test c = u))
      = rest.filter (fun c => decide (get_test c = u)) := by
  rw [List.filter_filter, List.filter_filter]
  by_cases h : u = t
  · subst h
    have e1 : rest.filter (fun a => decide (get_test a = u) && decide (get_test a = u))
        = rest.filter (fun c => decide (get_test c = u)) :=
      List.filter_congr (fun x _ => by simp)
    have e2 : rest.filter (fun a => decide (get_test a = u) && !decide (get_test a = u))
        = [] := by
      rw [List.filter_eq_nil_iff]; intro a _; simp
    rw [e1, e2, List.append_nil]
  · have e1 : rest.filter (fun a => decide (get_test a = u) && decide (get_test a = t))
        = [] := by
      rw [List.filter_eq_nil_iff]; intro a _
      simp only [Bool.and_eq_true, decide_eq_true_eq, not_and]
      intro h1 h2; exact h (h1.symm.trans h2)
    have e2 : rest.filter (fun a => decide (get_test a = u) && !decide (get_test a = t))
        = rest.filter (fun c => decide (get_test c = u)) := by
      apply List.filter_congr
      intro x _
      by_cases hx : get_test x = u
      · have : ¬ (get_test x = t) := fun h2 => h (hx.symm.trans h2)
        simp [hx, this]
        exact h
      · simp [hx]
    rw [e1, e2, List.nil_append]

theorem mem_chunk {t : T} {rest : List TC} {x : TC} :
    x ∈ rest.filter (fun c => decide (get_test c = t)) ↔ x ∈ rest ∧ get_test x = t := by
  simp [List.mem_filter]

theorem mem_others {t : T} {rest : List TC} {x : TC} :
    x ∈ rest.filter (fun c => !decide (get_test c = t)) ↔ x ∈ rest ∧ get_test x ≠ t := by
  simp [List.mem_filter]

theorem suite_step (l : List TC) (s : S) (done rest : List TC) (t : T)
    (h : PartSuite get_test get_testsuite l s done rest (some t)) :
    PartSuite get_test get_testsuite l s
      (done ++ rest.filter (fun c => decide (get_test c = t)))
      (rest.filter (fun c => !decide (get_test c = t)))
      (pick_next get_test get_testsuite t none rest) := by
  obtain ⟨hts, ⟨c0, hc0, hc0t⟩, hfirst⟩ := h.next t rfl
  have hchunk_suite : ∀ x ∈ rest.filter (fun c => decide (get_test c = t)),
      get_testsuite (get_test x) = s := by
    intro x hx
    rw [(mem_chunk get_test).mp hx |>.2]; exact hts
  refine ⟨⟨?_, ?_, ?_, ?_, ?_⟩, ?_, ?_, ?_, ?_⟩
  · -- sorted
    rw [List.pairwise_append]
    refine ⟨h.sorted, ?_, ?_⟩
    · apply List.pairwise_of_forall_mem_list
      intro a ha b hb
      left
      rw [((mem_chunk get_test).mp ha).2, ((mem_chunk get_test).mp hb).2]
    · intro a ha b hb
      have hb' := ((mem_chunk get_test).mp hb).1
      obtain ⟨_, h2, h3⟩ := h.cross a ha b hb'
      by_cases hs : get_testsuite (get_test a) = get_testsuite (get_test b)
      · right; left; exact ⟨hs, h2 hs⟩
      · right; right; exact h3 hs
  · -- cross
    intro x hx y hy
    obtain ⟨hyr, hyt⟩ := (mem_others get_test).mp hy
    rcases List.mem_append.mp hx with hx | hx
    · exact h.cross x hx y hyr
    · obtain ⟨_, hxt⟩ := (mem_chunk get_test).mp hx
      have hxs := hchunk_suite x hx
      refine ⟨by rw [hxt]; exact fun e => hyt e.symm, ?_, ?_⟩
      · intro e
        rw [hxt]
        exact hfirst y hyr (by rw [← e, hxs]) hyt
      · intro e
        rw [hxs]
        exact h.later y hyr (by rw [← hxs]; exact fun e' => e e'.symm)
  · -- rest_eq
    have e := h.rest_eq
    calc rest.filter (fun c => !decide (get_test c = t))
        = (l.filter (fun c => decide (get_test c ∉ done.map get_test))).filter
            (fun c => !decide (get_test c = t)) := by rw [← e]
      _ = l.filter (fun c => decide (get_test c ∉
            (done ++ rest.filter (fun c => decide (get_test c = t))).map get_test)) := by
          rw [List.filter_filter]
          apply List.filter_congr
          intro x _
          have key : get_test x ∈ (rest.filter (fun c => decide (get_test c = t))).map get_test
              ↔ get_test x = t := by
            constructor
            · intro hm
              obtain ⟨c, hc, hce⟩ := List.mem_map.mp hm
              rw [← hce]; exact ((mem_chunk get_test).mp hc).2
            · intro hxt
              exact List.mem_map.mpr ⟨c0, (mem_chunk get_test).mpr ⟨hc0, hc0t⟩,
                hc0t.trans hxt.symm⟩
          rw [Bool.eq_iff_iff]
          simp only [Bool.and_eq_true, Bool.not_eq_true', decide_eq_false_iff_not,
            decide_eq_true_eq, List.map_append, List.mem_append, not_or, key]
          exact And.comm
  · -- stable
    intro u
    rw [List.append_assoc, List.filter_append, List.filter_append,
      filter_split_stable, ← List.filter_append]
    exact h.stable u
  · -- perm
    rw [List.append_assoc]
    exact (List.Perm.append_left done (List.filter_append_perm _ rest)).trans h.perm
  · -- later
    intro y hy
    exact h.later y ((mem_others get_test).mp hy).1
  · -- only
    intro x hx y hy e
    rcases List.mem_append.mp hx with hx | hx
    · exact h.only x hx y ((mem_others get_test).mp hy).1 e
    · rw [← e]; exact hchunk_suite x hx
  · -- next
    intro t' ht'
    rw [pick_next_none_eq] at ht'
    obtain ⟨c, hc, hct⟩ := Option.map_eq_some'.mp ht'
    have hcq := List.find?_some hc
    simp only [ne_eq, decide_eq_true_eq] at hcq
    have hcr : c ∈ rest := List.mem_of_find?_eq_some hc
    refine ⟨by rw [← hct, hcq.2, hts], ⟨c, (mem_others get_test).mpr ⟨hcr, hcq.1⟩, hct⟩, ?_⟩
    intro y hy hys hyt'
    obtain ⟨hyr, hyt⟩ := (mem_others get_test).mp hy
    -- c is the first case of rest, hence of l, with an unprocessed test of suite s
    have hfind : l.find? (fun c => decide (get_test c ∉ done.map get_test) &&
        decide (get_test c ≠ t ∧ get_testsuite (get_test c) = get_testsuite t)) = some c := by
      have := hc
      rw [h.rest_eq, List.find?_filter] at this
      simpa using this
    have hyl : y ∈ l := by
      have := hyr; rw [h.rest_eq] at this; exact (List.mem_filter.mp this).1
    have hyq : decide (get_test y ∉ done.map get_test) = true := by
      have := hyr; rw [h.rest_eq] at this; exact (List.mem_filter.mp this).2
    have := find_first_key get_test _ l c
      (fun a _ b _ hab => by simp only [hab]) hfind y hyl
      (by simp only [Bool.and_eq_true, hyq, true_and, decide_eq_true_eq]
          exact ⟨hyt, by rw [hys, hts]⟩)
      (by rw [hct]; exact hyt')
    rw [hct] at this
    exact this
  · -- last
    intro hnone y hy
    obtain ⟨hyr, hyt⟩ := (mem_others get_test).mp hy
    rw [pick_next_none_eq, Option.map_eq_none', List.find?_eq_none] at hnone
    have := hnone y hyr
    simp only [ne_eq, decide_eq_true_eq, not_and] at this
    rw [hts] at this
    exact this hyt

theorem part_head_init (l : List TC) : PartHead get_test get_testsuite l [] l := by
  refine ⟨⟨List.Pairwise.nil, ?_, ?_, ?_, ?_⟩, ?_⟩
  · intro x hx; simp at hx
  · simp
  · intro t; simp
  · simp
  · intro x hx; simp at hx

theorem suite_to_head (l : List TC) (s : S) (done rest : List TC)
    (h : PartSuite get_test get_testsuite l s done rest none) :
    PartHead get_test get_testsuite l done rest :=
  ⟨h.toPartBase, fun x hx y hy e => h.last rfl y hy (h.only x hx y hy e)⟩

theorem head_to_suite (l : List TC) (done : List TC) (c : TC) (rest0 : List TC)
    (h : PartHead get_test get_testsuite l done (c :: rest0)) :
    PartSuite get_test get_testsuite l (get_testsuite (get_test c)) done (c :: rest0)
      (some (get_test c)) := by
  have hfind : l.find? (fun c => decide (get_test c ∉ done.map get_test)) = some c := by
    rw [← List.filter_head?, ← h.rest_eq]; rfl
  have hmem : ∀ y ∈ c :: rest0, y ∈ l ∧ decide (get_test y ∉ done.map get_test) = true := by
    intro y hy
    have := hy; rw [h.rest_eq] at this; exact List.mem_filter.mp this
  refine ⟨h.toPartBase, ?_, ?_, ?_, ?_⟩
  · intro y hy hne
    have hresp : ∀ a ∈ l, ∀ b ∈ l,
        get_testsuite (get_test a) = get_testsuite (get_test b) →
        decide (get_test a ∉ done.map get_test) = decide (get_test b ∉ done.map get_test) := by
      have one : ∀ a ∈ l, ∀ b ∈ l,
          get_testsuite (get_test a) = get_testsuite (get_test b) →
          get_test a ∉ done.map get_test → get_test b ∉ done.map get_test := by
        intro a ha b _ hab hqa hqb
        obtain ⟨x, hx, hxe⟩ := List.mem_map.mp hqb
        have har : a ∈ c :: rest0 := by
          rw [h.rest_eq]; exact List.mem_filter.mpr ⟨ha, by simpa using hqa⟩
        exact h.split x hx a har (by rw [hxe, hab])
      intro a ha b hb hab
      rw [Bool.eq_iff_iff]
      simp only [decide_eq_true_eq]
      exact ⟨one a ha b hb hab, one b hb a ha hab.symm⟩
    exact find_first_key (fun c => get_testsuite (get_test c)) _ l c hresp hfind y
      (hmem y hy).1 (hmem y hy).2 hne
  · intro x hx y hy e
    exact absurd e (h.split x hx y hy)
  · intro t ht
    cases ht
    refine ⟨rfl, ⟨c, List.mem_cons_self _ _, rfl⟩, ?_⟩
    intro y hy _ hne
    exact find_first_key get_test _ l c (fun a _ b _ hab => by simp only [hab]) hfind y
      (hmem y hy).1 (hmem y hy).2 hne
  · intro hn; cases hn

theorem test_loop_none (fuel : Nat) (a : List TC) (w : Nat) :
    test_loop get_test get_testsuite fuel ⟨a, w, none⟩ = some ⟨a, w, none⟩ := by
  cases fuel <;> simp [test_loop]

theorem test_loop_some (fuel : Nat) (a : List TC) (w : Nat) (t : T) :
    test_loop get_test get_testsuite (fuel + 1) ⟨a, w, some t⟩
      = test_loop get_test get_testsuite fuel
          (read_loop get_test get_testsuite t (a.length - w) w ⟨a, w, none⟩) := rfl

theorem read_loop_from_write (t : T) (done rest : List TC) :
    read_loop get_test get_testsuite t ((done ++ rest).length - done.length) done.length
        ⟨done ++ rest, done.length, none⟩
      = ⟨(done ++ rest.filter (fun c => decide (get_test c = t)))
            ++ rest.filter (fun c => !decide (get_test c = t)),
          (done ++ rest.filter (fun c => decide (get_test c = t))).length,
          pick_next get_test get_testsuite t none rest⟩ := by
  have := read_loop_spec get_test get_testsuite t rest done [] none
  simp only [List.length_nil, Nat.add_zero, List.append_nil] at this
  rw [List.length_append, Nat.add_sub_cancel_left, this, List.length_append]

theorem test_loop_spec (l : List TC) (s : S) : ∀ (fuel : Nat) (done rest : List TC)
    (nt : Option T), rest.length ≤ fuel →
    PartSuite get_test get_testsuite l s done rest nt →
    ∃ done' rest', test_loop get_test get_testsuite fuel ⟨done ++ rest, done.length, nt⟩
        = some ⟨done' ++ rest', done'.length, none⟩ ∧
      PartHead get_test get_testsuite l done' rest' ∧ rest'.length ≤ rest.length := by
  intro fuel
  induction fuel with
  | zero =>
    intro done rest nt hlen h
    cases nt with
    | none =>
      exact ⟨done, rest, test_loop_none get_test get_testsuite 0 _ _,
        suite_to_head get_test get_testsuite l s done rest h, Nat.le_refl _⟩
    | some t =>
      obtain ⟨_, ⟨c, hc, _⟩, _⟩ := h.next t rfl
      have := List.length_pos_of_mem hc
      omega
  | succ fuel ih =>
    intro done rest nt hlen h
    cases nt with
    | none =>
      exact ⟨done, rest, test_loop_none get_test get_testsuite _ _ _,
        suite_to_head get_test get_testsuite l s done rest h, Nat.le_refl _⟩
    | some t =>
      obtain ⟨_, ⟨c, hc, hct⟩, _⟩ := h.next t rfl
      have hshort : (rest.filter (fun c => !decide (get_test c = t))).length < rest.length := by
        apply List.length_filter_lt_length_iff_exists.mpr
        exact ⟨c, hc, by simp [hct]⟩
      have hstep := suite_step get_test get_testsuite l s done rest t h
      obtain ⟨done', rest', he, hh, hl⟩ := ih _ _ _ (by omega) hstep
      refine ⟨done', rest', ?_, hh, by omega⟩
      rw [test_loop_some, read_loop_from_write, he]

theorem write_loop_spec (l : List TC) : ∀ (fuel : Nat) (done rest : List TC),
    rest.length ≤ fuel → PartHead get_test get_testsuite l done rest →
    ∃ out, write_loop get_test get_testsuite fuel (done ++ rest) done.length = some out ∧
      PartHead get_test get_testsuite l out [] := by
  intro fuel
  induction fuel with
  | zero =>
    intro done rest hlen h
    have : rest = [] := List.length_eq_zero.mp (Nat.le_zero.mp hlen)
    subst this
    refine ⟨done, ?_, by simpa using h⟩
    simp [write_loop]
  | succ fuel ih =>
    intro done rest hlen h
    cases rest with
    | nil =>
      refine ⟨done, ?_, by simpa using h⟩
      simp [write_loop]
    | cons c rest0 =>
      have hget : (done ++ c :: rest0)[done.length]? = some c := by
        rw [List.getElem?_append_right (Nat.le_refl _)]; simp
      have hs := suite_step get_test get_testsuite l _ done (c :: rest0) (get_test c)
        (head_to_suite get_test get_testsuite l done c rest0 h)
      have hshort : ((c :: rest0).filter (fun x => !decide (get_test x = get_test c))).length
          ≤ rest0.length := by
        have : (c :: rest0).filter (fun x => !decide (get_test x = get_test c))
            = rest0.filter (fun x => !decide (get_test x = get_test c)) := by
          simp [List.filter_cons]
        rw [this]; exact List.length_filter_le _ _
      have hfuel : ((c :: rest0).filter (fun x => !decide (get_test x = get_test c))).length
          ≤ (done ++ c :: rest0).length := by
        rw [List.length_append, List.length_cons]; omega
      obtain ⟨done', rest', he, hh, hl⟩ := test_loop_spec get_test get_testsuite l _ (done ++ c :: rest0).length _ _ _
        hfuel hs
      obtain ⟨out, hout, hfin⟩ := ih done' rest'
        (by simp only [List.length_cons] at hlen; omega) hh
      refine ⟨out, ?_, hfin⟩
      have hfirst : test_loop get_test get_testsuite ((done ++ c :: rest0).length + 1)
          ⟨done ++ c :: rest0, done.length + 1, some (get_test c)⟩
          = some ⟨done' ++ rest', done'.length, none⟩ := by
        rw [test_loop_some, ← he]
        congr 1
        have e1 : done ++ c :: rest0 = (done ++ [c]) ++ rest0 := by simp
        have e2 : done.length + 1 = (done ++ [c]).length := by simp
        rw [e1, e2, read_loop_from_write,
          ← pick_next_cons_same get_test get_testsuite (get_test c) none c rest0 rfl]
        simp [List.filter_cons]
      rw [write_loop]
      simp only [hget]
      rw [hfirst]
      exact hout

theorem repartition_invariant (l : List TC) :
    ∃ out, repartition_testcases__ get_test get_testsuite true l = some out ∧
      PartHead get_test get_testsuite l out [] := by
  have := write_loop_spec get_test get_testsuite l l.length [] l (Nat.le_refl _)
    (part_head_init get_test get_testsuite l)
  simpa [repartition_testcases__] using this

theorem pairwise_at {α : Type} {R : α → α → Prop} {l : List α} (h : l.Pairwise R)
    {i j : Nat} {x y : α} (hij : i < j) (hx : l[i]? = some x) (hy : l[j]? = some y) :
    R x y := by
  obtain ⟨hi, rfl⟩ := List.getElem?_eq_some.mp hx
  obtain ⟨hj, rfl⟩ := List.getElem?_eq_some.mp hy
  exact List.pairwise_iff_getElem.mp h i j hi hj hij

/-- C1. In the sequence produced by `repartition_testcases__`, the cases of one test occupy
consecutive positions, and so do the cases whose tests belong to one suite: a case that
stands between two cases of the same test (suite) belongs to that test (suite). -/
theorem repartition_testcases_contiguous (l : List TC) :
    ∃ out, repartition_testcases__ get_test get_testsuite true l = some out ∧
      (∀ (i j k : Nat) (x y z : TC), i < j → j < k →
        out[i]? = some x → out[j]? = some y → out[k]? = some z →
        get_test x = get_test z → get_test y = get_test x) ∧
      (∀ (i j k : Nat) (x y z : TC), i < j → j < k →
        out[i]? = some x → out[j]? = some y → out[k]? = some z →
        get_testsuite (get_test x) = get_testsuite (get_test z) →
        get_testsuite (get_test y) = get_testsuite (get_test x)) := by
  obtain ⟨out, ho, hinv⟩ := repartition_invariant get_test get_testsuite l
  refine ⟨out, ho, ?_, ?_⟩
  · intro i j k x y z hij hjk hx hy hz hxz
    have hxy := pairwise_at hinv.sorted hij hx hy
    have hyz := pairwise_at hinv.sorted hjk hy hz
    unfold grouped_before at hxy hyz
    rcases hxy with h | ⟨h1, h2⟩ | h
    · exact h.symm
    · rcases hyz with g | ⟨_, g2⟩ | g
      · rw [g, ← hxz] at h2; exact absurd h2 (Nat.lt_irrefl _)
      · rw [← hxz] at g2; exact absurd (Nat.lt_trans h2 g2) (Nat.lt_irrefl _)
      · rw [← h1, ← hxz] at g; exact absurd g (Nat.lt_irrefl _)
    · rcases hyz with g | ⟨g1, _⟩ | g
      · rw [g, ← hxz] at h; exact absurd h (Nat.lt_irrefl _)
      · rw [g1, ← hxz] at h; exact absurd h (Nat.lt_irrefl _)
      · rw [← hxz] at g; exact absurd (Nat.lt_trans h g) (Nat.lt_irrefl _)
  · intro i j k x y z hij hjk hx hy hz hxz
    have hxy := pairwise_at hinv.sorted hij hx hy
    have hyz := pairwise_at hinv.sorted hjk hy hz
    unfold grouped_before at hxy hyz
    rcases hxy with h | ⟨h1, _⟩ | h
    · rw [h]
    · exact h1.symm
    · rcases hyz with g | ⟨g1, _⟩ | g
      · rw [g, ← hxz] at h; exact absurd h (Nat.lt_irrefl _)
      · rw [g1, ← hxz] at h; exact absurd h (Nat.lt_irrefl _)
      · rw [← hxz] at g; exact absurd (Nat.lt_trans h g) (Nat.lt_irrefl _)

/-- C2. The output of `repartition_testcases__` is a permutation of the input, of the same
length, and for every test the cases of that test come in the output in the order they
have in the input. -/
theorem repartition_testcases_stable_perm (l : List TC) :
    ∃ out, repartition_testcases__ get_test get_testsuite true l = some out ∧
      out.Perm l ∧ out.length = l.length ∧
      ∀ t : T, out.filter (fun c => decide (get_test c = t))
        = l.filter (fun c => decide (get_test c = t)) := by
  obtain ⟨out, ho, hinv⟩ := repartition_invariant get_test get_testsuite l
  have hp : out.Perm l := by simpa using hinv.perm
  exact ⟨out, ho, hp, hp.length_eq, fun t => by simpa using hinv.stable t⟩

/-- C3. `repartition_testcases__` orders the groups by first occurrence: a case of one suite
stands before a case of another suite exactly when the first suite occurs first in the
input, and inside a suite a case of one test stands before a case of another test exactly
when the first test occurs first in the input; the input `[a1, b1, a2, c1, b2, a3]`
yields `[a1, a2, a3, b1, b2, c1]`. -/
theorem repartition_testcases_first_occurrence (l : List TC) :
    (∃ out, repartition_testcases__ get_test get_testsuite true l = some out ∧
      (∀ (i j : Nat) (x y : TC), out[i]? = some x → out[j]? = some y →
        get_testsuite (get_test x) ≠ get_testsuite (get_test y) →
        (i < j ↔ first_case_of_suite get_test get_testsuite l (get_testsuite (get_test x))
          < first_case_of_suite get_test get_testsuite l (get_testsuite (get_test y)))) ∧
      (∀ (i j : Nat) (x y : TC), out[i]? = some x → out[j]? = some y →
        get_testsuite (get_test x) = get_testsuite (get_test y) →
        get_test x ≠ get_test y →
        (i < j ↔ first_case_of_test get_test l (get_test x)
          < first_case_of_test get_test l (get_test y)))) ∧
    repartition_testcases__ ExCase.test ExTest.suite true
        [ExCase.a1, ExCase.b1, ExCase.a2, ExCase.c1, ExCase.b2, ExCase.a3]
      = some [ExCase.a1, ExCase.a2, ExCase.a3, ExCase.b1, ExCase.b2, ExCase.c1] := by
  refine ⟨?_, by decide⟩
  obtain ⟨out, ho, hinv⟩ := repartition_invariant get_test get_testsuite l
  refine ⟨out, ho, ?_, ?_⟩
  · intro i j x y hx hy hne
    constructor
    · intro hij
      rcases pairwise_at hinv.sorted hij hx hy with h | ⟨h1, _⟩ | h
      · exact absurd (by rw [h]) hne
      · exact absurd h1 hne
      · exact h
    · intro hk
      rcases Nat.lt_trichotomy i j with h | h | h
      · exact h
      · subst h; rw [hx] at hy; cases hy; exact absurd rfl hne
      · rcases pairwise_at hinv.sorted h hy hx with g | ⟨g1, _⟩ | g
        · exact absurd (by rw [g]) hne
        · exact absurd g1.symm hne
        · exact absurd (Nat.lt_trans hk g) (Nat.lt_irrefl _)
  · intro i j x y hx hy hs hne
    constructor
    · intro hij
      rcases pairwise_at hinv.sorted hij hx hy with h | ⟨_, h2⟩ | h
      · exact absurd h hne
      · exact h2
      · rw [hs] at h; exact absurd h (Nat.lt_irrefl _)
    · intro hk
      rcases Nat.lt_trichotomy i j with h | h | h
      · exact h
      · subst h; rw [hx] at hy; cases hy; exact absurd rfl hne
      · rcases pairwise_at hinv.sorted h hy hx with g | ⟨_, g2⟩ | g
        · exact absurd g.symm hne
        · exact absurd (Nat.lt_trans hk g2) (Nat.lt_irrefl _)
        · rw [hs] at g; exact absurd g (Nat.lt_irrefl _)

end PartitionProofs

section DispatchProofs
variable {TC T S : Type}

end DispatchProofs

section RunCasesProofs
variable {TC T S : Type} [DecidableEq TC] [DecidableEq T] [DecidableEq S]
variable (get_test : TC → T) (get_testsuite : T → S)

theorem mem_changes {K : Type} [DecidableEq K] (y : K) :
    ∀ (ks : List K) (prev : Option K), y ∈ changes prev ks → y ∈ ks := by
  intro ks
  induction ks with
  | nil => intro prev h; simp [changes] at h
  | cons k ks ih =>
    intro prev h
    rw [changes, List.mem_append] at h
    rcases h with h | h
    · by_cases hp : prev = some k
      · simp [hp] at h
      · simp only [hp, if_false, List.mem_singleton] at h
        rw [h]; exact List.mem_cons_self _ _
    · exact List.mem_cons_of_mem _ (ih _ h)

theorem mem_changes_some {K : Type} [DecidableEq K] (y k : K) :
    ∀ ks : List K, y ∈ changes (some k) ks → y ∈ ks.dropWhile (fun a => decide (a = k)) := by
  intro ks
  induction ks with
  | nil => intro h; simp [changes] at h
  | cons a ks ih =>
    intro h
    by_cases hak : a = k
    · subst hak
      rw [changes] at h
      simp only [if_true, List.nil_append] at h
      rw [List.dropWhile_cons]
      simp only [decide_True, if_true]
      exact ih h
    · rw [List.dropWhile_cons]
      simp only [hak, decide_False, Bool.false_eq_true, if_false]
      exact mem_changes y _ _ h

theorem changes_complete {K : Type} [DecidableEq K] (y : K) :
    ∀ (ks : List K) (prev : Option K), y ∈ ks → y ∈ changes prev ks ∨ prev = some y := by
  intro ks
  induction ks with
  | nil => intro prev h; simp at h
  | cons k ks ih =>
    intro prev h
    rw [changes, List.mem_append]
    rcases List.mem_cons.mp h with h | h
    · subst h
      by_cases hp : prev = some y
      · exact Or.inr hp
      · left; left; simp [hp]
    · rcases ih (some k) h with h1 | h1
      · exact Or.inl (Or.inr h1)
      · have : k = y := Option.some.inj h1
        subst this
        by_cases hp : prev = some k
        · exact Or.inr hp
        · left; left; simp [hp]

theorem changes_skip {K : Type} [DecidableEq K] (k : K) :
    ∀ (run ks : List K), (∀ a ∈ run, a = k) →
      changes (some k) (run ++ ks) = changes (some k) ks := by
  intro run
  induction run with
  | nil => intro ks _; rfl
  | cons a run ih =>
    intro ks h
    have ha : a = k := h a (List.mem_cons_self _ _)
    subst ha
    rw [List.cons_append, changes]
    simp only [if_true, List.nil_append]
    exact ih ks (fun b hb => h b (List.mem_cons_of_mem _ hb))

theorem changes_head_ne {K : Type} [DecidableEq K] (k : K) (ks : List K)
    (h : ∀ a, ks.head? = some a → a ≠ k) :
    changes (some k) ks = changes none ks := by
  cases ks with
  | nil => rfl
  | cons a ks =>
    have : a ≠ k := h a rfl
    have h1 : ¬ (some k = some a) := fun e => this (Option.some.inj e).symm
    simp [changes, h1]

theorem no_return {K : Type} [DecidableEq K] (lt : K → K → Prop)
    (hirr : ∀ a, ¬ lt a a) (htrans : ∀ a b c, lt a b → lt b c → lt a c)
    (k : K) (rest : List K)
    (h : (k :: rest).Pairwise (fun a b => a = b ∨ lt a b)) :
    ∀ y ∈ rest.dropWhile (fun a => decide (a = k)), y ≠ k := by
  obtain ⟨hk, hrest⟩ := List.pairwise_cons.mp h
  have hsub : (rest.dropWhile (fun a => decide (a = k))).Sublist rest :=
    (List.dropWhile_suffix _).sublist
  have hd := hrest.sublist hsub
  cases hdw : rest.dropWhile (fun a => decide (a = k)) with
  | nil => intro y hy; simp at hy
  | cons z tail =>
    have hz : z ≠ k := by
      have := List.head_dropWhile_not (fun a => decide (a = k)) rest
        (by rw [hdw]; simp)
      simp only [hdw, List.head_cons, decide_eq_true_eq] at this
      simpa using this
    have hzr : z ∈ rest := hsub.subset (by rw [hdw]; exact List.mem_cons_self _ _)
    have hkz : lt k z := by
      rcases hk z hzr with e | e
      · exact absurd e.symm hz
      · exact e
    rw [hdw] at hd
    obtain ⟨hzt, _⟩ := List.pairwise_cons.mp hd
    intro y hy
    rcases List.mem_cons.mp hy with e | e
    · rw [e]; exact hz
    · intro hyk
      rcases hzt y e with e1 | e1
      · exact hz (e1.trans hyk)
      · rw [hyk] at e1
        exact hirr k (htrans k z k hkz e1)

theorem nodup_changes {K : Type} [DecidableEq K] (lt : K → K → Prop)
    (hirr : ∀ a, ¬ lt a a) (htrans : ∀ a b c, lt a b → lt b c → lt a c) :
    ∀ (ks : List K), ks.Pairwise (fun a b => a = b ∨ lt a b) →
      ∀ prev, (changes prev ks).Nodup := by
  intro ks
  induction ks with
  | nil => intro _ prev; simp [changes]
  | cons k ks ih =>
    intro h prev
    have htail := ih (List.pairwise_cons.mp h).2 (some k)
    have hk : k ∉ changes (some k) ks := fun hm =>
      no_return lt hirr htrans k ks h k (mem_changes_some k k ks hm) rfl
    rw [changes]
    by_cases hp : prev = some k
    · simpa [hp] using htail
    · simp only [hp, if_false, List.singleton_append]
      exact List.nodup_cons.mpr ⟨hk, htail⟩

theorem nest_run_append (st : NestState TC T S) (a b : List (RunEvent TC T S)) :
    nest_run get_test get_testsuite st (a ++ b)
      = (nest_run get_test get_testsuite st a).bind
          (fun st1 => nest_run get_test get_testsuite st1 b) := by
  induction a generalizing st with
  | nil => rfl
  | cons e a ih =>
    rw [List.cons_append, nest_run, nest_run]
    cases nest_step get_test get_testsuite st e with
    | none => rfl
    | some st1 => exact ih st1

theorem in_test_never_fails (env : RunEnv TC T S) (hnf : env.never_fails) (t : T)
    (s : Option S) : ∀ (cases : List TC) (result : Int) (log : List (RunEvent TC T S)),
      (∀ c ∈ cases, get_test c = t) → 0 ≤ result →
      ∃ new, (run_testcases_in_test__ env t cases result log).2 = log ++ new ∧
        0 ≤ (run_testcases_in_test__ env t cases result log).1 ∧
        new.filterMap RunEvent.run_case = cases ∧
        new.filterMap RunEvent.opened_suite = [] ∧
        new.filterMap RunEvent.opened_test = [] ∧
        nest_run get_test get_testsuite ⟨s, some t, none⟩ new = some ⟨s, some t, none⟩ := by
  obtain ⟨_, _, hc, hr⟩ := hnf
  intro cases
  induction cases with
  | nil =>
    intro result log _ h0
    exact ⟨[], by simp [run_testcases_in_test__], by simpa [run_testcases_in_test__] using h0,
      rfl, rfl, rfl, rfl⟩
  | cons c rest ih =>
    intro result log hall h0
    have hct : get_test c = t := hall c (List.mem_cons_self _ _)
    rw [run_testcases_in_test__]
    simp only [hc, if_true]
    have hrc := hr (log ++ [RunEvent.report_testcase t c true]) t c
    generalize env.run_testcase (log ++ [RunEvent.report_testcase t c true]) t c = rc at hrc
    have hneg : ¬ rc < 0 := by omega
    simp only [hneg, if_false]
    obtain ⟨new, h1, h2, h3, h4, h5, h6⟩ := ih (result + (if rc > 0 then 1 else 0))
      (log ++ [RunEvent.report_testcase t c true] ++
        [RunEvent.run_testcase t c rc, RunEvent.testcase_reporter_destroy c])
      (fun x hx => hall x (List.mem_cons_of_mem _ hx))
      (by by_cases hp : rc > 0 <;> simp [hp] <;> omega)
    refine ⟨[RunEvent.report_testcase t c true, RunEvent.run_testcase t c rc,
        RunEvent.testcase_reporter_destroy c] ++ new, by rw [h1]; simp, h2, ?_, ?_, ?_, ?_⟩
    · rw [List.filterMap_append, h3]; simp [RunEvent.run_case]
    · rw [List.filterMap_append, h4]; simp [RunEvent.opened_suite]
    · rw [List.filterMap_append, h5]; simp [RunEvent.opened_test]
    · rw [nest_run_append]
      have : nest_run get_test get_testsuite ⟨s, some t, none⟩
          [RunEvent.report_testcase t c true, RunEvent.run_testcase t c rc,
            RunEvent.testcase_reporter_destroy c] = some ⟨s, some t, none⟩ := by
        simp [nest_run, nest_step, hct]
      rw [this]; exact h6

theorem same_test_count_take (test : T) : ∀ rest : List TC,
    ∀ c ∈ rest.take (same_test_count get_test test rest), get_test c = test := by
  intro rest
  induction rest with
  | nil => intro c hc; simp at hc
  | cons a rest ih =>
    intro c hc
    rw [same_test_count] at hc
    by_cases ha : get_test a = test
    · simp only [ha, ne_eq, not_true_eq_false, if_false, List.take_succ_cons,
        List.mem_cons] at hc
      rcases hc with e | e
      · rw [e]; exact ha
      · exact ih c e
    · simp [ha] at hc

theorem same_test_count_drop (test : T) : ∀ rest : List TC,
    ∀ a, (rest.drop (same_test_count get_test test rest)).head? = some a →
      get_test a ≠ test := by
  intro rest
  induction rest with
  | nil => intro a h; simp at h
  | cons b rest ih =>
    intro a h
    rw [same_test_count] at h
    by_cases hb : get_test b = test
    · simp only [hb, ne_eq, not_true_eq_false, if_false, List.drop_succ_cons] at h
      exact ih a h
    · simp only [ne_eq, hb, not_false_eq_true, if_true, List.drop_zero, List.head?_cons,
        Option.some.injEq] at h
      rw [← h]; exact hb

theorem loop_step (env : RunEnv TC T S) (hnf : env.never_fails) (fuel : Nat)
    (first : TC) (tl : List TC) (cur : Option S) (res : Int) (log : List (RunEvent TC T S)) :
    run_testcases_loop get_test get_testsuite env (fuel + 1) (first :: tl) ⟨cur, cur, res, log⟩
      = run_testcases_loop get_test get_testsuite env fuel
          (tl.drop (same_test_count get_test (get_test first) tl))
          ⟨some (get_testsuite (get_test first)), some (get_testsuite (get_test first)),
            res + (run_testcases_in_test__ env (get_test first)
              (first :: tl.take (same_test_count get_test (get_test first) tl)) 0
              (log ++ open_calls cur (get_testsuite (get_test first)) ++
                [RunEvent.report_test (get_testsuite (get_test first)) (get_test first)
                  true])).1,
            (run_testcases_in_test__ env (get_test first)
              (first :: tl.take (same_test_count get_test (get_test first) tl)) 0
              (log ++ open_calls cur (get_testsuite (get_test first)) ++
                [RunEvent.report_test (get_testsuite (get_test first)) (get_test first)
                  true])).2 ++ [RunEvent.test_reporter_destroy (get_test first)]⟩ := by
  obtain ⟨hs, ht, _, _⟩ := id hnf
  have hgroup : ∀ c ∈ first :: tl.take (same_test_count get_test (get_test first) tl),
      get_test c = get_test first := by
    intro c hc
    rcases List.mem_cons.mp hc with e | e
    · rw [e]
    · exact same_test_count_take get_test _ tl c e
  have hneg : ∀ lg, ¬ (run_testcases_in_test__ env (get_test first)
      (first :: tl.take (same_test_count get_test (get_test first) tl)) 0 lg).1 < 0 := by
    intro lg
    obtain ⟨_, _, h, _⟩ := in_test_never_fails get_test get_testsuite env hnf (get_test first)
      none _ 0 lg hgroup (Int.le_refl 0)
    omega
  rw [run_testcases_loop]
  by_cases hc : cur = some (get_testsuite (get_test first))
  · subst hc
    simp [open_calls, ht, hneg]
  · cases cur with
    | none => simp [open_calls, hs, ht, hneg]
    | some r => simp [open_calls, hc, hs, ht, hneg]

theorem open_calls_nest (cur : Option S) (this : S) :
    nest_run get_test get_testsuite ⟨cur, none, none⟩ (open_calls cur this)
      = some ⟨some this, none, (none : Option (TC × Bool))⟩ := by
  unfold open_calls
  by_cases hc : cur = some this
  · subst hc; simp [nest_run]
  · cases cur <;> simp [hc, nest_run, nest_step]

theorem open_calls_suite (cur : Option S) (this : S) :
    (open_calls cur this : List (RunEvent TC T S)).filterMap RunEvent.opened_suite
      = if cur = some this then [] else [this] := by
  unfold open_calls
  by_cases hc : cur = some this
  · simp [hc]
  · cases cur <;> simp [hc, RunEvent.opened_suite]

theorem open_calls_other (cur : Option S) (this : S) :
    (open_calls cur this : List (RunEvent TC T S)).filterMap RunEvent.run_case = [] ∧
    (open_calls cur this : List (RunEvent TC T S)).filterMap RunEvent.opened_test = [] := by
  unfold open_calls
  by_cases hc : cur = some this
  · simp [hc]
  · cases cur <;> simp [hc, RunEvent.run_case, RunEvent.opened_test]

theorem loop_never_fails (env : RunEnv TC T S) (hnf : env.never_fails) :
    ∀ (fuel : Nat) (rest : List TC) (cur : Option S) (res : Int)
      (log : List (RunEvent TC T S)), rest.length ≤ fuel → 0 ≤ res →
      ∃ new cur1 res1,
        run_testcases_loop get_test get_testsuite env fuel rest ⟨cur, cur, res, log⟩
          = some ⟨cur1, cur1, res1, log ++ new⟩ ∧
        0 ≤ res1 ∧
        new.filterMap RunEvent.run_case = rest ∧
        new.filterMap RunEvent.opened_suite
          = changes cur (rest.map (fun c => get_testsuite (get_test c))) ∧
        new.filterMap RunEvent.opened_test = changes none (rest.map get_test) ∧
        nest_run get_test get_testsuite ⟨cur, none, none⟩ new = some ⟨cur1, none, none⟩ := by
  intro fuel
  induction fuel with
  | zero =>
    intro rest cur res log hlen h0
    have : rest = [] := List.length_eq_zero.mp (Nat.le_zero.mp hlen)
    subst this
    exact ⟨[], cur, res, by simp [run_testcases_loop], h0, rfl, rfl, rfl, rfl⟩
  | succ fuel ih =>
    intro rest cur res log hlen h0
    cases rest with
    | nil => exact ⟨[], cur, res, by simp [run_testcases_loop], h0, rfl, rfl, rfl, rfl⟩
    | cons first tl =>
      have hgroup : ∀ c ∈ first :: tl.take (same_test_count get_test (get_test first) tl),
          get_test c = get_test first := by
        intro c hc
        rcases List.mem_cons.mp hc with e | e
        · rw [e]
        · exact same_test_count_take get_test _ tl c e
      obtain ⟨inner, hi1, hi2, hi3, hi4, hi5, hi6⟩ := in_test_never_fails get_test get_testsuite
        env hnf (get_test first) (some (get_testsuite (get_test first)))
        (first :: tl.take (same_test_count get_test (get_test first) tl)) 0
        (log ++ open_calls cur (get_testsuite (get_test first)) ++
          [RunEvent.report_test (get_testsuite (get_test first)) (get_test first) true])
        hgroup (Int.le_refl 0)
      rw [loop_step get_test get_testsuite env hnf, hi1]
      obtain ⟨new, cur1, res1, hr1, hr2, hr3, hr4, hr5, hr6⟩ :=
        ih (tl.drop (same_test_count get_test (get_test first) tl))
          (some (get_testsuite (get_test first)))
          (res + (run_testcases_in_test__ env (get_test first)
            (first :: tl.take (same_test_count get_test (get_test first) tl)) 0
            (log ++ open_calls cur (get_testsuite (get_test first)) ++
              [RunEvent.report_test (get_testsuite (get_test first)) (get_test first)
                true])).1)
          (log ++ open_calls cur (get_testsuite (get_test first)) ++
            [RunEvent.report_test (get_testsuite (get_test first)) (get_test first) true]
            ++ inner ++ [RunEvent.test_reporter_destroy (get_test first)])
          (by simp only [List.length_drop, List.length_cons] at hlen ⊢; omega)
          (by omega)
      refine ⟨open_calls cur (get_testsuite (get_test first)) ++
        [RunEvent.report_test (get_testsuite (get_test first)) (get_test first) true]
        ++ inner ++ [RunEvent.test_reporter_destroy (get_test first)] ++ new, cur1, res1,
        ?_, hr2, ?_, ?_, ?_, ?_⟩
      · rw [hr1]; simp only [List.append_assoc]
      · simp only [List.filterMap_append, (open_calls_other cur _).1, hi3, hr3,
          List.nil_append]
        simp [RunEvent.run_case]
      · simp only [List.filterMap_append, open_calls_suite, hi4, hr4, List.nil_append]
        have hskip := changes_skip (get_testsuite (get_test first))
          ((tl.take (same_test_count get_test (get_test first) tl)).map
            (fun c => get_testsuite (get_test c)))
          ((tl.drop (same_test_count get_test (get_test first) tl)).map
            (fun c => get_testsuite (get_test c)))
          (by
            intro a ha
            obtain ⟨c, hc, hce⟩ := List.mem_map.mp ha
            rw [← hce, same_test_count_take get_test _ tl c hc])
        rw [← List.map_append, List.take_append_drop] at hskip
        rw [List.map_cons, changes, hskip]
        simp [RunEvent.opened_suite]
      · simp only [List.filterMap_append, (open_calls_other cur _).2, hi5, hr5,
          List.nil_append]
        have hskip := changes_skip (get_test first)
          ((tl.take (same_test_count get_test (get_test first) tl)).map get_test)
          ((tl.drop (same_test_count get_test (get_test first) tl)).map get_test)
          (by
            intro a ha
            obtain ⟨c, hc, hce⟩ := List.mem_map.mp ha
            rw [← hce, same_test_count_take get_test _ tl c hc])
        rw [← List.map_append, List.take_append_drop] at hskip
        have hhead := changes_head_ne (get_test first)
          ((tl.drop (same_test_count get_test (get_test first) tl)).map get_test)
          (by
            intro a ha
            rw [List.head?_map] at ha
            obtain ⟨c, hc, hce⟩ := Option.map_eq_some'.mp ha
            rw [← hce]
            exact same_test_count_drop get_test _ tl c hc)
        rw [List.map_cons, changes, hskip, hhead]
        simp [RunEvent.opened_test]
      · rw [nest_run_append, nest_run_append, nest_run_append, nest_run_append,
          open_calls_nest]
        have h1 : nest_run get_test get_testsuite
            ⟨some (get_testsuite (get_test first)), none, none⟩
            [RunEvent.report_test (get_testsuite (get_test first)) (get_test first) true]
            = some ⟨some (get_testsuite (get_test first)), some (get_test first), none⟩ := by
          simp [nest_run, nest_step]
        have h2 : nest_run get_test get_testsuite
            ⟨some (get_testsuite (get_test first)), some (get_test first), none⟩
            [RunEvent.test_reporter_destroy (get_test first)]
            = some ⟨some (get_testsuite (get_test first)), none, none⟩ := by
          simp [nest_run, nest_step]
        simp only [Option.bind, h1, hi6, h2]
        exact hr6

theorem sorted_suites_pairwise (l out : List TC)
    (h : out.Pairwise (grouped_before get_test get_testsuite l)) :
    (out.map (fun c => get_testsuite (get_test c))).Pairwise
      (fun a b => a = b ∨ first_case_of_suite get_test get_testsuite l a
        < first_case_of_suite get_test get_testsuite l b) := by
  rw [List.pairwise_map]
  refine h.imp ?_
  intro x y hxy
  rcases hxy with e | ⟨e, _⟩ | e
  · left; rw [e]
  · left; exact e
  · right; exact e

theorem sorted_tests_pairwise (l out : List TC)
    (h : out.Pairwise (grouped_before get_test get_testsuite l)) :
    (out.map get_test).Pairwise
      (fun a b => a = b ∨ test_precedes get_test get_testsuite l a b) := by
  rw [List.pairwise_map]
  refine h.imp ?_
  intro x y hxy
  rcases hxy with e | e | e
  · left; exact e
  · right; left; exact e
  · right; right; exact e

theorem test_precedes_irrefl (l : List TC) (t : T) :
    ¬ test_precedes get_test get_testsuite l t t := by
  intro h
  rcases h with ⟨_, h⟩ | h <;> exact Nat.lt_irrefl _ h

theorem test_precedes_trans (l : List TC) (a b c : T)
    (hab : test_precedes get_test get_testsuite l a b)
    (hbc : test_precedes get_test get_testsuite l b c) :
    test_precedes get_test get_testsuite l a c := by
  rcases hab with ⟨e1, h1⟩ | h1 <;> rcases hbc with ⟨e2, h2⟩ | h2
  · left; exact ⟨e1.trans e2, Nat.lt_trans h1 h2⟩
  · right; rw [e1]; exact h2
  · right; rw [← e2]; exact h1
  · right; exact Nat.lt_trans h1 h2

theorem passing_env_never_fails : (passing_env ExCase ExTest ExSuite).never_fails :=
  ⟨fun _ _ => rfl, fun _ _ _ => rfl, fun _ _ _ => rfl, fun _ _ _ => Int.le_refl 0⟩

/-- C5 (as amended). For a non-empty input to `runner_run_testcases`, when the working copy
of the partitioner is allocated, reporter creation never fails and the callback never
returns a negative value, the calls seen by the reporter are well nested, one suite
reporter is opened for each suite of the input and one test reporter for each test of the
input, and the callback runs exactly once for every input case. -/
theorem runner_run_testcases_trace (env : RunEnv TC T S) (testcases : List TC)
    (hne : testcases ≠ []) (hnf : env.never_fails) :
    ∃ r log, runner_run_testcases get_test get_testsuite env true testcases = some (r, log) ∧
      well_nested get_test get_testsuite log = true ∧
      (log.filterMap RunEvent.opened_suite).Nodup ∧
      (∀ s, s ∈ log.filterMap RunEvent.opened_suite ↔
        ∃ c ∈ testcases, get_testsuite (get_test c) = s) ∧
      (log.filterMap RunEvent.opened_test).Nodup ∧
      (∀ t, t ∈ log.filterMap RunEvent.opened_test ↔ ∃ c ∈ testcases, get_test c = t) ∧
      (log.filterMap RunEvent.run_case).Perm testcases := by
  obtain ⟨sorted, hsorted, hinv⟩ := repartition_invariant get_test get_testsuite testcases
  have hperm : sorted.Perm testcases := by simpa using hinv.perm
  obtain ⟨new, cur1, res1, h1, _, h3, h4, h5, h6⟩ := loop_never_fails get_test get_testsuite
    env hnf sorted.length sorted none 0 [] (Nat.le_refl _) (Int.le_refl 0)
  have hlen : ¬ testcases.length = 0 := fun h => hne (List.length_eq_zero.mp h)
  have hnd_s : (new.filterMap RunEvent.opened_suite).Nodup := by
    rw [h4]
    exact nodup_changes
      (fun a b => first_case_of_suite get_test get_testsuite testcases a
        < first_case_of_suite get_test get_testsuite testcases b)
      (fun a => Nat.lt_irrefl _) (fun a b c => Nat.lt_trans) _
      (sorted_suites_pairwise get_test get_testsuite testcases sorted hinv.sorted) none
  have hnd_t : (new.filterMap RunEvent.opened_test).Nodup := by
    rw [h5]
    exact nodup_changes _ (test_precedes_irrefl get_test get_testsuite testcases)
      (test_precedes_trans get_test get_testsuite testcases) _
      (sorted_tests_pairwise get_test get_testsuite testcases sorted hinv.sorted) none
  have hmem_s : ∀ s, s ∈ new.filterMap RunEvent.opened_suite ↔
      ∃ c ∈ testcases, get_testsuite (get_test c) = s := by
    intro s
    rw [h4]
    constructor
    · intro hm
      obtain ⟨c, hc, hce⟩ := List.mem_map.mp (mem_changes s _ _ hm)
      exact ⟨c, hperm.subset hc, hce⟩
    · rintro ⟨c, hc, hce⟩
      have hm : s ∈ sorted.map (fun c => get_testsuite (get_test c)) :=
        List.mem_map.mpr ⟨c, hperm.symm.subset hc, hce⟩
      rcases changes_complete s _ none hm with h | h
      · exact h
      · cases h
  have hmem_t : ∀ t, t ∈ new.filterMap RunEvent.opened_test ↔
      ∃ c ∈ testcases, get_test c = t := by
    intro t
    rw [h5]
    constructor
    · intro hm
      obtain ⟨c, hc, hce⟩ := List.mem_map.mp (mem_changes t _ _ hm)
      exact ⟨c, hperm.subset hc, hce⟩
    · rintro ⟨c, hc, hce⟩
      have hm : t ∈ sorted.map get_test :=
        List.mem_map.mpr ⟨c, hperm.symm.subset hc, hce⟩
      rcases changes_complete t _ none hm with h | h
      · exact h
      · cases h
  simp only [List.nil_append] at h1
  cases cur1 with
  | none =>
    refine ⟨res1, new, ?_, ?_, hnd_s, hmem_s, hnd_t, hmem_t, by rw [h3]; exact hperm⟩
    · simp only [runner_run_testcases, hlen, if_false, hsorted, h1]
    · simp only [well_nested, h6, decide_True]
  | some r =>
    refine ⟨res1, new ++ [RunEvent.testsuite_reporter_destroy r], ?_, ?_, ?_, ?_, ?_, ?_, ?_⟩
    · simp only [runner_run_testcases, hlen, if_false, hsorted, h1]
    · simp [well_nested, nest_run_append, h6, nest_run, nest_step]
    · simpa [List.filterMap_append, RunEvent.opened_suite] using hnd_s
    · simpa [List.filterMap_append, RunEvent.opened_suite] using hmem_s
    · simpa [List.filterMap_append, RunEvent.opened_test] using hnd_t
    · simpa [List.filterMap_append, RunEvent.opened_test] using hmem_t
    · simpa [List.filterMap_append, RunEvent.run_case, h3] using hperm

/-- Witness for C5: the scenario input run with collaborators that always succeed. -/
theorem runner_run_testcases_trace_witness :
    [ExCase.a1, ExCase.b1, ExCase.a2, ExCase.c1, ExCase.b2, ExCase.a3] ≠ [] ∧
    (passing_env ExCase ExTest ExSuite).never_fails ∧
    ∃ r log, runner_run_testcases ExCase.test ExTest.suite (passing_env ExCase ExTest ExSuite)
        true [ExCase.a1, ExCase.b1, ExCase.a2, ExCase.c1, ExCase.b2, ExCase.a3]
        = some (r, log) ∧
      well_nested ExCase.test ExTest.suite log = true ∧
      (log.filterMap RunEvent.opened_suite).Nodup ∧
      (∀ s, s ∈ log.filterMap RunEvent.opened_suite ↔
        ∃ c ∈ [ExCase.a1, ExCase.b1, ExCase.a2, ExCase.c1, ExCase.b2, ExCase.a3],
          ExTest.suite (ExCase.test c) = s) ∧
      (log.filterMap RunEvent.opened_test).Nodup ∧
      (∀ t, t ∈ log.filterMap RunEvent.opened_test ↔
        ∃ c ∈ [ExCase.a1, ExCase.b1, ExCase.a2, ExCase.c1, ExCase.b2, ExCase.a3],
          ExCase.test c = t) ∧
      (log.filterMap RunEvent.run_case).Perm
        [ExCase.a1, ExCase.b1, ExCase.a2, ExCase.c1, ExCase.b2, ExCase.a3] :=
  ⟨by decide, passing_env_never_fails,
    runner_run_testcases_trace ExCase.test ExTest.suite (passing_env ExCase ExTest ExSuite)
      [ExCase.a1, ExCase.b1, ExCase.a2, ExCase.c1, ExCase.b2, ExCase.a3] (by decide)
      passing_env_never_fails⟩

/-- Counterexample to C5 as stated: with a non-empty input and collaborators that never
fail, `runner_run_testcases` returns `-1` and makes no call at all when the working
copy of the partitioner cannot be allocated, so the callback is not run on the input
case. -/
theorem runner_run_testcases_calloc_failure :
    [ExCase.a1] ≠ [] ∧ (passing_env ExCase ExTest ExSuite).never_fails ∧
    runner_run_testcases ExCase.test ExTest.suite (passing_env ExCase ExTest ExSuite)
      false [ExCase.a1] = some (-1, []) ∧
    ¬ (([] : List (RunEvent ExCase ExTest ExSuite)).filterMap RunEvent.run_case).Perm
      [ExCase.a1] :=
  ⟨by decide, passing_env_never_fails, rfl, by simp⟩

end RunCasesProofs

section BytesProofs

theorem le_bytes_length : ∀ (n v : Nat), (le_bytes n v).length = n := by
  intro n
  induction n with
  | zero => intro v; rfl
  | succ n ih => intro v; simp [le_bytes, ih]

theorem le_value_le_bytes : ∀ (n v : Nat), le_value (le_bytes n v) = v % 256 ^ n := by
  intro n
  induction n with
  | zero => intro v; simp [le_bytes, le_value, Nat.mod_one]
  | succ n ih =>
    intro v
    rw [le_bytes, le_value, ih, Nat.pow_succ, Nat.mul_comm (256 ^ n) 256, Nat.mod_mul]

theorem le_value_le_bytes_of_lt (n v : Nat) (h : v < 256 ^ n) :
    le_value (le_bytes n v) = v := by
  rw [le_value_le_bytes, Nat.mod_eq_of_lt h]

theorem le_value_lt : ∀ (bs : List Nat), (∀ b ∈ bs, b < 256) →
    le_value bs < 256 ^ bs.length := by
  intro bs
  induction bs with
  | nil => intro _; simp [le_value]
  | cons b bs ih =>
    intro h
    have hb := h b (List.mem_cons_self _ _)
    have := ih (fun x hx => h x (List.mem_cons_of_mem _ hx))
    rw [le_value, List.length_cons, Nat.pow_succ]
    omega

theorem le_bytes_lt : ∀ (n v : Nat), ∀ b ∈ le_bytes n v, b < 256 := by
  intro n
  induction n with
  | zero => intro v b hb; simp [le_bytes] at hb
  | succ n ih =>
    intro v b hb
    rw [le_bytes] at hb
    rcases List.mem_cons.mp hb with e | e
    · rw [e]; exact Nat.mod_lt _ (by decide)
    · exact ih _ b e

theorem write_bytes_at (A X B bs : List Nat) (h : X.length = bs.length) :
    write_bytes (A ++ X ++ B) A.length bs = A ++ bs ++ B := by
  unfold write_bytes
  have h1 : List.take A.length (A ++ X ++ B) = A := by
    rw [List.append_assoc, List.take_left]
  have h2 : List.drop (A.length + bs.length) (A ++ X ++ B) = B := by
    have : A.length + bs.length = (A ++ X).length := by simp [h]
    rw [this, List.drop_left]
  rw [h1, h2, List.append_assoc]

theorem read_bytes_at (A X B : List Nat) :
    read_bytes (A ++ X ++ B) A.length X.length = X := by
  unfold read_bytes
  rw [List.append_assoc, List.drop_left, List.take_left]

theorem load64_at (A B : List Nat) (v : Nat) (h : v < 18446744073709551616) :
    load64 (A ++ le_bytes 8 v ++ B) A.length = v := by
  unfold load64
  have := read_bytes_at A (le_bytes 8 v) B
  rw [le_bytes_length] at this
  rw [this, le_value_le_bytes_of_lt 8 v (by simpa using h)]

theorem store64_at (A X B : List Nat) (v : Nat) (h : X.length = 8) :
    store64 (A ++ X ++ B) A.length v = A ++ le_bytes 8 v ++ B := by
  unfold store64
  exact write_bytes_at A X B _ (by rw [h, le_bytes_length])

theorem load32_at (A B : List Nat) (v : Nat) (h : v < 4294967296) :
    load32 (A ++ le_bytes 4 v ++ B) A.length = v := by
  unfold load32
  have := read_bytes_at A (le_bytes 4 v) B
  rw [le_bytes_length] at this
  rw [this, le_value_le_bytes_of_lt 4 v (by simpa using h)]

theorem store32_at (A X B : List Nat) (v : Nat) (h : X.length = 4) :
    store32 (A ++ X ++ B) A.length v = A ++ le_bytes 4 v ++ B := by
  unfold store32
  exact write_bytes_at A X B _ (by rw [h, le_bytes_length])

theorem mem_load64_at (base : Nat) (A B : List Nat) (v addr : Nat)
    (h : v < 18446744073709551616) (ha : addr = base + A.length) :
    mem_load64 base (A ++ le_bytes 8 v ++ B) addr = some v := by
  unfold mem_load64
  have hin : base ≤ addr ∧ addr + 8 ≤ base + (A ++ le_bytes 8 v ++ B).length := by
    simp only [List.length_append, le_bytes_length]; omega
  rw [if_pos hin]
  have : addr - base = A.length := by omega
  rw [this, load64_at A B v h]

theorem mem_store64_at (base : Nat) (A X B : List Nat) (v addr : Nat) (h : X.length = 8)
    (ha : addr = base + A.length) :
    mem_store64 base (A ++ X ++ B) addr v = some (A ++ le_bytes 8 v ++ B) := by
  unfold mem_store64
  have hin : base ≤ addr ∧ addr + 8 ≤ base + (A ++ X ++ B).length := by
    simp only [List.length_append, h]; omega
  rw [if_pos hin]
  have : addr - base = A.length := by omega
  rw [this, store64_at A X B v h]

theorem int_bits_lt (v : Int) : int_bits v < 4294967296 := by
  unfold int_bits
  have := Int.emod_lt_of_pos v (show (0 : Int) < 4294967296 by decide)
  have := Int.emod_nonneg v (show (4294967296 : Int) ≠ 0 by decide)
  omega

theorem bits_int_int_bits (v : Int) (h : is_int v) : bits_int (int_bits v) = v := by
  unfold is_int at h
  unfold bits_int int_bits
  have h1 := Int.emod_lt_of_pos v (show (0 : Int) < 4294967296 by decide)
  have h2 := Int.emod_nonneg v (show (4294967296 : Int) ≠ 0 by decide)
  have h3 : ((v % 4294967296).toNat : Int) = v % 4294967296 := Int.toNat_of_nonneg h2
  by_cases hv : 0 ≤ v
  · have : v % 4294967296 = v := Int.emod_eq_of_lt hv (by omega)
    rw [this] at h3
    have h4 : (v % 4294967296).toNat < 2147483648 := by rw [this]; omega
    rw [if_pos h4, this, Int.toNat_of_nonneg hv]
  · have : v % 4294967296 = v + 4294967296 := by
      have := Int.emod_emod_of_dvd v (show (4294967296 : Int) ∣ 4294967296 from dvd_rfl)
      have e : (v + 4294967296) % 4294967296 = v % 4294967296 := by simp
      rw [← e]; exact Int.emod_eq_of_lt (by omega) (by omega)
    have h4 : ¬ (v % 4294967296).toNat < 2147483648 := by rw [this]; omega
    rw [if_neg h4, h3, this]; omega

theorem serialize_pad_size_one (n : Nat) : serialize_pad_size n 1 = n := by
  simp [serialize_pad_size]

theorem serialize_pad_size_ge (n : Nat) : n ≤ serialize_pad_size n 8 := by
  unfold serialize_pad_size; omega

theorem rel_of_abs (base ofs : Nat) (h : base + ofs < 18446744073709551616) :
    serialize_rel_ptr_from_abs (base + ofs) base = ofs := by
  unfold serialize_rel_ptr_from_abs
  have hb : base % 18446744073709551616 = base := Nat.mod_eq_of_lt (by omega)
  rw [hb]
  omega

theorem abs_of_rel (base ofs : Nat) (h : base + ofs < 18446744073709551616) :
    serialize_abs_ptr_from_rel ofs base = base + ofs := by
  unfold serialize_abs_ptr_from_rel
  exact Nat.mod_eq_of_lt h

end BytesProofs

section FlatProofs

theorem frame_cells_length : ∀ cells : List FrameCell, (∀ c ∈ cells, c.wf) →
    (frame_cells cells).length = 24 * cells.length := by
  intro cells
  induction cells with
  | nil => intro _; rfl
  | cons c rest ih =>
    intro h
    obtain ⟨h1, _, h3⟩ := h c (List.mem_cons_self _ _)
    have := ih (fun x hx => h x (List.mem_cons_of_mem _ hx))
    simp only [frame_cells, List.length_append, le_bytes_length, h1, h3, this,
      List.length_cons]
    omega

theorem map_frames_length (g : Nat → Nat) (cells : List FrameCell) :
    (map_frames g cells).length = cells.length := by
  simp [map_frames]

theorem ser_ptr_lt (base p : Nat) (h : p < 18446744073709551616) :
    ser_ptr base p < 18446744073709551616 := by
  unfold ser_ptr
  by_cases hp : p ≠ 0
  · rw [if_pos hp]; unfold serialize_rel_ptr_from_abs; exact Nat.mod_lt _ (by decide)
  · rw [if_neg hp]; exact h

theorem deser_ptr_lt (base p : Nat) (h : p < 18446744073709551616) :
    deser_ptr base p < 18446744073709551616 := by
  unfold deser_ptr
  by_cases hp : p ≠ 0
  · rw [if_pos hp]; unfold serialize_abs_ptr_from_rel; exact Nat.mod_lt _ (by decide)
  · rw [if_neg hp]; exact h

theorem stacktrace_serialize_loop_cells (base st : Nat) :
    ∀ (cells : List FrameCell) (P Q : List Nat) (i : Nat),
      (∀ c ∈ cells, c.wf) → base + P.length = st + 8 + 24 * i →
      stacktrace_serialize_loop base st cells.length i (P ++ frame_cells cells ++ Q)
        = some (P ++ frame_cells (map_frames (ser_ptr st) cells) ++ Q) := by
  intro cells
  induction cells with
  | nil => intro P Q i _ _; rfl
  | cons c rest ih =>
    intro P Q i hwf hP
    obtain ⟨h1, h2, h3⟩ := hwf c (List.mem_cons_self _ _)
    have hrest : ∀ x ∈ rest, x.wf := fun x hx => hwf x (List.mem_cons_of_mem _ hx)
    have hshape : P ++ frame_cells (c :: rest) ++ Q
        = (P ++ c.addr_bytes) ++ le_bytes 8 c.filename ++ (c.line_bytes ++ frame_cells rest ++ Q) := by
      simp [frame_cells]
    have hload := mem_load64_at base (P ++ c.addr_bytes) (c.line_bytes ++ frame_cells rest ++ Q)
      c.filename (st + 8 + 24 * i + 8) h2 (by simp [h1]; omega)
    have hstore := mem_store64_at base (P ++ c.addr_bytes) (le_bytes 8 c.filename)
      (c.line_bytes ++ frame_cells rest ++ Q) (serialize_rel_ptr_from_abs c.filename st)
      (st + 8 + 24 * i + 8) (le_bytes_length _ _) (by simp [h1]; omega)
    rw [List.length_cons, stacktrace_serialize_loop, hshape]
    simp only [hload]
    by_cases hp : c.filename ≠ 0
    · simp only [hp, not_false_eq_true, if_true, hstore, ne_eq]
      have := ih (P ++ c.addr_bytes ++ le_bytes 8 (serialize_rel_ptr_from_abs c.filename st)
        ++ c.line_bytes) Q (i + 1) hrest
        (by simp only [List.length_append, le_bytes_length, h1, h3]; omega)
      have e : P ++ c.addr_bytes ++ le_bytes 8 (serialize_rel_ptr_from_abs c.filename st) ++
          (c.line_bytes ++ frame_cells rest ++ Q)
          = P ++ c.addr_bytes ++ le_bytes 8 (serialize_rel_ptr_from_abs c.filename st) ++
            c.line_bytes ++ frame_cells rest ++ Q := by simp
      rw [e, this]
      simp [map_frames, frame_cells, ser_ptr, hp]
    · simp only [hp, if_false]
      have := ih (P ++ c.addr_bytes ++ le_bytes 8 c.filename ++ c.line_bytes) Q (i + 1) hrest
        (by simp only [List.length_append, le_bytes_length, h1, h3]; omega)
      have e : P ++ c.addr_bytes ++ le_bytes 8 c.filename ++
          (c.line_bytes ++ frame_cells rest ++ Q)
          = P ++ c.addr_bytes ++ le_bytes 8 c.filename ++ c.line_bytes ++
            frame_cells rest ++ Q := by simp
      rw [e, this]
      simp [map_frames, frame_cells, ser_ptr, hp]

theorem stacktrace_deserialize_loop_cells (base st : Nat) :
    ∀ (cells : List FrameCell) (P Q : List Nat) (i : Nat),
      (∀ c ∈ cells, c.wf) → base + P.length = st + 8 + 24 * i →
      stacktrace_deserialize_loop base st cells.length i (P ++ frame_cells cells ++ Q)
        = some (P ++ frame_cells (map_frames (deser_ptr st) cells) ++ Q) := by
  intro cells
  induction cells with
  | nil => intro P Q i _ _; rfl
  | cons c rest ih =>
    intro P Q i hwf hP
    obtain ⟨h1, h2, h3⟩ := hwf c (List.mem_cons_self _ _)
    have hrest : ∀ x ∈ rest, x.wf := fun x hx => hwf x (List.mem_cons_of_mem _ hx)
    have hshape : P ++ frame_cells (c :: rest) ++ Q
        = (P ++ c.addr_bytes) ++ le_bytes 8 c.filename ++ (c.line_bytes ++ frame_cells rest ++ Q) := by
      simp [frame_cells]
    have hload := mem_load64_at base (P ++ c.addr_bytes) (c.line_bytes ++ frame_cells rest ++ Q)
      c.filename (st + 8 + 24 * i + 8) h2 (by simp [h1]; omega)
    have hstore := mem_store64_at base (P ++ c.addr_bytes) (le_bytes 8 c.filename)
      (c.line_bytes ++ frame_cells rest ++ Q) (serialize_abs_ptr_from_rel c.filename st)
      (st + 8 + 24 * i + 8) (le_bytes_length _ _) (by simp [h1]; omega)
    rw [List.length_cons, stacktrace_deserialize_loop, hshape]
    simp only [hload]
    by_cases hp : c.filename ≠ 0
    · simp only [hp, not_false_eq_true, if_true, hstore, ne_eq]
      have := ih (P ++ c.addr_bytes ++ le_bytes 8 (serialize_abs_ptr_from_rel c.filename st)
        ++ c.line_bytes) Q (i + 1) hrest
        (by simp only [List.length_append, le_bytes_length, h1, h3]; omega)
      have e : P ++ c.addr_bytes ++ le_bytes 8 (serialize_abs_ptr_from_rel c.filename st) ++
          (c.line_bytes ++ frame_cells rest ++ Q)
          = P ++ c.addr_bytes ++ le_bytes 8 (serialize_abs_ptr_from_rel c.filename st) ++
            c.line_bytes ++ frame_cells rest ++ Q := by simp
      rw [e, this]
      simp [map_frames, frame_cells, deser_ptr, hp]
    · simp only [hp, if_false]
      have := ih (P ++ c.addr_bytes ++ le_bytes 8 c.filename ++ c.line_bytes) Q (i + 1) hrest
        (by simp only [List.length_append, le_bytes_length, h1, h3]; omega)
      have e : P ++ c.addr_bytes ++ le_bytes 8 c.filename ++
          (c.line_bytes ++ frame_cells rest ++ Q)
          = P ++ c.addr_bytes ++ le_bytes 8 c.filename ++ c.line_bytes ++
            frame_cells rest ++ Q := by simp
      rw [e, this]
      simp [map_frames, frame_cells, deser_ptr, hp]

theorem stacktrace_serialize_part (base st : Nat) (P Q : List Nat) (s : StacktracePart)
    (hn : s.cells.length < 18446744073709551616) (hwf : ∀ c ∈ s.cells, c.wf)
    (hP : st = base + P.length) :
    stacktrace_storage_serialize base (P ++ s.bytes ++ Q) st
      = some (0, P ++ StacktracePart.bytes { s with cells := map_frames (ser_ptr st) s.cells }
          ++ Q) := by
  unfold stacktrace_storage_serialize StacktracePart.bytes
  have hshape : P ++ (le_bytes 8 s.cells.length ++ frame_cells s.cells ++ s.rest) ++ Q
      = P ++ le_bytes 8 s.cells.length ++ (frame_cells s.cells ++ s.rest ++ Q) := by simp
  rw [hshape, mem_load64_at base P _ s.cells.length st hn hP]
  have e : P ++ le_bytes 8 s.cells.length ++ (frame_cells s.cells ++ s.rest ++ Q)
      = (P ++ le_bytes 8 s.cells.length) ++ frame_cells s.cells ++ (s.rest ++ Q) := by simp
  simp only []
  rw [e, stacktrace_serialize_loop_cells base st s.cells _ _ 0 hwf
    (by simp only [List.length_append, le_bytes_length]; omega)]
  simp [map_frames_length]

theorem stacktrace_deserialize_part (base st : Nat) (P Q : List Nat) (s : StacktracePart)
    (hn : s.cells.length < 18446744073709551616) (hwf : ∀ c ∈ s.cells, c.wf)
    (hP : st = base + P.length) :
    stacktrace_storage_deserialize base (P ++ s.bytes ++ Q) st
      = some (0, P ++ StacktracePart.bytes { s with cells := map_frames (deser_ptr st) s.cells }
          ++ Q) := by
  unfold stacktrace_storage_deserialize StacktracePart.bytes
  have hshape : P ++ (le_bytes 8 s.cells.length ++ frame_cells s.cells ++ s.rest) ++ Q
      = P ++ le_bytes 8 s.cells.length ++ (frame_cells s.cells ++ s.rest ++ Q) := by simp
  rw [hshape, mem_load64_at base P _ s.cells.length st hn hP]
  have e : P ++ le_bytes 8 s.cells.length ++ (frame_cells s.cells ++ s.rest ++ Q)
      = (P ++ le_bytes 8 s.cells.length) ++ frame_cells s.cells ++ (s.rest ++ Q) := by simp
  simp only []
  rw [e, stacktrace_deserialize_loop_cells base st s.cells _ _ 0 hwf
    (by simp only [List.length_append, le_bytes_length]; omega)]
  simp [map_frames_length]

theorem location_serialize_part (base loc : Nat) (P Q : List Nat) (l : LocationPart)
    (hf : l.filename < 18446744073709551616) (hP : loc = base + P.length) :
    location_storage_serialize base (P ++ l.bytes ++ Q) loc
      = some (0, P ++ LocationPart.bytes { l with filename := ser_ptr loc l.filename }
          ++ Q) := by
  unfold location_storage_serialize LocationPart.bytes
  have hshape : P ++ (le_bytes 8 l.filename ++ l.rest) ++ Q
      = P ++ le_bytes 8 l.filename ++ (l.rest ++ Q) := by simp
  rw [hshape, mem_load64_at base P _ l.filename loc hf hP]
  simp only []
  by_cases hp : l.filename ≠ 0
  · rw [if_pos hp, mem_store64_at base P _ _ _ loc (le_bytes_length _ _) hP]
    simp [ser_ptr, hp]
  · rw [if_neg hp]
    simp [ser_ptr, hp]

theorem location_deserialize_part (base loc : Nat) (P Q : List Nat) (l : LocationPart)
    (hf : l.filename < 18446744073709551616) (hP : loc = base + P.length) :
    location_storage_deserialize base (P ++ l.bytes ++ Q) loc
      = some (0, P ++ LocationPart.bytes { l with filename := deser_ptr loc l.filename }
          ++ Q) := by
  unfold location_storage_deserialize LocationPart.bytes
  have hshape : P ++ (le_bytes 8 l.filename ++ l.rest) ++ Q
      = P ++ le_bytes 8 l.filename ++ (l.rest ++ Q) := by simp
  rw [hshape, mem_load64_at base P _ l.filename loc hf hP]
  simp only []
  by_cases hp : l.filename ≠ 0
  · rw [if_pos hp, mem_store64_at base P _ _ _ loc (le_bytes_length _ _) hP]
    simp [deser_ptr, hp]
  · rw [if_neg hp]
    simp [deser_ptr, hp]

end FlatProofs

section FlatSerialize

theorem header_load_description (base : Nat) (s8 R : List Nat) (dp : Nat)
    (h8 : s8.length = 8) (hd : dp < 18446744073709551616) :
    mem_load64 base (s8 ++ le_bytes 8 dp ++ R) (base + 8) = some dp :=
  mem_load64_at base s8 R dp (base + 8) hd (by rw [h8])

theorem header_store_description (base : Nat) (s8 R : List Nat) (dp v : Nat)
    (h8 : s8.length = 8) :
    mem_store64 base (s8 ++ le_bytes 8 dp ++ R) (base + 8) v = some (s8 ++ le_bytes 8 v ++ R) :=
  mem_store64_at base s8 (le_bytes 8 dp) R v (base + 8) (le_bytes_length _ _) (by rw [h8])

theorem header_load_location (base : Nat) (s8 R : List Nat) (dp lp : Nat)
    (h8 : s8.length = 8) (hl : lp < 18446744073709551616) :
    mem_load64 base (s8 ++ le_bytes 8 dp ++ le_bytes 8 lp ++ R) (base + 16) = some lp :=
  mem_load64_at base (s8 ++ le_bytes 8 dp) R lp (base + 16) hl
    (by simp only [List.length_append, le_bytes_length, h8])

theorem header_store_location (base : Nat) (s8 R : List Nat) (dp lp v : Nat)
    (h8 : s8.length = 8) :
    mem_store64 base (s8 ++ le_bytes 8 dp ++ le_bytes 8 lp ++ R) (base + 16) v
      = some (s8 ++ le_bytes 8 dp ++ le_bytes 8 v ++ R) :=
  mem_store64_at base (s8 ++ le_bytes 8 dp) (le_bytes 8 lp) R v (base + 16)
    (le_bytes_length _ _) (by simp only [List.length_append, le_bytes_length, h8])

theorem header_load_stacktrace (base : Nat) (s8 R : List Nat) (dp lp sp : Nat)
    (h8 : s8.length = 8) (hs : sp < 18446744073709551616) :
    mem_load64 base (s8 ++ le_bytes 8 dp ++ le_bytes 8 lp ++ le_bytes 8 sp ++ R) (base + 24)
      = some sp :=
  mem_load64_at base (s8 ++ le_bytes 8 dp ++ le_bytes 8 lp) R sp (base + 24) hs
    (by simp only [List.length_append, le_bytes_length, h8])

theorem header_store_stacktrace (base : Nat) (s8 R : List Nat) (dp lp sp v : Nat)
    (h8 : s8.length = 8) :
    mem_store64 base (s8 ++ le_bytes 8 dp ++ le_bytes 8 lp ++ le_bytes 8 sp ++ R) (base + 24) v
      = some (s8 ++ le_bytes 8 dp ++ le_bytes 8 lp ++ le_bytes 8 v ++ R) :=
  mem_store64_at base (s8 ++ le_bytes 8 dp ++ le_bytes 8 lp) (le_bytes 8 sp) R v (base + 24)
    (le_bytes_length _ _) (by simp only [List.length_append, le_bytes_length, h8])

/-- The stack trace stage of serialization on a flattened failure. -/
theorem flat_serialize_stacktrace (base : Nat) (s8 : List Nat) (dp lp sp : Nat)
    (M : List Nat) (st : Option StacktracePart) (T : List Nat)
    (h8 : s8.length = 8) (hsp : sp < 18446744073709551616)
    (hst : StOk sp (base + (32 + M.length)) st) :
    failure_serialize_stacktrace base
        (s8 ++ le_bytes 8 dp ++ le_bytes 8 lp ++ le_bytes 8 sp ++ M ++
          opt_bytes StacktracePart.bytes st ++ T)
      = some (0, s8 ++ le_bytes 8 dp ++ le_bytes 8 lp ++ le_bytes 8 (ser_ptr base sp) ++ M ++
          opt_bytes StacktracePart.bytes
            (st.map (fun s => { s with cells := map_frames (ser_ptr sp) s.cells })) ++ T) := by
  unfold failure_serialize_stacktrace
  have hload : ∀ R, mem_load64 base
      (s8 ++ le_bytes 8 dp ++ le_bytes 8 lp ++ le_bytes 8 sp ++ M ++ R ++ T) (base + 24)
      = some sp := by
    intro R
    have := header_load_stacktrace base s8 (M ++ R ++ T) dp lp sp h8 hsp
    simpa using this
  rw [hload]
  cases st with
  | none =>
    simp only [StOk] at hst
    subst hst
    simp [ser_ptr, opt_bytes]
  | some s =>
    obtain ⟨h0, hsp2, hn, hwf⟩ := hst
    simp only [ne_eq, h0, not_false_eq_true, if_true, opt_bytes, Option.map_some']
    have hpart := stacktrace_serialize_part base sp
      (s8 ++ le_bytes 8 dp ++ le_bytes 8 lp ++ le_bytes 8 sp ++ M) T s hn hwf
      (by simp only [List.length_append, le_bytes_length, h8]; omega)
    rw [hpart]
    simp only [if_false, not_true_eq_false]
    have e : ∀ R, s8 ++ le_bytes 8 dp ++ le_bytes 8 lp ++ le_bytes 8 sp ++ M ++ R ++ T
        = s8 ++ le_bytes 8 dp ++ le_bytes 8 lp ++ le_bytes 8 sp ++ (M ++ R ++ T) := by
      intro R; simp
    rw [e, header_load_stacktrace base s8 _ dp lp sp h8 hsp]
    simp only []
    rw [header_store_stacktrace base s8 _ dp lp sp _ h8]
    simp [ser_ptr, h0]

/-- The location stage of serialization on a flattened failure. -/
theorem flat_serialize_location (base : Nat) (s8 : List Nat) (dp lp sp : Nat)
    (M : List Nat) (loc : Option LocationPart) (R : List Nat)
    (h8 : s8.length = 8) (hlp : lp < 18446744073709551616)
    (hloc : LocOk lp (base + (32 + M.length)) loc) :
    failure_serialize_location base
        (s8 ++ le_bytes 8 dp ++ le_bytes 8 lp ++ le_bytes 8 sp ++ M ++
          opt_bytes LocationPart.bytes loc ++ R)
      = failure_serialize_stacktrace base
        (s8 ++ le_bytes 8 dp ++ le_bytes 8 (ser_ptr base lp) ++ le_bytes 8 sp ++ M ++
          opt_bytes LocationPart.bytes
            (loc.map (fun l => { l with filename := ser_ptr lp l.filename })) ++ R) := by
  unfold failure_serialize_location
  have hload : ∀ X, mem_load64 base
      (s8 ++ le_bytes 8 dp ++ le_bytes 8 lp ++ le_bytes 8 sp ++ M ++ X ++ R) (base + 16)
      = some lp := by
    intro X
    have := header_load_location base s8 (le_bytes 8 sp ++ M ++ X ++ R) dp lp h8 hlp
    simpa using this
  rw [hload]
  cases loc with
  | none =>
    simp only [LocOk] at hloc
    subst hloc
    simp [ser_ptr, opt_bytes]
  | some l =>
    obtain ⟨h0, hlp2, hf⟩ := hloc
    simp only [ne_eq, h0, not_false_eq_true, if_true, opt_bytes, Option.map_some']
    have hpart := location_serialize_part base lp
      (s8 ++ le_bytes 8 dp ++ le_bytes 8 lp ++ le_bytes 8 sp ++ M) R l hf
      (by simp only [List.length_append, le_bytes_length, h8]; omega)
    rw [hpart]
    simp only [if_false, not_true_eq_false]
    have e : ∀ X, s8 ++ le_bytes 8 dp ++ le_bytes 8 lp ++ le_bytes 8 sp ++ M ++ X ++ R
        = s8 ++ le_bytes 8 dp ++ le_bytes 8 lp ++ (le_bytes 8 sp ++ M ++ X ++ R) := by
      intro X; simp
    rw [e, header_load_location base s8 _ dp lp h8 hlp]
    simp only []
    rw [header_store_location base s8 _ dp lp _ h8]
    simp [ser_ptr, h0]

theorem opt_bytes_map_loc_length (g : Nat → Nat) (loc : Option LocationPart) :
    (opt_bytes LocationPart.bytes (loc.map (fun l => { l with filename := g l.filename }))).length
      = (opt_bytes LocationPart.bytes loc).length := by
  cases loc <;> simp [opt_bytes, LocationPart.bytes, le_bytes_length]

theorem flat_serialize_rest (base : Nat) (s8 : List Nat) (dp lp sp : Nat)
    (g1 : List Nat) (loc : Option LocationPart) (g2 : List Nat) (st : Option StacktracePart)
    (T : List Nat) (h8 : s8.length = 8)
    (hlp : lp < 18446744073709551616) (hsp : sp < 18446744073709551616)
    (hloc : LocOk lp (base + (32 + g1.length)) loc)
    (hst : StOk sp
      (base + (32 + g1.length + (opt_bytes LocationPart.bytes loc).length + g2.length)) st) :
    failure_serialize_location base
        (s8 ++ le_bytes 8 dp ++ le_bytes 8 lp ++ le_bytes 8 sp ++ g1 ++
          opt_bytes LocationPart.bytes loc ++ g2 ++ opt_bytes StacktracePart.bytes st ++ T)
      = some (0, s8 ++ le_bytes 8 dp ++ le_bytes 8 (ser_ptr base lp) ++
          le_bytes 8 (ser_ptr base sp) ++ g1 ++
          opt_bytes LocationPart.bytes
            (loc.map (fun l => { l with filename := ser_ptr lp l.filename })) ++ g2 ++
          opt_bytes StacktracePart.bytes
            (st.map (fun s => { s with cells := map_frames (ser_ptr sp) s.cells })) ++ T) := by
  have e0 : s8 ++ le_bytes 8 dp ++ le_bytes 8 lp ++ le_bytes 8 sp ++ g1 ++
      opt_bytes LocationPart.bytes loc ++ g2 ++ opt_bytes StacktracePart.bytes st ++ T
      = s8 ++ le_bytes 8 dp ++ le_bytes 8 lp ++ le_bytes 8 sp ++ g1 ++
        opt_bytes LocationPart.bytes loc ++ (g2 ++ opt_bytes StacktracePart.bytes st ++ T) := by
    simp
  rw [e0, flat_serialize_location base s8 dp lp sp g1 loc _ h8 hlp hloc]
  have e1 : s8 ++ le_bytes 8 dp ++ le_bytes 8 (ser_ptr base lp) ++ le_bytes 8 sp ++
      g1 ++ opt_bytes LocationPart.bytes
        (loc.map (fun l => { l with filename := ser_ptr lp l.filename })) ++
      (g2 ++ opt_bytes StacktracePart.bytes st ++ T)
      = s8 ++ le_bytes 8 dp ++ le_bytes 8 (ser_ptr base lp) ++ le_bytes 8 sp ++
      (g1 ++ opt_bytes LocationPart.bytes
        (loc.map (fun l => { l with filename := ser_ptr lp l.filename })) ++ g2) ++
      opt_bytes StacktracePart.bytes st ++ T := by simp
  have hlen : (g1 ++ opt_bytes LocationPart.bytes
        (loc.map (fun l => { l with filename := ser_ptr lp l.filename })) ++ g2).length
      = g1.length + (opt_bytes LocationPart.bytes loc).length + g2.length := by
    simp only [List.length_append, opt_bytes_map_loc_length]
  rw [e1, flat_serialize_stacktrace base s8 dp _ sp _ st T h8 hsp
    (by rw [hlen]; rw [show base + (32 + (g1.length + (opt_bytes LocationPart.bytes loc).length
          + g2.length)) = base + (32 + g1.length + (opt_bytes LocationPart.bytes loc).length
          + g2.length) by omega]; exact hst)]
  simp

theorem flat_serialize (base : Nat) (F : FlatFailure)
    (hwf : F.wf (base + F.loc_ofs) (base + F.st_ofs)) :
    failure_storage_serialize base F.bytes
      = some (0, (F.map_ptrs (ser_ptr base) (ser_ptr F.location) (ser_ptr F.stacktrace)).bytes) := by
  obtain ⟨s8, dp, lp, sp, g1, loc, g2, st, T⟩ := F
  obtain ⟨h8, hdp, hlp, hsp, hloc, hst⟩ := hwf
  simp only [FlatFailure.bytes, FlatFailure.map_ptrs, FlatFailure.loc_ofs,
    FlatFailure.st_ofs] at hloc hst h8 hdp hlp hsp ⊢
  have hrest := fun d => flat_serialize_rest base s8 d lp sp g1 loc g2 st T h8 hlp hsp
    hloc hst
  unfold failure_storage_serialize
  have e0 : s8 ++ le_bytes 8 dp ++ le_bytes 8 lp ++ le_bytes 8 sp ++ g1 ++
      opt_bytes LocationPart.bytes loc ++ g2 ++ opt_bytes StacktracePart.bytes st ++ T
      = s8 ++ le_bytes 8 dp ++ (le_bytes 8 lp ++ le_bytes 8 sp ++ g1 ++
        opt_bytes LocationPart.bytes loc ++ g2 ++ opt_bytes StacktracePart.bytes st ++ T) := by
    simp
  have e1 : ∀ d, s8 ++ le_bytes 8 d ++ (le_bytes 8 lp ++ le_bytes 8 sp ++ g1 ++
        opt_bytes LocationPart.bytes loc ++ g2 ++ opt_bytes StacktracePart.bytes st ++ T)
      = s8 ++ le_bytes 8 d ++ le_bytes 8 lp ++ le_bytes 8 sp ++ g1 ++
      opt_bytes LocationPart.bytes loc ++ g2 ++ opt_bytes StacktracePart.bytes st ++ T := by
    intro d; simp
  rw [e0, header_load_description base s8 _ dp h8 hdp]
  by_cases hp : dp ≠ 0
  · simp only [hp, ne_eq, not_false_eq_true, if_true]
    rw [header_store_description base s8 _ dp _ h8]
    simp only []
    rw [e1, hrest]
    simp [ser_ptr, hp]
  · simp only [hp, if_false]
    rw [e1, hrest]
    simp [ser_ptr, hp]

end FlatSerialize

section FlatDeserialize

/-- The stack trace stage of deserialization on a flattened failure. -/
theorem flat_deserialize_stacktrace (base : Nat) (s8 : List Nat) (dp lp sp : Nat)
    (M : List Nat) (st : Option StacktracePart) (T : List Nat)
    (h8 : s8.length = 8) (hsp : sp < 18446744073709551616)
    (hno : base + (32 + M.length) < 18446744073709551616)
    (hst : StOk sp (32 + M.length) st) :
    failure_deserialize_stacktrace base
        (s8 ++ le_bytes 8 dp ++ le_bytes 8 lp ++ le_bytes 8 sp ++ M ++
          opt_bytes StacktracePart.bytes st ++ T)
      = some (0, s8 ++ le_bytes 8 dp ++ le_bytes 8 lp ++ le_bytes 8 (deser_ptr base sp) ++ M ++
          opt_bytes StacktracePart.bytes
            (st.map (fun s => { s with cells := map_frames (deser_ptr (deser_ptr base sp)) s.cells })) ++ T) := by
  unfold failure_deserialize_stacktrace
  have hload : ∀ R, mem_load64 base
      (s8 ++ le_bytes 8 dp ++ le_bytes 8 lp ++ le_bytes 8 sp ++ M ++ R ++ T) (base + 24)
      = some sp := by
    intro R
    have := header_load_stacktrace base s8 (M ++ R ++ T) dp lp sp h8 hsp
    simpa using this
  rw [hload]
  cases st with
  | none =>
    simp only [StOk] at hst
    subst hst
    simp [deser_ptr, opt_bytes]
  | some s =>
    obtain ⟨h0, hsp2, hn, hwf⟩ := hst
    have habs : serialize_abs_ptr_from_rel sp base = base + (32 + M.length) := by
      rw [hsp2]; exact abs_of_rel base _ hno
    have hd : deser_ptr base sp = base + (32 + M.length) := by
      simp only [deser_ptr, ne_eq, h0, not_false_eq_true, if_true, habs]
    simp only [ne_eq, h0, not_false_eq_true, if_true, opt_bytes, Option.map_some']
    have e : s8 ++ le_bytes 8 dp ++ le_bytes 8 lp ++ le_bytes 8 sp ++ M ++ s.bytes ++ T
        = s8 ++ le_bytes 8 dp ++ le_bytes 8 lp ++ le_bytes 8 sp ++ (M ++ s.bytes ++ T) := by
      simp
    rw [e, header_store_stacktrace base s8 _ dp lp sp _ h8]
    simp only []
    have e2 : s8 ++ le_bytes 8 dp ++ le_bytes 8 lp ++
        le_bytes 8 (serialize_abs_ptr_from_rel sp base) ++ (M ++ s.bytes ++ T)
        = (s8 ++ le_bytes 8 dp ++ le_bytes 8 lp ++
          le_bytes 8 (serialize_abs_ptr_from_rel sp base) ++ M) ++ s.bytes ++ T := by simp
    have hpart := stacktrace_deserialize_part base (serialize_abs_ptr_from_rel sp base)
      (s8 ++ le_bytes 8 dp ++ le_bytes 8 lp ++ le_bytes 8 (serialize_abs_ptr_from_rel sp base)
        ++ M) T s hn hwf
      (by rw [habs]; simp only [List.length_append, le_bytes_length, h8])
    rw [e2, hpart]
    simp only [if_false, not_true_eq_false]
    simp [hd, habs]

/-- The location stage of deserialization on a flattened failure. -/
theorem flat_deserialize_location (base : Nat) (s8 : List Nat) (dp lp sp : Nat)
    (M : List Nat) (loc : Option LocationPart) (R : List Nat)
    (h8 : s8.length = 8) (hlp : lp < 18446744073709551616)
    (hno : base + (32 + M.length) < 18446744073709551616)
    (hloc : LocOk lp (32 + M.length) loc) :
    failure_deserialize_location base
        (s8 ++ le_bytes 8 dp ++ le_bytes 8 lp ++ le_bytes 8 sp ++ M ++
          opt_bytes LocationPart.bytes loc ++ R)
      = failure_deserialize_stacktrace base
        (s8 ++ le_bytes 8 dp ++ le_bytes 8 (deser_ptr base lp) ++ le_bytes 8 sp ++ M ++
          opt_bytes LocationPart.bytes
            (loc.map (fun l => { l with filename := deser_ptr (deser_ptr base lp) l.filename })) ++ R) := by
  unfold failure_deserialize_location
  have hload : ∀ X, mem_load64 base
      (s8 ++ le_bytes 8 dp ++ le_bytes 8 lp ++ le_bytes 8 sp ++ M ++ X ++ R) (base + 16)
      = some lp := by
    intro X
    have := header_load_location base s8 (le_bytes 8 sp ++ M ++ X ++ R) dp lp h8 hlp
    simpa using this
  rw [hload]
  cases loc with
  | none =>
    simp only [LocOk] at hloc
    subst hloc
    simp [deser_ptr, opt_bytes]
  | some l =>
    obtain ⟨h0, hlp2, hf⟩ := hloc
    have habs : serialize_abs_ptr_from_rel lp base = base + (32 + M.length) := by
      rw [hlp2]; exact abs_of_rel base _ hno
    have hd : deser_ptr base lp = base + (32 + M.length) := by
      simp only [deser_ptr, ne_eq, h0, not_false_eq_true, if_true, habs]
    simp only [ne_eq, h0, not_false_eq_true, if_true, opt_bytes, Option.map_some']
    have e : s8 ++ le_bytes 8 dp ++ le_bytes 8 lp ++ le_bytes 8 sp ++ M ++ l.bytes ++ R
        = s8 ++ le_bytes 8 dp ++ le_bytes 8 lp ++ (le_bytes 8 sp ++ M ++ l.bytes ++ R) := by
      simp
    rw [e, header_store_location base s8 _ dp lp _ h8]
    simp only []
    have e2 : s8 ++ le_bytes 8 dp ++ le_bytes 8 (serialize_abs_ptr_from_rel lp base) ++
        (le_bytes 8 sp ++ M ++ l.bytes ++ R)
        = (s8 ++ le_bytes 8 dp ++ le_bytes 8 (serialize_abs_ptr_from_rel lp base) ++
          le_bytes 8 sp ++ M) ++ l.bytes ++ R := by simp
    have hpart := location_deserialize_part base (serialize_abs_ptr_from_rel lp base)
      (s8 ++ le_bytes 8 dp ++ le_bytes 8 (serialize_abs_ptr_from_rel lp base) ++ le_bytes 8 sp
        ++ M) R l hf
      (by rw [habs]; simp only [List.length_append, le_bytes_length, h8])
    rw [e2, hpart]
    simp only [if_false, not_true_eq_false]
    simp [hd, habs]

theorem flat_deserialize (base : Nat) (F : FlatFailure)
    (hwf : F.wf F.loc_ofs F.st_ofs)
    (hno : base + F.st_ofs < 18446744073709551616) :
    failure_storage_deserialize base F.bytes
      = some (0, (F.map_ptrs (deser_ptr base) (deser_ptr (deser_ptr base F.location))
          (deser_ptr (deser_ptr base F.stacktrace))).bytes) := by
  obtain ⟨s8, dp, lp, sp, g1, loc, g2, st, T⟩ := F
  obtain ⟨h8, hdp, hlp, hsp, hloc, hst⟩ := hwf
  simp only [FlatFailure.bytes, FlatFailure.map_ptrs, FlatFailure.loc_ofs,
    FlatFailure.st_ofs] at hloc hst h8 hdp hlp hsp hno ⊢
  have hrest : ∀ d, failure_deserialize_location base
      (s8 ++ le_bytes 8 d ++ le_bytes 8 lp ++ le_bytes 8 sp ++ g1 ++
        opt_bytes LocationPart.bytes loc ++ g2 ++ opt_bytes StacktracePart.bytes st ++ T)
      = some (0, s8 ++ le_bytes 8 d ++ le_bytes 8 (deser_ptr base lp) ++
          le_bytes 8 (deser_ptr base sp) ++ g1 ++
          opt_bytes LocationPart.bytes
            (loc.map (fun l => { l with filename := deser_ptr (deser_ptr base lp) l.filename })) ++ g2 ++
          opt_bytes StacktracePart.bytes
            (st.map (fun s => { s with cells := map_frames (deser_ptr (deser_ptr base sp)) s.cells })) ++ T) := by
    intro d
    have e0 : s8 ++ le_bytes 8 d ++ le_bytes 8 lp ++ le_bytes 8 sp ++ g1 ++
        opt_bytes LocationPart.bytes loc ++ g2 ++ opt_bytes StacktracePart.bytes st ++ T
        = s8 ++ le_bytes 8 d ++ le_bytes 8 lp ++ le_bytes 8 sp ++ g1 ++
          opt_bytes LocationPart.bytes loc ++ (g2 ++ opt_bytes StacktracePart.bytes st ++ T) := by
      simp
    rw [e0, flat_deserialize_location base s8 d lp sp g1 loc _ h8 hlp (by omega) hloc]
    have e1 : s8 ++ le_bytes 8 d ++ le_bytes 8 (deser_ptr base lp) ++ le_bytes 8 sp ++
        g1 ++ opt_bytes LocationPart.bytes
          (loc.map (fun l => { l with filename := deser_ptr (deser_ptr base lp) l.filename })) ++
        (g2 ++ opt_bytes StacktracePart.bytes st ++ T)
        = s8 ++ le_bytes 8 d ++ le_bytes 8 (deser_ptr base lp) ++ le_bytes 8 sp ++
        (g1 ++ opt_bytes LocationPart.bytes
          (loc.map (fun l => { l with filename := deser_ptr (deser_ptr base lp) l.filename })) ++
          g2) ++ opt_bytes StacktracePart.bytes st ++ T := by simp
    have hlen : (g1 ++ opt_bytes LocationPart.bytes
          (loc.map (fun l => { l with filename := deser_ptr (deser_ptr base lp) l.filename })) ++
          g2).length
        = g1.length + (opt_bytes LocationPart.bytes loc).length + g2.length := by
      simp only [List.length_append, opt_bytes_map_loc_length]
    rw [e1, flat_deserialize_stacktrace base s8 d _ sp _ st T h8 hsp
      (by rw [hlen]; omega)
      (by rw [hlen]; rw [show 32 + (g1.length + (opt_bytes LocationPart.bytes loc).length
            + g2.length) = 32 + g1.length + (opt_bytes LocationPart.bytes loc).length
            + g2.length by omega]; exact hst)]
    simp
  unfold failure_storage_deserialize
  have e0 : s8 ++ le_bytes 8 dp ++ le_bytes 8 lp ++ le_bytes 8 sp ++ g1 ++
      opt_bytes LocationPart.bytes loc ++ g2 ++ opt_bytes StacktracePart.bytes st ++ T
      = s8 ++ le_bytes 8 dp ++ (le_bytes 8 lp ++ le_bytes 8 sp ++ g1 ++
        opt_bytes LocationPart.bytes loc ++ g2 ++ opt_bytes StacktracePart.bytes st ++ T) := by
    simp
  have e1 : ∀ d, s8 ++ le_bytes 8 d ++ (le_bytes 8 lp ++ le_bytes 8 sp ++ g1 ++
        opt_bytes LocationPart.bytes loc ++ g2 ++ opt_bytes StacktracePart.bytes st ++ T)
      = s8 ++ le_bytes 8 d ++ le_bytes 8 lp ++ le_bytes 8 sp ++ g1 ++
      opt_bytes LocationPart.bytes loc ++ g2 ++ opt_bytes StacktracePart.bytes st ++ T := by
    intro d; simp
  rw [e0, header_load_description base s8 _ dp h8 hdp]
  by_cases hp : dp ≠ 0
  · simp only [hp, ne_eq, not_false_eq_true, if_true]
    rw [header_store_description base s8 _ dp _ h8]
    simp only []
    rw [e1, hrest]
    simp [deser_ptr, hp]
  · simp only [hp, if_false]
    rw [e1, hrest]
    simp [deser_ptr, hp]

end FlatDeserialize

section FormatProofs

theorem write_gap (A B bs : List Nat) (k d : Nat) (h : d + bs.length ≤ k) :
    write_bytes (A ++ List.replicate k 0 ++ B) (A.length + d) bs
      = A ++ List.replicate d 0 ++ bs ++ List.replicate (k - d - bs.length) 0 ++ B := by
  have hrep : List.replicate k (0 : Nat) = List.replicate d 0 ++ List.replicate bs.length 0
      ++ List.replicate (k - d - bs.length) 0 := by
    rw [← List.replicate_add, ← List.replicate_add]
    congr 1; omega
  have e : A ++ List.replicate k 0 ++ B
      = (A ++ List.replicate d 0) ++ List.replicate bs.length 0
        ++ (List.replicate (k - d - bs.length) 0 ++ B) := by
    rw [hrep]; simp only [List.append_assoc]
  have hl : A.length + d = (A ++ List.replicate d 0).length := by simp
  rw [e, hl, write_bytes_at _ _ _ bs (by simp)]
  simp only [List.append_assoc]

theorem store64_gap (A B : List Nat) (k d v : Nat) (h : d + 8 ≤ k) :
    store64 (A ++ List.replicate k 0 ++ B) (A.length + d) v
      = A ++ List.replicate d 0 ++ le_bytes 8 v ++ List.replicate (k - d - 8) 0 ++ B := by
  unfold store64
  have := write_gap A B (le_bytes 8 v) k d (by rw [le_bytes_length]; exact h)
  rw [le_bytes_length] at this
  exact this

theorem store32_gap (A B : List Nat) (k d v : Nat) (h : d + 4 ≤ k) :
    store32 (A ++ List.replicate k 0 ++ B) (A.length + d) v
      = A ++ List.replicate d 0 ++ le_bytes 4 v ++ List.replicate (k - d - 4) 0 ++ B := by
  unfold store32
  have := write_gap A B (le_bytes 4 v) k d (by rw [le_bytes_length]; exact h)
  rw [le_bytes_length] at this
  exact this

theorem location_rest_length (l : ctest_location) :
    (location_rest l).length + 8 = location_storage_size l := by
  unfold location_rest location_storage_size
  cases l.filename with
  | none => simp [le_bytes_length]
  | some s => simp [le_bytes_length, cstring_bytes, serialize_pad_size_one]; omega

theorem flat_location_length (lb : Nat) (l : ctest_location) :
    (flat_location lb l).bytes.length = location_storage_size l := by
  unfold LocationPart.bytes flat_location
  simp only [List.length_append, le_bytes_length]
  have := location_rest_length l
  omega

theorem location_storage_format_zeros (base n : Nat) (l : ctest_location)
    (h : location_storage_size l ≤ n) :
    location_storage_format base (List.replicate n 0) l
      = ((location_storage_size l : Int),
          (flat_location base l).bytes ++ List.replicate (n - location_storage_size l) 0) := by
  unfold location_storage_format location_storage_size LocationPart.bytes flat_location
    location_rest
  unfold location_storage_size at h
  cases hf : l.filename with
  | none =>
    simp only [hf] at h ⊢
    have h16 : ¬ (16 > (List.replicate n 0).length) := by simp; omega
    rw [if_neg h16]
    have s1 := store64_gap [] [] n 0 0 (by omega)
    simp only [List.nil_append, List.append_nil, List.length_nil, Nat.zero_add,
      List.replicate_zero, Nat.sub_zero] at s1
    rw [s1]
    have s2 := store32_gap (le_bytes 8 0) [] (n - 8) 0 (int_bits l.line) (by omega)
    simp only [List.append_nil, le_bytes_length, Nat.add_zero, List.replicate_zero,
      Nat.sub_zero] at s2
    rw [s2]
    have : n - 8 - 4 = 4 + (n - 16) := by omega
    rw [this, List.replicate_add]
    simp
  | some s =>
    simp only [hf, serialize_pad_size_one] at h ⊢
    have h16 : ¬ (16 > (List.replicate n 0).length) := by simp; omega
    have h2 : ¬ (16 + (s.length + 1) > (List.replicate n 0).length) := by simp; omega
    rw [if_neg h16, if_neg h2]
    have s1 := store64_gap [] [] n 0 (base + 16) (by omega)
    simp only [List.nil_append, List.append_nil, List.length_nil, Nat.zero_add,
      List.replicate_zero, Nat.sub_zero] at s1
    rw [s1]
    have s2 := write_gap (le_bytes 8 (base + 16)) [] (cstring_bytes s) (n - 8) 8
      (by simp [cstring_bytes]; omega)
    simp only [List.append_nil, le_bytes_length] at s2
    rw [s2]
    have s3 := store32_gap (le_bytes 8 (base + 16))
      (cstring_bytes s ++ List.replicate (n - 8 - 8 - (cstring_bytes s).length) 0) 8 0
      (int_bits l.line) (by omega)
    simp only [le_bytes_length, Nat.add_zero, List.replicate_zero, List.append_nil] at s3
    have e : le_bytes 8 (base + 16) ++ List.replicate 8 0 ++ cstring_bytes s ++
        List.replicate (n - 8 - 8 - (cstring_bytes s).length) 0
        = le_bytes 8 (base + 16) ++ List.replicate 8 0 ++
          (cstring_bytes s ++ List.replicate (n - 8 - 8 - (cstring_bytes s).length) 0) := by
      simp
    rw [e, s3]
    have hl : (cstring_bytes s).length = s.length + 1 := by simp [cstring_bytes]
    rw [hl]
    have : n - 8 - 8 - (s.length + 1) = n - (16 + s.length + 1) := by omega
    rw [this]
    simp
    rfl

end FormatProofs

section StacktraceFormat

theorem frame_names_length : ∀ frames : List ctest_stackframe, ∀ ofs,
    stacktrace_size_loop frames ofs = ofs + (frame_names frames).length := by
  intro frames
  induction frames with
  | nil => intro ofs; rfl
  | cons f rest ih =>
    intro ofs
    rw [stacktrace_size_loop, frame_names]
    cases f.filename with
    | none => simp [ih]
    | some s => simp [ih, serialize_pad_size_one, cstring_bytes]; omega

theorem flat_cells_length (sb : Nat) : ∀ (frames : List ctest_stackframe) (ofs : Nat),
    (flat_cells sb frames ofs).length = frames.length := by
  intro frames
  induction frames with
  | nil => intro _; rfl
  | cons f rest ih => intro ofs; simp [flat_cells, ih]

theorem flat_cells_wf (sb : Nat) : ∀ (frames : List ctest_stackframe) (ofs : Nat),
    sb + (ofs + (frame_names frames).length) ≤ 18446744073709551616 →
    ∀ c ∈ flat_cells sb frames ofs, c.wf := by
  intro frames
  induction frames with
  | nil => intro _ _ c hc; simp [flat_cells] at hc
  | cons f rest ih =>
    intro ofs h c hc
    rw [flat_cells] at hc
    rw [frame_names] at h
    rcases List.mem_cons.mp hc with e | e
    · subst e
      refine ⟨le_bytes_length _ _, ?_, by simp [le_bytes_length]⟩
      cases hf : f.filename with
      | none => simp
      | some s =>
        simp only [hf, List.length_append, cstring_bytes, List.length_singleton] at h ⊢
        omega
    · refine ih (ofs + frame_name_size f) ?_ c e
      unfold frame_name_size
      cases hf : f.filename with
      | none => simp only [hf] at h ⊢; simpa using h
      | some s =>
        simp only [hf, List.length_append, cstring_bytes, List.length_singleton] at h ⊢
        omega

theorem stacktrace_format_loop_zeros (pb : Nat) :
    ∀ (frames : List ctest_stackframe) (P Sd : List Nat) (i z : Nat),
      P.length = 8 + 24 * i → (frame_names frames).length ≤ z →
      stacktrace_format_loop pb frames i (P.length + 24 * frames.length + Sd.length)
          (P ++ List.replicate (24 * frames.length) 0 ++ Sd ++ List.replicate z 0)
        = (((P.length + 24 * frames.length + Sd.length + (frame_names frames).length : Nat)
              : Int),
            P ++ frame_cells (flat_cells pb frames (P.length + 24 * frames.length + Sd.length))
              ++ Sd ++ frame_names frames
              ++ List.replicate (z - (frame_names frames).length) 0) := by
  intro frames
  induction frames with
  | nil =>
    intro P Sd i z _ _
    simp [stacktrace_format_loop, flat_cells, frame_cells, frame_names]
  | cons f rest ih =>
    intro P Sd i z hP hz
    rw [stacktrace_format_loop]
    have hdst : 8 + 24 * i = P.length := hP.symm
    rw [frame_names] at hz
    cases hf : f.filename with
    | none =>
      simp only [hf, List.nil_append] at hz
      simp only [hdst]
      -- the three stores of the frame
      have e0 : P ++ List.replicate (24 * (f :: rest).length) 0 ++ Sd ++ List.replicate z 0
          = P ++ List.replicate (24 * (rest.length + 1)) 0 ++ (Sd ++ List.replicate z 0) := by
        simp
      have s1 := store64_gap P (Sd ++ List.replicate z 0) (24 * (rest.length + 1)) 8 0
        (by omega)
      have e1 : P ++ List.replicate 8 0 ++ le_bytes 8 0 ++
          List.replicate (24 * (rest.length + 1) - 8 - 8) 0 ++ (Sd ++ List.replicate z 0)
          = P ++ List.replicate 8 0 ++ (le_bytes 8 0 ++
            List.replicate (24 * (rest.length + 1) - 8 - 8) 0 ++ (Sd ++ List.replicate z 0)) := by
        simp
      have s2 := store64_gap P (le_bytes 8 0 ++
          List.replicate (24 * (rest.length + 1) - 8 - 8) 0 ++ (Sd ++ List.replicate z 0)) 8 0
          f.addr (by omega)
      simp only [Nat.add_zero, List.replicate_zero, List.append_nil, Nat.sub_self] at s2
      have e2 : P ++ le_bytes 8 f.addr ++ (le_bytes 8 0 ++
          List.replicate (24 * (rest.length + 1) - 8 - 8) 0 ++ (Sd ++ List.replicate z 0))
          = (P ++ le_bytes 8 f.addr ++ le_bytes 8 0) ++
            List.replicate (24 * (rest.length + 1) - 8 - 8) 0 ++ (Sd ++ List.replicate z 0) := by
        simp
      have s3 := store32_gap (P ++ le_bytes 8 f.addr ++ le_bytes 8 0)
        (Sd ++ List.replicate z 0) (24 * (rest.length + 1) - 8 - 8) 0 (int_bits f.line)
        (by omega)
      simp only [Nat.add_zero, List.replicate_zero, List.append_nil, List.length_append,
        le_bytes_length] at s3
      have hidx : P.length + 16 = P.length + 8 + 8 := by omega
      rw [e0, s1, e1, s2, e2, hidx, s3]
      have hrep : List.replicate (24 * (rest.length + 1) - 8 - 8 - 0 - 4) (0 : Nat)
          = [0, 0, 0, 0] ++ List.replicate (24 * rest.length) 0 := by
        have : 24 * (rest.length + 1) - 8 - 8 - 0 - 4 = 4 + 24 * rest.length := by omega
        rw [this, List.replicate_add]; rfl
      have e3 : P ++ le_bytes 8 f.addr ++ le_bytes 8 0 ++ le_bytes 4 (int_bits f.line) ++
          List.replicate (24 * (rest.length + 1) - 8 - 8 - 0 - 4) 0 ++
          (Sd ++ List.replicate z 0)
          = (P ++ le_bytes 8 f.addr ++ le_bytes 8 0 ++ le_bytes 4 (int_bits f.line) ++
            [0, 0, 0, 0]) ++ List.replicate (24 * rest.length) 0 ++ Sd ++ List.replicate z 0 := by
        rw [hrep]; simp
      have hlen : (P ++ le_bytes 8 f.addr ++ le_bytes 8 0 ++ le_bytes 4 (int_bits f.line) ++
          [0, 0, 0, 0]).length = P.length + 24 := by
        simp [le_bytes_length]
      have hofs : P.length + 24 * (f :: rest).length + Sd.length
          = (P ++ le_bytes 8 f.addr ++ le_bytes 8 0 ++ le_bytes 4 (int_bits f.line) ++
            [0, 0, 0, 0]).length + 24 * rest.length + Sd.length := by
        rw [hlen, List.length_cons]; omega
      rw [e3, hofs, ih _ Sd (i + 1) z (by rw [hlen]; omega) hz]
      simp only [frame_names, flat_cells, frame_cells, hf, frame_name_size, Nat.add_zero,
        List.nil_append]
      simp
    | some s =>
      have hcl : (cstring_bytes s).length = s.length + 1 := by simp [cstring_bytes]
      simp only [hf, List.length_append, hcl] at hz
      simp only [hdst, serialize_pad_size_one]
      have hfit : ¬ (P.length + 24 * (f :: rest).length + Sd.length + (s.length + 1)
          > (P ++ List.replicate (24 * (f :: rest).length) 0 ++ Sd ++
              List.replicate z 0).length) := by
        simp only [List.length_append, List.length_replicate]; omega
      rw [if_neg hfit]
      generalize hfp : pb + (P.length + 24 * (f :: rest).length + Sd.length) = fp
      have e0 : P ++ List.replicate (24 * (f :: rest).length) 0 ++ Sd ++ List.replicate z 0
          = P ++ List.replicate (24 * (rest.length + 1)) 0 ++ (Sd ++ List.replicate z 0) := by
        simp
      have s1 := store64_gap P (Sd ++ List.replicate z 0) (24 * (rest.length + 1)) 8 fp
        (by omega)
      -- the file name goes to the end of what is written
      have e1 : P ++ List.replicate 8 0 ++ le_bytes 8 fp ++
          List.replicate (24 * (rest.length + 1) - 8 - 8) 0 ++ (Sd ++ List.replicate z 0)
          = (P ++ List.replicate 8 0 ++ le_bytes 8 fp ++
            List.replicate (24 * (rest.length + 1) - 8 - 8) 0 ++ Sd) ++ List.replicate z 0 := by
        simp
      have hA : (P ++ List.replicate 8 0 ++ le_bytes 8 fp ++
            List.replicate (24 * (rest.length + 1) - 8 - 8) 0 ++ Sd).length
          = P.length + 24 * (f :: rest).length + Sd.length := by
        simp only [List.length_append, List.length_replicate, le_bytes_length,
          List.length_cons]; omega
      have s2 : write_bytes ((P ++ List.replicate 8 0 ++ le_bytes 8 fp ++
            List.replicate (24 * (rest.length + 1) - 8 - 8) 0 ++ Sd) ++ List.replicate z 0)
            (P.length + 24 * (f :: rest).length + Sd.length) (cstring_bytes s)
          = P ++ List.replicate 8 0 ++ le_bytes 8 fp ++
            List.replicate (24 * (rest.length + 1) - 8 - 8) 0 ++ Sd ++ cstring_bytes s ++
            List.replicate (z - (cstring_bytes s).length) 0 := by
        have := write_gap (P ++ List.replicate 8 0 ++ le_bytes 8 fp ++
            List.replicate (24 * (rest.length + 1) - 8 - 8) 0 ++ Sd) [] (cstring_bytes s) z 0
          (by rw [hcl]; omega)
        rw [Nat.add_zero, hA] at this
        simpa using this
      have e2 : P ++ List.replicate 8 0 ++ le_bytes 8 fp ++
            List.replicate (24 * (rest.length + 1) - 8 - 8) 0 ++ Sd ++ cstring_bytes s ++
            List.replicate (z - (cstring_bytes s).length) 0
          = P ++ List.replicate 8 0 ++ (le_bytes 8 fp ++
            List.replicate (24 * (rest.length + 1) - 8 - 8) 0 ++
            (Sd ++ cstring_bytes s ++ List.replicate (z - (cstring_bytes s).length) 0)) := by
        simp
      have s3 := store64_gap P (le_bytes 8 fp ++
            List.replicate (24 * (rest.length + 1) - 8 - 8) 0 ++
            (Sd ++ cstring_bytes s ++ List.replicate (z - (cstring_bytes s).length) 0)) 8 0
          f.addr (by omega)
      simp only [Nat.add_zero, List.replicate_zero, List.append_nil, Nat.sub_self] at s3
      have e3 : P ++ le_bytes 8 f.addr ++ (le_bytes 8 fp ++
            List.replicate (24 * (rest.length + 1) - 8 - 8) 0 ++
            (Sd ++ cstring_bytes s ++ List.replicate (z - (cstring_bytes s).length) 0))
          = (P ++ le_bytes 8 f.addr ++ le_bytes 8 fp) ++
            List.replicate (24 * (rest.length + 1) - 8 - 8) 0 ++
            (Sd ++ cstring_bytes s ++ List.replicate (z - (cstring_bytes s).length) 0) := by
        simp
      have s4 := store32_gap (P ++ le_bytes 8 f.addr ++ le_bytes 8 fp)
        (Sd ++ cstring_bytes s ++ List.replicate (z - (cstring_bytes s).length) 0)
        (24 * (rest.length + 1) - 8 - 8) 0 (int_bits f.line) (by omega)
      simp only [Nat.add_zero, List.replicate_zero, List.append_nil, List.length_append,
        le_bytes_length] at s4
      have hidx : P.length + 16 = P.length + 8 + 8 := by omega
      rw [e0, s1, e1, s2, e2, s3, e3, hidx, s4]
      have hrep : List.replicate (24 * (rest.length + 1) - 8 - 8 - 0 - 4) (0 : Nat)
          = [0, 0, 0, 0] ++ List.replicate (24 * rest.length) 0 := by
        have : 24 * (rest.length + 1) - 8 - 8 - 0 - 4 = 4 + 24 * rest.length := by omega
        rw [this, List.replicate_add]; rfl
      have e4 : P ++ le_bytes 8 f.addr ++ le_bytes 8 fp ++ le_bytes 4 (int_bits f.line) ++
          List.replicate (24 * (rest.length + 1) - 8 - 8 - 0 - 4) 0 ++
          (Sd ++ cstring_bytes s ++ List.replicate (z - (cstring_bytes s).length) 0)
          = (P ++ le_bytes 8 f.addr ++ le_bytes 8 fp ++ le_bytes 4 (int_bits f.line) ++
            [0, 0, 0, 0]) ++ List.replicate (24 * rest.length) 0 ++ (Sd ++ cstring_bytes s)
            ++ List.replicate (z - (cstring_bytes s).length) 0 := by
        rw [hrep]; simp
      have hlen : (P ++ le_bytes 8 f.addr ++ le_bytes 8 fp ++ le_bytes 4 (int_bits f.line) ++
          [0, 0, 0, 0]).length = P.length + 24 := by
        simp [le_bytes_length]
      have hofs : P.length + 24 * (f :: rest).length + Sd.length + (s.length + 1)
          = (P ++ le_bytes 8 f.addr ++ le_bytes 8 fp ++ le_bytes 4 (int_bits f.line) ++
            [0, 0, 0, 0]).length + 24 * rest.length + (Sd ++ cstring_bytes s).length := by
        rw [hlen, List.length_cons, List.length_append, hcl]; omega
      rw [e4, hofs, ih _ (Sd ++ cstring_bytes s) (i + 1) (z - (cstring_bytes s).length)
        (by rw [hlen]; omega) (by rw [hcl]; omega)]
      rw [← hofs]
      simp only [frame_names, flat_cells, frame_cells, hf, frame_name_size, hfp]
      have hz2 : z - (cstring_bytes s).length - (frame_names rest).length
          = z - (cstring_bytes s ++ frame_names rest).length := by
        rw [List.length_append]; omega
      rw [hz2]
      simp [hcl]
      omega

end StacktraceFormat

section FailureFormat

theorem stacktrace_storage_format_zeros (base n : Nat) (s : ctest_stacktrace)
    (h : stacktrace_storage_size s ≤ n) :
    stacktrace_storage_format base (List.replicate n 0) s
      = ((stacktrace_storage_size s : Int),
          (flat_stacktrace base s).bytes ++ List.replicate (n - stacktrace_storage_size s) 0) := by
  unfold stacktrace_storage_format
  have hsize : stacktrace_storage_size s
      = 8 + 24 * s.frames.length + (frame_names s.frames).length := by
    unfold stacktrace_storage_size; rw [frame_names_length]
  rw [hsize] at h
  have hfit : ¬ (8 + 24 * s.frames.length > (List.replicate n 0).length) := by
    simp only [List.length_replicate]; omega
  simp only [hfit, if_false]
  have s1 := store64_gap [] [] n 0 s.frames.length (by omega)
  simp only [List.nil_append, List.append_nil, List.length_nil, Nat.zero_add,
    List.replicate_zero, Nat.sub_zero] at s1
  have hrep : List.replicate (n - 8) (0 : Nat)
      = List.replicate (24 * s.frames.length) 0 ++ []
        ++ List.replicate (n - 8 - 24 * s.frames.length) 0 := by
    rw [List.append_nil, ← List.replicate_add]; congr 1; omega
  have e : le_bytes 8 s.frames.length ++ List.replicate (n - 8) 0
      = le_bytes 8 s.frames.length ++ List.replicate (24 * s.frames.length) 0 ++ []
        ++ List.replicate (n - 8 - 24 * s.frames.length) 0 := by
    rw [hrep]; simp only [List.append_assoc]
  have hl : 8 + 24 * s.frames.length
      = (le_bytes 8 s.frames.length).length + 24 * s.frames.length + ([] : List Nat).length := by
    simp [le_bytes_length]
  rw [s1, e, hl, stacktrace_format_loop_zeros base s.frames (le_bytes 8 s.frames.length) []
    0 (n - 8 - 24 * s.frames.length) (by simp [le_bytes_length]) (by omega)]
  simp only [List.length_nil, Nat.add_zero, le_bytes_length, List.append_nil]
  rw [hsize]
  unfold StacktracePart.bytes flat_stacktrace
  simp only [flat_cells_length]
  have : n - 8 - 24 * s.frames.length - (frame_names s.frames).length
      = n - (8 + 24 * s.frames.length + (frame_names s.frames).length) := by omega
  rw [this]

theorem flat_stacktrace_length (sb : Nat) (s : ctest_stacktrace)
    (h : sb + stacktrace_storage_size s ≤ 18446744073709551616) :
    (flat_stacktrace sb s).bytes.length = stacktrace_storage_size s := by
  have hsize : stacktrace_storage_size s
      = 8 + 24 * s.frames.length + (frame_names s.frames).length := by
    unfold stacktrace_storage_size; rw [frame_names_length]
  unfold StacktracePart.bytes flat_stacktrace
  simp only [List.length_append, le_bytes_length]
  rw [frame_cells_length _ (flat_cells_wf sb s.frames _ (by rw [hsize] at h; omega)),
    flat_cells_length, hsize]

theorem take_append_zeros (H : List Nat) (m o : Nat) (h1 : H.length ≤ o) :
    (H ++ List.replicate m 0).take o = H ++ List.replicate (min (o - H.length) m) 0 := by
  rw [List.take_append_eq_append_take, List.take_of_length_le h1, List.take_replicate]

theorem drop_append_zeros (H : List Nat) (m o : Nat) (h1 : H.length ≤ o) :
    (H ++ List.replicate m 0).drop o = List.replicate (m - (o - H.length)) 0 := by
  rw [List.drop_append_eq_append_drop, List.drop_of_length_le h1, List.drop_replicate]
  simp

end FailureFormat

section StacktracePhase

theorem storage_format_stacktrace_flat (base : Nat) (H L : List Nat) (g z ofs : Nat)
    (st : Option ctest_stacktrace) (hH : H.length = 24) (hg : 8 ≤ g)
    (hofs : ofs = 24 + g + L.length) (hz : stacktrace_need ofs st ≤ z) :
    storage_format_stacktrace base (H ++ List.replicate g 0 ++ L ++ List.replicate z 0) ofs st
      = (((ofs + stacktrace_need ofs st : Nat) : Int),
          H ++ le_bytes 8 (stacktrace_ptr base ofs st) ++ List.replicate (g - 8) 0 ++ L ++
            stacktrace_pad ofs st ++
            opt_bytes StacktracePart.bytes
              (st.map (flat_stacktrace (base + serialize_pad_size ofs 8))) ++
            List.replicate (z - stacktrace_need ofs st) 0) := by
  have e0 : H ++ List.replicate g 0 ++ L ++ List.replicate z 0
      = H ++ List.replicate g 0 ++ (L ++ List.replicate z 0) := by simp
  have s1 : ∀ v, store64 (H ++ List.replicate g 0 ++ (L ++ List.replicate z 0)) 24 v
      = H ++ le_bytes 8 v ++ List.replicate (g - 8) 0 ++ (L ++ List.replicate z 0) := by
    intro v
    have := store64_gap H (L ++ List.replicate z 0) g 0 v (by omega)
    rw [hH] at this
    simpa using this
  unfold storage_format_stacktrace
  cases st with
  | none =>
    simp only [stacktrace_need, stacktrace_ptr, stacktrace_pad, opt_bytes, Option.map_none',
      Nat.add_zero, Nat.sub_zero, List.append_nil]
    rw [e0, s1]
    simp
  | some s =>
    simp only [stacktrace_need] at hz
    have hpad := serialize_pad_size_ge ofs
    simp only [stacktrace_need, stacktrace_ptr, stacktrace_pad, opt_bytes, Option.map_some']
    have hfit : ¬ (serialize_pad_size ofs 8
        > (H ++ List.replicate g 0 ++ L ++ List.replicate z 0).length) := by
      simp only [List.length_append, List.length_replicate, hH]; omega
    rw [if_neg hfit, e0, s1]
    have e1 : H ++ le_bytes 8 (base + serialize_pad_size ofs 8) ++ List.replicate (g - 8) 0 ++
        (L ++ List.replicate z 0)
        = (H ++ le_bytes 8 (base + serialize_pad_size ofs 8) ++ List.replicate (g - 8) 0 ++ L)
          ++ List.replicate z 0 := by simp
    have hlen : (H ++ le_bytes 8 (base + serialize_pad_size ofs 8) ++
        List.replicate (g - 8) 0 ++ L).length = ofs := by
      simp only [List.length_append, List.length_replicate, le_bytes_length, hH]; omega
    rw [e1, drop_append_zeros _ _ _ (by rw [hlen]; exact hpad),
      take_append_zeros _ _ _ (by rw [hlen]; exact hpad), hlen]
    rw [stacktrace_storage_format_zeros _ _ s (by omega)]
    simp only []
    have hneg : ¬ ((stacktrace_storage_size s : Int) < 0) := by omega
    rw [if_neg hneg]
    have hmin : min (serialize_pad_size ofs 8 - ofs) z = serialize_pad_size ofs 8 - ofs := by
      omega
    rw [hmin]
    have hz2 : z - (serialize_pad_size ofs 8 - ofs) - stacktrace_storage_size s
        = z - (serialize_pad_size ofs 8 - ofs + stacktrace_storage_size s) := by omega
    rw [hz2]
    refine Prod.ext ?_ ?_
    · simp only []; push_cast; omega
    · simp only [List.append_assoc]

end StacktracePhase

section LocationPhase

theorem opt_bytes_none {α : Type} (bytes : α → List Nat) : opt_bytes bytes none = [] := rfl

theorem opt_bytes_some {α : Type} (bytes : α → List Nat) (a : α) :
    opt_bytes bytes (some a) = bytes a := rfl

theorem storage_format_location_flat (base : Nat) (H : List Nat) (m ofs : Nat)
    (loc : Option ctest_location) (st : Option ctest_stacktrace)
    (hH : H.length = 16) (hofs : 32 ≤ ofs)
    (hfit : ofs + location_need ofs loc
      + stacktrace_need (ofs + location_need ofs loc) st ≤ 16 + m) :
    storage_format_location base (H ++ List.replicate m 0) ofs loc st
      = (((ofs + location_need ofs loc
            + stacktrace_need (ofs + location_need ofs loc) st : Nat) : Int),
          H ++ le_bytes 8 (location_ptr base ofs loc) ++
            le_bytes 8 (stacktrace_ptr base (ofs + location_need ofs loc) st) ++
            List.replicate (ofs - 32) 0 ++ location_pad ofs loc ++
            opt_bytes LocationPart.bytes
              (loc.map (flat_location (base + serialize_pad_size ofs 8))) ++
            stacktrace_pad (ofs + location_need ofs loc) st ++
            opt_bytes StacktracePart.bytes
              (st.map (flat_stacktrace
                (base + serialize_pad_size (ofs + location_need ofs loc) 8))) ++
            List.replicate (16 + m - (ofs + location_need ofs loc
              + stacktrace_need (ofs + location_need ofs loc) st)) 0) := by
  have s1 : ∀ v, store64 (H ++ List.replicate m 0) 16 v
      = H ++ le_bytes 8 v ++ List.replicate (m - 8) 0 := by
    intro v
    have := store64_gap H [] m 0 v (by cases loc <;> simp [location_need] at hfit <;> omega)
    rw [hH] at this
    simpa using this
  unfold storage_format_location
  cases loc with
  | none =>
    simp only [location_need, location_ptr, location_pad, opt_bytes_none, Option.map_none',
      Nat.add_zero, List.append_nil] at hfit ⊢
    rw [s1]
    have hrep : List.replicate (m - 8) (0 : Nat)
        = List.replicate (ofs - 24) 0 ++ [] ++ List.replicate (m - 8 - (ofs - 24)) 0 := by
      rw [List.append_nil, ← List.replicate_add]; congr 1; omega
    have e : H ++ le_bytes 8 0 ++ List.replicate (m - 8) 0
        = (H ++ le_bytes 8 0) ++ List.replicate (ofs - 24) 0 ++ []
          ++ List.replicate (m - 8 - (ofs - 24)) 0 := by
      rw [hrep]; simp only [List.append_assoc]
    rw [e, storage_format_stacktrace_flat base (H ++ le_bytes 8 0) [] (ofs - 24)
      (m - 8 - (ofs - 24)) ofs st (by simp [hH, le_bytes_length]) (by omega)
      (by simp; omega) (by omega)]
    have h1 : ofs - 24 - 8 = ofs - 32 := by omega
    have h2 : m - 8 - (ofs - 24) - stacktrace_need ofs st
        = 16 + m - (ofs + stacktrace_need ofs st) := by omega
    rw [h1, h2]
    simp only [List.append_assoc, List.nil_append]
  | some l =>
    simp only [location_need, location_ptr, location_pad, opt_bytes_some, Option.map_some']
      at hfit ⊢
    have hpad := serialize_pad_size_ge ofs
    have hfit1 : ¬ (serialize_pad_size ofs 8 > (H ++ List.replicate m 0).length) := by
      simp only [List.length_append, List.length_replicate, hH]; omega
    rw [if_neg hfit1, s1]
    have hlen : (H ++ le_bytes 8 (base + serialize_pad_size ofs 8)).length = 24 := by
      simp [hH, le_bytes_length]
    rw [drop_append_zeros _ _ _ (by rw [hlen]; omega),
      take_append_zeros _ _ _ (by rw [hlen]; omega), hlen]
    rw [location_storage_format_zeros _ _ l (by omega)]
    simp only []
    have hneg : ¬ ((location_storage_size l : Int) < 0) := by omega
    rw [if_neg hneg]
    have hmin : min (serialize_pad_size ofs 8 - 24) (m - 8) = serialize_pad_size ofs 8 - 24 := by
      omega
    rw [hmin, Int.toNat_ofNat]
    have e : H ++ le_bytes 8 (base + serialize_pad_size ofs 8) ++
        List.replicate (serialize_pad_size ofs 8 - 24) 0 ++
        ((flat_location (base + serialize_pad_size ofs 8) l).bytes ++
          List.replicate (m - 8 - (serialize_pad_size ofs 8 - 24) - location_storage_size l) 0)
        = (H ++ le_bytes 8 (base + serialize_pad_size ofs 8)) ++
          List.replicate (serialize_pad_size ofs 8 - 24) 0 ++
          (flat_location (base + serialize_pad_size ofs 8) l).bytes ++
          List.replicate (m - 8 - (serialize_pad_size ofs 8 - 24) - location_storage_size l) 0 := by
      simp only [List.append_assoc]
    have hofs2 : ofs + (serialize_pad_size ofs 8 - ofs + location_storage_size l)
        = serialize_pad_size ofs 8 + location_storage_size l := by omega
    rw [hofs2] at hfit ⊢
    rw [e, storage_format_stacktrace_flat base _ _ (serialize_pad_size ofs 8 - 24) _
      (serialize_pad_size ofs 8 + location_storage_size l) st hlen (by omega)
      (by rw [flat_location_length]; omega) (by omega)]
    have hrep : List.replicate (serialize_pad_size ofs 8 - 24 - 8) (0 : Nat)
        = List.replicate (ofs - 32) 0 ++ List.replicate (serialize_pad_size ofs 8 - ofs) 0 := by
      rw [← List.replicate_add]; congr 1; omega
    have hz : m - 8 - (serialize_pad_size ofs 8 - 24) - location_storage_size l
          - stacktrace_need (serialize_pad_size ofs 8 + location_storage_size l) st
        = 16 + m - (serialize_pad_size ofs 8 + location_storage_size l
          + stacktrace_need (serialize_pad_size ofs 8 + location_storage_size l) st) := by
      omega
    rw [hrep, hz]
    simp only [List.append_assoc]

end LocationPhase

section FormatFlat

theorem location_end_eq (f : ctest_failure) :
    location_end f = description_end f + location_need (description_end f) f.location := by
  unfold location_end location_need
  have := serialize_pad_size_ge (description_end f)
  cases f.location with
  | none => rfl
  | some l => simp only []; omega

theorem failure_storage_size_eq (f : ctest_failure) :
    failure_storage_size f = location_end f + stacktrace_need (location_end f) f.stacktrace := by
  unfold failure_storage_size storage_size__ location_end stacktrace_need description_end
  have e1 : (if description_len f.description > 0
      then serialize_pad_size 32 1 + description_len f.description else 32)
      = 32 + description_len f.description := by
    by_cases h : description_len f.description > 0
    · rw [if_pos h, serialize_pad_size_one]
    · rw [if_neg h]; omega
  simp only [e1]
  have g1 := serialize_pad_size_ge (32 + description_len f.description)
  cases f.location with
  | none =>
    cases f.stacktrace with
    | none => simp only []; omega
    | some s =>
      simp only []
      have := serialize_pad_size_ge (32 + description_len f.description)
      omega
  | some l =>
    have g2 := serialize_pad_size_ge
      (serialize_pad_size (32 + description_len f.description) 8 + location_storage_size l)
    cases f.stacktrace with
    | none => simp only []; omega
    | some s => simp only []; omega

theorem storage_format_flat (base : Nat) (buf : List Nat) (f : ctest_failure)
    (hfit : failure_storage_size f ≤ buf.length) :
    storage_format__ base buf f.stage (description_len f.description) f.location f.stacktrace
      = ((failure_storage_size f : Int),
          (flat_failure base (base + serialize_pad_size (description_end f) 8)
            (base + serialize_pad_size (location_end f) 8) f
            (List.replicate (description_len f.description) 0)
            (List.replicate (buf.length - failure_storage_size f) 0)).bytes) := by
  have hsize := failure_storage_size_eq f
  have hle := location_end_eq f
  have hde : description_end f = 32 + description_len f.description := rfl
  rw [hle] at hsize
  have h32 : ¬ (32 > buf.length) := by omega
  unfold storage_format__
  rw [if_neg h32]
  have s0 : store32 (List.replicate buf.length 0) 0 f.stage.value
      = le_bytes 4 f.stage.value ++ List.replicate (buf.length - 4) 0 := by
    have := store32_gap [] [] buf.length 0 f.stage.value (by omega)
    simpa using this
  have s1 : ∀ v, store64 (le_bytes 4 f.stage.value ++ List.replicate (buf.length - 4) 0) 8 v
      = (le_bytes 4 f.stage.value ++ [0, 0, 0, 0] ++ le_bytes 8 v)
        ++ List.replicate (buf.length - 16) 0 := by
    intro v
    have := store64_gap (le_bytes 4 f.stage.value) [] (buf.length - 4) 4 v (by omega)
    simp only [le_bytes_length, List.append_nil] at this
    have e : buf.length - 4 - 4 - 8 = buf.length - 16 := by omega
    rw [this, e]
    rfl
  have hH : ∀ v, (le_bytes 4 f.stage.value ++ [0, 0, 0, 0] ++ le_bytes 8 v).length = 16 := by
    intro v; simp [le_bytes_length]
  have htail : 16 + (buf.length - 16) - (description_end f
      + location_need (description_end f) f.location
      + stacktrace_need (description_end f + location_need (description_end f) f.location)
          f.stacktrace) = buf.length - failure_storage_size f := by omega
  have hsize2 := failure_storage_size_eq f
  have hfinal : ∀ v, v = (match f.description with
        | some _ => base + 32
        | none => 0) →
      (le_bytes 4 f.stage.value ++ [0, 0, 0, 0] ++ le_bytes 8 v ++
        le_bytes 8 (location_ptr base (description_end f) f.location) ++
        le_bytes 8 (stacktrace_ptr base (location_end f) f.stacktrace) ++
        List.replicate (description_end f - 32) 0 ++
        location_pad (description_end f) f.location ++
        opt_bytes LocationPart.bytes
          (f.location.map (flat_location (base + serialize_pad_size (description_end f) 8))) ++
        stacktrace_pad (location_end f) f.stacktrace ++
        opt_bytes StacktracePart.bytes
          (f.stacktrace.map (flat_stacktrace (base + serialize_pad_size (location_end f) 8))) ++
        List.replicate (buf.length - failure_storage_size f) 0)
      = (flat_failure base (base + serialize_pad_size (description_end f) 8)
            (base + serialize_pad_size (location_end f) 8) f
            (List.replicate (description_len f.description) 0)
            (List.replicate (buf.length - failure_storage_size f) 0)).bytes := by
    intro v hv
    subst hv
    have hd : description_end f - 32 = description_len f.description := by rw [hde]; omega
    unfold FlatFailure.bytes flat_failure
    rw [hd]
    cases f.location <;> cases f.stacktrace <;>
      simp only [location_ptr, stacktrace_ptr, location_pad, stacktrace_pad,
        List.append_assoc, List.append_nil, List.nil_append] <;> rfl
  have hphase : ∀ v ofs, v = (match f.description with
        | some _ => base + 32
        | none => 0) → ofs = description_end f →
      storage_format_location base
        (le_bytes 4 f.stage.value ++ [0, 0, 0, 0] ++ le_bytes 8 v
          ++ List.replicate (buf.length - 16) 0) ofs f.location f.stacktrace
      = ((failure_storage_size f : Int),
          (flat_failure base (base + serialize_pad_size (description_end f) 8)
            (base + serialize_pad_size (location_end f) 8) f
            (List.replicate (description_len f.description) 0)
            (List.replicate (buf.length - failure_storage_size f) 0)).bytes) := by
    intro v ofs hv ho
    subst ho
    rw [storage_format_location_flat base
      (le_bytes 4 f.stage.value ++ [0, 0, 0, 0] ++ le_bytes 8 v) (buf.length - 16)
      (description_end f) f.location f.stacktrace (hH v) (by rw [hde]; omega) (by omega)]
    rw [← hfinal v hv, htail, ← hle, ← hsize2]
  rw [s0]
  by_cases hd : description_len f.description > 0
  · have hfit2 : ¬ (serialize_pad_size 32 1 + description_len f.description > buf.length) := by
      rw [serialize_pad_size_one]; omega
    simp only [hd, if_true, hfit2, if_false, List.length_replicate]
    rw [s1, serialize_pad_size_one]
    apply hphase _ _ _ rfl
    cases hdesc : f.description with
    | none => simp [description_len, hdesc] at hd
    | some s => rfl
  · simp only [hd, if_false, List.length_replicate]
    rw [s1]
    have hd0 : description_len f.description = 0 := by omega
    apply hphase _ _ _ (by rw [hde, hd0])
    cases hdesc : f.description with
    | none => rfl
    | some s => simp [description_len, hdesc] at hd0

end FormatFlat

section FailureFormat

theorem flat_failure_split (hb lb sb : Nat) (f : ctest_failure) (desc tail : List Nat) :
    ∃ B, ∀ d : List Nat, (flat_failure hb lb sb f d tail).bytes
      = (le_bytes 4 f.stage.value ++ [0, 0, 0, 0]) ++ le_bytes 8 (match f.description with
          | some _ => hb + 32
          | none => 0) ++ ((le_bytes 8 (flat_failure hb lb sb f desc tail).location
          ++ le_bytes 8 (flat_failure hb lb sb f desc tail).stacktrace) ++ d ++ B) := by
  refine ⟨(match f.location with
    | some _ => List.replicate (serialize_pad_size (description_end f) 8 - description_end f) 0
    | none => []) ++ opt_bytes LocationPart.bytes (f.location.map (flat_location lb))
      ++ (flat_failure hb lb sb f desc tail).gap2
      ++ opt_bytes StacktracePart.bytes (f.stacktrace.map (flat_stacktrace sb)) ++ tail, ?_⟩
  intro d
  unfold FlatFailure.bytes flat_failure
  simp only [List.append_assoc] <;>
    (cases f.description <;> cases f.location <;> rfl)

theorem failure_storage_format_flat (base : Nat) (buf : List Nat) (f : ctest_failure)
    (hfit : failure_storage_size f ≤ buf.length) (hno : base + 32 < 18446744073709551616) :
    failure_storage_format base buf f
      = ((failure_storage_size f : Int),
          (flat_abs base f (List.replicate (buf.length - failure_storage_size f) 0)).bytes) := by
  unfold failure_storage_format
  rw [storage_format_flat base buf f hfit]
  have hnn : ((failure_storage_size f : Int)) ≥ 0 := Int.natCast_nonneg _
  simp only [hnn, if_true]
  unfold flat_abs
  obtain ⟨B, hB⟩ := flat_failure_split base (base + serialize_pad_size (description_end f) 8)
    (base + serialize_pad_size (location_end f) 8) f []
    (List.replicate (buf.length - failure_storage_size f) 0)
  rw [hB, hB (description_bytes f)]
  cases hdesc : f.description with
  | none => simp [description_bytes, hdesc, description_len]
  | some s =>
    simp only [description_bytes, hdesc, description_len]
    have hl : (le_bytes 4 f.stage.value ++ [0, 0, 0, 0]).length = 8 := by
      simp [le_bytes_length]
    have hload := load64_at (le_bytes 4 f.stage.value ++ [0, 0, 0, 0])
      (le_bytes 8 (flat_failure base (base + serialize_pad_size (description_end f) 8)
          (base + serialize_pad_size (location_end f) 8) f []
          (List.replicate (buf.length - failure_storage_size f) 0)).location ++
        le_bytes 8 (flat_failure base (base + serialize_pad_size (description_end f) 8)
          (base + serialize_pad_size (location_end f) 8) f []
          (List.replicate (buf.length - failure_storage_size f) 0)).stacktrace ++
        List.replicate (s.length + 1) 0 ++ B) (base + 32) hno
    rw [hl] at hload
    rw [hload]
    have e32 : base + 32 - base = 32 := by omega
    rw [e32]
    have hw := write_bytes_at
      (le_bytes 4 f.stage.value ++ [0, 0, 0, 0] ++ le_bytes 8 (base + 32) ++
        (le_bytes 8 (flat_failure base (base + serialize_pad_size (description_end f) 8)
          (base + serialize_pad_size (location_end f) 8) f []
          (List.replicate (buf.length - failure_storage_size f) 0)).location ++
        le_bytes 8 (flat_failure base (base + serialize_pad_size (description_end f) 8)
          (base + serialize_pad_size (location_end f) 8) f []
          (List.replicate (buf.length - failure_storage_size f) 0)).stacktrace))
      (List.replicate (s.length + 1) 0) B (cstring_bytes s) (by simp [cstring_bytes])
    have hA : (le_bytes 4 f.stage.value ++ [0, 0, 0, 0] ++ le_bytes 8 (base + 32) ++
        (le_bytes 8 (flat_failure base (base + serialize_pad_size (description_end f) 8)
          (base + serialize_pad_size (location_end f) 8) f []
          (List.replicate (buf.length - failure_storage_size f) 0)).location ++
        le_bytes 8 (flat_failure base (base + serialize_pad_size (description_end f) 8)
          (base + serialize_pad_size (location_end f) 8) f []
          (List.replicate (buf.length - failure_storage_size f) 0)).stacktrace)).length = 32 := by
      simp [le_bytes_length]
    rw [hA] at hw
    simp only [List.append_assoc] at hw ⊢
    rw [hw]

end FailureFormat

section PointerMaps

theorem ser_ptr_abs (base ofs : Nat) (h0 : 0 < ofs) (h : base + ofs < 18446744073709551616) :
    ser_ptr base (base + ofs) = 0 + ofs := by
  unfold ser_ptr
  rw [if_pos (by omega), rel_of_abs base ofs h, Nat.zero_add]

theorem deser_ptr_rel (base ofs : Nat) (h0 : 0 < ofs) (h : base + ofs < 18446744073709551616) :
    deser_ptr base (0 + ofs) = base + ofs := by
  unfold deser_ptr
  rw [Nat.zero_add, if_pos (by omega), abs_of_rel base ofs h]

theorem ser_ptr_zero (base : Nat) : ser_ptr base 0 = 0 := by
  unfold ser_ptr; simp

theorem deser_ptr_zero (base : Nat) : deser_ptr base 0 = 0 := by
  unfold deser_ptr; simp

theorem map_frames_ser_cells (sa : Nat) : ∀ (frames : List ctest_stackframe) (ofs : Nat),
    0 < ofs → sa + (ofs + (frame_names frames).length) ≤ 18446744073709551616 →
    map_frames (ser_ptr sa) (flat_cells sa frames ofs) = flat_cells 0 frames ofs := by
  intro frames
  induction frames with
  | nil => intro _ _ _; rfl
  | cons f rest ih =>
    intro ofs h0 h
    rw [frame_names] at h
    rw [flat_cells, flat_cells]
    unfold map_frames at ih ⊢
    rw [List.map_cons]
    have hrest := ih (ofs + frame_name_size f) (by omega) (by
      unfold frame_name_size
      cases hf : f.filename with
      | none => simp only [hf] at h ⊢; simpa using h
      | some s =>
        simp only [hf, List.length_append, cstring_bytes, List.length_singleton] at h ⊢
        omega)
    rw [hrest]
    congr 1
    cases hf : f.filename with
    | none => simp only [ser_ptr_zero]
    | some s =>
      simp only [hf, List.length_append, cstring_bytes, List.length_singleton] at h
      simp only []
      rw [ser_ptr_abs sa ofs h0 (by omega)]

theorem map_frames_deser_cells (sa : Nat) : ∀ (frames : List ctest_stackframe) (ofs : Nat),
    0 < ofs → sa + (ofs + (frame_names frames).length) ≤ 18446744073709551616 →
    map_frames (deser_ptr sa) (flat_cells 0 frames ofs) = flat_cells sa frames ofs := by
  intro frames
  induction frames with
  | nil => intro _ _ _; rfl
  | cons f rest ih =>
    intro ofs h0 h
    rw [frame_names] at h
    rw [flat_cells, flat_cells]
    unfold map_frames at ih ⊢
    rw [List.map_cons]
    have hrest := ih (ofs + frame_name_size f) (by omega) (by
      unfold frame_name_size
      cases hf : f.filename with
      | none => simp only [hf] at h ⊢; simpa using h
      | some s =>
        simp only [hf, List.length_append, cstring_bytes, List.length_singleton] at h ⊢
        omega)
    rw [hrest]
    congr 1
    cases hf : f.filename with
    | none => simp only [deser_ptr_zero]
    | some s =>
      simp only [hf, List.length_append, cstring_bytes, List.length_singleton] at h
      simp only []
      rw [deser_ptr_rel sa ofs h0 (by omega)]

theorem stacktrace_storage_size_eq (s : ctest_stacktrace) :
    stacktrace_storage_size s = 8 + 24 * s.frames.length + (frame_names s.frames).length := by
  unfold stacktrace_storage_size; rw [frame_names_length]

theorem flat_stacktrace_ser (sa : Nat) (s : ctest_stacktrace)
    (h : sa + stacktrace_storage_size s ≤ 18446744073709551616) :
    { flat_stacktrace sa s with cells := map_frames (ser_ptr sa) (flat_stacktrace sa s).cells }
      = flat_stacktrace 0 s := by
  rw [stacktrace_storage_size_eq] at h
  unfold flat_stacktrace
  simp only []
  rw [map_frames_ser_cells sa s.frames _ (by omega) (by omega)]

theorem flat_stacktrace_deser (sa : Nat) (s : ctest_stacktrace)
    (h : sa + stacktrace_storage_size s ≤ 18446744073709551616) :
    { flat_stacktrace 0 s with cells := map_frames (deser_ptr sa) (flat_stacktrace 0 s).cells }
      = flat_stacktrace sa s := by
  rw [stacktrace_storage_size_eq] at h
  unfold flat_stacktrace
  simp only []
  rw [map_frames_deser_cells sa s.frames _ (by omega) (by omega)]

theorem flat_location_ser (la : Nat) (l : ctest_location)
    (h : la + 16 < 18446744073709551616) :
    { flat_location la l with filename := ser_ptr la (flat_location la l).filename }
      = flat_location 0 l := by
  unfold flat_location
  simp only []
  cases l.filename with
  | none => simp only [ser_ptr_zero]
  | some s => simp only []; rw [ser_ptr_abs la 16 (by omega) h]

theorem flat_location_deser (la : Nat) (l : ctest_location)
    (h : la + 16 < 18446744073709551616) :
    { flat_location 0 l with filename := deser_ptr la (flat_location 0 l).filename }
      = flat_location la l := by
  unfold flat_location
  simp only []
  cases l.filename with
  | none => simp only [deser_ptr_zero]
  | some s => simp only []; rw [deser_ptr_rel la 16 (by omega) h]

end PointerMaps

section FlatWf

theorem description_bytes_length (f : ctest_failure) :
    (description_bytes f).length = description_len f.description := by
  unfold description_bytes description_len
  cases f.description with
  | none => rfl
  | some s => simp [cstring_bytes]

theorem location_storage_size_ge (l : ctest_location) : 16 ≤ location_storage_size l := by
  have := location_rest_length l
  unfold location_rest at this
  simp only [List.length_append, le_bytes_length, List.length_cons, List.length_nil] at this
  omega

theorem location_end_some (f : ctest_failure) (l : ctest_location) (h : f.location = some l) :
    location_end f = serialize_pad_size (description_end f) 8 + location_storage_size l := by
  unfold location_end; rw [h]

theorem location_end_none (f : ctest_failure) (h : f.location = none) :
    location_end f = description_end f := by
  unfold location_end; rw [h]

theorem failure_storage_size_some (f : ctest_failure) (s : ctest_stacktrace)
    (h : f.stacktrace = some s) :
    failure_storage_size f
      = serialize_pad_size (location_end f) 8 + stacktrace_storage_size s := by
  rw [failure_storage_size_eq, h]
  unfold stacktrace_need
  have := serialize_pad_size_ge (location_end f)
  simp only []
  omega

theorem location_end_le (f : ctest_failure) : location_end f ≤ failure_storage_size f := by
  rw [failure_storage_size_eq]; omega

theorem flat_failure_loc_ofs (hb lb sb : Nat) (f : ctest_failure) (d T : List Nat)
    (hd : d.length = description_len f.description) (l : ctest_location)
    (h : f.location = some l) :
    (flat_failure hb lb sb f d T).loc_ofs = serialize_pad_size (description_end f) 8 := by
  unfold FlatFailure.loc_ofs flat_failure
  simp only [h, List.length_append, List.length_replicate, hd]
  have := serialize_pad_size_ge (description_end f)
  unfold description_end at this ⊢
  omega

theorem flat_failure_loc_end (hb lb sb : Nat) (f : ctest_failure) (d T : List Nat)
    (hd : d.length = description_len f.description) :
    32 + (flat_failure hb lb sb f d T).gap1.length
      + (opt_bytes LocationPart.bytes (flat_failure hb lb sb f d T).loc).length
      = location_end f := by
  cases h : f.location with
  | none =>
    rw [location_end_none f h]
    unfold flat_failure
    simp only [h, List.append_nil, hd, Option.map_none', opt_bytes_none, List.length_nil]
    rfl
  | some l =>
    rw [location_end_some f l h]
    have := flat_failure_loc_ofs hb lb sb f d T hd l h
    unfold FlatFailure.loc_ofs at this
    rw [this]
    unfold flat_failure
    simp only [h, Option.map_some', opt_bytes_some, flat_location_length]

theorem flat_failure_st_ofs (hb lb sb : Nat) (f : ctest_failure) (d T : List Nat)
    (hd : d.length = description_len f.description) (s : ctest_stacktrace)
    (h : f.stacktrace = some s) :
    (flat_failure hb lb sb f d T).st_ofs = serialize_pad_size (location_end f) 8 := by
  unfold FlatFailure.st_ofs
  rw [flat_failure_loc_end hb lb sb f d T hd]
  unfold flat_failure
  simp only [h, List.length_replicate]
  have := serialize_pad_size_ge (location_end f)
  omega

theorem flat_failure_st_ofs_le (hb lb sb : Nat) (f : ctest_failure) (d T : List Nat)
    (hd : d.length = description_len f.description) :
    (flat_failure hb lb sb f d T).st_ofs ≤ failure_storage_size f := by
  cases h : f.stacktrace with
  | some s =>
    rw [flat_failure_st_ofs hb lb sb f d T hd s h, failure_storage_size_some f s h]
    omega
  | none =>
    unfold FlatFailure.st_ofs
    rw [flat_failure_loc_end hb lb sb f d T hd]
    have := location_end_le f
    unfold flat_failure
    simp only [h, List.length_nil]
    omega

end FlatWf

section FlatMaps

theorem flat_failure_wf (hb lb sb : Nat) (f : ctest_failure) (d T : List Nat)
    (hd : d.length = description_len f.description)
    (h : hb + failure_storage_size f < 18446744073709551616)
    (hlb : lb ≤ hb + serialize_pad_size (description_end f) 8)
    (hsb : sb ≤ hb + serialize_pad_size (location_end f) 8) :
    (flat_failure hb lb sb f d T).wf
      (hb + (flat_failure hb lb sb f d T).loc_ofs)
      (hb + (flat_failure hb lb sb f d T).st_ofs) := by
  have hle := location_end_le f
  have hle2 := location_end_eq f
  have hde : description_end f = 32 + description_len f.description := rfl
  have hp1 := serialize_pad_size_ge (description_end f)
  have hp2 := serialize_pad_size_ge (location_end f)
  have hsz : 32 ≤ failure_storage_size f := by
    have := location_end_eq f
    omega
  refine ⟨by simp [flat_failure, le_bytes_length], ?_, ?_, ?_, ?_, ?_⟩
  · unfold flat_failure
    cases f.description <;> simp only [] <;> omega
  · cases hl : f.location with
    | none => unfold flat_failure; simp only [hl]; omega
    | some l =>
      have := location_end_some f l hl
      have := location_storage_size_ge l
      unfold flat_failure; simp only [hl]; omega
  · cases hs : f.stacktrace with
    | none => unfold flat_failure; simp only [hs]; omega
    | some s =>
      have := failure_storage_size_some f s hs
      unfold flat_failure; simp only [hs]; omega
  · cases hl : f.location with
    | none => unfold flat_failure LocOk; simp only [hl, Option.map_none']
    | some l =>
      have e := flat_failure_loc_ofs hb lb sb f d T hd l hl
      rw [e]
      have := location_end_some f l hl
      have := location_storage_size_ge l
      unfold flat_failure LocOk flat_location
      simp only [hl, Option.map_some']
      refine ⟨by omega, trivial, ?_⟩
      cases l.filename <;> simp only [] <;> omega
  · cases hs : f.stacktrace with
    | none => unfold flat_failure StOk; simp only [hs, Option.map_none']
    | some s =>
      have e := flat_failure_st_ofs hb lb sb f d T hd s hs
      rw [e]
      have hs1 := failure_storage_size_some f s hs
      have hs2 := stacktrace_storage_size_eq s
      unfold flat_failure StOk flat_stacktrace
      simp only [hs, Option.map_some', flat_cells_length]
      refine ⟨by omega, trivial, by omega, ?_⟩
      exact flat_cells_wf _ s.frames _ (by omega)

theorem flat_abs_wf (base : Nat) (f : ctest_failure) (T : List Nat)
    (h : base + failure_storage_size f < 18446744073709551616) :
    (flat_abs base f T).wf (base + (flat_abs base f T).loc_ofs)
      (base + (flat_abs base f T).st_ofs) :=
  flat_failure_wf base _ _ f (description_bytes f) T (description_bytes_length f) h
    (Nat.le_refl _) (Nat.le_refl _)

theorem flat_rel_wf (f : ctest_failure) (T : List Nat)
    (h : failure_storage_size f < 18446744073709551616) :
    (flat_rel f T).wf (flat_rel f T).loc_ofs (flat_rel f T).st_ofs := by
  have := flat_failure_wf 0 0 0 f (description_bytes f) T (description_bytes_length f)
    (by omega) (Nat.zero_le _) (Nat.zero_le _)
  simp only [Nat.zero_add] at this
  exact this

end FlatMaps

section AbsRel

theorem flat_abs_ser (base : Nat) (f : ctest_failure) (T : List Nat)
    (h : base + failure_storage_size f < 18446744073709551616) :
    (flat_abs base f T).map_ptrs (ser_ptr base) (ser_ptr (flat_abs base f T).location)
        (ser_ptr (flat_abs base f T).stacktrace)
      = flat_rel f T := by
  have hle := location_end_le f
  have hle2 := location_end_eq f
  have hde : description_end f = 32 + description_len f.description := rfl
  have hp1 := serialize_pad_size_ge (description_end f)
  have hp2 := serialize_pad_size_ge (location_end f)
  have hd : (match f.description with
      | some _ => base + 32
      | none => 0) = (flat_abs base f T).description := rfl
  have e1 : ser_ptr base (flat_abs base f T).description = (flat_rel f T).description := by
    unfold flat_abs flat_rel flat_failure
    cases f.description with
    | none => exact ser_ptr_zero base
    | some s => exact ser_ptr_abs base 32 (by omega) (by omega)
  have e2 : ser_ptr base (flat_abs base f T).location = (flat_rel f T).location := by
    unfold flat_abs flat_rel flat_failure
    cases hl : f.location with
    | none => exact ser_ptr_zero base
    | some l =>
      have := location_end_some f l hl
      exact ser_ptr_abs base _ (by omega) (by omega)
  have e3 : ser_ptr base (flat_abs base f T).stacktrace = (flat_rel f T).stacktrace := by
    unfold flat_abs flat_rel flat_failure
    cases hs : f.stacktrace with
    | none => exact ser_ptr_zero base
    | some s =>
      have := failure_storage_size_some f s hs
      exact ser_ptr_abs base _ (by omega) (by omega)
  have e4 : (flat_abs base f T).loc.map
      (fun l => { l with filename := ser_ptr (flat_abs base f T).location l.filename })
      = (flat_rel f T).loc := by
    unfold flat_abs flat_rel flat_failure
    cases hl : f.location with
    | none => rfl
    | some l =>
      have := location_end_some f l hl
      have := location_storage_size_ge l
      simp only [Option.map_some']
      rw [flat_location_ser _ l (by omega)]
  have e5 : (flat_abs base f T).st.map
      (fun s => { s with cells := map_frames (ser_ptr (flat_abs base f T).stacktrace) s.cells })
      = (flat_rel f T).st := by
    unfold flat_abs flat_rel flat_failure
    cases hs : f.stacktrace with
    | none => rfl
    | some s =>
      have := failure_storage_size_some f s hs
      simp only [Option.map_some']
      rw [flat_stacktrace_ser _ s (by omega)]
  unfold FlatFailure.map_ptrs
  rw [e1, e2, e3, e4, e5]
  rfl

theorem flat_rel_deser (base : Nat) (f : ctest_failure) (T : List Nat)
    (h : base + failure_storage_size f < 18446744073709551616) :
    (flat_rel f T).map_ptrs (deser_ptr base)
        (deser_ptr (deser_ptr base (flat_rel f T).location))
        (deser_ptr (deser_ptr base (flat_rel f T).stacktrace))
      = flat_abs base f T := by
  have hle := location_end_le f
  have hle2 := location_end_eq f
  have hde : description_end f = 32 + description_len f.description := rfl
  have hp1 := serialize_pad_size_ge (description_end f)
  have hp2 := serialize_pad_size_ge (location_end f)
  have e1 : deser_ptr base (flat_rel f T).description = (flat_abs base f T).description := by
    unfold flat_abs flat_rel flat_failure
    cases f.description with
    | none => exact deser_ptr_zero base
    | some s => exact deser_ptr_rel base 32 (by omega) (by omega)
  have e2 : deser_ptr base (flat_rel f T).location = (flat_abs base f T).location := by
    unfold flat_abs flat_rel flat_failure
    cases hl : f.location with
    | none => exact deser_ptr_zero base
    | some l =>
      have := location_end_some f l hl
      exact deser_ptr_rel base _ (by omega) (by omega)
  have e3 : deser_ptr base (flat_rel f T).stacktrace = (flat_abs base f T).stacktrace := by
    unfold flat_abs flat_rel flat_failure
    cases hs : f.stacktrace with
    | none => exact deser_ptr_zero base
    | some s =>
      have := failure_storage_size_some f s hs
      exact deser_ptr_rel base _ (by omega) (by omega)
  rw [e2, e3]
  have e4 : (flat_rel f T).loc.map
      (fun l => { l with filename := deser_ptr (flat_abs base f T).location l.filename })
      = (flat_abs base f T).loc := by
    unfold flat_abs flat_rel flat_failure
    cases hl : f.location with
    | none => rfl
    | some l =>
      have := location_end_some f l hl
      have := location_storage_size_ge l
      simp only [Option.map_some']
      rw [flat_location_deser _ l (by omega)]
  have e5 : (flat_rel f T).st.map
      (fun s => { s with cells := map_frames (deser_ptr (flat_abs base f T).stacktrace) s.cells })
      = (flat_abs base f T).st := by
    unfold flat_abs flat_rel flat_failure
    cases hs : f.stacktrace with
    | none => rfl
    | some s =>
      have := failure_storage_size_some f s hs
      simp only [Option.map_some']
      rw [flat_stacktrace_deser _ s (by omega)]
  unfold FlatFailure.map_ptrs
  rw [e1, e2, e3, e4, e5]
  rfl

end AbsRel

section Roundtrip

theorem flat_failure_bytes_length (hb lb sb : Nat) (f : ctest_failure) (d T : List Nat)
    (hd : d.length = description_len f.description)
    (hsb : ∀ s, f.stacktrace = some s →
      sb + stacktrace_storage_size s ≤ 18446744073709551616) :
    (flat_failure hb lb sb f d T).bytes.length = failure_storage_size f + T.length := by
  have hst := flat_failure_st_ofs_le hb lb sb f d T hd
  have e : (flat_failure hb lb sb f d T).bytes.length
      = (flat_failure hb lb sb f d T).st_ofs
        + (opt_bytes StacktracePart.bytes (flat_failure hb lb sb f d T).st).length
        + T.length := by
    unfold FlatFailure.bytes FlatFailure.st_ofs
    simp only [List.length_append, le_bytes_length]
    have : (flat_failure hb lb sb f d T).stage_bytes.length = 8 := by
      simp [flat_failure, le_bytes_length]
    have : (flat_failure hb lb sb f d T).tail = T := rfl
    rw [this]
    omega
  rw [e]
  cases hs : f.stacktrace with
  | none =>
    have h1 : (flat_failure hb lb sb f d T).st = none := by
      unfold flat_failure; simp only [hs, Option.map_none']
    have h2 : (flat_failure hb lb sb f d T).st_ofs = failure_storage_size f := by
      unfold FlatFailure.st_ofs
      rw [flat_failure_loc_end hb lb sb f d T hd, failure_storage_size_eq, hs]
      unfold flat_failure stacktrace_need
      simp only [hs, List.length_nil]
    rw [h1, h2, opt_bytes_none, List.length_nil, Nat.add_zero]
  | some s =>
    have h1 : (flat_failure hb lb sb f d T).st = some (flat_stacktrace sb s) := by
      unfold flat_failure; simp only [hs, Option.map_some']
    have hsz := failure_storage_size_some f s hs
    rw [h1, flat_failure_st_ofs hb lb sb f d T hd s hs, opt_bytes_some,
      flat_stacktrace_length sb s (hsb s hs), hsz]

/-- C7. On every buffer `failure_storage_format` has filled (the failure fits the buffer,
which lies below the end of the address space), `failure_storage_serialize` returns 0,
`failure_storage_deserialize` at the same base returns 0 and restores the formatted bytes,
and on the serialized bytes deserializing at any base and serializing again returns 0 and
restores the serialized bytes; the buffers all keep the length of the first one. -/
theorem failure_storage_serialize_deserialize_inverse (base base2 : Nat) (buf : List Nat)
    (f : ctest_failure) (hfit : failure_storage_size f ≤ buf.length)
    (hno : base + buf.length < 18446744073709551616)
    (hno2 : base2 + buf.length < 18446744073709551616) :
    ∃ B S B2, failure_storage_format base buf f = ((failure_storage_size f : Int), B) ∧
      failure_storage_serialize base B = some (0, S) ∧
      failure_storage_deserialize base S = some (0, B) ∧
      failure_storage_deserialize base2 S = some (0, B2) ∧
      failure_storage_serialize base2 B2 = some (0, S) ∧
      B.length = buf.length ∧ S.length = buf.length ∧ B2.length = buf.length := by
  have hsz : 32 ≤ failure_storage_size f := by
    have h1 := location_end_eq f
    have h2 := location_end_le f
    have h3 : description_end f = 32 + description_len f.description := rfl
    omega
  have hlen : ∀ hb lb sb, (∀ s, f.stacktrace = some s →
      sb + stacktrace_storage_size s ≤ 18446744073709551616) →
      (flat_failure hb lb sb f (description_bytes f)
        (List.replicate (buf.length - failure_storage_size f) 0)).bytes.length
        = buf.length := by
    intro hb lb sb h
    rw [flat_failure_bytes_length hb lb sb f _ _ (description_bytes_length f) h,
      List.length_replicate]
    omega
  have hp := serialize_pad_size_ge (location_end f)
  have hsb : ∀ b, b + buf.length < 18446744073709551616 → ∀ s, f.stacktrace = some s →
      b + serialize_pad_size (location_end f) 8 + stacktrace_storage_size s
        ≤ 18446744073709551616 := by
    intro b hb s hs
    have := failure_storage_size_some f s hs
    omega
  refine ⟨(flat_abs base f (List.replicate (buf.length - failure_storage_size f) 0)).bytes,
    (flat_rel f (List.replicate (buf.length - failure_storage_size f) 0)).bytes,
    (flat_abs base2 f (List.replicate (buf.length - failure_storage_size f) 0)).bytes,
    failure_storage_format_flat base buf f hfit (by omega), ?_, ?_, ?_, ?_, ?_, ?_, ?_⟩
  · rw [flat_serialize base _ (flat_abs_wf base f _ (by omega)),
      flat_abs_ser base f _ (by omega)]
  · rw [flat_deserialize base _ (flat_rel_wf f _ (by omega))
        (by have := flat_failure_st_ofs_le 0 0 0 f (description_bytes f)
              (List.replicate (buf.length - failure_storage_size f) 0)
              (description_bytes_length f)
            unfold flat_rel; omega),
      flat_rel_deser base f _ (by omega)]
  · rw [flat_deserialize base2 _ (flat_rel_wf f _ (by omega))
        (by have := flat_failure_st_ofs_le 0 0 0 f (description_bytes f)
              (List.replicate (buf.length - failure_storage_size f) 0)
              (description_bytes_length f)
            unfold flat_rel; omega),
      flat_rel_deser base2 f _ (by omega)]
  · rw [flat_serialize base2 _ (flat_abs_wf base2 f _ (by omega)),
      flat_abs_ser base2 f _ (by omega)]
  · exact hlen _ _ _ (hsb base hno)
  · refine hlen 0 0 0 ?_
    intro s hs
    have := failure_storage_size_some f s hs
    omega
  · exact hlen _ _ _ (hsb base2 hno2)

end Roundtrip

section RoundtripWitness

theorem failure_storage_serialize_deserialize_inverse_witness :
    ∃ B S B2, failure_storage_format 4096 (List.replicate 128 0) sample_failure
        = ((failure_storage_size sample_failure : Int), B) ∧
      failure_storage_serialize 4096 B = some (0, S) ∧
      failure_storage_deserialize 4096 S = some (0, B) ∧
      failure_storage_deserialize 8192 S = some (0, B2) ∧
      failure_storage_serialize 8192 B2 = some (0, S) ∧
      B.length = (List.replicate 128 0).length ∧ S.length = (List.replicate 128 0).length ∧
      B2.length = (List.replicate 128 0).length :=
  failure_storage_serialize_deserialize_inverse 4096 8192 (List.replicate 128 0)
    sample_failure (by rw [List.length_replicate]; decide)
    (by rw [List.length_replicate]; decide) (by rw [List.length_replicate]; decide)

end RoundtripWitness

section DeserializeNoCheck

theorem stacktrace_storage_deserialize_rc (base : Nat) (buf : List Nat) (st : Nat) (rc : Int)
    (buf1 : List Nat) (h : stacktrace_storage_deserialize base buf st = some (rc, buf1)) :
    rc = 0 := by
  unfold stacktrace_storage_deserialize at h
  split at h
  · simp at h
  · split at h
    · simp at h
    · simp only [Option.some.injEq, Prod.mk.injEq] at h
      exact h.1.symm

theorem failure_deserialize_stacktrace_rc (base : Nat) (buf : List Nat) (rc : Int)
    (buf1 : List Nat) (h : failure_deserialize_stacktrace base buf = some (rc, buf1)) :
    rc = 0 := by
  unfold failure_deserialize_stacktrace at h
  split at h
  · simp at h
  · split at h
    · simp only [] at h
      split at h
      · simp at h
      · split at h
        · simp at h
        · rename_i rc2 buf2 hs
          have := stacktrace_storage_deserialize_rc _ _ _ _ _ hs
          subst this
          simp only [ne_eq, not_true_eq_false, if_false, Option.some.injEq,
            Prod.mk.injEq] at h
          exact h.1.symm
    · simp only [Option.some.injEq, Prod.mk.injEq] at h
      exact h.1.symm

theorem location_storage_deserialize_rc (base : Nat) (buf : List Nat) (loc : Nat) (rc : Int)
    (buf1 : List Nat) (h : location_storage_deserialize base buf loc = some (rc, buf1)) :
    rc = 0 := by
  unfold location_storage_deserialize at h
  split at h
  · simp at h
  · split at h
    · split at h
      · simp at h
      · simp only [Option.some.injEq, Prod.mk.injEq] at h
        exact h.1.symm
    · simp only [Option.some.injEq, Prod.mk.injEq] at h
      exact h.1.symm

theorem failure_deserialize_location_rc (base : Nat) (buf : List Nat) (rc : Int)
    (buf1 : List Nat) (h : failure_deserialize_location base buf = some (rc, buf1)) :
    rc = 0 := by
  unfold failure_deserialize_location at h
  split at h
  · simp at h
  · split at h
    · simp only [] at h
      split at h
      · simp at h
      · split at h
        · simp at h
        · rename_i rc2 buf2 hs
          have := location_storage_deserialize_rc _ _ _ _ _ hs
          subst this
          simp only [ne_eq, not_true_eq_false, if_false] at h
          exact failure_deserialize_stacktrace_rc _ _ _ _ h
    · exact failure_deserialize_stacktrace_rc _ _ _ _ h

theorem failure_storage_deserialize_rc (base : Nat) (buf : List Nat) (rc : Int)
    (buf1 : List Nat) (h : failure_storage_deserialize base buf = some (rc, buf1)) :
    rc = 0 := by
  unfold failure_storage_deserialize at h
  split at h
  · simp at h
  · split at h
    · split at h
      · simp at h
      · exact failure_deserialize_location_rc _ _ _ _ h
    · exact failure_deserialize_location_rc _ _ _ _ h

end DeserializeNoCheck

section DeserializeClaim

/-- The function `failure_storage_deserialize` makes no range check: whenever it returns, it
returns 0; whenever `reader_on_failure_done__` returns, the reader has handed the body to the
consumer with `on_failure` and has not freed it; and a body whose `description` offset `d`
is any 64-bit value (inside the body or not), with no location and no stack trace, is
accepted with return value 0. -/
theorem failure_storage_deserialize_unchecked :
    (∀ (base : Nat) (buf : List Nat) (rc : Int) (buf1 : List Nat),
      failure_storage_deserialize base buf = some (rc, buf1) → rc = 0) ∧
    (∀ reader r1 : exec_event_reader, reader_on_failure_done__ reader = some r1 →
      ∃ body, failure_storage_deserialize reader.body_base reader.body = some (0, body) ∧
        r1 = { reader with body := body, calls := reader.calls ++
          [ReaderCall.on_failure reader.body_base body] }) ∧
    (∀ (base d : Nat) (stage_bytes T : List Nat), stage_bytes.length = 8 →
      d < 18446744073709551616 → base + 32 < 18446744073709551616 →
      failure_storage_deserialize base
          (stage_bytes ++ le_bytes 8 d ++ List.replicate 16 0 ++ T)
        = some (0, stage_bytes ++ le_bytes 8 (deser_ptr base d) ++ List.replicate 16 0
            ++ T)) := by
  refine ⟨failure_storage_deserialize_rc, ?_, ?_⟩
  · intro reader r1 h
    unfold reader_on_failure_done__ at h
    split at h
    · split at h
      · simp at h
      · rename_i rc body hd
        have hrc := failure_storage_deserialize_rc _ _ _ _ hd
        subst hrc
        simp only [if_true, Option.some.injEq] at h
        exact ⟨body, hd, h.symm⟩
    · simp at h
  · intro base d s8 T h8 hd hb
    have := flat_deserialize base
      { stage_bytes := s8, description := d, location := 0, stacktrace := 0, gap1 := [],
        loc := none, gap2 := [], st := none, tail := T }
      ⟨h8, hd, Nat.zero_lt_succ _, Nat.zero_lt_succ _, rfl, rfl⟩
      (by simp only [FlatFailure.st_ofs, opt_bytes_none, List.length_nil]; omega)
    simp only [FlatFailure.bytes, FlatFailure.map_ptrs, opt_bytes_none, List.append_nil,
      Option.map_none', deser_ptr_zero] at this
    have e : le_bytes 8 0 ++ le_bytes 8 0 = List.replicate 16 0 := by decide
    simp only [List.append_assoc] at this ⊢
    rw [← e]
    simp only [List.append_assoc]
    exact this

/-- The lemma `failure_storage_deserialize_unchecked` at `malformed_body`. -/
theorem failure_storage_deserialize_unchecked_witness :
    (0 : Int) = 0 ∧
    (∃ body, failure_storage_deserialize malformed_reader.body_base malformed_reader.body
        = some (0, body) ∧
      { malformed_reader with
          body := [1, 0, 0, 0, 0, 0, 0, 0] ++ le_bytes 8 5096 ++ List.replicate 16 0,
          calls := [ReaderCall.on_failure 4096
            ([1, 0, 0, 0, 0, 0, 0, 0] ++ le_bytes 8 5096 ++ List.replicate 16 0)] }
        = { malformed_reader with body := body, calls := malformed_reader.calls ++
          [ReaderCall.on_failure malformed_reader.body_base body] }) ∧
    failure_storage_deserialize 4096
        ([1, 0, 0, 0, 0, 0, 0, 0] ++ le_bytes 8 1000 ++ List.replicate 16 0 ++ [])
      = some (0, [1, 0, 0, 0, 0, 0, 0, 0] ++ le_bytes 8 (deser_ptr 4096 1000)
          ++ List.replicate 16 0 ++ []) :=
  ⟨failure_storage_deserialize_unchecked.1 4096 malformed_body 0
      ([1, 0, 0, 0, 0, 0, 0, 0] ++ le_bytes 8 5096 ++ List.replicate 16 0) (by decide),
    failure_storage_deserialize_unchecked.2.1 malformed_reader _ (by decide),
    failure_storage_deserialize_unchecked.2.2 4096 1000 [1, 0, 0, 0, 0, 0, 0, 0] []
      (by decide) (by decide) (by decide)⟩

/-- C8, evaluated on a failure message whose body `malformed_body` has its `description`
offset (1000) outside its 32 bytes: `failure_storage_deserialize` returns 0 on it, where
its documentation promises a non-zero value for a buffer that is not one contiguous block,
and a reader fed the message calls `on_failure` with the body and frees nothing. -/
theorem failure_storage_deserialize_accepts_out_of_range :
    malformed_body.length = 32 ∧
    load64 malformed_body 8 = 1000 ∧
    failure_storage_deserialize 4096 malformed_body
      = some (0, [1, 0, 0, 0, 0, 0, 0, 0] ++ le_bytes 8 5096 ++ List.replicate 16 0) ∧
    (reader_feed (fun _ => 4096) [4, 32] exec_event_reader_init
        ([1, 0, 32, 0] ++ malformed_body)).map (fun p => p.1.calls)
      = some [ReaderCall.on_failure 4096
          ([1, 0, 0, 0, 0, 0, 0, 0] ++ le_bytes 8 5096 ++ List.replicate 16 0)] := by
  refine ⟨by decide, by decide, by decide, by decide⟩

end DeserializeClaim

section ReadBack

theorem takeWhile_cstring (s B : List Nat) (hs : is_cstring s) :
    (s ++ 0 :: B).takeWhile (fun c => decide (c ≠ 0)) = s := by
  induction s with
  | nil => simp
  | cons c rest ih =>
    have hc : c ≠ 0 := by
      have := (hs c (List.mem_cons_self _ _)).1
      omega
    have hrest : is_cstring rest := fun x hx => hs x (List.mem_cons_of_mem _ hx)
    rw [List.cons_append, List.takeWhile_cons]
    simp only [hc, ne_eq, not_false_eq_true, decide_True, if_true, ih hrest]

theorem read_cstring_at (A s B : List Nat) (hs : is_cstring s) :
    read_cstring (A ++ cstring_bytes s ++ B) A.length = some s := by
  unfold read_cstring cstring_bytes
  have hd : (A ++ (s ++ [0]) ++ B).drop A.length = s ++ 0 :: B := by
    rw [List.append_assoc, List.drop_left]
    simp
  rw [hd, takeWhile_cstring s B hs]
  rw [if_pos]
  refine ⟨by simp, by simp⟩

theorem read_cstring_ptr_zero (base : Nat) (buf : List Nat) :
    read_cstring_ptr base buf 0 = some none := by
  unfold read_cstring_ptr; simp

theorem read_cstring_ptr_at (base : Nat) (A s B : List Nat) (hs : is_cstring s)
    (h0 : 0 < base + A.length) :
    read_cstring_ptr base (A ++ cstring_bytes s ++ B) (base + A.length) = some (some s) := by
  unfold read_cstring_ptr
  rw [if_neg (by omega), if_pos (by omega)]
  have : base + A.length - base = A.length := by omega
  rw [this, read_cstring_at A s B hs]
  rfl

theorem load32_int_bits (A B : List Nat) (v : Int) (hv : is_int v) :
    bits_int (load32 (A ++ le_bytes 4 (int_bits v) ++ B) A.length) = v := by
  rw [load32_at A B (int_bits v) (int_bits_lt v), bits_int_int_bits v hv]

end ReadBack

section ReadLocation

theorem read_location_bytes (base : Nat) (P Q R : List Nat) (fn : Nat) (line : Int)
    (name : Option (List Nat)) (hline : is_int line)
    (hfn : fn < 18446744073709551616)
    (hname : read_cstring_ptr base
      (P ++ le_bytes 8 fn ++ le_bytes 4 (int_bits line) ++ [0, 0, 0, 0] ++ R ++ Q) fn
        = some name) :
    read_location base
        (P ++ le_bytes 8 fn ++ le_bytes 4 (int_bits line) ++ [0, 0, 0, 0] ++ R ++ Q)
        (base + P.length) = some { filename := name, line := line } := by
  unfold read_location
  have hsub : base + P.length - base = P.length := by omega
  rw [hsub]
  rw [if_pos (by
    refine ⟨by omega, ?_⟩
    simp only [List.length_append, le_bytes_length, List.length_cons, List.length_nil]
    omega)]
  have hline2 : bits_int (load32
      (P ++ le_bytes 8 fn ++ le_bytes 4 (int_bits line) ++ [0, 0, 0, 0] ++ R ++ Q)
      (P.length + 8)) = line := by
    have := load32_int_bits (P ++ le_bytes 8 fn) ([0, 0, 0, 0] ++ R ++ Q) line hline
    simp only [List.length_append, le_bytes_length, List.append_assoc] at this ⊢
    exact this
  have hload : load64
      (P ++ le_bytes 8 fn ++ le_bytes 4 (int_bits line) ++ [0, 0, 0, 0] ++ R ++ Q)
      P.length = fn := by
    have := load64_at P (le_bytes 4 (int_bits line) ++ [0, 0, 0, 0] ++ R ++ Q) fn hfn
    simp only [List.append_assoc] at this ⊢
    exact this
  rw [hline2, hload, hname]

theorem read_location_at (base : Nat) (P Q : List Nat) (l : ctest_location) (hl : l.valid)
    (h : base + P.length + 16 < 18446744073709551616) :
    read_location base (P ++ (flat_location (base + P.length) l).bytes ++ Q)
      (base + P.length) = some l := by
  obtain ⟨fname, line⟩ := l
  obtain ⟨hname, hline⟩ := hl
  simp only at hname hline
  cases fname with
  | none =>
    have := read_location_bytes base P Q [] 0 line none hline (by decide)
      (read_cstring_ptr_zero _ _)
    unfold LocationPart.bytes flat_location location_rest
    simp only [List.append_assoc, List.append_nil, List.nil_append] at this ⊢
    exact this
  | some s =>
    have hstr := read_cstring_ptr_at base
      (P ++ le_bytes 8 (base + P.length + 16) ++ le_bytes 4 (int_bits line) ++ [0, 0, 0, 0])
      s Q hname (by simp [le_bytes_length])
    have hA : (P ++ le_bytes 8 (base + P.length + 16) ++ le_bytes 4 (int_bits line)
        ++ [0, 0, 0, 0]).length = P.length + 16 := by
      simp [le_bytes_length]
    rw [hA, ← Nat.add_assoc] at hstr
    have := read_location_bytes base P Q (cstring_bytes s) (base + P.length + 16) line
      (some s) hline h hstr
    unfold LocationPart.bytes flat_location location_rest
    simp only [List.append_assoc] at this ⊢
    exact this

end ReadLocation

section ReadFrames

theorem read_frame_cell (A B : List Nat) (addr fp : Nat) (line : Int)
    (haddr : addr < 18446744073709551616) (hfp : fp < 18446744073709551616)
    (hline : is_int line) :
    load64 (A ++ le_bytes 8 addr ++ le_bytes 8 fp ++ le_bytes 4 (int_bits line)
        ++ [0, 0, 0, 0] ++ B) A.length = addr ∧
    load64 (A ++ le_bytes 8 addr ++ le_bytes 8 fp ++ le_bytes 4 (int_bits line)
        ++ [0, 0, 0, 0] ++ B) (A.length + 8) = fp ∧
    bits_int (load32 (A ++ le_bytes 8 addr ++ le_bytes 8 fp ++ le_bytes 4 (int_bits line)
        ++ [0, 0, 0, 0] ++ B) (A.length + 16)) = line := by
  refine ⟨?_, ?_, ?_⟩
  · have := load64_at A (le_bytes 8 fp ++ le_bytes 4 (int_bits line) ++ [0, 0, 0, 0] ++ B)
      addr haddr
    simp only [List.append_assoc] at this ⊢
    exact this
  · have := load64_at (A ++ le_bytes 8 addr) (le_bytes 4 (int_bits line) ++ [0, 0, 0, 0] ++ B)
      fp hfp
    simp only [List.append_assoc, List.length_append, le_bytes_length] at this ⊢
    exact this
  · have := load32_int_bits (A ++ le_bytes 8 addr ++ le_bytes 8 fp) ([0, 0, 0, 0] ++ B)
      line hline
    simp only [List.append_assoc, List.length_append, le_bytes_length] at this ⊢
    exact this

theorem frame_cells_flat_length (sb : Nat) (frames : List ctest_stackframe) (ofs : Nat) :
    (frame_cells (flat_cells sb frames ofs)).length = 24 * frames.length := by
  induction frames generalizing ofs with
  | nil => rfl
  | cons f rest ih =>
    rw [flat_cells, frame_cells]
    simp only [List.length_append, le_bytes_length, List.length_cons, List.length_nil, ih]
    omega

theorem read_frames_step (base st i k : Nat) (A B : List Nat) (addr fp : Nat) (line : Int)
    (name : Option (List Nat)) (rest : List ctest_stackframe)
    (haddr : addr < 18446744073709551616) (hfp : fp < 18446744073709551616)
    (hline : is_int line) (hst : base ≤ st) (hA : A.length = st - base + 8 + 24 * i)
    (hname : read_cstring_ptr base (A ++ le_bytes 8 addr ++ le_bytes 8 fp
        ++ le_bytes 4 (int_bits line) ++ [0, 0, 0, 0] ++ B) fp = some name)
    (hrest : read_frames base (A ++ le_bytes 8 addr ++ le_bytes 8 fp
        ++ le_bytes 4 (int_bits line) ++ [0, 0, 0, 0] ++ B) st k (i + 1) = some rest) :
    read_frames base (A ++ le_bytes 8 addr ++ le_bytes 8 fp
        ++ le_bytes 4 (int_bits line) ++ [0, 0, 0, 0] ++ B) st (k + 1) i
      = some ({ addr := addr, filename := name, line := line } :: rest) := by
  obtain ⟨h1, h2, h3⟩ := read_frame_cell A B addr fp line haddr hfp hline
  rw [read_frames]
  have e0 : st + 8 + 24 * i - base = A.length := by omega
  have e1 : st + 8 + 24 * i - base + 8 = A.length + 8 := by omega
  have e2 : st + 8 + 24 * i - base + 16 = A.length + 16 := by omega
  simp only [e0, e1, e2, h1, h2, h3, hname, hrest]
  rw [if_pos]
  simp only [List.length_append, le_bytes_length, List.length_cons, List.length_nil]
  omega

theorem read_frames_at (base : Nat) (P Q L : List Nat) :
    ∀ (rest : List ctest_stackframe) (C1 N1 : List Nat) (i : Nat),
    (∀ f ∈ rest, f.valid) →
    C1.length = 24 * i → L.length = 8 →
    base + P.length + (8 + 24 * (i + rest.length) + N1.length + (frame_names rest).length)
      ≤ 18446744073709551616 →
    read_frames base
        (P ++ L ++ C1 ++ frame_cells (flat_cells (base + P.length) rest
            (8 + 24 * (i + rest.length) + N1.length))
          ++ N1 ++ frame_names rest ++ Q)
        (base + P.length) rest.length i = some rest := by
  intro rest
  induction rest with
  | nil => intro _ _ _ _ _ _ _; rfl
  | cons f rest ih =>
    intro C1 N1 i hvalid hC1 hL hno
    obtain ⟨haddr, hname, hline⟩ := hvalid f (List.mem_cons_self _ _)
    have hvrest : ∀ g ∈ rest, g.valid := fun g hg => hvalid g (List.mem_cons_of_mem _ hg)
    obtain ⟨addr, fname, line⟩ := f
    simp only at haddr hname hline
    have hcl := fun o => frame_cells_flat_length (base + P.length) rest o
    have hA : (P ++ L ++ C1).length = base + P.length - base + 8 + 24 * i := by
      simp only [List.length_append, hL, hC1]; omega
    have hofs : 8 + 24 * (i + 1 + rest.length) = 8 + 24 * (i + (rest.length + 1)) := by omega
    cases fname with
    | none =>
      rw [frame_names] at hno ⊢
      simp only [List.length_cons, List.nil_append] at hno ⊢
      rw [flat_cells, frame_cells]
      simp only [frame_name_size, Nat.add_zero]
      have hih := ih (C1 ++ le_bytes 8 addr ++ le_bytes 8 0 ++ le_bytes 4 (int_bits line)
          ++ [0, 0, 0, 0]) N1 (i + 1) hvrest
        (by simp only [List.length_append, le_bytes_length, hC1, List.length_cons,
              List.length_nil]; omega) hL (by omega)
      rw [hofs] at hih
      have := read_frames_step base (base + P.length) i rest.length (P ++ L ++ C1)
        (frame_cells (flat_cells (base + P.length) rest
            (8 + 24 * (i + (rest.length + 1)) + N1.length)) ++ N1 ++ frame_names rest ++ Q)
        addr 0 line none rest haddr (by decide) hline (by omega) hA
        (read_cstring_ptr_zero _ _)
        (by simp only [List.append_assoc] at hih ⊢; exact hih)
      simp only [List.append_assoc] at this ⊢
      exact this
    | some s =>
      rw [frame_names] at hno ⊢
      simp only [List.length_cons, List.length_append, cstring_bytes,
        List.length_singleton] at hno
      rw [flat_cells, frame_cells]
      simp only [frame_name_size]
      have hih := ih (C1 ++ le_bytes 8 addr
          ++ le_bytes 8 (base + P.length + (8 + 24 * (i + (rest.length + 1)) + N1.length))
          ++ le_bytes 4 (int_bits line) ++ [0, 0, 0, 0]) (N1 ++ cstring_bytes s) (i + 1) hvrest
        (by simp only [List.length_append, le_bytes_length, hC1, List.length_cons,
              List.length_nil]; omega) hL
        (by simp only [List.length_append, cstring_bytes, List.length_singleton]; omega)
      have hofs2 : 8 + 24 * (i + 1 + rest.length) + (N1 ++ cstring_bytes s).length
          = 8 + 24 * (i + (rest.length + 1)) + N1.length + (s.length + 1) := by
        simp only [List.length_append, cstring_bytes, List.length_singleton]; omega
      rw [hofs2] at hih
      have hstr := read_cstring_ptr_at base
        (P ++ L ++ C1 ++ le_bytes 8 addr
          ++ le_bytes 8 (base + P.length + (8 + 24 * (i + (rest.length + 1)) + N1.length))
          ++ le_bytes 4 (int_bits line) ++ [0, 0, 0, 0]
          ++ frame_cells (flat_cells (base + P.length) rest
              (8 + 24 * (i + (rest.length + 1)) + N1.length + (s.length + 1))) ++ N1)
        s (frame_names rest ++ Q) hname
        (by simp only [List.length_append, le_bytes_length, hL]; omega)
      have hAl : (P ++ L ++ C1 ++ le_bytes 8 addr
          ++ le_bytes 8 (base + P.length + (8 + 24 * (i + (rest.length + 1)) + N1.length))
          ++ le_bytes 4 (int_bits line) ++ [0, 0, 0, 0]
          ++ frame_cells (flat_cells (base + P.length) rest
              (8 + 24 * (i + (rest.length + 1)) + N1.length + (s.length + 1))) ++ N1).length
          = P.length + (8 + 24 * (i + (rest.length + 1)) + N1.length) := by
        simp only [List.length_append, le_bytes_length, hL, hC1, hcl, List.length_cons,
          List.length_nil]
        omega
      rw [hAl, ← Nat.add_assoc] at hstr
      have := read_frames_step base (base + P.length) i rest.length (P ++ L ++ C1)
        (frame_cells (flat_cells (base + P.length) rest
            (8 + 24 * (i + (rest.length + 1)) + N1.length + (s.length + 1)))
          ++ N1 ++ cstring_bytes s ++ frame_names rest ++ Q)
        addr (base + P.length + (8 + 24 * (i + (rest.length + 1)) + N1.length)) line
        (some s) rest haddr (by omega) hline (by omega) hA
        (by simp only [List.append_assoc, Nat.add_assoc] at hstr ⊢; exact hstr)
        (by simp only [List.append_assoc] at hih ⊢; exact hih)
      simp only [List.append_assoc] at this ⊢
      exact this

end ReadFrames

section ReadFailure

theorem read_stacktrace_at (base : Nat) (P Q : List Nat) (s : ctest_stacktrace)
    (hs : s.valid)
    (h : base + P.length + stacktrace_storage_size s ≤ 18446744073709551616) :
    read_stacktrace base (P ++ (flat_stacktrace (base + P.length) s).bytes ++ Q)
      (base + P.length) = some s := by
  rw [stacktrace_storage_size_eq] at h
  have hfr := read_frames_at base P Q (le_bytes 8 s.frames.length) s.frames [] [] 0 hs rfl
    (le_bytes_length _ _) (by simp only [List.length_nil, Nat.zero_add]; omega)
  simp only [List.length_nil, Nat.zero_add, Nat.add_zero, List.append_nil] at hfr
  have hbuf : P ++ (flat_stacktrace (base + P.length) s).bytes ++ Q
      = P ++ le_bytes 8 s.frames.length
        ++ frame_cells (flat_cells (base + P.length) s.frames (8 + 24 * s.frames.length))
        ++ frame_names s.frames ++ Q := by
    unfold StacktracePart.bytes flat_stacktrace
    simp only [flat_cells_length, List.append_assoc]
  rw [hbuf]
  unfold read_stacktrace
  have hsub : base + P.length - base = P.length := by omega
  rw [hsub, if_pos (by
    refine ⟨by omega, ?_⟩
    simp only [List.length_append, le_bytes_length]
    omega)]
  have hload : load64 (P ++ le_bytes 8 s.frames.length
      ++ frame_cells (flat_cells (base + P.length) s.frames (8 + 24 * s.frames.length))
      ++ frame_names s.frames ++ Q) P.length = s.frames.length := by
    have := load64_at P (frame_cells (flat_cells (base + P.length) s.frames
      (8 + 24 * s.frames.length)) ++ frame_names s.frames ++ Q) s.frames.length (by omega)
    simp only [List.append_assoc] at this ⊢
    exact this
  rw [hload, hfr]
  rfl

theorem stage_of_value (stage : ctest_stage) : ctest_stage.of_value stage.value = some stage := by
  cases stage <;> rfl

theorem stage_value_lt (stage : ctest_stage) : stage.value < 4294967296 := by
  cases stage <;> decide

theorem read_failure_header (base : Nat) (R : List Nat) (stage : ctest_stage)
    (dp lp sp : Nat) (hdp : dp < 18446744073709551616) (hlp : lp < 18446744073709551616)
    (hsp : sp < 18446744073709551616) :
    load32 (le_bytes 4 stage.value ++ [0, 0, 0, 0] ++ le_bytes 8 dp ++ le_bytes 8 lp
      ++ le_bytes 8 sp ++ R) 0 = stage.value ∧
    load64 (le_bytes 4 stage.value ++ [0, 0, 0, 0] ++ le_bytes 8 dp ++ le_bytes 8 lp
      ++ le_bytes 8 sp ++ R) 8 = dp ∧
    load64 (le_bytes 4 stage.value ++ [0, 0, 0, 0] ++ le_bytes 8 dp ++ le_bytes 8 lp
      ++ le_bytes 8 sp ++ R) 16 = lp ∧
    load64 (le_bytes 4 stage.value ++ [0, 0, 0, 0] ++ le_bytes 8 dp ++ le_bytes 8 lp
      ++ le_bytes 8 sp ++ R) 24 = sp := by
  refine ⟨?_, ?_, ?_, ?_⟩
  · have := load32_at [] ([0, 0, 0, 0] ++ le_bytes 8 dp ++ le_bytes 8 lp ++ le_bytes 8 sp ++ R)
      stage.value (stage_value_lt stage)
    simp only [List.nil_append, List.length_nil, List.append_assoc] at this ⊢
    exact this
  · have := load64_at (le_bytes 4 stage.value ++ [0, 0, 0, 0])
      (le_bytes 8 lp ++ le_bytes 8 sp ++ R) dp hdp
    simp only [List.length_append, le_bytes_length, List.length_cons, List.length_nil,
      List.append_assoc] at this ⊢
    exact this
  · have := load64_at (le_bytes 4 stage.value ++ [0, 0, 0, 0] ++ le_bytes 8 dp)
      (le_bytes 8 sp ++ R) lp hlp
    simp only [List.length_append, le_bytes_length, List.length_cons, List.length_nil,
      List.append_assoc] at this ⊢
    exact this
  · have := load64_at (le_bytes 4 stage.value ++ [0, 0, 0, 0] ++ le_bytes 8 dp
      ++ le_bytes 8 lp) R sp hsp
    simp only [List.length_append, le_bytes_length, List.length_cons, List.length_nil,
      List.append_assoc] at this ⊢
    exact this

end ReadFailure

section ReadAbs

theorem flat_bytes_loc (F : FlatFailure) (h8 : F.stage_bytes.length = 8) :
    ∃ P, P.length = F.loc_ofs ∧
      F.bytes = P ++ opt_bytes LocationPart.bytes F.loc
        ++ (F.gap2 ++ opt_bytes StacktracePart.bytes F.st ++ F.tail) := by
  refine ⟨F.stage_bytes ++ le_bytes 8 F.description ++ le_bytes 8 F.location
    ++ le_bytes 8 F.stacktrace ++ F.gap1, ?_, ?_⟩
  · simp only [List.length_append, le_bytes_length, h8, FlatFailure.loc_ofs]
  · unfold FlatFailure.bytes
    simp only [List.append_assoc]

theorem flat_bytes_st (F : FlatFailure) (h8 : F.stage_bytes.length = 8) :
    ∃ P, P.length = F.st_ofs ∧
      F.bytes = P ++ opt_bytes StacktracePart.bytes F.st ++ F.tail := by
  refine ⟨F.stage_bytes ++ le_bytes 8 F.description ++ le_bytes 8 F.location
    ++ le_bytes 8 F.stacktrace ++ F.gap1 ++ opt_bytes LocationPart.bytes F.loc ++ F.gap2,
    ?_, ?_⟩
  · simp only [List.length_append, le_bytes_length, h8, FlatFailure.st_ofs]
  · unfold FlatFailure.bytes
    simp only [List.append_assoc]

theorem read_description_flat_abs (base : Nat) (f : ctest_failure) (T : List Nat)
    (hv : is_cstring_opt f.description) :
    read_cstring_ptr base (flat_abs base f T).bytes (flat_abs base f T).description
      = some f.description := by
  cases hd : f.description with
  | none =>
    have : (flat_abs base f T).description = 0 := by
      unfold flat_abs flat_failure; simp only [hd]
    rw [this, read_cstring_ptr_zero]
  | some s =>
    rw [hd] at hv
    have h1 : (flat_abs base f T).description = base + 32 := by
      unfold flat_abs flat_failure; simp only [hd]
    obtain ⟨pad, hg⟩ : ∃ pad, (flat_abs base f T).gap1 = cstring_bytes s ++ pad := by
      unfold flat_abs flat_failure description_bytes
      simp only [hd]
      exact ⟨_, rfl⟩
    have h8 : (flat_abs base f T).stage_bytes.length = 8 := by
      simp [flat_abs, flat_failure, le_bytes_length]
    have hb : (flat_abs base f T).bytes
        = ((flat_abs base f T).stage_bytes ++ le_bytes 8 (flat_abs base f T).description
          ++ le_bytes 8 (flat_abs base f T).location
          ++ le_bytes 8 (flat_abs base f T).stacktrace) ++ cstring_bytes s
          ++ (pad ++ opt_bytes LocationPart.bytes (flat_abs base f T).loc
            ++ (flat_abs base f T).gap2
            ++ opt_bytes StacktracePart.bytes (flat_abs base f T).st
            ++ (flat_abs base f T).tail) := by
      unfold FlatFailure.bytes
      rw [hg]
      simp only [List.append_assoc]
    have := read_cstring_ptr_at base ((flat_abs base f T).stage_bytes
        ++ le_bytes 8 (flat_abs base f T).description
        ++ le_bytes 8 (flat_abs base f T).location
        ++ le_bytes 8 (flat_abs base f T).stacktrace) s
      (pad ++ opt_bytes LocationPart.bytes (flat_abs base f T).loc
          ++ (flat_abs base f T).gap2
          ++ opt_bytes StacktracePart.bytes (flat_abs base f T).st
          ++ (flat_abs base f T).tail) hv
      (by simp only [List.length_append, le_bytes_length, h8]; omega)
    have hl : ((flat_abs base f T).stage_bytes
        ++ le_bytes 8 (flat_abs base f T).description
        ++ le_bytes 8 (flat_abs base f T).location
        ++ le_bytes 8 (flat_abs base f T).stacktrace).length = 32 := by
      simp only [List.length_append, le_bytes_length, h8]
    rw [hl] at this
    rw [hb]
    rw [h1] at this ⊢
    exact this

theorem read_location_flat_abs (base : Nat) (f : ctest_failure) (T : List Nat)
    (hv : ∀ l, f.location = some l → l.valid)
    (h : base + failure_storage_size f < 18446744073709551616) :
    (if (flat_abs base f T).location = 0 then some none
      else (read_location base (flat_abs base f T).bytes (flat_abs base f T).location).map
        some) = some f.location := by
  have h8 : (flat_abs base f T).stage_bytes.length = 8 := by
    simp [flat_abs, flat_failure, le_bytes_length]
  cases hl : f.location with
  | none =>
    have : (flat_abs base f T).location = 0 := by
      unfold flat_abs flat_failure; simp only [hl]
    rw [this, if_pos rfl]
  | some l =>
    have hde : description_end f = 32 + description_len f.description := rfl
    have hp := serialize_pad_size_ge (description_end f)
    have h1 : (flat_abs base f T).location
        = base + serialize_pad_size (description_end f) 8 := by
      unfold flat_abs flat_failure; simp only [hl]
    have h2 : (flat_abs base f T).loc
        = some (flat_location (base + serialize_pad_size (description_end f) 8) l) := by
      unfold flat_abs flat_failure; simp only [hl, Option.map_some']
    have hofs : (flat_abs base f T).loc_ofs = serialize_pad_size (description_end f) 8 :=
      flat_failure_loc_ofs _ _ _ f _ T (description_bytes_length f) l hl
    obtain ⟨P, hP, hb⟩ := flat_bytes_loc (flat_abs base f T) h8
    rw [hofs] at hP
    have hend := location_end_some f l hl
    have hle := location_end_le f
    have hge := location_storage_size_ge l
    have := read_location_at base P ((flat_abs base f T).gap2
      ++ opt_bytes StacktracePart.bytes (flat_abs base f T).st ++ (flat_abs base f T).tail)
      l (hv l hl) (by omega)
    rw [hP] at this
    rw [h1, if_neg (by omega), hb, h2, opt_bytes_some, this]
    rfl

theorem read_stacktrace_flat_abs (base : Nat) (f : ctest_failure) (T : List Nat)
    (hv : ∀ s, f.stacktrace = some s → s.valid)
    (h : base + failure_storage_size f < 18446744073709551616) :
    (if (flat_abs base f T).stacktrace = 0 then some none
      else (read_stacktrace base (flat_abs base f T).bytes
        (flat_abs base f T).stacktrace).map some) = some f.stacktrace := by
  have h8 : (flat_abs base f T).stage_bytes.length = 8 := by
    simp [flat_abs, flat_failure, le_bytes_length]
  cases hs : f.stacktrace with
  | none =>
    have : (flat_abs base f T).stacktrace = 0 := by
      unfold flat_abs flat_failure; simp only [hs]
    rw [this, if_pos rfl]
  | some s =>
    have hde : description_end f = 32 + description_len f.description := rfl
    have hle2 := location_end_eq f
    have hp := serialize_pad_size_ge (location_end f)
    have h1 : (flat_abs base f T).stacktrace
        = base + serialize_pad_size (location_end f) 8 := by
      unfold flat_abs flat_failure; simp only [hs]
    have h2 : (flat_abs base f T).st
        = some (flat_stacktrace (base + serialize_pad_size (location_end f) 8) s) := by
      unfold flat_abs flat_failure; simp only [hs, Option.map_some']
    have hofs : (flat_abs base f T).st_ofs = serialize_pad_size (location_end f) 8 :=
      flat_failure_st_ofs _ _ _ f _ T (description_bytes_length f) s hs
    obtain ⟨P, hP, hb⟩ := flat_bytes_st (flat_abs base f T) h8
    rw [hofs] at hP
    have hsz := failure_storage_size_some f s hs
    have := read_stacktrace_at base P (flat_abs base f T).tail s (hv s hs) (by omega)
    rw [hP] at this
    rw [h1, if_neg (by omega), hb, h2, opt_bytes_some, this]
    rfl

end ReadAbs

section ReadMain

theorem read_failure_flat_abs (base : Nat) (f : ctest_failure) (T : List Nat)
    (hv : f.valid) (h : base + failure_storage_size f < 18446744073709551616) :
    read_failure base (flat_abs base f T).bytes = some f := by
  obtain ⟨hvd, hvl, hvs⟩ := hv
  have hwf := flat_abs_wf base f T h
  obtain ⟨h8, hdp, hlp, hsp, _, _⟩ := hwf
  have hd := read_description_flat_abs base f T hvd
  have hl := read_location_flat_abs base f T hvl h
  have hs := read_stacktrace_flat_abs base f T hvs h
  have hstage : (flat_abs base f T).stage_bytes = le_bytes 4 f.stage.value ++ [0, 0, 0, 0] :=
    rfl
  have hb : (flat_abs base f T).bytes
      = le_bytes 4 f.stage.value ++ [0, 0, 0, 0] ++ le_bytes 8 (flat_abs base f T).description
        ++ le_bytes 8 (flat_abs base f T).location
        ++ le_bytes 8 (flat_abs base f T).stacktrace
        ++ ((flat_abs base f T).gap1 ++ opt_bytes LocationPart.bytes (flat_abs base f T).loc
          ++ (flat_abs base f T).gap2
          ++ opt_bytes StacktracePart.bytes (flat_abs base f T).st
          ++ (flat_abs base f T).tail) := by
    unfold FlatFailure.bytes
    rw [hstage]
    simp only [List.append_assoc]
  obtain ⟨r0, r1, r2, r3⟩ := read_failure_header base
    ((flat_abs base f T).gap1 ++ opt_bytes LocationPart.bytes (flat_abs base f T).loc
      ++ (flat_abs base f T).gap2
      ++ opt_bytes StacktracePart.bytes (flat_abs base f T).st
      ++ (flat_abs base f T).tail) f.stage _ _ _ hdp hlp hsp
  rw [← hb] at r0 r1 r2 r3
  have hlen : 32 ≤ (flat_abs base f T).bytes.length := by
    rw [hb]
    simp only [List.length_append, le_bytes_length, List.length_cons, List.length_nil]
    omega
  unfold read_failure
  rw [if_pos hlen, r0, r1, r2, r3, stage_of_value, hd]
  simp only [hl, hs]

end ReadMain

section Fill

theorem fill_length (msg old : List Nat) (o : Nat) (h : msg.length = old.length) :
    (fill msg old o).length = old.length := by
  unfold fill
  simp only [List.length_append, List.length_take, List.length_drop]
  omega

theorem fill_full (msg old : List Nat) (h : msg.length = old.length) :
    fill msg old msg.length = msg := by
  unfold fill
  rw [List.take_length, h, List.drop_length, List.append_nil]

theorem fill_zero (msg old : List Nat) : fill msg old 0 = old := rfl

theorem fill_write (msg old rest : List Nat) (o k : Nat) (h : msg.length = old.length)
    (hk : o + k ≤ msg.length) :
    write_bytes (fill msg old o) o ((msg.drop o ++ rest).take k) = fill msg old (o + k) := by
  have hdata : (msg.drop o ++ rest).take k = (msg.drop o).take k := by
    rw [List.take_append_of_le_length (by simp only [List.length_drop]; omega)]
  have hdl : ((msg.drop o).take k).length = k := by
    simp only [List.length_take, List.length_drop]; omega
  have hto : (msg.take o).length = o := by
    simp only [List.length_take]; omega
  rw [hdata]
  unfold write_bytes fill
  rw [hdl]
  have h1 : (msg.take o ++ old.drop o).take o = msg.take o := by
    rw [List.take_append_of_le_length (by omega), List.take_of_length_le (by omega)]
  have h2 : (msg.take o ++ old.drop o).drop (o + k) = old.drop (o + k) := by
    rw [List.drop_append_eq_append_drop, List.drop_of_length_le (by omega), hto,
      List.nil_append, List.drop_drop]
    congr 1
    omega
  rw [h1, h2, ← List.append_assoc, List.take_add]

end Fill

section ReaderSteps

theorem take_drop_append (msg rest : List Nat) (o k : Nat) (hk : o + k ≤ msg.length) :
    (msg.drop o ++ rest).drop k = msg.drop (o + k) ++ rest := by
  rw [List.drop_append_of_le_length (by simp only [List.length_drop]; omega), List.drop_drop]

theorem take_length_append (msg rest : List Nat) (o k : Nat) (hk : o + k ≤ msg.length) :
    ((msg.drop o ++ rest).take k).length = k := by
  rw [List.take_append_of_le_length (by simp only [List.length_drop]; omega)]
  simp only [List.length_take, List.length_drop]; omega

theorem header_step_more (malloc : Nat → Nat) (r0 : exec_event_reader)
    (hdr rest : List Nat) (o w : Nat) (hh : hdr.length = 4) (h0 : r0.header.length = 4)
    (hw : o + w < 4) :
    reader_op_on_data_available__ malloc (header_phase r0 hdr o) (hdr.drop o ++ rest) w
      = some ((w : Int), header_phase r0 hdr (o + w), hdr.drop (o + w) ++ rest) := by
  have hmin : min w (4 - o) = w := by omega
  have hlen := take_length_append hdr rest o w (by omega)
  have hfill := fill_write hdr r0.header rest o w (by omega) (by omega)
  unfold reader_op_on_data_available__ header_phase
  simp only [reduceCtorEq, false_and, if_false, hmin, hlen, hfill,
    take_drop_append hdr rest o w (by omega)]
  rw [if_neg (by omega)]

theorem header_step_done (malloc : Nat → Nat) (r0 : exec_event_reader)
    (hdr rest : List Nat) (o w : Nat) (hh : hdr.length = 4) (h0 : r0.header.length = 4)
    (ho : o < 4) (hw : 4 ≤ o + w) :
    reader_op_on_data_available__ malloc (header_phase r0 hdr o) (hdr.drop o ++ rest) w
      = some (((4 - o : Nat) : Int),
          reader_on_msg_header_done__ malloc (header_phase r0 hdr 4), rest) := by
  have hmin : min w (4 - o) = 4 - o := by omega
  have hlen := take_length_append hdr rest o (4 - o) (by omega)
  have hfill := fill_write hdr r0.header rest o (4 - o) (by omega) (by omega)
  have hdrop := take_drop_append hdr rest o (4 - o) (by omega)
  have e4 : o + (4 - o) = 4 := by omega
  rw [e4] at hfill hdrop
  have hd4 : hdr.drop 4 = [] := List.drop_of_length_le (by omega)
  rw [hd4, List.nil_append] at hdrop
  unfold reader_op_on_data_available__ header_phase
  simp only [reduceCtorEq, false_and, if_false, hmin, hlen, hfill, hdrop, e4]
  rw [if_pos (by omega)]
  rfl

end ReaderSteps

section BodySteps

theorem header_done_failure (malloc : Nat → Nat) (r0 : exec_event_reader) (n : Nat)
    (body : List Nat) (h0 : r0.header.length = 4) (hn : n < 65536)
    (hm : malloc n ≠ 0) :
    reader_on_msg_header_done__ malloc (header_phase r0 (le_bytes 2 1 ++ le_bytes 2 n) 4)
      = body_phase r0 (le_bytes 2 1 ++ le_bytes 2 n) (malloc n) n body 0 := by
  have hf : fill (le_bytes 2 1 ++ le_bytes 2 n) r0.header 4 = le_bytes 2 1 ++ le_bytes 2 n := by
    have := fill_full (le_bytes 2 1 ++ le_bytes 2 n) r0.header
      (by simp [le_bytes_length, h0])
    simpa [le_bytes_length] using this
  have ht : le_value ((le_bytes 2 1 ++ le_bytes 2 n).take 2) = 1 := by
    rw [List.take_left' (le_bytes_length 2 1)]
    decide
  have hl : le_value (((le_bytes 2 1 ++ le_bytes 2 n).drop 2).take 2) = n := by
    rw [List.drop_left' (le_bytes_length 2 1)]
    have : (le_bytes 2 n).take 2 = le_bytes 2 n := by
      rw [List.take_of_length_le (by rw [le_bytes_length])]
    rw [this, le_value_le_bytes_of_lt 2 n (by simpa using hn)]
  unfold reader_on_msg_header_done__ header_phase body_phase
  simp only [hf, ht, hl, hm, if_false, Nat.one_ne_zero, if_true, fill_zero]

theorem body_step_more (malloc : Nat → Nat) (r0 : exec_event_reader)
    (hdr body rest : List Nat) (mb n o w : Nat) (hb : body.length = n) (hw : o + w < n) :
    reader_op_on_data_available__ malloc (body_phase r0 hdr mb n body o)
        (body.drop o ++ rest) w
      = some ((w : Int), body_phase r0 hdr mb n body (o + w), body.drop (o + w) ++ rest) := by
  have hmin : min w (n - o) = w := by omega
  have hlen := take_length_append body rest o w (by omega)
  have hfill := fill_write body (List.replicate n 0) rest o w (by simp [hb]) (by omega)
  unfold reader_op_on_data_available__ body_phase
  simp only [reduceCtorEq, false_and, if_false, hmin, hlen, hfill,
    take_drop_append body rest o w (by omega)]
  rw [if_neg (by omega)]

theorem body_step_done (malloc : Nat → Nat) (r0 : exec_event_reader)
    (hdr body body1 rest : List Nat) (mb n o w : Nat) (hb : body.length = n)
    (ho : o < n) (hw : n ≤ o + w)
    (hd : failure_storage_deserialize mb body = some (0, body1)) :
    reader_op_on_data_available__ malloc (body_phase r0 hdr mb n body o)
        (body.drop o ++ rest) w
      = some (((n - o : Nat) : Int), delivered_phase r0 hdr mb body1, rest) := by
  have hmin : min w (n - o) = n - o := by omega
  have hlen := take_length_append body rest o (n - o) (by omega)
  have hfill := fill_write body (List.replicate n 0) rest o (n - o) (by simp [hb]) (by omega)
  have hdrop := take_drop_append body rest o (n - o) (by omega)
  have en : o + (n - o) = n := by omega
  rw [en] at hfill hdrop
  have hdn : body.drop n = [] := List.drop_of_length_le (by omega)
  rw [hdn, List.nil_append] at hdrop
  have hfull : fill body (List.replicate n 0) n = body := by
    have := fill_full body (List.replicate n 0) (by simp [hb])
    rw [hb] at this
    exact this
  rw [hfull] at hfill
  unfold reader_op_on_data_available__ body_phase
  simp only [reduceCtorEq, false_and, if_false, hmin, hlen, hfill, hdrop, en]
  rw [if_pos (by omega)]
  simp only [reader_call_on_done, reader_on_msg_body_done__, reader_on_failure_done__, hd,
    if_true, Nat.lt_irrefl, if_false, reader_prep_next_msg__, delivered_phase]

end BodySteps

section Feed

theorem reader_feed_nil (malloc : Nat → Nat) (wants : List Nat) (r : exec_event_reader) :
    reader_feed malloc wants r [] = some (r, []) := by
  cases wants with
  | nil => rfl
  | cons w ws => rw [reader_feed]; simp

theorem reader_feed_step (malloc : Nat → Nat) (w : Nat) (ws : List Nat)
    (r r1 : exec_event_reader) (pipe rest : List Nat) (k : Nat) (hp : pipe ≠ [])
    (h : reader_op_on_data_available__ malloc r pipe w = some ((k : Int), r1, rest)) :
    reader_feed malloc (w :: ws) r pipe = reader_feed malloc ws r1 rest := by
  rw [reader_feed, if_neg hp, h]
  simp only []
  rw [if_neg (by omega)]

theorem feed_header (malloc : Nat → Nat) (r0 : exec_event_reader) (hdr rest : List Nat)
    (hh : hdr.length = 4) (h0 : r0.header.length = 4) :
    ∀ (wants : List Nat) (o : Nat), o < 4 → (∀ w ∈ wants, 0 < w) → 4 - o ≤ wants.length →
    ∃ wants1, wants.length ≤ wants1.length + (4 - o) ∧ (∀ w ∈ wants1, 0 < w) ∧
      reader_feed malloc wants (header_phase r0 hdr o) (hdr.drop o ++ rest)
        = reader_feed malloc wants1
            (reader_on_msg_header_done__ malloc (header_phase r0 hdr 4)) rest := by
  intro wants
  induction wants with
  | nil => intro o ho _ hl; simp only [List.length_nil] at hl; omega
  | cons w ws ih =>
    intro o ho hpos hl
    have hw : 0 < w := hpos w (List.mem_cons_self _ _)
    have hws : ∀ x ∈ ws, 0 < x := fun x hx => hpos x (List.mem_cons_of_mem _ hx)
    have hp : hdr.drop o ++ rest ≠ [] := by
      intro h
      have := congrArg List.length h
      simp only [List.length_append, List.length_drop, List.length_nil] at this
      omega
    simp only [List.length_cons] at hl ⊢
    by_cases hc : o + w < 4
    · rw [reader_feed_step malloc w ws _ _ _ _ w hp
        (header_step_more malloc r0 hdr rest o w hh h0 hc)]
      obtain ⟨wants1, h1, h2, h3⟩ := ih (o + w) hc hws (by omega)
      exact ⟨wants1, by omega, h2, h3⟩
    · rw [reader_feed_step malloc w ws _ _ _ _ (4 - o) hp
        (header_step_done malloc r0 hdr rest o w hh h0 ho (by omega))]
      exact ⟨ws, by omega, hws, rfl⟩

theorem feed_body (malloc : Nat → Nat) (r0 : exec_event_reader)
    (hdr body body1 rest : List Nat) (mb n : Nat) (hb : body.length = n)
    (hd : failure_storage_deserialize mb body = some (0, body1)) :
    ∀ (wants : List Nat) (o : Nat), o < n → (∀ w ∈ wants, 0 < w) → n - o ≤ wants.length →
    ∃ wants1, wants.length ≤ wants1.length + (n - o) ∧ (∀ w ∈ wants1, 0 < w) ∧
      reader_feed malloc wants (body_phase r0 hdr mb n body o) (body.drop o ++ rest)
        = reader_feed malloc wants1 (delivered_phase r0 hdr mb body1) rest := by
  intro wants
  induction wants with
  | nil => intro o ho _ hl; simp only [List.length_nil] at hl; omega
  | cons w ws ih =>
    intro o ho hpos hl
    have hw : 0 < w := hpos w (List.mem_cons_self _ _)
    have hws : ∀ x ∈ ws, 0 < x := fun x hx => hpos x (List.mem_cons_of_mem _ hx)
    have hp : body.drop o ++ rest ≠ [] := by
      intro h
      have := congrArg List.length h
      simp only [List.length_append, List.length_drop, List.length_nil] at this
      omega
    simp only [List.length_cons] at hl ⊢
    by_cases hc : o + w < n
    · rw [reader_feed_step malloc w ws _ _ _ _ w hp
        (body_step_more malloc r0 hdr body rest mb n o w hb hc)]
      obtain ⟨wants1, h1, h2, h3⟩ := ih (o + w) hc hws (by omega)
      exact ⟨wants1, by omega, h2, h3⟩
    · rw [reader_feed_step malloc w ws _ _ _ _ (n - o) hp
        (body_step_done malloc r0 hdr body body1 rest mb n o w hb ho (by omega) hd)]
      exact ⟨ws, by omega, hws, rfl⟩

theorem feed_failure_message (malloc : Nat → Nat) (r0 : exec_event_reader)
    (body body1 rest wants : List Nat) (n : Nat) (h0 : r0.header.length = 4)
    (hb : body.length = n) (hn0 : 0 < n) (hn : n < 65536) (hm : malloc n ≠ 0)
    (hd : failure_storage_deserialize (malloc n) body = some (0, body1))
    (hpos : ∀ w ∈ wants, 0 < w) (hl : 4 + n ≤ wants.length) :
    ∃ wants1, wants.length ≤ wants1.length + (4 + n) ∧ (∀ w ∈ wants1, 0 < w) ∧
      reader_feed malloc wants (header_phase r0 (le_bytes 2 1 ++ le_bytes 2 n) 0)
          (le_bytes 2 1 ++ le_bytes 2 n ++ body ++ rest)
        = reader_feed malloc wants1
            (delivered_phase r0 (le_bytes 2 1 ++ le_bytes 2 n) (malloc n) body1) rest := by
  have hh : (le_bytes 2 1 ++ le_bytes 2 n).length = 4 := by simp [le_bytes_length]
  obtain ⟨w1, a1, a2, a3⟩ := feed_header malloc r0 (le_bytes 2 1 ++ le_bytes 2 n)
    (body ++ rest) hh h0 wants 0 (by omega) hpos (by omega)
  rw [header_done_failure malloc r0 n body h0 hn hm] at a3
  obtain ⟨w2, b1, b2, b3⟩ := feed_body malloc r0 (le_bytes 2 1 ++ le_bytes 2 n) body body1
    rest (malloc n) n hb hd w1 0 hn0 a2 (by omega)
  refine ⟨w2, by omega, b2, ?_⟩
  simp only [List.drop_zero, List.append_assoc] at a3 b3 ⊢
  rw [a3, b3]

end Feed

section Writer

theorem flat_rel_length (f : ctest_failure)
    (h : failure_storage_size f < 18446744073709551616) :
    (flat_rel f []).bytes.length = failure_storage_size f := by
  have := flat_failure_bytes_length 0 0 0 f (description_bytes f) []
    (description_bytes_length f) (by
      intro s hs
      have := failure_storage_size_some f s hs
      omega)
  simpa [flat_rel] using this

theorem writer_output (wbase : Nat) (f : ctest_failure)
    (h : wbase + failure_storage_size f < 18446744073709551616) :
    exec_event_writer_op_on_failure__ wbase f
      = some (le_bytes 2 1 ++ le_bytes 2 (failure_storage_size f) ++ (flat_rel f []).bytes) := by
  have hsz : 32 ≤ failure_storage_size f := by
    have h1 := location_end_eq f
    have h2 := location_end_le f
    have h3 : description_end f = 32 + description_len f.description := rfl
    omega
  have hfmt := failure_storage_format_flat wbase (List.replicate (failure_storage_size f) 0) f
    (by simp) (by omega)
  simp only [List.length_replicate, Nat.sub_self, List.replicate_zero] at hfmt
  have hser : failure_storage_serialize wbase (flat_abs wbase f []).bytes
      = some (0, (flat_rel f []).bytes) := by
    rw [flat_serialize wbase _ (flat_abs_wf wbase f _ h), flat_abs_ser wbase f _ h]
  unfold exec_event_writer_op_on_failure__
  simp only [hfmt, hser, ne_eq, not_true_eq_false, if_false]

theorem reader_deserialize (mb : Nat) (f : ctest_failure)
    (h : mb + failure_storage_size f < 18446744073709551616) :
    failure_storage_deserialize mb (flat_rel f []).bytes
      = some (0, (flat_abs mb f []).bytes) := by
  rw [flat_deserialize mb _ (flat_rel_wf f _ (by omega))
      (by have := flat_failure_st_ofs_le 0 0 0 f (description_bytes f) []
            (description_bytes_length f)
          unfold flat_rel; omega),
    flat_rel_deser mb f _ h]

end Writer

section EventRoundtrip

/-- C6. For every failure `f` whose fields are C values, whose flattened form takes fewer
than 65536 bytes and fits below the end of the address space at the writer's buffer
`wbase` and at the block `malloc` hands the reader, `malloc` not failing: the bytes
`exec_event_writer_op_on_failure__` emits, fed to a fresh reader in reads of any positive
sizes, make the reader call `on_failure` exactly once, with a body that reads back as `f`
field for field. -/
theorem exec_event_failure_roundtrip (wbase : Nat) (malloc : Nat → Nat) (f : ctest_failure)
    (wants : List Nat) (hv : f.valid) (hsize : failure_storage_size f < 65536)
    (hw : wbase + failure_storage_size f < 18446744073709551616)
    (hm : malloc (failure_storage_size f) ≠ 0)
    (hm2 : malloc (failure_storage_size f) + failure_storage_size f < 18446744073709551616)
    (hpos : ∀ w ∈ wants, 0 < w) (hl : 4 + failure_storage_size f ≤ wants.length) :
    ∃ msg body r, exec_event_writer_op_on_failure__ wbase f = some msg ∧
      reader_feed malloc wants exec_event_reader_init msg = some (r, []) ∧
      r.calls = [ReaderCall.on_failure (malloc (failure_storage_size f)) body] ∧
      read_failure (malloc (failure_storage_size f)) body = some f := by
  have hsz : 32 ≤ failure_storage_size f := by
    have h1 := location_end_eq f
    have h2 := location_end_le f
    have h3 : description_end f = 32 + description_len f.description := rfl
    omega
  obtain ⟨wants1, _, _, hfeed⟩ := feed_failure_message malloc exec_event_reader_init
    (flat_rel f []).bytes (flat_abs (malloc (failure_storage_size f)) f []).bytes []
    wants (failure_storage_size f) rfl (flat_rel_length f (by omega)) (by omega) hsize hm
    (reader_deserialize _ f hm2) hpos hl
  rw [reader_feed_nil, List.append_nil] at hfeed
  exact ⟨_, _, _, writer_output wbase f hw, hfeed, rfl, read_failure_flat_abs _ f [] hv hm2⟩

theorem sample_failure_valid : sample_failure.valid := by
  refine ⟨?_, ?_, ?_⟩
  · intro c hc
    simp only [sample_failure, List.mem_cons, List.mem_singleton, List.not_mem_nil,
      or_false] at hc
    omega
  · intro l hl
    simp only [sample_failure, Option.some.injEq] at hl
    subst hl
    refine ⟨?_, by unfold is_int; decide⟩
    intro c hc
    simp only [List.mem_cons, List.mem_singleton, List.not_mem_nil, or_false] at hc
    omega
  · intro s hs
    simp only [sample_failure, Option.some.injEq] at hs
    subst hs
    intro fr hfr
    simp only [List.mem_cons, List.mem_singleton, List.not_mem_nil, or_false] at hfr
    rcases hfr with e | e
    · subst e
      refine ⟨by decide, ?_, by unfold is_int; decide⟩
      intro c hc
      simp only [List.mem_cons, List.mem_singleton, List.not_mem_nil, or_false] at hc
      omega
    · subst e
      exact ⟨by decide, trivial, by unfold is_int; decide⟩

theorem exec_event_failure_roundtrip_witness :
    ∃ msg body r, exec_event_writer_op_on_failure__ 4096 sample_failure = some msg ∧
      reader_feed (fun _ => 8192) (List.replicate 200 7) exec_event_reader_init msg
        = some (r, []) ∧
      r.calls = [ReaderCall.on_failure
        ((fun _ => 8192) (failure_storage_size sample_failure)) body] ∧
      read_failure ((fun _ => 8192) (failure_storage_size sample_failure)) body
        = some sample_failure :=
  exec_event_failure_roundtrip 4096 (fun _ => 8192) sample_failure (List.replicate 200 7)
    sample_failure_valid (by decide) (by decide) (by decide) (by decide)
    (by intro w hw; rw [List.eq_of_mem_replicate hw]; decide)
    (by rw [List.length_replicate]; decide)

end EventRoundtrip

section EventTruncation

theorem body_step_crash (malloc : Nat → Nat) (r0 : exec_event_reader)
    (hdr body rest : List Nat) (mb n o w : Nat) (hb : body.length = n)
    (ho : o < n) (hw : n ≤ o + w)
    (hd : failure_storage_deserialize mb body = none) :
    reader_op_on_data_available__ malloc (body_phase r0 hdr mb n body o)
        (body.drop o ++ rest) w = none := by
  have hmin : min w (n - o) = n - o := by omega
  have hlen := take_length_append body rest o (n - o) (by omega)
  have hfill := fill_write body (List.replicate n 0) rest o (n - o) (by simp [hb]) (by omega)
  have hdrop := take_drop_append body rest o (n - o) (by omega)
  have en : o + (n - o) = n := by omega
  rw [en] at hfill hdrop
  have hfull : fill body (List.replicate n 0) n = body := by
    have := fill_full body (List.replicate n 0) (by simp [hb])
    rw [hb] at this
    exact this
  rw [hfull] at hfill
  unfold reader_op_on_data_available__ body_phase
  simp only [reduceCtorEq, false_and, if_false, hmin, hlen, hfill, hdrop, en]
  rw [if_pos (by omega)]
  simp only [reader_call_on_done, reader_on_msg_body_done__, reader_on_failure_done__, hd]

theorem long_failure_of_size (n : Nat) : failure_storage_size (long_failure_of n) = 33 + n := by
  have hd : (long_failure_of n).description = some (List.replicate n 97) := rfl
  have hs : (long_failure_of n).stacktrace = none := rfl
  have hlen : ∀ s : List Nat, description_len (some s) = s.length + 1 := fun _ => rfl
  have hde : description_end (long_failure_of n)
      = 32 + description_len (long_failure_of n).description := rfl
  have hn : ∀ o, stacktrace_need o none = 0 := fun _ => rfl
  rw [failure_storage_size_eq, location_end_none (long_failure_of n) rfl, hs, hn, hde, hd,
    hlen, List.length_replicate]
  omega

theorem long_failure_of_valid (n : Nat) : (long_failure_of n).valid := by
  refine ⟨?_, ?_, ?_⟩
  · intro c hc
    rw [List.eq_of_mem_replicate hc]
    decide
  · intro l hl; cases hl
  · intro s hs; cases hs

theorem long_failure_size : failure_storage_size long_failure = 65537 :=
  long_failure_of_size 65504

theorem long_failure_valid : long_failure.valid := long_failure_of_valid 65504

/-- The failure `long_failure` flattens to 65537 bytes; the writer puts that length into
the 16-bit `length` of the header, which then says 1. A reader given the message, in
reads of any positive sizes, allocates a body of 1 byte and, once that byte has arrived,
lets `failure_storage_deserialize` read outside it: no failure is delivered. -/
theorem exec_event_long_failure_truncated :
    long_failure.valid ∧ failure_storage_size long_failure = 65537 ∧
    ∃ msg, exec_event_writer_op_on_failure__ 4096 long_failure = some msg ∧
      ∀ wants : List Nat, (∀ w ∈ wants, 0 < w) → 5 ≤ wants.length →
        reader_feed (fun _ => 8192) wants exec_event_reader_init msg = none := by
  refine ⟨long_failure_valid, long_failure_size, _,
    writer_output 4096 long_failure (by rw [long_failure_size]; decide), ?_⟩
  intro wants hpos hl
  rw [long_failure_size]
  have hhdr : le_bytes 2 1 ++ le_bytes 2 65537 = [1, 0, 1, 0] := by decide
  obtain ⟨tail, htail⟩ : ∃ tail, (flat_rel long_failure []).bytes = [1] ++ tail := by
    unfold FlatFailure.bytes flat_rel flat_failure
    exact ⟨_, rfl⟩
  rw [hhdr, htail]
  obtain ⟨wants1, h1, h2, h3⟩ := feed_header (fun _ => 8192) exec_event_reader_init
    [1, 0, 1, 0] ([1] ++ tail) rfl rfl wants 0 (by omega) hpos (by omega)
  have hdone : reader_on_msg_header_done__ (fun _ => 8192)
      (header_phase exec_event_reader_init [1, 0, 1, 0] 4)
      = body_phase exec_event_reader_init [1, 0, 1, 0] 8192 1 [1] 0 := by
    have := header_done_failure (fun _ => 8192) exec_event_reader_init 1 [1] rfl
      (by decide) (by decide)
    exact this
  rw [hdone] at h3
  have h3b : reader_feed (fun _ => 8192) wants exec_event_reader_init
      ([1, 0, 1, 0] ++ ([1] ++ tail))
      = reader_feed (fun _ => 8192) wants1
          (body_phase exec_event_reader_init [1, 0, 1, 0] 8192 1 [1] 0) ([1] ++ tail) := h3
  rw [h3b]
  cases wants1 with
  | nil => simp only [List.length_nil] at h1; omega
  | cons w ws =>
    have hw : 0 < w := h2 w (List.mem_cons_self _ _)
    have hcrash := body_step_crash (fun _ => 8192) exec_event_reader_init [1, 0, 1, 0] [1]
      tail 8192 1 0 w rfl (by omega) (by omega) (by decide)
    rw [reader_feed, if_neg (by simp)]
    have : ([1] : List Nat).drop 0 ++ tail = [1] ++ tail := rfl
    rw [this] at hcrash
    rw [hcrash]

end EventTruncation

section Callback

theorem report_failure_eq (d : loader_dynamic_ops) (file : Option (List Nat)) (line : Int)
    (description : List Nat) (create_ok : Bool) :
    dynamic_ops_op_report_failure__ d file line description create_ok
      = { d with failure := match d.failure with
          | some f => some f
          | none => if create_ok then some (created_failure d.stage file line description)
                    else none } := by
  unfold dynamic_ops_op_report_failure__
  cases h : d.failure with
  | none => simp only [if_true]; rfl
  | some f => simp only [reduceCtorEq, if_false]; rw [← h]

theorem reported_some (stage : ctest_stage) (f : ctest_failure) (s : List ModuleAction) :
    reported stage (some f) s = some f := by
  induction s with
  | nil => rfl
  | cons a rest ih =>
    cases a with
    | report file line description ok => rw [reported]; exact ih
    | abort t => rfl

theorem run_callback_eq (on_abort : loader_dynamic_ops → ctest_dynamic_ops_abort_type →
      Option (LoaderExit × loader_dynamic_ops)) :
    ∀ (s : List ModuleAction) (d : loader_dynamic_ops), d.hooked →
    run_callback on_abort s d
      = match script_abort s with
        | none => some (Sum.inl { d with failure := reported d.stage d.failure s })
        | some t => (on_abort { d with failure := reported d.stage d.failure s } t).map Sum.inr := by
  intro s
  induction s with
  | nil => intro d _; rfl
  | cons a rest ih =>
    intro d hd
    cases a with
    | report file line description ok =>
      have e : run_callback on_abort (ModuleAction.report file line description ok :: rest) d
          = run_callback on_abort rest
              (dynamic_ops_op_report_failure__ d file line description ok) := by
        simp only [run_callback, hd.1, hd.2, and_self, if_true]
      rw [e, report_failure_eq]
      refine Eq.trans (ih _ ?_) ?_
      · exact hd
      · simp only [script_abort, reported]
    | abort t =>
      have e : run_callback on_abort (ModuleAction.abort t :: rest) d
          = (on_abort d t).map Sum.inr := by
        simp only [run_callback, hd.1, hd.2, and_self, if_true]
      rw [e]
      simp only [script_abort, reported]

end Callback

section Abort

theorem abort_finish_eq (d : loader_dynamic_ops) (h : d.has_cell = true) :
    dynamic_ops_abort_finish d
      = some (LoaderExit.unwound,
          { d with cell := d.old_dynamic_ops, failure := none,
                   fixture := if d.free_fixture then 0 else d.fixture,
                   free_fixture := false,
                   events := d.events ++ (if d.free_fixture then [LoaderEvent.free d.fixture]
                     else []) ++ [hook_event d.abort_type d.failure] }) := by
  obtain ⟨self, has_cell, cell, old, failure, stage, fixture, teardown, ty, free_fixture,
    events⟩ := d
  simp only at h
  subst h
  unfold dynamic_ops_abort_finish hook_event
  cases free_fixture <;> cases ty <;> simp

theorem abort_set_type (d : loader_dynamic_ops) (t : ctest_dynamic_ops_abort_type) :
    (if d.abort_type = ctest_dynamic_ops_abort_type.CTEST_DYNAMIC_OPS_ABORT_NONE
      then { d with abort_type := t } else d)
      = { d with abort_type := abort_type_after d.abort_type t } := by
  unfold abort_type_after
  by_cases h : d.abort_type = ctest_dynamic_ops_abort_type.CTEST_DYNAMIC_OPS_ABORT_NONE
  · simp only [h, if_true]
  · simp only [h, if_false]

theorem abort_no_teardown (fuel : Nat) (d : loader_dynamic_ops)
    (t : ctest_dynamic_ops_abort_type) (h : d.teardown = none) :
    dynamic_ops_abort__ (fuel + 1) d t
      = dynamic_ops_abort_finish { d with abort_type := abort_type_after d.abort_type t } := by
  rw [dynamic_ops_abort__]
  simp only [abort_set_type]
  simp only [h]

theorem map_inr_match {α β : Type} (X : Option β) (g : α → Option β) :
    (match X.map (Sum.inr : β → α ⊕ β) with
      | none => none
      | some (Sum.inl a) => g a
      | some (Sum.inr r) => some r) = X := by
  cases X <;> rfl

theorem abort_eq (fuel : Nat) (d : loader_dynamic_ops) (t : ctest_dynamic_ops_abort_type)
    (hd : d.hooked) :
    dynamic_ops_abort__ (fuel + 2) d t = dynamic_ops_abort_finish (abort_outcome d t) := by
  cases htd : d.teardown with
  | none =>
    rw [abort_no_teardown (fuel + 1) d t htd]
    unfold abort_outcome
    simp only [htd]
  | some td =>
    rw [dynamic_ops_abort__]
    simp only [abort_set_type]
    simp only [htd]
    have hrun := run_callback_eq (dynamic_ops_abort__ (fuel + 1)) td
      { d with teardown := none, abort_type := abort_type_after d.abort_type t,
               events := d.events ++ [LoaderEvent.teardown d.fixture] } hd
    rw [hrun]
    unfold abort_outcome
    cases hs : script_abort td with
    | none => simp only [htd, hs]
    | some t2 =>
      have hnest := abort_no_teardown fuel
        { d with teardown := none, abort_type := abort_type_after d.abort_type t,
                 events := d.events ++ [LoaderEvent.teardown d.fixture],
                 failure := reported d.stage d.failure td } t2 rfl
      simp only [htd] at hnest ⊢
      rw [hs]
      simp only []
      rw [hnest]
      cases dynamic_ops_abort_finish
        { d with teardown := none,
                 abort_type := abort_type_after (abort_type_after d.abort_type t) t2,
                 events := d.events ++ [LoaderEvent.teardown d.fixture],
                 failure := reported d.stage d.failure td } <;> rfl

end Abort

section EndsLemmas

theorem abort_outcome_fields (d : loader_dynamic_ops) (t : ctest_dynamic_ops_abort_type) :
    (abort_outcome d t).has_cell = d.has_cell ∧
    (abort_outcome d t).old_dynamic_ops = d.old_dynamic_ops ∧
    (abort_outcome d t).fixture = d.fixture ∧
    (abort_outcome d t).free_fixture = d.free_fixture ∧
    (abort_outcome d t).events = d.events ++ (match d.teardown with
      | some _ => [LoaderEvent.teardown d.fixture]
      | none => []) ∧
    (∀ g, d.failure = some g → (abort_outcome d t).failure = some g) := by
  unfold abort_outcome
  cases h : d.teardown with
  | none =>
    simp only [List.append_nil, true_and]
    intro g hg; exact hg
  | some td =>
    simp only [true_and]
    intro g hg
    rw [hg, reported_some]

theorem ends_abort (fuel : Nat) (d : loader_dynamic_ops) (t : ctest_dynamic_ops_abort_type)
    (hd : d.hooked) : EndsWith d [] (dynamic_ops_abort__ (fuel + 2) d t) := by
  obtain ⟨h1, h2, h3, h4, h5, h6⟩ := abort_outcome_fields d t
  rw [abort_eq fuel d t hd, abort_finish_eq _ (by rw [h1]; exact hd.1)]
  refine ⟨LoaderExit.unwound, _, [hook_event (abort_outcome d t).abort_type
    (abort_outcome d t).failure], rfl, ?_, ?_, ?_, ?_⟩
  · simp only [h3, h4, h5, List.append_nil]
  · exact Or.inr ⟨rfl, _, _, rfl⟩
  · intro g hg
    exact ⟨rfl, _, by rw [h6 g hg]⟩
  · intro _; exact h2

theorem ends_with_of_reported (d : loader_dynamic_ops) (s : List ModuleAction)
    (mid : List LoaderEvent) (r : Option (LoaderExit × loader_dynamic_ops))
    (h : EndsWith { d with failure := reported d.stage d.failure s } mid r) :
    EndsWith d mid r := by
  obtain ⟨exit, final, hooks, h1, h2, h4, h5, h6⟩ := h
  refine ⟨exit, final, hooks, h1, h2, h4, ?_, h6⟩
  intro g hg
  exact h5 g (by simp only [hg, reported_some])

theorem ends_with_of_events (d : loader_dynamic_ops) (stage : ctest_stage)
    (evs mid : List LoaderEvent) (r : Option (LoaderExit × loader_dynamic_ops))
    (h : EndsWith { d with stage := stage, events := d.events ++ evs } mid r) :
    EndsWith d (evs ++ mid) r := by
  obtain ⟨exit, final, hooks, h1, h2, h4, h5, h6⟩ := h
  refine ⟨exit, final, hooks, h1, ?_, h4, h5, h6⟩
  simp only [List.append_assoc] at h2 ⊢
  exact h2

theorem ends_finish (fuel : Nat) (d : loader_dynamic_ops) (hd : d.hooked)
    (htd : d.teardown = none) : EndsWith d [] (execute_finish (fuel + 2) d) := by
  unfold execute_finish
  by_cases hf : d.failure = none
  · rw [if_neg (by simp [hf])]
    simp only [hd.1, if_true]
    refine ⟨LoaderExit.returned, _, [], rfl, ?_, Or.inl ⟨rfl, rfl⟩, ?_, ?_⟩
    · simp only [htd, List.append_nil]
      cases d.free_fixture <;> simp
    · intro g hg; rw [hf] at hg; cases hg
    · intro _
      cases d.free_fixture <;> rfl
  · rw [if_pos hf]
    exact ends_abort fuel d _ hd

theorem ends_teardown (fuel : Nat) (d : loader_dynamic_ops) (hd : d.hooked) :
    EndsWith d [LoaderEvent.on_stage_change ctest_stage.CTEST_STAGE_TEARDOWN]
      (execute_teardown (fuel + 2) d) := by
  unfold execute_teardown
  cases htd : d.teardown with
  | none =>
    simp only [htd]
    have := ends_finish fuel
      { d with stage := ctest_stage.CTEST_STAGE_TEARDOWN,
               events := d.events ++
                 [LoaderEvent.on_stage_change ctest_stage.CTEST_STAGE_TEARDOWN] } hd htd
    have h2 := ends_with_of_events d _ _ [] _ this
    rw [List.append_nil] at h2
    simp only [htd] at h2
    exact h2
  | some td =>
    simp only [htd]
    have hrun := run_callback_eq (dynamic_ops_abort__ (fuel + 2)) td
      { d with stage := ctest_stage.CTEST_STAGE_TEARDOWN, teardown := none,
               events := d.events ++
                 [LoaderEvent.on_stage_change ctest_stage.CTEST_STAGE_TEARDOWN] ++
                 [LoaderEvent.teardown d.fixture] } hd
    rw [hrun]
    have key : ∀ r, EndsWith
        { d with stage := ctest_stage.CTEST_STAGE_TEARDOWN, teardown := none,
                 events := d.events ++
                   [LoaderEvent.on_stage_change ctest_stage.CTEST_STAGE_TEARDOWN] ++
                   [LoaderEvent.teardown d.fixture],
                 failure := reported ctest_stage.CTEST_STAGE_TEARDOWN d.failure td } [] r →
        EndsWith d [LoaderEvent.on_stage_change ctest_stage.CTEST_STAGE_TEARDOWN] r := by
      intro r h
      obtain ⟨exit, final, hooks, h1, h2, h4, h5, h6⟩ := h
      refine ⟨exit, final, hooks, h1, ?_, h4, ?_, h6⟩
      · simp only [htd, List.append_assoc, List.append_nil, List.nil_append] at h2 ⊢
        exact h2
      · intro g hg
        exact h5 g (by simp only [hg, reported_some])
    cases hs : script_abort td with
    | none =>
      simp only []
      exact key _ (ends_finish fuel _ hd rfl)
    | some t =>
      simp only []
      have hab := ends_abort fuel
        { d with stage := ctest_stage.CTEST_STAGE_TEARDOWN, teardown := none,
                 events := d.events ++
                   [LoaderEvent.on_stage_change ctest_stage.CTEST_STAGE_TEARDOWN] ++
                   [LoaderEvent.teardown d.fixture],
                 failure := reported ctest_stage.CTEST_STAGE_TEARDOWN d.failure td } t hd
      have hk := key _ hab
      obtain ⟨exit, final, hooks, h1, h2, h4, h5, h6⟩ := hk
      refine ⟨exit, final, hooks, ?_, h2, h4, h5, h6⟩
      rw [h1]
      rfl

end EndsLemmas

section Stages

theorem ends_body (fuel : Nat) (env : testcase_env) (d : loader_dynamic_ops) (hd : d.hooked) :
    Ends d (execute_body (fuel + 2) env d) := by
  unfold execute_body
  have hrun := run_callback_eq (dynamic_ops_abort__ (fuel + 2)) env.caller
    { d with stage := ctest_stage.CTEST_STAGE_EXECUTION,
             events := d.events ++
               [LoaderEvent.on_stage_change ctest_stage.CTEST_STAGE_EXECUTION,
                LoaderEvent.caller d.fixture env.data] } hd
  simp only []
  rw [hrun]
  cases hs : script_abort env.caller with
  | none =>
    simp only []
    have h1 := ends_teardown fuel
      { d with stage := ctest_stage.CTEST_STAGE_EXECUTION,
               events := d.events ++
                 [LoaderEvent.on_stage_change ctest_stage.CTEST_STAGE_EXECUTION,
                  LoaderEvent.caller d.fixture env.data],
               failure := reported ctest_stage.CTEST_STAGE_EXECUTION d.failure env.caller } hd
    have h2 := ends_with_of_events
      { d with failure := reported ctest_stage.CTEST_STAGE_EXECUTION d.failure env.caller }
      ctest_stage.CTEST_STAGE_EXECUTION _ _ _ h1
    obtain ⟨exit, final, hooks, a1, a2, a4, a5, a6⟩ := h2
    refine ⟨_, ?_, exit, final, hooks, a1, a2, a4, ?_, a6⟩
    · intro e he
      simp only [List.cons_append, List.nil_append, List.mem_cons, List.mem_singleton,
        List.not_mem_nil, or_false] at he
      rcases he with h | h | h <;> subst h <;> exact ⟨rfl, rfl⟩
    · intro g hg
      exact a5 g (by simp only [hg, reported_some])
  | some t =>
    simp only []
    have h1 := ends_abort fuel
      { d with stage := ctest_stage.CTEST_STAGE_EXECUTION,
               events := d.events ++
                 [LoaderEvent.on_stage_change ctest_stage.CTEST_STAGE_EXECUTION,
                  LoaderEvent.caller d.fixture env.data],
               failure := reported ctest_stage.CTEST_STAGE_EXECUTION d.failure env.caller } t hd
    have h2 := ends_with_of_events
      { d with failure := reported ctest_stage.CTEST_STAGE_EXECUTION d.failure env.caller }
      ctest_stage.CTEST_STAGE_EXECUTION _ _ _ h1
    obtain ⟨exit, final, hooks, a1, a2, a4, a5, a6⟩ := h2
    refine ⟨_, ?_, exit, final, hooks, ?_, a2, a4, ?_, a6⟩
    · intro e he
      simp only [List.append_nil, List.mem_cons, List.mem_singleton,
        List.not_mem_nil, or_false] at he
      rcases he with h | h <;> subst h <;> exact ⟨rfl, rfl⟩
    · rw [a1]; rfl
    · intro g hg
      exact a5 g (by simp only [hg, reported_some])

theorem ends_setup (fuel : Nat) (env : testcase_env) (d : loader_dynamic_ops) (hd : d.hooked) :
    Ends d (execute_setup (fuel + 2) env d) := by
  unfold execute_setup
  cases hsu : env.setup with
  | none => exact ends_body fuel env d hd
  | some setup =>
    simp only []
    have hrun := run_callback_eq (dynamic_ops_abort__ (fuel + 2)) setup
      { d with events := d.events ++ [LoaderEvent.setup d.fixture] } hd
    rw [hrun]
    cases hs : script_abort setup with
    | none =>
      simp only []
      obtain ⟨mid, hmid, exit, final, hooks, a1, a2, a4, a5, a6⟩ := ends_body fuel env
        { d with events := d.events ++ [LoaderEvent.setup d.fixture],
                 failure := reported d.stage d.failure setup } hd
      refine ⟨LoaderEvent.setup d.fixture :: mid, ?_, exit, final, hooks, a1, ?_, a4, ?_, a6⟩
      · intro e he
        rcases List.mem_cons.mp he with h | h
        · subst h; exact ⟨rfl, rfl⟩
        · exact hmid e h
      · simp only [List.append_assoc, List.singleton_append] at a2 ⊢
        exact a2
      · intro g hg
        exact a5 g (by simp only [hg, reported_some])
    | some t =>
      simp only []
      obtain ⟨exit, final, hooks, a1, a2, a4, a5, a6⟩ := ends_abort fuel
        { d with events := d.events ++ [LoaderEvent.setup d.fixture],
                 failure := reported d.stage d.failure setup } t hd
      refine ⟨[LoaderEvent.setup d.fixture], ?_, exit, final, hooks, ?_, ?_, a4, ?_, a6⟩
      · intro e he
        simp only [List.mem_singleton] at he
        subst he; exact ⟨rfl, rfl⟩
      · rw [a1]; rfl
      · simp only [List.append_assoc, List.append_nil] at a2 ⊢
        exact a2
      · intro g hg
        exact a5 g (by simp only [hg, reported_some])

end Stages

section Execute

theorem execute_ends (fuel : Nat) (env : testcase_env) (hcell : env.has_cell = true)
    (halloc : env.size ≤ 128 ∨ env.calloc_ok = true) :
    ∃ mid exit final hooks, testcase_op_execute__ (fuel + 2) env = some (exit, final) ∧
      (∀ e ∈ mid, LoaderEvent.is_teardown e = false ∧ LoaderEvent.is_unwind e = false) ∧
      final.events = [LoaderEvent.on_stage_change ctest_stage.CTEST_STAGE_SETUP] ++ mid
        ++ (match env.teardown with
            | some _ => [LoaderEvent.teardown env.fixture]
            | none => [])
        ++ (if env.size > 128 then [LoaderEvent.free env.fixture] else []) ++ hooks ∧
      ((exit = LoaderExit.returned ∧ hooks = []) ∨
        (exit = LoaderExit.unwound ∧ ∃ ty f, hooks = [hook_event ty f])) ∧
      final.cell = env.cell := by
  unfold testcase_op_execute__ testcase_env.fixture
  by_cases hsz : env.size > 128
  · have hc : env.calloc_ok = true := by
      rcases halloc with h | h
      · omega
      · exact h
    simp only [hsz, if_true, hc, Bool.true_eq_false, if_false, hcell]
    obtain ⟨mid, hmid, exit, final, hooks, a1, a2, a4, _, a6⟩ := ends_setup fuel env
      { self := env.self, has_cell := true, cell := env.self, old_dynamic_ops := env.cell,
        failure := none, stage := ctest_stage.CTEST_STAGE_SETUP, fixture := env.heap,
        teardown := env.teardown,
        abort_type := ctest_dynamic_ops_abort_type.CTEST_DYNAMIC_OPS_ABORT_NONE,
        free_fixture := true,
        events := [LoaderEvent.on_stage_change ctest_stage.CTEST_STAGE_SETUP] } ⟨rfl, rfl⟩
    refine ⟨mid, exit, final, hooks, a1, hmid, ?_, a4, a6 rfl⟩
    simp only [if_true] at a2
    exact a2
  · simp only [hsz, if_false, hcell, if_true]
    obtain ⟨mid, hmid, exit, final, hooks, a1, a2, a4, _, a6⟩ := ends_setup fuel env
      { self := env.self, has_cell := true, cell := env.self, old_dynamic_ops := env.cell,
        failure := none, stage := ctest_stage.CTEST_STAGE_SETUP,
        fixture := env.fixture_storage, teardown := env.teardown,
        abort_type := ctest_dynamic_ops_abort_type.CTEST_DYNAMIC_OPS_ABORT_NONE,
        free_fixture := false,
        events := [LoaderEvent.on_stage_change ctest_stage.CTEST_STAGE_SETUP] } ⟨rfl, rfl⟩
    refine ⟨mid, exit, final, hooks, a1, hmid, ?_, a4, a6 rfl⟩
    simp only [Bool.false_eq_true, if_false] at a2
    exact a2

end Execute

section FirstReport

theorem execute_eq_setup (fuel : Nat) (env : testcase_env)
    (halloc : env.size ≤ 128 ∨ env.calloc_ok = true) :
    testcase_op_execute__ fuel env = execute_setup fuel env (initial_state env) := by
  unfold testcase_op_execute__ initial_state testcase_env.fixture
  by_cases hsz : env.size > 128
  · have hc : env.calloc_ok = true := by
      rcases halloc with h | h
      · omega
      · exact h
    simp only [hsz, if_true, hc, Bool.true_eq_false, if_false, decide_True]
  · simp only [hsz, if_false, decide_False]

theorem initial_state_hooked (env : testcase_env) (hcell : env.has_cell = true) :
    (initial_state env).hooked := by
  unfold loader_dynamic_ops.hooked initial_state
  simp only [hcell, if_true, and_self]

theorem ends_hands_over (g : ctest_failure) (d : loader_dynamic_ops)
    (r : Option (LoaderExit × loader_dynamic_ops)) (h : Ends d r) (hg : d.failure = some g) :
    HandsOver g d r := by
  obtain ⟨mid, hmid, exit, final, hooks, a1, a2, _, a5, _⟩ := h
  obtain ⟨hexit, ty, hhooks⟩ := a5 g hg
  subst hexit
  subst hhooks
  refine ⟨final, mid ++ (match d.teardown with
      | some _ => [LoaderEvent.teardown d.fixture]
      | none => []) ++ (if d.free_fixture then [LoaderEvent.free d.fixture] else []), ty, a1, ?_, ?_⟩
  · simp only [List.append_assoc] at a2 ⊢
    exact a2
  · intro e he
    rcases List.mem_append.mp he with h | h
    · rcases List.mem_append.mp h with h | h
      · exact (hmid e h).2
      · cases htd : d.teardown with
        | none =>
          rw [htd] at h
          simp only [List.not_mem_nil] at h
        | some _ =>
          rw [htd] at h
          simp only [List.mem_singleton] at h
          subst h; rfl
    · cases hf : d.free_fixture with
      | true =>
        rw [hf] at h
        simp only [if_true, List.mem_singleton] at h
        subst h; rfl
      | false =>
        rw [hf] at h
        simp only [Bool.false_eq_true, if_false, List.not_mem_nil] at h

theorem hands_over_of_events (g : ctest_failure) (d : loader_dynamic_ops)
    (stage : ctest_stage) (evs : List LoaderEvent)
    (r : Option (LoaderExit × loader_dynamic_ops))
    (hevs : ∀ e ∈ evs, LoaderEvent.is_unwind e = false)
    (h : HandsOver g { d with stage := stage, events := d.events ++ evs } r) :
    HandsOver g d r := by
  obtain ⟨final, pre, ty, a1, a2, a3⟩ := h
  refine ⟨final, evs ++ pre, ty, a1, ?_, ?_⟩
  · simp only [List.append_assoc] at a2 ⊢
    exact a2
  · intro e he
    rcases List.mem_append.mp he with h | h
    · exact hevs e h
    · exact a3 e h

end FirstReport

section Sticky

theorem run_callback_report_first (on_abort : loader_dynamic_ops →
      ctest_dynamic_ops_abort_type → Option (LoaderExit × loader_dynamic_ops))
    (d : loader_dynamic_ops) (file : Option (List Nat)) (line : Int)
    (description : List Nat) (rest : List ModuleAction) (hd : d.hooked)
    (hf : d.failure = none) :
    run_callback on_abort (ModuleAction.report file line description true :: rest) d
      = run_callback on_abort rest
          { d with failure := some (created_failure d.stage file line description) } := by
  have e : run_callback on_abort (ModuleAction.report file line description true :: rest) d
      = run_callback on_abort rest
          (dynamic_ops_op_report_failure__ d file line description true) := by
    simp only [run_callback, hd.1, hd.2, and_self, if_true]
  rw [e, report_failure_eq, hf]
  rfl

theorem body_first (fuel : Nat) (env : testcase_env) (d : loader_dynamic_ops)
    (file : Option (List Nat)) (line : Int) (description : List Nat)
    (rest : List ModuleAction) (hd : d.hooked) (hf : d.failure = none)
    (hc : env.caller = ModuleAction.report file line description true :: rest) :
    HandsOver (created_failure ctest_stage.CTEST_STAGE_EXECUTION file line description) d
      (execute_body (fuel + 2) env d) := by
  have hshift : ∀ g, g = created_failure ctest_stage.CTEST_STAGE_EXECUTION file line
      description → execute_body (fuel + 2) env d
        = execute_body (fuel + 2) { env with caller := rest } { d with failure := some g } := by
    intro g hg
    subst hg
    unfold execute_body
    simp only [hc]
    rw [run_callback_report_first _
      { d with stage := ctest_stage.CTEST_STAGE_EXECUTION,
               events := d.events ++
                 [LoaderEvent.on_stage_change ctest_stage.CTEST_STAGE_EXECUTION,
                  LoaderEvent.caller d.fixture env.data] }
      file line description rest hd hf]
  rw [hshift _ rfl]
  have h := ends_hands_over
    (created_failure ctest_stage.CTEST_STAGE_EXECUTION file line description)
    { d with failure := some (created_failure
        ctest_stage.CTEST_STAGE_EXECUTION file line description) } _
    (ends_body fuel { env with caller := rest } _ hd) rfl
  exact h

theorem setup_first (fuel : Nat) (env : testcase_env) (d : loader_dynamic_ops)
    (file : Option (List Nat)) (line : Int) (description : List Nat)
    (rest : List ModuleAction) (hd : d.hooked) (hf : d.failure = none)
    (hc : env.setup = some (ModuleAction.report file line description true :: rest)) :
    HandsOver (created_failure d.stage file line description) d
      (execute_setup (fuel + 2) env d) := by
  have hshift : ∀ g, g = created_failure d.stage file line description →
      execute_setup (fuel + 2) env d
        = execute_setup (fuel + 2) { env with setup := some rest }
            { d with failure := some g } := by
    intro g hg
    subst hg
    unfold execute_setup
    simp only [hc]
    rw [run_callback_report_first _
      { d with events := d.events ++ [LoaderEvent.setup d.fixture] }
      file line description rest hd hf]
    rfl
  rw [hshift _ rfl]
  have h := ends_hands_over (created_failure d.stage file line description)
    { d with failure := some (created_failure d.stage file line description) } _
    (ends_setup fuel { env with setup := some rest } _ hd) rfl
  exact h

theorem teardown_first (fuel : Nat) (d : loader_dynamic_ops)
    (file : Option (List Nat)) (line : Int) (description : List Nat)
    (rest : List ModuleAction) (hd : d.hooked) (hf : d.failure = none)
    (hc : d.teardown = some (ModuleAction.report file line description true :: rest)) :
    HandsOver (created_failure ctest_stage.CTEST_STAGE_TEARDOWN file line description) d
      (execute_teardown (fuel + 2) d) := by
  have hshift : ∀ g, g = created_failure ctest_stage.CTEST_STAGE_TEARDOWN file line
      description → execute_teardown (fuel + 2) d
        = execute_teardown (fuel + 2) { d with teardown := some rest, failure := some g } := by
    intro g hg
    subst hg
    unfold execute_teardown
    simp only [hc]
    rw [run_callback_report_first _
      { d with stage := ctest_stage.CTEST_STAGE_TEARDOWN, teardown := none,
               events := d.events ++
                 [LoaderEvent.on_stage_change ctest_stage.CTEST_STAGE_TEARDOWN] ++
                 [LoaderEvent.teardown d.fixture] }
      file line description rest hd hf]
  rw [hshift _ rfl]
  have h1 := ends_teardown fuel
    { d with teardown := some rest, failure := some (created_failure
        ctest_stage.CTEST_STAGE_TEARDOWN file line description) } hd
  have h := ends_hands_over
    (created_failure ctest_stage.CTEST_STAGE_TEARDOWN file line description)
    { d with teardown := some rest, failure := some (created_failure
        ctest_stage.CTEST_STAGE_TEARDOWN file line description) } _
    ⟨_, by
      intro e he
      simp only [List.mem_singleton] at he
      subst he; exact ⟨rfl, rfl⟩, h1⟩ rfl
  exact h

theorem body_empty (fuel : Nat) (env : testcase_env) (d : loader_dynamic_ops)
    (hc : env.caller = []) :
    execute_body fuel env d
      = execute_teardown fuel
          { d with stage := ctest_stage.CTEST_STAGE_EXECUTION,
                   events := d.events ++
                     [LoaderEvent.on_stage_change ctest_stage.CTEST_STAGE_EXECUTION,
                      LoaderEvent.caller d.fixture env.data] } := by
  unfold execute_body
  simp only [hc, run_callback]

theorem setup_empty (fuel : Nat) (env : testcase_env) (d : loader_dynamic_ops)
    (hc : env.setup = some []) :
    execute_setup fuel env d
      = execute_body fuel env { d with events := d.events ++ [LoaderEvent.setup d.fixture] } := by
  unfold execute_setup
  simp only [hc, run_callback]

theorem setup_none (fuel : Nat) (env : testcase_env) (d : loader_dynamic_ops)
    (hc : env.setup = none) :
    execute_setup fuel env d = execute_body fuel env d := by
  unfold execute_setup
  simp only [hc]

end Sticky

section FirstReportClaim

/-- C9. When the first thing the module does in a test-case execution is to report a
failure, its creation succeeding, then whatever follows (further reports, an abort with
any tag, the teardown) the run unwinds through exactly one hook call, and the failure
handed to it is the one built from that first report: its file, line and formatted
description, and the stage in which the report was made. -/
theorem testcase_first_report_wins (fuel : Nat) (env : testcase_env) (stage : ctest_stage)
    (file : Option (List Nat)) (line : Int) (description : List Nat)
    (rest : List (ctest_stage × ModuleAction))
    (hcell : env.has_cell = true) (halloc : env.size ≤ 128 ∨ env.calloc_ok = true)
    (hfirst : module_stream env
      = (stage, ModuleAction.report file line description true) :: rest) :
    ∃ final pre ty, testcase_op_execute__ (fuel + 2) env = some (LoaderExit.unwound, final) ∧
      final.events
        = pre ++ [hook_event ty (some (created_failure stage file line description))] ∧
      ∀ e ∈ pre, LoaderEvent.is_unwind e = false := by
  have hd := initial_state_hooked env hcell
  have key : HandsOver (created_failure stage file line description) (initial_state env)
      (execute_setup (fuel + 2) env (initial_state env)) := by
    unfold module_stream at hfirst
    cases hsu : env.setup with
    | some su =>
      cases su with
      | cons a su1 =>
        simp only [hsu, Option.getD_some, List.map_cons, List.cons_append, List.cons.injEq,
          Prod.mk.injEq] at hfirst
        obtain ⟨⟨hst, ha⟩, _⟩ := hfirst
        subst hst; subst ha
        exact setup_first fuel env (initial_state env) file line description su1 hd rfl hsu
      | nil =>
        simp only [hsu, Option.getD_some, List.map_nil, List.nil_append] at hfirst
        rw [setup_empty _ env _ hsu]
        refine hands_over_of_events _ (initial_state env) (initial_state env).stage
          [LoaderEvent.setup (initial_state env).fixture] _ ?_ ?_
        · intro e he
          simp only [List.mem_singleton] at he
          subst he; rfl
        · cases hca : env.caller with
          | cons a c1 =>
            simp only [hca, List.map_cons, List.cons_append, List.cons.injEq,
              Prod.mk.injEq] at hfirst
            obtain ⟨⟨hst, ha⟩, _⟩ := hfirst
            subst hst; subst ha
            exact body_first fuel env _ file line description c1 hd rfl hca
          | nil =>
            simp only [hca, List.map_nil, List.nil_append] at hfirst
            rw [body_empty _ env _ hca]
            refine hands_over_of_events _ _ ctest_stage.CTEST_STAGE_EXECUTION
              [LoaderEvent.on_stage_change ctest_stage.CTEST_STAGE_EXECUTION,
                LoaderEvent.caller (initial_state env).fixture env.data] _ ?_ ?_
            · intro e he
              simp only [List.mem_cons, List.mem_singleton, List.not_mem_nil, or_false] at he
              rcases he with h | h <;> subst h <;> rfl
            · cases htd : env.teardown with
              | none => simp [htd] at hfirst
              | some td =>
                cases td with
                | nil => simp [htd] at hfirst
                | cons a t1 =>
                  simp only [htd, Option.getD_some, List.map_cons, List.cons.injEq,
                    Prod.mk.injEq] at hfirst
                  obtain ⟨⟨hst, ha⟩, _⟩ := hfirst
                  subst hst; subst ha
                  exact teardown_first fuel _ file line description t1 hd rfl htd
    | none =>
      simp only [hsu, Option.getD_none, List.map_nil, List.nil_append] at hfirst
      rw [setup_none _ env _ hsu]
      cases hca : env.caller with
      | cons a c1 =>
        simp only [hca, List.map_cons, List.cons_append, List.cons.injEq,
          Prod.mk.injEq] at hfirst
        obtain ⟨⟨hst, ha⟩, _⟩ := hfirst
        subst hst; subst ha
        exact body_first fuel env _ file line description c1 hd rfl hca
      | nil =>
        simp only [hca, List.map_nil, List.nil_append] at hfirst
        rw [body_empty _ env _ hca]
        refine hands_over_of_events _ _ ctest_stage.CTEST_STAGE_EXECUTION
          [LoaderEvent.on_stage_change ctest_stage.CTEST_STAGE_EXECUTION,
            LoaderEvent.caller (initial_state env).fixture env.data] _ ?_ ?_
        · intro e he
          simp only [List.mem_cons, List.mem_singleton, List.not_mem_nil, or_false] at he
          rcases he with h | h <;> subst h <;> rfl
        · cases htd : env.teardown with
          | none => simp [htd] at hfirst
          | some td =>
            cases td with
            | nil => simp [htd] at hfirst
            | cons a t1 =>
              simp only [htd, Option.getD_some, List.map_cons, List.cons.injEq,
                Prod.mk.injEq] at hfirst
              obtain ⟨⟨hst, ha⟩, _⟩ := hfirst
              subst hst; subst ha
              exact teardown_first fuel _ file line description t1 hd rfl htd
  rw [execute_eq_setup _ env halloc]
  obtain ⟨final, pre, ty, a1, a2, a3⟩ := key
  refine ⟨final, LoaderEvent.on_stage_change ctest_stage.CTEST_STAGE_SETUP :: pre, ty, a1, ?_, ?_⟩
  · rw [a2]; rfl
  · intro e he
    rcases List.mem_cons.mp he with h | h
    · subst h; rfl
    · exact a3 e h

theorem testcase_first_report_wins_witness :
    ∃ final pre ty, testcase_op_execute__ (0 + 2) sample_env
        = some (LoaderExit.unwound, final) ∧
      final.events = pre ++ [hook_event ty (some (created_failure
        ctest_stage.CTEST_STAGE_EXECUTION (some [97]) 10 [120]))] ∧
      ∀ e ∈ pre, LoaderEvent.is_unwind e = false :=
  testcase_first_report_wins 0 sample_env ctest_stage.CTEST_STAGE_EXECUTION (some [97]) 10
    [120] _ rfl (Or.inr rfl) rfl

end FirstReportClaim

section AbortTag

/-- C10. When `dynamic_ops_abort__` is entered for the first time in an execution (no
abort type recorded yet) with the tag `t1`, fail or skip, and the teardown callback it
calls aborts again with any tag `t2`, the run unwinds according to `t1`: among the events
the abort adds, `on_skip` occurs exactly when `t1` is skip and `on_failure` exactly when
`t1` is fail. -/
theorem dynamic_ops_abort_keeps_first_tag (fuel : Nat) (d : loader_dynamic_ops)
    (t1 t2 : ctest_dynamic_ops_abort_type) (td : List ModuleAction) (hd : d.hooked)
    (h0 : d.abort_type = ctest_dynamic_ops_abort_type.CTEST_DYNAMIC_OPS_ABORT_NONE)
    (htd : d.teardown = some td) (h2 : script_abort td = some t2)
    (ht1 : t1 = ctest_dynamic_ops_abort_type.CTEST_DYNAMIC_OPS_ABORT_FAIL ∨
      t1 = ctest_dynamic_ops_abort_type.CTEST_DYNAMIC_OPS_ABORT_SKIP) :
    ∃ final added, dynamic_ops_abort__ (fuel + 2) d t1 = some (LoaderExit.unwound, final) ∧
      final.events = d.events ++ added ∧
      ((∃ f, LoaderEvent.on_skip f ∈ added)
        ↔ t1 = ctest_dynamic_ops_abort_type.CTEST_DYNAMIC_OPS_ABORT_SKIP) ∧
      ((∃ f, LoaderEvent.on_failure f ∈ added)
        ↔ t1 = ctest_dynamic_ops_abort_type.CTEST_DYNAMIC_OPS_ABORT_FAIL) := by
  obtain ⟨h1, _, h3, h4, h5, _⟩ := abort_outcome_fields d t1
  have hty : (abort_outcome d t1).abort_type = t1 := by
    unfold abort_outcome
    simp only [htd, h2, h0, abort_type_after, if_true]
    rcases ht1 with h | h <;> subst h <;> simp
  rw [abort_eq fuel d t1 hd, abort_finish_eq _ (by rw [h1]; exact hd.1)]
  refine ⟨_, [LoaderEvent.teardown d.fixture]
    ++ (if d.free_fixture then [LoaderEvent.free d.fixture] else [])
    ++ [hook_event t1 (abort_outcome d t1).failure], rfl, ?_, ?_, ?_⟩
  · simp only [h3, h4, h5, hty, htd, List.append_assoc]
  · rcases ht1 with h | h <;> subst h <;> cases d.free_fixture <;> simp [hook_event]
  · rcases ht1 with h | h <;> subst h <;> cases d.free_fixture <;> simp [hook_event]

theorem dynamic_ops_abort_keeps_first_tag_witness :
    ∃ final added, dynamic_ops_abort__ (0 + 2) sample_dynamic_ops
        ctest_dynamic_ops_abort_type.CTEST_DYNAMIC_OPS_ABORT_FAIL
        = some (LoaderExit.unwound, final) ∧
      final.events = sample_dynamic_ops.events ++ added ∧
      ((∃ f, LoaderEvent.on_skip f ∈ added)
        ↔ ctest_dynamic_ops_abort_type.CTEST_DYNAMIC_OPS_ABORT_FAIL
          = ctest_dynamic_ops_abort_type.CTEST_DYNAMIC_OPS_ABORT_SKIP) ∧
      ((∃ f, LoaderEvent.on_failure f ∈ added)
        ↔ ctest_dynamic_ops_abort_type.CTEST_DYNAMIC_OPS_ABORT_FAIL
          = ctest_dynamic_ops_abort_type.CTEST_DYNAMIC_OPS_ABORT_FAIL) :=
  dynamic_ops_abort_keeps_first_tag 0 sample_dynamic_ops
    ctest_dynamic_ops_abort_type.CTEST_DYNAMIC_OPS_ABORT_FAIL
    ctest_dynamic_ops_abort_type.CTEST_DYNAMIC_OPS_ABORT_SKIP
    [ModuleAction.abort ctest_dynamic_ops_abort_type.CTEST_DYNAMIC_OPS_ABORT_SKIP]
    ⟨rfl, rfl⟩ rfl rfl rfl (Or.inl rfl)

end AbortTag

section TeardownOnce

/-- C11. For every test case that has a teardown callback, whose module exports the
dynamic-ops cell and whose fixture allocation succeeds (or is not needed), whatever
setup, body and teardown do (return, report, abort with any tag at any point): the
driver calls the teardown callback exactly once, with the fixture pointer, and no
unwinding hook is called before that call. -/
theorem testcase_teardown_called_once (fuel : Nat) (env : testcase_env)
    (td : List ModuleAction) (hcell : env.has_cell = true) (htd : env.teardown = some td)
    (halloc : env.size ≤ 128 ∨ env.calloc_ok = true) :
    ∃ exit final pre post, testcase_op_execute__ (fuel + 2) env = some (exit, final) ∧
      final.events = pre ++ [LoaderEvent.teardown env.fixture] ++ post ∧
      (∀ e ∈ pre, LoaderEvent.is_teardown e = false ∧ LoaderEvent.is_unwind e = false) ∧
      (∀ e ∈ post, LoaderEvent.is_teardown e = false) := by
  obtain ⟨mid, exit, final, hooks, a1, hmid, a2, a4, _⟩ := execute_ends fuel env hcell halloc
  refine ⟨exit, final, [LoaderEvent.on_stage_change ctest_stage.CTEST_STAGE_SETUP] ++ mid,
    (if env.size > 128 then [LoaderEvent.free env.fixture] else []) ++ hooks, a1, ?_, ?_, ?_⟩
  · rw [a2]
    simp only [htd, List.append_assoc]
  · intro e he
    rcases List.mem_append.mp he with h | h
    · simp only [List.mem_singleton] at h
      subst h; exact ⟨rfl, rfl⟩
    · exact hmid e h
  · intro e he
    rcases List.mem_append.mp he with h | h
    · by_cases hs : env.size > 128
      · simp only [hs, if_true, List.mem_singleton] at h
        subst h; rfl
      · simp only [hs, if_false, List.not_mem_nil] at h
    · rcases a4 with ⟨_, hh⟩ | ⟨_, ty, f, hh⟩
      · rw [hh] at h; cases h
      · rw [hh] at h
        simp only [List.mem_singleton] at h
        subst h
        cases ty <;> rfl

theorem testcase_teardown_called_once_witness :
    ∃ exit final pre post, testcase_op_execute__ (0 + 2) sample_env = some (exit, final) ∧
      final.events = pre ++ [LoaderEvent.teardown sample_env.fixture] ++ post ∧
      (∀ e ∈ pre, LoaderEvent.is_teardown e = false ∧ LoaderEvent.is_unwind e = false) ∧
      (∀ e ∈ post, LoaderEvent.is_teardown e = false) :=
  testcase_teardown_called_once 0 sample_env _ rfl rfl (Or.inr rfl)

/-- C12 at the failing input. The fixture of `alloc_failure_env` needs 200 bytes and its
allocation fails: the driver has hooked its dynamic ops into the cell, calls `on_failure`
(which does not return) and leaves the cell holding the address of its own dynamic ops,
not the value 77 the cell had before the execution. -/
theorem testcase_alloc_failure_keeps_cell_hooked :
    ∃ final, testcase_op_execute__ 2 alloc_failure_env = some (LoaderExit.unwound, final) ∧
      final.events = [LoaderEvent.on_stage_change ctest_stage.CTEST_STAGE_SETUP,
        LoaderEvent.on_failure alloc_failure_env.alloc_failure] ∧
      alloc_failure_env.cell = 77 ∧ final.cell = 500 ∧ final.cell = alloc_failure_env.self :=
  ⟨_, rfl, rfl, rfl, rfl, rfl⟩

end TeardownOnce

section TeardownFailure

theorem abort_no_teardown_trace (fuel : Nat) (d : loader_dynamic_ops)
    (t : ctest_dynamic_ops_abort_type) (hd : d.hooked) (htd : d.teardown = none)
    (h0 : d.abort_type = ctest_dynamic_ops_abort_type.CTEST_DYNAMIC_OPS_ABORT_NONE) :
    ∃ final, dynamic_ops_abort__ (fuel + 2) d t = some (LoaderExit.unwound, final) ∧
      final.events = d.events ++ (if d.free_fixture then [LoaderEvent.free d.fixture] else [])
        ++ [hook_event t d.failure] := by
  rw [abort_no_teardown (fuel + 1) d t htd,
    abort_finish_eq { d with abort_type := abort_type_after d.abort_type t } hd.1]
  refine ⟨_, rfl, ?_⟩
  simp only [h0, abort_type_after, if_true]

theorem teardown_report_trace (fuel : Nat) (d : loader_dynamic_ops)
    (file : Option (List Nat)) (line : Int) (description : List Nat)
    (rest : List ModuleAction) (hd : d.hooked) (hf : d.failure = none)
    (h0 : d.abort_type = ctest_dynamic_ops_abort_type.CTEST_DYNAMIC_OPS_ABORT_NONE)
    (hc : d.teardown = some (ModuleAction.report file line description true :: rest)) :
    ∃ final, execute_teardown (fuel + 2) d = some (LoaderExit.unwound, final) ∧
      final.events = d.events
        ++ [LoaderEvent.on_stage_change ctest_stage.CTEST_STAGE_TEARDOWN,
            LoaderEvent.teardown d.fixture]
        ++ (if d.free_fixture then [LoaderEvent.free d.fixture] else [])
        ++ [hook_event ((script_abort rest).getD
              ctest_dynamic_ops_abort_type.CTEST_DYNAMIC_OPS_ABORT_FAIL)
            (some (created_failure ctest_stage.CTEST_STAGE_TEARDOWN file line description))] := by
  have hrep : reported ctest_stage.CTEST_STAGE_TEARDOWN none
      (ModuleAction.report file line description true :: rest)
      = some (created_failure ctest_stage.CTEST_STAGE_TEARDOWN file line description) := by
    rw [reported]
    simp only [if_true]
    exact reported_some _ _ _
  unfold execute_teardown
  simp only [hc]
  have hrun := run_callback_eq (dynamic_ops_abort__ (fuel + 2))
    (ModuleAction.report file line description true :: rest)
    { d with stage := ctest_stage.CTEST_STAGE_TEARDOWN, teardown := none,
             events := d.events ++
               [LoaderEvent.on_stage_change ctest_stage.CTEST_STAGE_TEARDOWN] ++
               [LoaderEvent.teardown d.fixture] } hd
  rw [hrun]
  simp only [script_abort, hf, hrep]
  have hab := fun t => abort_no_teardown_trace fuel
    { d with stage := ctest_stage.CTEST_STAGE_TEARDOWN, teardown := none,
             events := d.events ++
               [LoaderEvent.on_stage_change ctest_stage.CTEST_STAGE_TEARDOWN] ++
               [LoaderEvent.teardown d.fixture],
             failure := some (created_failure ctest_stage.CTEST_STAGE_TEARDOWN file line
               description) } t hd rfl h0
  cases hs : script_abort rest with
  | none =>
    simp only [Option.getD_none]
    unfold execute_finish
    simp only [ne_eq, reduceCtorEq, not_false_eq_true, if_true]
    obtain ⟨final, hfin, hev⟩ := hab ctest_dynamic_ops_abort_type.CTEST_DYNAMIC_OPS_ABORT_FAIL
    refine ⟨final, hfin, ?_⟩
    rw [hev]
    simp only [List.append_assoc, List.singleton_append]
  | some t2 =>
    simp only [Option.getD_some, Option.map_some']
    obtain ⟨final, hfin, hev⟩ := hab t2
    refine ⟨final, ?_, ?_⟩
    · rw [hfin]; rfl
    · rw [hev]
      simp only [List.append_assoc, List.singleton_append]

/-- C13. When setup and the test body do nothing, and the teardown callback first reports
a failure (its creation succeeding) and then returns or aborts with a tag other than skip,
the driver runs setup, body and teardown, frees a heap fixture, and then unwinds through
`on_failure` with the failure built from that report in the teardown stage. -/
theorem testcase_teardown_failure (fuel : Nat) (env : testcase_env)
    (file : Option (List Nat)) (line : Int) (description : List Nat)
    (rest : List ModuleAction) (hcell : env.has_cell = true)
    (halloc : env.size ≤ 128 ∨ env.calloc_ok = true)
    (hsetup : env.setup = none ∨ env.setup = some []) (hcaller : env.caller = [])
    (htd : env.teardown = some (ModuleAction.report file line description true :: rest))
    (hskip : script_abort rest
      ≠ some ctest_dynamic_ops_abort_type.CTEST_DYNAMIC_OPS_ABORT_SKIP) :
    ∃ final, testcase_op_execute__ (fuel + 2) env = some (LoaderExit.unwound, final) ∧
      final.events = [LoaderEvent.on_stage_change ctest_stage.CTEST_STAGE_SETUP]
        ++ (match env.setup with
            | some _ => [LoaderEvent.setup env.fixture]
            | none => [])
        ++ [LoaderEvent.on_stage_change ctest_stage.CTEST_STAGE_EXECUTION,
            LoaderEvent.caller env.fixture env.data,
            LoaderEvent.on_stage_change ctest_stage.CTEST_STAGE_TEARDOWN,
            LoaderEvent.teardown env.fixture]
        ++ (if env.size > 128 then [LoaderEvent.free env.fixture] else [])
        ++ [LoaderEvent.on_failure (some (created_failure ctest_stage.CTEST_STAGE_TEARDOWN
              file line description))] := by
  have hd := initial_state_hooked env hcell
  have hhook : hook_event ((script_abort rest).getD
      ctest_dynamic_ops_abort_type.CTEST_DYNAMIC_OPS_ABORT_FAIL)
      (some (created_failure ctest_stage.CTEST_STAGE_TEARDOWN file line description))
      = LoaderEvent.on_failure (some (created_failure ctest_stage.CTEST_STAGE_TEARDOWN
          file line description)) := by
    cases hs : script_abort rest with
    | none => rfl
    | some t =>
      cases t with
      | CTEST_DYNAMIC_OPS_ABORT_SKIP => exact absurd hs hskip
      | CTEST_DYNAMIC_OPS_ABORT_NONE => rfl
      | CTEST_DYNAMIC_OPS_ABORT_FAIL => rfl
  rw [execute_eq_setup _ env halloc]
  rcases hsetup with hsu | hsu
  · rw [setup_none _ env _ hsu, body_empty _ env _ hcaller]
    obtain ⟨final, hfin, hev⟩ := teardown_report_trace fuel
      { initial_state env with
        stage := ctest_stage.CTEST_STAGE_EXECUTION,
        events := (initial_state env).events ++
          [LoaderEvent.on_stage_change ctest_stage.CTEST_STAGE_EXECUTION,
           LoaderEvent.caller (initial_state env).fixture env.data] }
      file line description rest hd rfl rfl htd
    refine ⟨final, hfin, ?_⟩
    rw [hev, hhook]
    simp only [initial_state, hsu, List.append_assoc, List.cons_append, List.nil_append,
      decide_eq_true_eq]
  · rw [setup_empty _ env _ hsu, body_empty _ env _ hcaller]
    obtain ⟨final, hfin, hev⟩ := teardown_report_trace fuel
      { initial_state env with
        stage := ctest_stage.CTEST_STAGE_EXECUTION,
        events := (initial_state env).events ++ [LoaderEvent.setup (initial_state env).fixture]
          ++ [LoaderEvent.on_stage_change ctest_stage.CTEST_STAGE_EXECUTION,
           LoaderEvent.caller (initial_state env).fixture env.data] }
      file line description rest hd rfl rfl htd
    refine ⟨final, hfin, ?_⟩
    rw [hev, hhook]
    simp only [initial_state, hsu, List.append_assoc, List.cons_append, List.nil_append,
      decide_eq_true_eq]

theorem testcase_teardown_failure_witness :
    ∃ final, testcase_op_execute__ (0 + 2) (teardown_env []) = some (LoaderExit.unwound, final) ∧
      final.events = [LoaderEvent.on_stage_change ctest_stage.CTEST_STAGE_SETUP]
        ++ (match (teardown_env []).setup with
            | some _ => [LoaderEvent.setup (teardown_env []).fixture]
            | none => [])
        ++ [LoaderEvent.on_stage_change ctest_stage.CTEST_STAGE_EXECUTION,
            LoaderEvent.caller (teardown_env []).fixture (teardown_env []).data,
            LoaderEvent.on_stage_change ctest_stage.CTEST_STAGE_TEARDOWN,
            LoaderEvent.teardown (teardown_env []).fixture]
        ++ (if (teardown_env []).size > 128 then [LoaderEvent.free (teardown_env []).fixture]
            else [])
        ++ [LoaderEvent.on_failure (some (created_failure ctest_stage.CTEST_STAGE_TEARDOWN
              (some [116]) 5 [98]))] :=
  testcase_teardown_failure 0 (teardown_env []) (some [116]) 5 [98] [] rfl (Or.inr rfl)
    (Or.inl rfl) rfl rfl (by decide)

/-- The teardown of `teardown_env` reports a failure and then aborts with the skip tag,
setup and body having done nothing: the driver unwinds through `on_skip`, and `on_failure`
is not called. -/
theorem testcase_teardown_skip_unwinds_on_skip :
    ∃ final, testcase_op_execute__ 2
        (teardown_env [ModuleAction.abort
          ctest_dynamic_ops_abort_type.CTEST_DYNAMIC_OPS_ABORT_SKIP])
        = some (LoaderExit.unwound, final) ∧
      final.events = [LoaderEvent.on_stage_change ctest_stage.CTEST_STAGE_SETUP,
        LoaderEvent.on_stage_change ctest_stage.CTEST_STAGE_EXECUTION,
        LoaderEvent.caller 9000 1,
        LoaderEvent.on_stage_change ctest_stage.CTEST_STAGE_TEARDOWN,
        LoaderEvent.teardown 9000, LoaderEvent.free 9000,
        LoaderEvent.on_skip (some (created_failure ctest_stage.CTEST_STAGE_TEARDOWN
          (some [116]) 5 [98]))] :=
  ⟨_, rfl, rfl⟩

end TeardownFailure

/-! ### Output buffers: resize -/

theorem output_storage_size_eq (capacity : Nat) (h : 8 + capacity < 18446744073709551616) :
    output_storage_size__ capacity = 8 + capacity := by
  unfold output_storage_size__
  rw [Nat.mul_one, Nat.mod_eq_of_lt h]

theorem realloc_data_length (garbage : Nat → Nat) (old : List Nat) (capacity : Nat) :
    (realloc_data garbage old capacity).length = capacity := by
  unfold realloc_data
  simp only [List.length_append, List.length_take, List.length_map, List.length_range]
  omega

theorem realloc_data_take (garbage : Nat → Nat) (old : List Nat) (capacity n : Nat)
    (h1 : n ≤ capacity) (h2 : n ≤ old.length) :
    (realloc_data garbage old capacity).take n = old.take n := by
  unfold realloc_data
  rw [List.take_append_of_le_length (by rw [List.length_take]; omega), List.take_take,
    Nat.min_eq_left h1]

theorem realloc_data_shrink (garbage : Nat → Nat) (old : List Nat) (capacity : Nat)
    (h : capacity ≤ old.length) : realloc_data garbage old capacity = old.take capacity := by
  unfold realloc_data
  rw [Nat.sub_eq_zero_of_le h]
  simp

/-- The closed form of a resize whose `realloc` succeeds: the old bytes up to the smaller
of the two lengths, then zero bytes up to the new length. -/
theorem ctest_output_resize_eq (garbage : Nat → Nat) (p_output : Option ctest_output)
    (capacity : Nat) (hwf : output_length p_output ≤ (output_data p_output).length)
    (hcap : 8 + capacity < 18446744073709551616) :
    ctest_output_resize true garbage p_output capacity =
      some (0, some { length := capacity,
                      data := (output_data p_output).take (min (output_length p_output) capacity)
                        ++ List.replicate (capacity - output_length p_output) 0 }) := by
  unfold ctest_output_resize
  simp only [output_storage_size_eq capacity hcap, lt_irrefl, if_false, Bool.true_eq_false]
  by_cases hlt : output_length p_output < capacity
  · simp only [hlt, if_true]
    unfold write_bytes
    rw [realloc_data_take garbage _ capacity _ (Nat.le_of_lt hlt) hwf,
      List.length_replicate, Nat.add_sub_cancel' (Nat.le_of_lt hlt),
      List.drop_of_length_le (Nat.le_of_eq (realloc_data_length garbage _ capacity)),
      List.append_nil, Nat.min_eq_left (Nat.le_of_lt hlt)]
  · simp only [hlt, if_false]
    have hle : capacity ≤ output_length p_output := Nat.le_of_not_lt hlt
    rw [realloc_data_shrink garbage _ capacity (Nat.le_trans hle hwf),
      Nat.sub_eq_zero_of_le hle, Nat.min_eq_right hle]
    simp

theorem ctest_output_resize_failed (garbage : Nat → Nat) (p_output : Option ctest_output)
    (capacity : Nat) :
    ctest_output_resize false garbage p_output capacity = some (-1, p_output) := by
  unfold ctest_output_resize
  simp

/-- A resize of a buffer to its current length gives the buffer back. -/
theorem ctest_output_resize_same (garbage : Nat → Nat) (o : ctest_output)
    (hd : o.data.length = o.length) (hcap : 8 + o.length < 18446744073709551616) :
    ctest_output_resize true garbage (some o) o.length = some (0, some o) := by
  rw [ctest_output_resize_eq garbage (some o) o.length (Nat.le_of_eq hd.symm) hcap]
  have h : List.take (min o.length o.length) o.data ++ List.replicate (o.length - o.length) 0
      = o.data := by
    rw [Nat.min_self, Nat.sub_self, List.replicate_zero, List.append_nil,
      List.take_of_length_le (Nat.le_of_eq hd)]
  simp only [output_length, output_data, h]

/-- An output of five bytes, used to instantiate the resize contract. -/
theorem sample_output_wf :
    output_length (some { length := 3, data := [97, 98, 99] }) ≤
      (output_data (some { length := 3, data := [97, 98, 99] })).length := by
  decide

/-- C18: for an output buffer of length `old` (`NULL` counting as length 0) and a capacity
`new` whose block size fits in `size_t`, a `ctest_output_resize` whose `realloc` succeeds
returns 0 and leaves a buffer of length `new` whose bytes at positions `[0, min old new)`
are the original bytes and whose bytes at positions `[old, new)` are zero; resizing that
buffer again to the same capacity gives the same buffer, resizing a buffer to its current
length changes nothing, and a resize whose `realloc` fails returns -1 and leaves the
referenced buffer unchanged. -/
theorem ctest_output_resize_contract (garbage garbage2 : Nat → Nat)
    (p_output : Option ctest_output) (capacity : Nat)
    (hwf : output_length p_output ≤ (output_data p_output).length)
    (hcap : 8 + capacity < 18446744073709551616) :
    (∃ out, ctest_output_resize true garbage p_output capacity = some (0, some out) ∧
        out.length = capacity ∧ out.data.length = capacity ∧
        (∀ i, i < min (output_length p_output) capacity →
          out.data[i]? = (output_data p_output)[i]?) ∧
        (∀ i, output_length p_output ≤ i → i < capacity → out.data[i]? = some 0) ∧
        ctest_output_resize true garbage2 (some out) capacity = some (0, some out)) ∧
    (∀ o, p_output = some o → o.data.length = o.length → capacity = o.length →
        ctest_output_resize true garbage p_output capacity = some (0, some o)) ∧
    ctest_output_resize false garbage p_output capacity = some (-1, p_output) := by
  have hlen : ((output_data p_output).take (min (output_length p_output) capacity)
      ++ List.replicate (capacity - output_length p_output) 0).length = capacity := by
    rw [List.length_append, List.length_take, List.length_replicate]
    omega
  refine ⟨⟨_, ctest_output_resize_eq garbage p_output capacity hwf hcap, rfl, hlen, ?_, ?_, ?_⟩,
    ?_, ctest_output_resize_failed garbage p_output capacity⟩
  · intro i hi
    have hi2 : i < ((output_data p_output).take (min (output_length p_output) capacity)).length := by
      rw [List.length_take]; omega
    show (List.take _ _ ++ _)[i]? = _
    rw [List.getElem?_append_left hi2, List.getElem?_take_of_lt hi]
  · intro i h1 h2
    have hl : ((output_data p_output).take (min (output_length p_output) capacity)).length
        = output_length p_output := by
      rw [List.length_take]; omega
    show (List.take _ _ ++ _)[i]? = _
    rw [List.getElem?_append_right (by rw [hl]; exact h1), hl]
    exact List.getElem?_replicate_of_lt (by omega)
  · exact ctest_output_resize_same garbage2
      { length := capacity, data := (output_data p_output).take
          (min (output_length p_output) capacity)
          ++ List.replicate (capacity - output_length p_output) 0 } hlen hcap
  · intro o ho hd hc
    rw [ho, hc]
    exact ctest_output_resize_same garbage o hd (hc ▸ hcap)

/-- The resize contract at a three-byte buffer grown to five bytes. -/
theorem ctest_output_resize_contract_witness :
    (∃ out, ctest_output_resize true (fun _ => 7) (some { length := 3, data := [97, 98, 99] }) 5
          = some (0, some out) ∧
        out.length = 5 ∧ out.data.length = 5 ∧
        (∀ i, i < min (output_length (some { length := 3, data := [97, 98, 99] })) 5 →
          out.data[i]? = (output_data (some { length := 3, data := [97, 98, 99] }))[i]?) ∧
        (∀ i, output_length (some { length := 3, data := [97, 98, 99] }) ≤ i → i < 5 →
          out.data[i]? = some 0) ∧
        ctest_output_resize true (fun _ => 9) (some out) 5 = some (0, some out)) ∧
    (∀ o, some { length := 3, data := [97, 98, 99] } = some o → o.data.length = o.length →
        5 = o.length →
        ctest_output_resize true (fun _ => 7) (some { length := 3, data := [97, 98, 99] }) 5
          = some (0, some o)) ∧
    ctest_output_resize false (fun _ => 7) (some { length := 3, data := [97, 98, 99] }) 5
      = some (-1, some { length := 3, data := [97, 98, 99] }) :=
  ctest_output_resize_contract (fun _ => 7) (fun _ => 9)
    (some { length := 3, data := [97, 98, 99] }) 5 sample_output_wf (by decide)

/-- The grown buffer of the example: the three bytes, then two zero bytes. -/
theorem ctest_output_resize_example :
    ctest_output_resize true (fun _ => 7) (some { length := 3, data := [97, 98, 99] }) 5 =
      some (0, some { length := 5, data := [97, 98, 99, 0, 0] }) := by
  decide

/-! ### Output buffers: the reader -/

theorem read_call_some (pipe : List Nat) (count want : Nat) :
    read_call pipe count (some want) =
      ((((pipe.take (min want count)).length : Nat) : Int), pipe.take (min want count)) := rfl

theorem write_bytes_zeros (bytes chunk : List Nat) (capacity : Nat) :
    write_bytes (bytes ++ List.replicate (capacity - bytes.length) 0) bytes.length chunk
      = (bytes ++ chunk) ++ List.replicate (capacity - (bytes ++ chunk).length) 0 := by
  unfold write_bytes
  rw [List.take_left, List.drop_append, List.drop_replicate, List.length_append,
    List.append_assoc]
  congr 2
  congr 1
  omega

theorem output_reader_grow_init (garbage : Nat → Nat) :
    output_reader_grow true garbage output_reader_init =
      some (some { length := 128, data := List.replicate 128 0 }) := rfl

theorem output_reader_grow_room (alloc_ok : Bool) (garbage : Nat → Nat) (capacity : Nat)
    (bytes : List Nat) (h : bytes.length < capacity) :
    output_reader_grow alloc_ok garbage (collected_reader capacity bytes) =
      some (some { length := capacity,
                   data := bytes ++ List.replicate (capacity - bytes.length) 0 }) := by
  unfold output_reader_grow collected_reader
  simp only [ge_iff_le, Nat.not_le.mpr h, if_false]

/-- A read into a buffer with room: the bytes handed over are appended to the collected
bytes. -/
theorem output_reader_read_room (reader : output_reader) (capacity : Nat)
    (bytes pipe : List Nat) (want : Nat) (hl : reader.length = bytes.length)
    (h : bytes.length < capacity) :
    output_reader_read reader
        (some { length := capacity,
                data := bytes ++ List.replicate (capacity - bytes.length) 0 })
        pipe (some want) =
      some ((((pipe.take (min want (capacity - bytes.length))).length : Nat) : Int),
        collected_reader capacity (bytes ++ pipe.take (min want (capacity - bytes.length))),
        pipe.drop (pipe.take (min want (capacity - bytes.length))).length) := by
  have hk : (pipe.take (min want (capacity - bytes.length))).length
      ≤ capacity - bytes.length := by
    rw [List.length_take]; omega
  have hw := write_bytes_zeros bytes (pipe.take (min want (capacity - bytes.length)))
    capacity
  unfold output_reader_read
  simp only [output_length, output_data, hl, read_call_some]
  rw [if_neg (by
    intro hc
    rcases hc with hc | hc
    · exact Option.some_ne_none _ hc
    · exact Nat.not_le.mpr h hc)]
  rw [if_pos (by rw [List.length_append, List.length_replicate]; omega),
    if_pos (Int.natCast_nonneg _), hw]
  simp only [collected_reader, List.length_append]

/-- The first data-available call of a reader: it makes a buffer of 128 bytes and reads
into it. -/
theorem output_reader_first_call (garbage : Nat → Nat) (pipe : List Nat) (want : Nat) :
    output_reader_on_data_available__ true garbage output_reader_init pipe (some want) =
      some ((((pipe.take (min want 128)).length : Nat) : Int),
        collected_reader 128 (pipe.take (min want 128)),
        pipe.drop (pipe.take (min want 128)).length) := by
  unfold output_reader_on_data_available__
  rw [output_reader_grow_init]
  exact output_reader_read_room output_reader_init 128 [] pipe want rfl (by decide)

/-- A data-available call of a reader whose buffer has room. -/
theorem output_reader_next_call (alloc_ok : Bool) (garbage : Nat → Nat) (capacity : Nat)
    (bytes pipe : List Nat) (want : Nat) (h : bytes.length < capacity) :
    output_reader_on_data_available__ alloc_ok garbage (collected_reader capacity bytes) pipe
        (some want) =
      some ((((pipe.take (min want (capacity - bytes.length))).length : Nat) : Int),
        collected_reader capacity (bytes ++ pipe.take (min want (capacity - bytes.length))),
        pipe.drop (pipe.take (min want (capacity - bytes.length))).length) := by
  unfold output_reader_on_data_available__
  rw [output_reader_grow_room alloc_ok garbage capacity bytes h]
  exact output_reader_read_room _ capacity bytes pipe want rfl h

theorem collected_reader_full (capacity : Nat) (bytes : List Nat)
    (hfull : bytes.length = capacity) :
    collected_reader capacity bytes =
      { output := some { length := capacity, data := bytes }, length := capacity } := by
  unfold collected_reader
  rw [hfull, Nat.sub_self, List.replicate_zero, List.append_nil]

/-- The buffer of a full reader is resized to twice its length. -/
theorem output_reader_grow_full (garbage : Nat → Nat) (capacity : Nat) (bytes : List Nat)
    (hfull : bytes.length = capacity) (hcap : 8 + capacity * 2 < 18446744073709551616) :
    output_reader_grow true garbage (collected_reader capacity bytes) =
      some (some { length := capacity * 2,
                   data := bytes ++ List.replicate (capacity * 2 - bytes.length) 0 }) := by
  rw [collected_reader_full capacity bytes hfull]
  unfold output_reader_grow
  simp only [ge_iff_le, le_refl, if_true]
  rw [Nat.mod_eq_of_lt (by omega),
    ctest_output_resize_eq garbage (some { length := capacity, data := bytes })
      (capacity * 2) (Nat.le_of_eq hfull.symm) hcap]
  simp only [output_length, output_data, Option.map_some']
  rw [Nat.min_eq_left (by omega), List.take_of_length_le (Nat.le_of_eq hfull), hfull]

/-- A data-available call of a reader whose buffer is full: the buffer doubles. -/
theorem output_reader_full_call (garbage : Nat → Nat) (capacity : Nat)
    (bytes pipe : List Nat) (want : Nat) (hfull : bytes.length = capacity)
    (hpos : 0 < capacity) (hcap : 8 + capacity * 2 < 18446744073709551616) :
    output_reader_on_data_available__ true garbage (collected_reader capacity bytes) pipe
        (some want) =
      some ((((pipe.take (min want (capacity * 2 - bytes.length))).length : Nat) : Int),
        collected_reader (capacity * 2)
          (bytes ++ pipe.take (min want (capacity * 2 - bytes.length))),
        pipe.drop (pipe.take (min want (capacity * 2 - bytes.length))).length) := by
  unfold output_reader_on_data_available__
  rw [output_reader_grow_full garbage capacity bytes hfull hcap]
  exact output_reader_read_room _ (capacity * 2) bytes pipe want rfl (by omega)

/-- The output `output_reader_build` makes of a reader that collected `bytes`, its
`realloc` succeeding: the bytes and a zero byte, the length counting both. -/
theorem output_reader_build_collected (garbage : Nat → Nat) (capacity : Nat)
    (bytes : List Nat) (hne : bytes ≠ []) (hle : bytes.length ≤ capacity)
    (hsz : bytes.length + 9 < 18446744073709551616) :
    output_reader_build true garbage (collected_reader capacity bytes) =
      some (some { length := bytes.length + 1, data := bytes ++ [0] }, output_reader_init) := by
  have hpos : 0 < bytes.length := List.length_pos.mpr hne
  have hdl : (bytes ++ List.replicate (capacity - bytes.length) 0).length = capacity := by
    rw [List.length_append, List.length_replicate]; omega
  have hres := ctest_output_resize_eq garbage
    (some { length := capacity, data := bytes ++ List.replicate (capacity - bytes.length) 0 })
    (bytes.length + 1) (Nat.le_of_eq hdl.symm) (by omega)
  simp only [output_length, output_data] at hres
  have hdata : List.take (min capacity (bytes.length + 1))
        (bytes ++ List.replicate (capacity - bytes.length) 0)
      ++ List.replicate (bytes.length + 1 - capacity) 0 = bytes ++ [0] := by
    rcases Nat.lt_or_ge bytes.length capacity with hlt | hge
    · have h1 : min capacity (bytes.length + 1) = bytes.length + 1 := Nat.min_eq_right hlt
      have h2 : bytes.length + 1 - capacity = 0 := Nat.sub_eq_zero_of_le hlt
      have h3 : List.take (bytes.length + 1) bytes = bytes :=
        List.take_of_length_le (Nat.le_succ _)
      have h4 : min (bytes.length + 1 - bytes.length) (capacity - bytes.length) = 1 := by
        omega
      rw [h1, h2, List.replicate_zero, List.append_nil, List.take_append_eq_append_take, h3,
        List.take_replicate, h4]
      rfl
    · have he : bytes.length = capacity := Nat.le_antisymm hle hge
      rw [he, Nat.sub_self, List.replicate_zero, List.append_nil, Nat.min_eq_left (by omega),
        List.take_of_length_le (Nat.le_of_eq he), Nat.add_sub_cancel_left]
      rfl
  rw [hdata] at hres
  unfold output_reader_build collected_reader
  simp only [Nat.ne_of_gt hpos, if_false]
  rw [Nat.mod_eq_of_lt (by omega), hres]
  simp only [List.length_append, List.length_singleton, Nat.lt_succ_self, if_true]
  have hw : write_bytes (bytes ++ [0]) bytes.length [0] = bytes ++ [0] := by
    unfold write_bytes
    rw [List.take_left, List.drop_of_length_le (by simp)]
    rfl
  rw [hw]
  rfl

/-- The build of a full reader whose `realloc` fails writes the zero byte behind the
buffer. -/
theorem output_reader_build_full_failed (garbage : Nat → Nat) (capacity : Nat)
    (bytes : List Nat) (hne : bytes ≠ []) (hfull : bytes.length = capacity) :
    output_reader_build false garbage (collected_reader capacity bytes) = none := by
  have hpos : 0 < bytes.length := List.length_pos.mpr hne
  rw [collected_reader_full capacity bytes hfull]
  unfold output_reader_build
  simp only [ctest_output_resize_failed, hfull, lt_irrefl, if_false]
  rw [if_neg (by omega)]

/-- A reader that collected nothing gives no output. -/
theorem output_reader_build_none (realloc_ok : Bool) (garbage : Nat → Nat)
    (reader : output_reader) (h : reader.length = 0) :
    output_reader_build realloc_ok garbage reader = some (none, reader) := by
  unfold output_reader_build
  cases ho : reader.output with
  | none => rfl
  | some o => simp only [h, if_true]

/-! ### The parent's loop -/

theorem poll_hooks_read (malloc : Nat → Nat) (st : wait_state) (p : PollIn) (want : Nat)
    (rc : Int) (reader : exec_event_reader) (rest : List Nat) (hread : p.read = some want)
    (hcall : reader_op_on_data_available__ malloc st.event_reader st.hooks_pipe want
      = some (rc, reader, rest)) (hrc : 0 < rc) :
    poll_hooks malloc st (Revents.pollin p) =
      some { st with event_reader := reader, hooks_pipe := rest } := by
  unfold poll_hooks
  simp only [hread, hcall]
  rw [if_neg (by omega), if_neg (by omega)]

theorem poll_output_read (garbage : Nat → Nat) (st : wait_state) (p : PollIn)
    (rc : Int) (reader : output_reader) (rest : List Nat)
    (hcall : output_reader_on_data_available__ p.alloc_ok garbage st.output_reader
      st.output_pipe p.read = some (rc, reader, rest)) (hrc : 0 < rc) :
    poll_output garbage st (Revents.pollin p) =
      some { st with output_reader := reader, output_pipe := rest } := by
  unfold poll_output
  simp only [hcall]
  rw [if_neg (by omega), if_neg (by omega)]

theorem poll_loop_closed (malloc garbage : Nat → Nat) (steps : List PollStep)
    (st : wait_state) (h1 : st.hooks_fd < 0) (h2 : st.output_fd < 0) :
    poll_loop malloc garbage steps st = some st := by
  cases steps <;> simp only [poll_loop, h1, h2, and_self, if_true]

theorem poll_loop_cons (malloc garbage : Nat → Nat) (step : PollStep) (rest : List PollStep)
    (st st1 st2 : wait_state) (hopen : 0 ≤ st.hooks_fd ∨ 0 ≤ st.output_fd)
    (hpoll : step.poll_errno = none)
    (hh : poll_hooks malloc st (if st.hooks_fd < 0 then Revents.neither else step.hooks)
      = some st1)
    (ho : poll_output garbage st1 (if st.output_fd < 0 then Revents.neither else step.output)
      = some st2) :
    poll_loop malloc garbage (step :: rest) st = poll_loop malloc garbage rest st2 := by
  rw [poll_loop]
  rw [if_neg (by
    intro hc
    rcases hopen with h | h
    · exact absurd hc.1 (Int.not_lt.mpr h)
    · exact absurd hc.2 (Int.not_lt.mpr h))]
  simp only [hpoll, hh, ho]

/-- The function `wait_for_child__` when its loop ends in the state `st` and the build of
the output does not leave the buffer. -/
theorem wait_for_child_eq (malloc garbage : Nat → Nat) (result : ctest_result)
    (child hooks_fd output_fd : Int) (run : ChildRun) (st : wait_state)
    (output : Option ctest_output) (reader : output_reader)
    (hloop : poll_loop malloc garbage run.steps
      (wait_state_init result hooks_fd output_fd run) = some st)
    (hbuild : output_reader_build run.realloc_ok garbage st.output_reader
      = some (output, reader)) :
    wait_for_child__ malloc garbage result child hooks_fd output_fd run =
      some ((wait_status_result st child run.create_ok run.status).1,
        { (wait_status_result st child run.create_ok run.status).2 with output := output }) := by
  unfold wait_for_child__
  simp only [hloop, hbuild]

/-! ### The sample run -/

set_option maxRecDepth 100000 in
theorem sample_hooks_bytes_eq :
    sample_hooks_bytes = [0, 0, 4, 0] ++ ([1, 0, 0, 0] ++ sample_failure_frame) := by
  decide

set_option maxRecDepth 100000 in
theorem sample_call_1 (rest : List Nat) :
    reader_op_on_data_available__ (fun _ => 8192) exec_event_reader_init
      ([0, 0, 4, 0] ++ rest) 4096 = some (4, sample_reader_1, rest) := by
  rfl

set_option maxRecDepth 100000 in
theorem sample_call_2 (rest : List Nat) :
    reader_op_on_data_available__ (fun _ => 8192) sample_reader_1
      ([1, 0, 0, 0] ++ rest) 4096 = some (4, sample_reader_2, rest) := by
  rfl

set_option maxRecDepth 100000 in
theorem sample_call_3 :
    reader_op_on_data_available__ (fun _ => 8192) sample_reader_2
      sample_failure_frame 4096 = some (4, sample_reader_3, sample_body) := by
  decide

set_option maxRecDepth 100000 in
theorem sample_call_4 :
    reader_op_on_data_available__ (fun _ => 8192) sample_reader_3
      sample_body 4096 = some (32, sample_reader_4, []) := by
  decide

/-- The loop of the parent in the sample run: both frames are delivered and the three
bytes of output collected. -/
theorem sample_poll_loop (status : WaitStatus) :
    poll_loop (fun _ => 8192) (fun _ => 7) (sample_child_run status).steps
      (wait_state_init ctest_result_create_empty 3 5 (sample_child_run status))
      = some sample_waited_state := by
  have h0 : wait_state_init ctest_result_create_empty 3 5 (sample_child_run status) =
      sample_state 3 5 exec_event_reader_init
        ([0, 0, 4, 0] ++ ([1, 0, 0, 0] ++ sample_failure_frame)) output_reader_init
        [97, 98, 99] := by
    unfold wait_state_init sample_child_run sample_state
    simp only [sample_hooks_bytes_eq]
  have e1 := poll_loop_cons (fun _ => 8192) (fun _ => 7)
    (poll_step (pollin 4096) (pollin 4096))
    [poll_step (pollin 4096) Revents.pollhup,
      poll_step (pollin 4096) Revents.neither, poll_step (pollin 4096) Revents.neither,
      poll_step Revents.pollhup Revents.neither]
    (sample_state 3 5 exec_event_reader_init
        ([0, 0, 4, 0] ++ ([1, 0, 0, 0] ++ sample_failure_frame)) output_reader_init
        [97, 98, 99])
    (sample_state 3 5 sample_reader_1 ([1, 0, 0, 0] ++ sample_failure_frame)
      output_reader_init [97, 98, 99])
    (sample_state 3 5 sample_reader_1 ([1, 0, 0, 0] ++ sample_failure_frame)
      (collected_reader 128 [97, 98, 99]) [])
    (Or.inl (by decide)) rfl
    (poll_hooks_read _ _ _ 4096 4 sample_reader_1 _ rfl (sample_call_1 _) (by decide))
    (poll_output_read _ _ _ 3 (collected_reader 128 [97, 98, 99]) []
      (output_reader_first_call _ [97, 98, 99] 4096) (by decide))
  have e2 := poll_loop_cons (fun _ => 8192) (fun _ => 7)
    (poll_step (pollin 4096) Revents.pollhup)
    [poll_step (pollin 4096) Revents.neither, poll_step (pollin 4096) Revents.neither,
      poll_step Revents.pollhup Revents.neither]
    (sample_state 3 5 sample_reader_1 ([1, 0, 0, 0] ++ sample_failure_frame)
      (collected_reader 128 [97, 98, 99]) [])
    (sample_state 3 5 sample_reader_2 sample_failure_frame
      (collected_reader 128 [97, 98, 99]) [])
    (sample_state 3 (-5) sample_reader_2 sample_failure_frame
      (collected_reader 128 [97, 98, 99]) [])
    (Or.inl (by decide)) rfl
    (poll_hooks_read _ _ _ 4096 4 sample_reader_2 _ rfl (sample_call_2 _) (by decide))
    rfl
  have e3 := poll_loop_cons (fun _ => 8192) (fun _ => 7)
    (poll_step (pollin 4096) Revents.neither)
    [poll_step (pollin 4096) Revents.neither, poll_step Revents.pollhup Revents.neither]
    (sample_state 3 (-5) sample_reader_2 sample_failure_frame
      (collected_reader 128 [97, 98, 99]) [])
    (sample_state 3 (-5) sample_reader_3 sample_body
      (collected_reader 128 [97, 98, 99]) [])
    (sample_state 3 (-5) sample_reader_3 sample_body
      (collected_reader 128 [97, 98, 99]) [])
    (Or.inl (by decide)) rfl
    (poll_hooks_read _ _ _ 4096 4 sample_reader_3 _ rfl sample_call_3 (by decide))
    rfl
  have e4 := poll_loop_cons (fun _ => 8192) (fun _ => 7)
    (poll_step (pollin 4096) Revents.neither)
    [poll_step Revents.pollhup Revents.neither]
    (sample_state 3 (-5) sample_reader_3 sample_body
      (collected_reader 128 [97, 98, 99]) [])
    (sample_state 3 (-5) sample_reader_4 []
      (collected_reader 128 [97, 98, 99]) [])
    (sample_state 3 (-5) sample_reader_4 []
      (collected_reader 128 [97, 98, 99]) [])
    (Or.inl (by decide)) rfl
    (poll_hooks_read _ _ _ 4096 32 sample_reader_4 _ rfl sample_call_4 (by decide))
    rfl
  have e5 := poll_loop_cons (fun _ => 8192) (fun _ => 7)
    (poll_step Revents.pollhup Revents.neither) []
    (sample_state 3 (-5) sample_reader_4 []
      (collected_reader 128 [97, 98, 99]) [])
    sample_waited_state sample_waited_state
    (Or.inl (by decide)) rfl rfl rfl
  rw [h0]
  exact e1.trans (e2.trans (e3.trans (e4.trans (e5.trans
    (poll_loop_closed _ _ [] sample_waited_state (by decide) (by decide))))))

theorem quiet_hooks_bytes :
    exec_event_writer_op_on_stage_change__ ctest_stage.CTEST_STAGE_EXECUTION
      = [0, 0, 4, 0] ++ ([1, 0, 0, 0] ++ []) := by
  decide

/-- The loop of the parent in the quiet run: the stage change is delivered and the three
bytes of output collected. -/
theorem quiet_poll_loop (status : WaitStatus) :
    poll_loop (fun _ => 8192) (fun _ => 7) (quiet_child_run status).steps
      (wait_state_init ctest_result_create_empty 3 5 (quiet_child_run status))
      = some quiet_waited_state := by
  have e1 := poll_loop_cons (fun _ => 8192) (fun _ => 7)
    (poll_step (pollin 4096) (pollin 4096))
    [poll_step (pollin 4096) Revents.pollhup, poll_step Revents.pollhup Revents.neither]
    (sample_state 3 5 exec_event_reader_init
        ([0, 0, 4, 0] ++ ([1, 0, 0, 0] ++ [])) output_reader_init [97, 98, 99])
    (sample_state 3 5 sample_reader_1 ([1, 0, 0, 0] ++ [])
      output_reader_init [97, 98, 99])
    (sample_state 3 5 sample_reader_1 ([1, 0, 0, 0] ++ [])
      (collected_reader 128 [97, 98, 99]) [])
    (Or.inl (by decide)) rfl
    (poll_hooks_read _ _ _ 4096 4 sample_reader_1 _ rfl (sample_call_1 _) (by decide))
    (poll_output_read _ _ _ 3 (collected_reader 128 [97, 98, 99]) []
      (output_reader_first_call _ [97, 98, 99] 4096) (by decide))
  have e2 := poll_loop_cons (fun _ => 8192) (fun _ => 7)
    (poll_step (pollin 4096) Revents.pollhup)
    [poll_step Revents.pollhup Revents.neither]
    (sample_state 3 5 sample_reader_1 ([1, 0, 0, 0] ++ [])
      (collected_reader 128 [97, 98, 99]) [])
    (sample_state 3 5 sample_reader_2 [] (collected_reader 128 [97, 98, 99]) [])
    (sample_state 3 (-5) sample_reader_2 [] (collected_reader 128 [97, 98, 99]) [])
    (Or.inl (by decide)) rfl
    (poll_hooks_read _ _ _ 4096 4 sample_reader_2 _ rfl (sample_call_2 _) (by decide))
    rfl
  have e3 := poll_loop_cons (fun _ => 8192) (fun _ => 7)
    (poll_step Revents.pollhup Revents.neither) []
    (sample_state 3 (-5) sample_reader_2 [] (collected_reader 128 [97, 98, 99]) [])
    quiet_waited_state quiet_waited_state
    (Or.inl (by decide)) rfl rfl rfl
  exact e1.trans (e2.trans (e3.trans (poll_loop_closed _ _ [] quiet_waited_state (by decide) (by decide))))

theorem sample_build :
    output_reader_build true (fun _ => 7) (collected_reader 128 [97, 98, 99])
      = some (some sample_output, output_reader_init) :=
  output_reader_build_collected (fun _ => 7) 128 [97, 98, 99] (by decide) (by decide)
    (by decide)

/-- What `wait_for_child__` returns in the sample run, the read ends of the pipes being the
descriptors 3 and 5. -/
theorem sample_wait_for_child (status : WaitStatus) :
    wait_for_child__ (fun _ => 8192) (fun _ => 7) ctest_result_create_empty 42 3 5
        (sample_child_run status) =
      some ((wait_status_result sample_waited_state 42 true status).1,
        { (wait_status_result sample_waited_state 42 true status).2 with
          output := some sample_output }) :=
  wait_for_child_eq _ _ _ 42 3 5 (sample_child_run status) sample_waited_state _ _
    (sample_poll_loop status) sample_build

/-- What `wait_for_child__` returns in the quiet run, the read ends of the pipes being the
descriptors 3 and 5. -/
theorem quiet_wait_for_child (status : WaitStatus) :
    wait_for_child__ (fun _ => 8192) (fun _ => 7) ctest_result_create_empty 42 3 5
        (quiet_child_run status) =
      some ((wait_status_result quiet_waited_state 42 true status).1,
        { (wait_status_result quiet_waited_state 42 true status).2 with
          output := some sample_output }) :=
  wait_for_child_eq _ _ _ 42 3 5 (quiet_child_run status) quiet_waited_state _ _
    (quiet_poll_loop status) sample_build

/-! ### The result of a child that exits -/

theorem consumer_after_concat (calls : List ReaderCall) (call : ReaderCall) :
    child_event_consumer_after (calls ++ [call]) =
      child_event_consumer_call (child_event_consumer_after calls) call := by
  unfold child_event_consumer_after
  rw [List.foldl_append]
  rfl

/-- The consumer's `last_failure` is the most recent failure the reader handed over. -/
theorem consumer_last_failure (calls : List ReaderCall) :
    (child_event_consumer_after calls).last_failure = (received_failures calls).getLast? := by
  induction calls using List.reverseRecOn with
  | nil => rfl
  | append_singleton calls call ih =>
    rw [consumer_after_concat]
    unfold received_failures at ih ⊢
    rw [List.filterMap_append]
    cases call with
    | on_stage_change stage =>
      show (child_event_consumer_after calls).last_failure = _
      rw [ih]
      simp [ReaderCall.received]
    | on_failure base buf =>
      show some (RunnerFailure.received base buf) = _
      simp [ReaderCall.received]
    | free base =>
      show (child_event_consumer_after calls).last_failure = _
      rw [ih]
      simp [ReaderCall.received]

theorem coerce_result_type_invalid (c : Int) (hc : c < 0 ∨ 3 < c) :
    coerce_result_type__ c = ctest_result_type.CTEST_RESULT_ERROR := by
  unfold coerce_result_type__ ctest_result_type.value
  simp only
  rw [if_neg (by omega), if_neg (by omega), if_neg (by omega), if_neg (by omega)]

/-- The result after `waitpid` for a child that exited with a valid outcome code. -/
theorem wait_status_exited (st : wait_state) (child : Int) (create_ok : Bool) (c : Int)
    (hc : 0 ≤ c ∧ c ≤ 3) :
    (wait_status_result st child create_ok (WaitStatus.exited c)).2.type.value = c ∧
    (c ≠ 0 → (wait_status_result st child create_ok (WaitStatus.exited c)).2.failure
      = (received_failures st.event_reader.calls).getLast?) ∧
    (c = 0 → (wait_status_result st child create_ok (WaitStatus.exited c)).2.failure = none) ∧
    (wait_status_result st child create_ok (WaitStatus.exited c)).1
      = (if c = 0 ∨ c = 2 then 0 else 1) ∧
    (wait_status_result st child create_ok (WaitStatus.exited c)).2.output
      = st.result.output := by
  have h : c = 0 ∨ c = 1 ∨ c = 2 ∨ c = 3 := by omega
  rw [← consumer_last_failure]
  rcases h with h | h | h | h <;> subst h
  · exact ⟨rfl, fun h => absurd rfl h, fun _ => rfl, rfl, rfl⟩
  · exact ⟨rfl, fun _ => rfl, fun h => absurd h (by decide), rfl, rfl⟩
  · exact ⟨rfl, fun _ => rfl, fun h => absurd h (by decide), rfl, rfl⟩
  · exact ⟨rfl, fun _ => rfl, fun h => absurd h (by decide), rfl, rfl⟩

/-- The result after `waitpid` for a child that exited with another code. -/
theorem wait_status_exited_invalid (st : wait_state) (child : Int) (create_ok : Bool)
    (c : Int) (hc : c < 0 ∨ 3 < c) :
    wait_status_result st child create_ok (WaitStatus.exited c) =
      (1, { st.result with type := ctest_result_type.CTEST_RESULT_ERROR,
                           failure := (received_failures st.event_reader.calls).getLast? }) := by
  rw [← consumer_last_failure]
  unfold wait_status_result
  simp only [coerce_result_type_invalid c hc]
  rfl

/-- The state in which the loop of `wait_for_child__` ended, for a call that returns. -/
theorem wait_for_child_some (malloc garbage : Nat → Nat) (result : ctest_result)
    (child hooks_fd output_fd : Int) (run : ChildRun) (retval : Int) (result1 : ctest_result)
    (h : wait_for_child__ malloc garbage result child hooks_fd output_fd run
      = some (retval, result1)) :
    ∃ st output, poll_loop malloc garbage run.steps
        (wait_state_init result hooks_fd output_fd run) = some st ∧
      retval = (wait_status_result st child run.create_ok run.status).1 ∧
      result1 = { (wait_status_result st child run.create_ok run.status).2 with
                  output := output } := by
  unfold wait_for_child__ at h
  cases hloop : poll_loop malloc garbage run.steps
      (wait_state_init result hooks_fd output_fd run) with
  | none => rw [hloop] at h; exact Option.noConfusion h
  | some st =>
    rw [hloop] at h
    cases hbuild : output_reader_build run.realloc_ok garbage st.output_reader with
    | none => simp only [hbuild] at h; exact Option.noConfusion h
    | some b =>
      simp only [hbuild] at h
      have h1 := Option.some.inj h
      exact ⟨st, b.1, rfl, (congrArg Prod.fst h1).symm, (congrArg Prod.snd h1).symm⟩

/-! ### The value the per-case function of the forking runner returns -/

/-- The per-case function in the parent when the pipes and the child were made. -/
theorem forking_runner_parent (malloc garbage : Nat → Nat) (create_ok : Bool) (pid : Int)
    (hooks_pipe output_pipe : Int × Int) (run : ChildRun) (retval : Int)
    (result1 : ctest_result)
    (h : wait_for_child__ malloc garbage ctest_result_create_empty pid hooks_pipe.1
      output_pipe.1 run = some (retval, result1)) :
    forking_runner_run_testcase__ malloc garbage
        { result_ok := true, hooks_pipe_errno := none, output_pipe_errno := none,
          hooks_pipe := hooks_pipe, output_pipe := output_pipe,
          create_ok := create_ok, fork := ForkOutcome.parent pid run } =
      some (retval, [CaseReport.start, CaseReport.complete result1]) := by
  unfold forking_runner_run_testcase__
  simp only [Bool.true_eq_false, if_false, h]

/-- C16, evaluated on three runs of the per-case function of the forking runner: when the
first `pipe` call fails and when `fork` fails, the function delivers an error result and
returns 0; when the child of the quiet run is killed by signal 11 (the pipes being the
descriptors 3, 4 and 5, 6), it delivers an error result with the failure made for the
signal and returns 0. -/
theorem forking_runner_error_returns_zero (malloc garbage : Nat → Nat) (errno : Int)
    (output_pipe_errno : Option Int) (hooks_pipe output_pipe : Int × Int)
    (fork : ForkOutcome) :
    forking_runner_run_testcase__ malloc garbage
        { result_ok := true, hooks_pipe_errno := some errno,
          output_pipe_errno := output_pipe_errno, hooks_pipe := hooks_pipe,
          output_pipe := output_pipe, create_ok := true, fork := fork } =
      some (0, [CaseReport.start, CaseReport.complete
        { type := ctest_result_type.CTEST_RESULT_ERROR, output := none,
          failure := some (RunnerFailure.created 0 (RunnerMessage.result_pipe errno)) }]) ∧
    forking_runner_run_testcase__ malloc garbage
        { result_ok := true, hooks_pipe_errno := none, output_pipe_errno := none,
          hooks_pipe := hooks_pipe, output_pipe := output_pipe,
          create_ok := true, fork := ForkOutcome.failed errno } =
      some (0, [CaseReport.start, CaseReport.complete
        { type := ctest_result_type.CTEST_RESULT_ERROR, output := none,
          failure := some (RunnerFailure.created 0 (RunnerMessage.fork_failed errno)) }]) ∧
    forking_runner_run_testcase__ (fun _ => 8192) (fun _ => 7)
        { result_ok := true, hooks_pipe_errno := none, output_pipe_errno := none,
          hooks_pipe := (3, 4), output_pipe := (5, 6), create_ok := true,
          fork := ForkOutcome.parent 42 (quiet_child_run (WaitStatus.signaled 11)) } =
      some (0, [CaseReport.start, CaseReport.complete
        { type := ctest_result_type.CTEST_RESULT_ERROR, output := some sample_output,
          failure := some (RunnerFailure.created 1
            (RunnerMessage.terminated_by_signal 11)) }]) := by
  exact ⟨rfl, rfl, forking_runner_parent _ _ true 42 (3, 4) (5, 6) _ _ _
    ((quiet_wait_for_child (WaitStatus.signaled 11)).trans rfl)⟩

/-- The sibling path: a child that exits with the code of fail or of error makes the
per-case function return 1, one that exits with the code of pass or of skipped 0. -/
theorem wait_for_child_exit_retval (malloc garbage : Nat → Nat) (result : ctest_result)
    (child hooks_fd output_fd : Int) (run : ChildRun) (c retval : Int)
    (result1 : ctest_result)
    (hc : 0 ≤ c ∧ c ≤ 3) (hs : run.status = WaitStatus.exited c)
    (h : wait_for_child__ malloc garbage result child hooks_fd output_fd run
      = some (retval, result1)) :
    retval = if c = 0 ∨ c = 2 then 0 else 1 := by
  obtain ⟨st, output, _, hret, _⟩ :=
    wait_for_child_some malloc garbage result child hooks_fd output_fd run retval result1 h
  rw [hs] at hret
  rw [hret]
  exact (wait_status_exited st child run.create_ok c hc).2.2.2.1

/-! ### The value the per-case function of the direct runner returns -/

set_option maxRecDepth 100000 in
theorem skip_env_hook_calls : testcase_hook_calls 2 skip_env = some skip_calls := by
  decide

/-- The output the direct runner reads back when the test case wrote "abc": the length
counts the three bytes, the zero byte behind them is not counted. -/
theorem read_output_example :
    read_output__ true true [97, 98, 99] (some 3) =
      some (some { length := 3, data := [97, 98, 99, 0] }) := by
  decide

/-- C17, evaluated on a test case whose body skips and writes "abc": the driver calls the
`on_skip` hook, the per-case function of the direct runner delivers a result with the
outcome skipped and returns 1, and `runner_run_testsuites` over a suite with this one
test case returns 1. -/
theorem direct_runner_skip_returns_one :
    testcase_hook_calls 2 skip_env = some skip_calls ∧
    ∃ rc reports,
      direct_runner_run_testcase__ (direct_env skip_calls [97, 98, 99]) = some (rc, reports) ∧
      rc = 1 ∧
      reports = [CaseReport.start, CaseReport.complete
        { type := ctest_result_type.CTEST_RESULT_SKIPPED,
          output := some { length := 3, data := [97, 98, 99, 0] }, failure := none }] ∧
      (runner_run_testsuites (callback_env rc) (fun _ => [()]) (fun _ => [()]) [()]).1 = 1 := by
  refine ⟨skip_env_hook_calls, 1, _, ?_, rfl, rfl, by decide⟩
  unfold direct_runner_run_testcase__ direct_env
  simp only [read_output_example]
  rfl

/-! ### The output a reader builds -/

/-- C19, evaluated on a reader that collected exactly 128 bytes in one `read`, so that
its first buffer is full: when the `realloc` of `output_reader_build` fails, the zero
byte is written at position 128 of the buffer of 128 bytes, outside the block. -/
theorem output_reader_build_overflows_full_buffer (garbage : Nat → Nat) :
    output_reader_on_data_available__ true garbage output_reader_init
        (List.replicate 128 65) (some 4096) =
      some (128, collected_reader 128 (List.replicate 128 65), []) ∧
    output_reader_build false garbage (collected_reader 128 (List.replicate 128 65))
      = none := by
  have hl : (List.replicate 128 65).length = 128 := List.length_replicate 128 65
  have ht : (List.replicate 128 65).take (min 4096 128) = List.replicate 128 65 :=
    List.take_of_length_le (by rw [hl]; decide)
  constructor
  · rw [output_reader_first_call, ht, hl, List.drop_of_length_le (Nat.le_of_eq hl)]
    rfl
  · exact output_reader_build_full_failed garbage 128 _
      (by intro h; rw [h] at hl; exact absurd hl (by decide)) hl

/-- The build of the same reader when its `realloc` succeeds: the 128 bytes and the zero
byte, and the reader is reset. -/
theorem output_reader_build_full_buffer (garbage : Nat → Nat) :
    output_reader_build true garbage (collected_reader 128 (List.replicate 128 65)) =
      some (some { length := 129, data := List.replicate 128 65 ++ [0] },
        output_reader_init) := by
  have hl : (List.replicate 128 65).length = 128 := List.length_replicate 128 65
  have h := output_reader_build_collected garbage 128 (List.replicate 128 65)
    (by intro h; rw [h] at hl; exact absurd hl (by decide)) (Nat.le_of_eq hl)
    (by rw [hl]; decide)
  rw [hl] at h
  exact h

/-- C20, evaluated on a child that writes the three bytes "abc" to its output and exits
with the code of pass, the parent reading them in one `read` (the read ends of the pipes
being the descriptors 3 and 5): the output attached to the result has the length 4 and the
bytes "abc" followed by a zero byte. -/
theorem forking_runner_output_counts_terminator :
    wait_for_child__ (fun _ => 8192) (fun _ => 7) ctest_result_create_empty 42 3 5
        (quiet_child_run (WaitStatus.exited 0)) =
      some (0, { type := ctest_result_type.CTEST_RESULT_PASS,
                 output := some { length := 4, data := [97, 98, 99, 0] },
                 failure := none }) :=
  (quiet_wait_for_child (WaitStatus.exited 0)).trans rfl

/-! ### Assertions on pointers -/

theorem ctest_assert_cmp_eq_nil (render : CmpText → List Nat) (file : List Nat) (line : Int)
    (actual_expr : List Nat) (actual expect : Nat) (operator_str : OperatorStr) :
    CTEST_ASSERT_CMP__ render file line actual_expr actual expect CTEST_OPERATOR_EQ__
      operator_str = [] ↔ actual = expect := by
  unfold CTEST_ASSERT_CMP__ CTEST_ASSERT__ CTEST_OPERATOR_EQ__ ctest_fail
  by_cases h : actual = expect
  · simp [h]
  · simp [h]

set_option maxRecDepth 100000 in
/-- C30, evaluated: `CT_ASSERT_NONNULL(p)` lets the test go on exactly when `p` is null,
as `CT_ASSERT_NULL(p)` does; with the non-null pointer 4096 it reports a failure (whose
text says the value should be different from null) and aborts with the fail tag, so that
the driver ends the test case through the `on_failure` hook, and with the null pointer
the test case returns without any failure. -/
theorem ct_assert_nonnull_fails_on_nonnull (render : CmpText → List Nat) (file : List Nat)
    (line : Int) (actual_expr : List Nat) (p : Nat) :
    (CT_ASSERT_NONNULL render file line actual_expr p = [] ↔ p = 0) ∧
    (CT_ASSERT_NULL render file line actual_expr p = [] ↔ p = 0) ∧
    CT_ASSERT_NONNULL render file line actual_expr 4096 =
      [ModuleAction.report (some file) line
          (render { actual_expr := actual_expr,
                    operator_str := OperatorStr.CTEST_OPERATOR_NE_STR__,
                    actual := 4096, expect := 0 }) true,
        ModuleAction.abort ctest_dynamic_ops_abort_type.CTEST_DYNAMIC_OPS_ABORT_FAIL] ∧
    testcase_hook_calls 2 (nonnull_env 4096) =
      some [HookCall.on_stage_change ctest_stage.CTEST_STAGE_SETUP,
        HookCall.on_stage_change ctest_stage.CTEST_STAGE_EXECUTION,
        HookCall.on_failure (some nonnull_failure)] ∧
    testcase_hook_calls 2 (nonnull_env 0) =
      some [HookCall.on_stage_change ctest_stage.CTEST_STAGE_SETUP,
        HookCall.on_stage_change ctest_stage.CTEST_STAGE_EXECUTION,
        HookCall.on_stage_change ctest_stage.CTEST_STAGE_TEARDOWN] := by
  refine ⟨ctest_assert_cmp_eq_nil _ _ _ _ _ _ _, ctest_assert_cmp_eq_nil _ _ _ _ _ _ _, rfl,
    by decide, by decide⟩

/-- The sibling `CT_ASSERT_PTR_NE(p, NULL)`, which applies `CTEST_OPERATOR_NE__`, lets the
test go on exactly when `p` is not null. -/
theorem ct_assert_ptr_ne_null (render : CmpText → List Nat) (file : List Nat) (line : Int)
    (actual_expr : List Nat) (p : Nat) :
    CT_ASSERT_PTR_NE render file line actual_expr p 0 = [] ↔ p ≠ 0 := by
  unfold CT_ASSERT_PTR_NE CTEST_ASSERT_CMP__ CTEST_ASSERT__ CTEST_OPERATOR_NE__ ctest_fail
  by_cases h : p = 0
  · simp [h]
  · simp [h]

/-! ### The event reader on an overlong frame -/

/-- Once the reader is to drop bytes with `ofs` not 0, every data-available call with
bytes waiting returns -1 and changes nothing: `reader->buf + reader->ofs` is not `NULL`,
so the `read` goes to that address. -/
theorem reader_drop_stuck (malloc : Nat → Nat) (reader : exec_event_reader)
    (pipe : List Nat) (want : Nat) (hbuf : reader.buf = ReaderBuf.null)
    (hofs : reader.ofs ≠ 0) (hcap : reader.ofs < reader.cap) (hwant : 0 < want)
    (hpipe : pipe ≠ []) :
    reader_op_on_data_available__ malloc reader pipe want = some (-1, reader, pipe) := by
  unfold reader_op_on_data_available__
  simp only [hbuf, hofs, and_false, if_false, true_and, ne_eq, not_false_eq_true, hpipe]
  rw [if_pos ⟨Nat.lt_min.mpr ⟨hwant, Nat.sub_pos_of_lt hcap⟩, trivial⟩]

set_option maxRecDepth 100000 in
/-- C26, evaluated on a stage-change frame whose header announces 8 body bytes, followed by
a regular stage-change frame: the reader delivers the stage change of the first four body
bytes, and then every data-available call returns -1 with the four excess bytes and the
following frame still in the descriptor; the following frame is never decoded. -/
theorem exec_event_reader_overlong_frame_stuck (malloc : Nat → Nat) (want : Nat)
    (wants : List Nat) :
    reader_feed malloc [4, 4] exec_event_reader_init overlong_stream
      = some (overlong_reader, [9, 9, 9, 9, 0, 0, 4, 0, 2, 0, 0, 0]) ∧
    reader_op_on_data_available__ malloc overlong_reader
        [9, 9, 9, 9, 0, 0, 4, 0, 2, 0, 0, 0] (want + 1)
      = some (-1, overlong_reader, [9, 9, 9, 9, 0, 0, 4, 0, 2, 0, 0, 0]) ∧
    reader_feed malloc ((want + 1) :: wants) overlong_reader
        [9, 9, 9, 9, 0, 0, 4, 0, 2, 0, 0, 0]
      = some (overlong_reader, [9, 9, 9, 9, 0, 0, 4, 0, 2, 0, 0, 0]) := by
  have hstuck := reader_drop_stuck malloc overlong_reader
    [9, 9, 9, 9, 0, 0, 4, 0, 2, 0, 0, 0] (want + 1) rfl (by decide) (by decide)
    (Nat.succ_pos want) (by decide)
  refine ⟨rfl, hstuck, ?_⟩
  rw [reader_feed]
  simp only [hstuck]
  rfl

/-! ### The length field of a failure frame -/

theorem failure_header_length_field (s : Nat) :
    le_value (((le_bytes 2 1 ++ le_bytes 2 s).drop 2).take 2) = s % 65536 := by
  have h1 : (le_bytes 2 1).length = 2 := le_bytes_length 2 1
  have h2 : (le_bytes 2 s).length = 2 := le_bytes_length 2 s
  rw [List.drop_left' h1, List.take_of_length_le (Nat.le_of_eq h2), le_value_le_bytes]
  rfl

theorem header_done_len (malloc : Nat → Nat) (reader : exec_event_reader) :
    (reader_on_msg_header_done__ malloc reader).len
      = le_value ((reader.header.drop 2).take 2) := by
  unfold reader_on_msg_header_done__
  simp only
  split_ifs <;> rfl

/-- C29: for a failure whose flattened size is `s`, formatted in a buffer inside the
address space, the event writer emits a 4-byte header followed by a body of `s` bytes;
the 16-bit `length` field of the header holds `s mod 65536`, which is the number of body
bytes a reader expects once it has the header, and this is the number of body bytes that
follow exactly when `s < 65536`. -/
theorem exec_event_failure_header_length (wbase : Nat) (malloc : Nat → Nat)
    (r0 : exec_event_reader) (f : ctest_failure)
    (h : wbase + failure_storage_size f < 18446744073709551616)
    (h0 : r0.header.length = 4) :
    ∃ hdr body, exec_event_writer_op_on_failure__ wbase f = some (hdr ++ body) ∧
      hdr.length = 4 ∧ body.length = failure_storage_size f ∧
      le_value ((hdr.drop 2).take 2) = failure_storage_size f % 65536 ∧
      (reader_on_msg_header_done__ malloc (header_phase r0 hdr 4)).len
        = failure_storage_size f % 65536 ∧
      (le_value ((hdr.drop 2).take 2) = body.length ↔ failure_storage_size f < 65536) := by
  have hl : (le_bytes 2 1 ++ le_bytes 2 (failure_storage_size f)).length = 4 := by
    rw [List.length_append, le_bytes_length, le_bytes_length]
  have hb : (flat_rel f []).bytes.length = failure_storage_size f :=
    flat_rel_length f (by omega)
  have hfield := failure_header_length_field (failure_storage_size f)
  refine ⟨le_bytes 2 1 ++ le_bytes 2 (failure_storage_size f), (flat_rel f []).bytes,
    writer_output wbase f h, hl, hb, hfield, ?_, ?_⟩
  · rw [header_done_len]
    have hfill : (header_phase r0 (le_bytes 2 1 ++ le_bytes 2 (failure_storage_size f)) 4).header
        = le_bytes 2 1 ++ le_bytes 2 (failure_storage_size f) := by
      show fill _ _ 4 = _
      have := fill_full (le_bytes 2 1 ++ le_bytes 2 (failure_storage_size f)) r0.header
        (by rw [hl, h0])
      rw [hl] at this
      exact this
    rw [hfill, hfield]
  · rw [hfield, hb]
    constructor
    · intro hm
      have := Nat.mod_lt (failure_storage_size f) (by decide : 0 < 65536)
      omega
    · intro hlt
      exact Nat.mod_eq_of_lt hlt

/-- The header of the frame of `sample_failure`. -/
theorem exec_event_failure_header_length_witness :
    ∃ hdr body, exec_event_writer_op_on_failure__ 4096 sample_failure = some (hdr ++ body) ∧
      hdr.length = 4 ∧ body.length = failure_storage_size sample_failure ∧
      le_value ((hdr.drop 2).take 2) = failure_storage_size sample_failure % 65536 ∧
      (reader_on_msg_header_done__ (fun _ => 8192)
          (header_phase exec_event_reader_init hdr 4)).len
        = failure_storage_size sample_failure % 65536 ∧
      (le_value ((hdr.drop 2).take 2) = body.length
        ↔ failure_storage_size sample_failure < 65536) :=
  exec_event_failure_header_length 4096 (fun _ => 8192) exec_event_reader_init sample_failure
    (by decide) rfl

/-! ### The capacity of the output reader -/

theorem write_bytes_length (buf bs : List Nat) (ofs : Nat) (h : ofs + bs.length ≤ buf.length) :
    (write_bytes buf ofs bs).length = buf.length := by
  unfold write_bytes
  simp only [List.length_append, List.length_take, List.length_drop]
  omega

theorem read_call_length (pipe : List Nat) (count : Nat) (want : Option Nat) :
    (read_call pipe count want).2.length ≤ count ∧
    (read_call pipe count want).2.length ≤ pipe.length := by
  cases want with
  | none => exact ⟨Nat.zero_le _, Nat.zero_le _⟩
  | some w =>
    show (pipe.take (min w count)).length ≤ count ∧ (pipe.take (min w count)).length ≤ _
    rw [List.length_take]
    omega

/-- A read of a sound reader into a buffer with room. -/
theorem output_reader_read_sound (reader : output_reader) (o : ctest_output)
    (pipe : List Nat) (want : Option Nat) (hlt : reader.length < o.length)
    (hd : o.data.length = o.length) (hk : ∃ k, o.length = 128 * 2 ^ k) :
    ∃ rc reader1 rest, output_reader_read reader (some o) pipe want = some (rc, reader1, rest) ∧
      reader1.sound ∧ reader1.capacity = some o.length ∧ reader.length ≤ reader1.length ∧
      reader1.length ≤ reader.length + pipe.length := by
  have hr := read_call_length pipe (o.length - reader.length) want
  have h1 : reader.length + (read_call pipe (o.length - reader.length) want).2.length
      ≤ o.length := by
    have := hr.1
    omega
  have h2 := hr.2
  unfold output_reader_read
  simp only [output_length, output_data]
  rw [if_neg (by
    intro hc
    rcases hc with hc | hc
    · exact Option.some_ne_none _ hc
    · exact Nat.not_le.mpr hlt hc), if_pos (by rw [hd]; exact h1)]
  refine ⟨_, _, _, rfl, ?_, rfl, ?_, ?_⟩
  · refine ⟨?_, ?_, hk⟩
    · show (if _ then _ else _) ≤ o.length
      split_ifs
      · exact h1
      · exact Nat.le_of_lt hlt
    · show (write_bytes _ _ _).length = o.length
      rw [write_bytes_length _ _ _ (by rw [hd]; exact h1), hd]
  · show reader.length ≤ (if _ then _ else _)
    split_ifs
    · exact Nat.le_add_right _ _
    · exact Nat.le_refl _
  · show (if _ then _ else _) ≤ _
    split_ifs
    · exact Nat.add_le_add_left h2 _
    · exact Nat.le_add_right _ _

/-- A read of a reader without room: the bytes go to a local array. -/
theorem output_reader_read_drain (reader : output_reader) (output : Option ctest_output)
    (pipe : List Nat) (want : Option Nat)
    (h : output = none ∨ reader.length ≥ output_length output) :
    output_reader_read reader output pipe want =
      some ((read_call pipe 4096 want).1, { reader with output := output },
        pipe.drop (read_call pipe 4096 want).2.length) := by
  unfold output_reader_read
  simp only
  rw [if_pos h]

/-- One data-available call of a sound reader that has collected fewer than `2^62` bytes:
the call stays inside the buffer, the reader is sound afterwards, the capacity is what
`next_capacity` says, and the collected bytes grow by at most the bytes waiting. -/
theorem output_reader_step_sound (c : OutputCall) (reader : output_reader)
    (hs : reader.sound) (hb : reader.length < 4611686018427387904) :
    ∃ rc reader1 rest,
      output_reader_on_data_available__ c.alloc_ok c.garbage reader c.pipe c.want
        = some (rc, reader1, rest) ∧
      reader1.sound ∧ reader1.capacity = next_capacity c.alloc_ok reader ∧
      reader.length ≤ reader1.length ∧ reader1.length ≤ reader.length + c.pipe.length := by
  unfold output_reader_on_data_available__ output_reader_grow
  unfold output_reader.sound at hs
  cases ho : reader.output with
  | none =>
    rw [ho] at hs
    cases ha : c.alloc_ok with
    | false =>
      have hd := output_reader_read_drain reader none c.pipe c.want (Or.inl rfl)
      simp only [ctest_output_create, Bool.false_eq_true, if_false, hd]
      refine ⟨_, _, _, rfl, ?_, ?_, Nat.le_refl _, Nat.le_add_right _ _⟩
      · show reader.length = 0
        exact hs
      · unfold next_capacity output_reader.capacity
        simp only [ho, Bool.false_eq_true, if_false, Option.map_none']
    | true =>
      have hc : ctest_output_create true 128 =
          some (some { length := 128, data := List.replicate 128 0 }) := rfl
      simp only [hc]
      obtain ⟨rc, r1, rest, hcall, hs1, hcap, h1, h2⟩ := output_reader_read_sound reader
        { length := 128, data := List.replicate 128 0 } c.pipe c.want
        (by rw [hs]; decide) (List.length_replicate 128 0) ⟨0, rfl⟩
      refine ⟨rc, r1, rest, hcall, hs1, ?_, h1, h2⟩
      rw [hcap]
      unfold next_capacity
      simp only [ho, if_true]
  | some o =>
    rw [ho] at hs
    obtain ⟨hle, hdl, k, hk⟩ := hs
    have hpos : 0 < o.length := by rw [hk]; positivity
    by_cases hfull : reader.length ≥ o.length
    · have heq : reader.length = o.length := Nat.le_antisymm hle hfull
      simp only [hfull, if_true]
      cases ha : c.alloc_ok with
      | false =>
        rw [ctest_output_resize_failed]
        simp only [Option.map_some']
        have hd := output_reader_read_drain reader (some o) c.pipe c.want (Or.inr hfull)
        rw [hd]
        refine ⟨_, _, _, rfl, ?_, ?_, Nat.le_refl _, Nat.le_add_right _ _⟩
        · show match (some o : Option ctest_output) with
            | none => reader.length = 0
            | some output => reader.length ≤ output.length ∧
                output.data.length = output.length ∧ ∃ k, output.length = 128 * 2 ^ k
          exact ⟨hle, hdl, k, hk⟩
        · unfold next_capacity output_reader.capacity
          simp only [ho, Bool.false_eq_true, and_false, if_false, Option.map_some']
      | true =>
        have hmod : reader.length * 2 % 18446744073709551616 = o.length * 2 := by
          rw [heq, Nat.mod_eq_of_lt (by omega)]
        rw [hmod, ctest_output_resize_eq c.garbage (some o) (o.length * 2)
          (Nat.le_of_eq hdl.symm) (by omega)]
        simp only [Option.map_some', output_length, output_data]
        obtain ⟨rc, r1, rest, hcall, hs1, hcap, h1, h2⟩ := output_reader_read_sound reader
          { length := o.length * 2,
            data := List.take (min o.length (o.length * 2)) o.data
              ++ List.replicate (o.length * 2 - o.length) 0 } c.pipe c.want
          (by show reader.length < o.length * 2; omega)
          (by
            show (List.take _ _ ++ List.replicate _ _).length = o.length * 2
            rw [List.length_append, List.length_take, List.length_replicate]
            omega)
          ⟨k + 1, by show o.length * 2 = 128 * 2 ^ (k + 1); rw [hk, pow_succ]; ring⟩
        refine ⟨rc, r1, rest, hcall, hs1, ?_, h1, h2⟩
        rw [hcap]
        unfold next_capacity
        simp only [ho, hfull, and_self, if_true]
        show some (o.length * 2) = some (2 * o.length)
        rw [Nat.mul_comm]
    · have hlt : reader.length < o.length := Nat.lt_of_not_ge hfull
      simp only [hfull, if_false]
      obtain ⟨rc, r1, rest, hcall, hs1, hcap, h1, h2⟩ := output_reader_read_sound reader o
        c.pipe c.want hlt hdl ⟨k, hk⟩
      refine ⟨rc, r1, rest, hcall, hs1, ?_, h1, h2⟩
      rw [hcap]
      unfold next_capacity
      simp only [ho, hfull, false_and, if_false]

theorem offered_append (a b : List OutputCall) : offered (a ++ b) = offered a + offered b := by
  induction a with
  | nil => simp [offered]
  | cons c a ih =>
    show c.pipe.length + offered (a ++ b) = c.pipe.length + offered a + offered b
    rw [ih]; omega

theorem output_reader_run_from (calls : List OutputCall) :
    ∀ reader : output_reader, reader.sound →
      reader.length + offered calls < 4611686018427387904 →
      ∃ reader1, output_reader_run calls reader = some reader1 ∧ reader1.sound ∧
        reader1.length ≤ reader.length + offered calls := by
  induction calls with
  | nil =>
    intro reader hs _
    exact ⟨reader, rfl, hs, Nat.le_refl _⟩
  | cons c calls ih =>
    intro reader hs hb
    have hb0 : reader.length < 4611686018427387904 := by
      have : offered (c :: calls) = c.pipe.length + offered calls := rfl
      omega
    obtain ⟨rc, r1, rest, hcall, hs1, _, _, h2⟩ := output_reader_step_sound c reader hs hb0
    have ho : offered (c :: calls) = c.pipe.length + offered calls := rfl
    obtain ⟨r2, hrun, hs2, h3⟩ := ih r1 hs1 (by omega)
    refine ⟨r2, ?_, hs2, by omega⟩
    rw [output_reader_run]
    simp only [hcall, hrun]

theorem output_reader_init_sound : output_reader_init.sound := rfl

/-- C28, as the code has it: over any sequence of data-available calls that offer fewer
than `2^62` bytes in all, allocations succeeding or failing in any pattern and reads of
any size or failing, the reader never leaves its buffer; before and after every call,
when a buffer is present the collected bytes do not exceed its capacity and the capacity
is 128 times a power of two; a call collects at most the bytes waiting, and the capacity
after a call is 128 for a first buffer whose allocation succeeds, twice the capacity
when the call finds the buffer full and its reallocation succeeds, and the capacity
before the call otherwise. -/
theorem output_reader_capacity_invariant (calls : List OutputCall)
    (hbound : offered calls < 4611686018427387904) :
    (∃ reader, output_reader_run calls output_reader_init = some reader ∧ reader.sound) ∧
    ∀ pre c post, calls = pre ++ c :: post →
      ∃ reader0 rc reader1 rest,
        output_reader_run pre output_reader_init = some reader0 ∧ reader0.sound ∧
        output_reader_on_data_available__ c.alloc_ok c.garbage reader0 c.pipe c.want
          = some (rc, reader1, rest) ∧
        reader1.sound ∧ reader1.capacity = next_capacity c.alloc_ok reader0 ∧
        reader0.length ≤ reader1.length ∧
        reader1.length ≤ reader0.length + c.pipe.length := by
  have hinit : output_reader_init.length = 0 := rfl
  constructor
  · obtain ⟨r, hrun, hs, _⟩ := output_reader_run_from calls output_reader_init
      output_reader_init_sound (by rw [hinit]; omega)
    exact ⟨r, hrun, hs⟩
  · intro pre c post hsplit
    have ho : offered calls = offered pre + (c.pipe.length + offered post) := by
      rw [hsplit, offered_append]; rfl
    obtain ⟨r0, hrun, hs, hlen⟩ := output_reader_run_from pre output_reader_init
      output_reader_init_sound (by rw [hinit]; omega)
    obtain ⟨rc, r1, rest, hcall, hs1, hcap, h1, h2⟩ :=
      output_reader_step_sound c r0 hs (by rw [hinit] at hlen; omega)
    exact ⟨r0, rc, r1, rest, hrun, hs, hcall, hs1, hcap, h1, h2⟩

/-- Two calls on a fresh reader: the first collects 128 bytes in a buffer of 128 bytes,
the second finds the buffer full. -/
theorem output_reader_capacity_invariant_witness :
    (∃ reader, output_reader_run
        [{ alloc_ok := true, garbage := fun _ => 7, pipe := List.replicate 128 65,
           want := some 4096 },
         { alloc_ok := false, garbage := fun _ => 7, pipe := [66], want := some 4096 }]
        output_reader_init = some reader ∧ reader.sound) ∧
    ∀ pre c post,
      [{ alloc_ok := true, garbage := fun _ => 7, pipe := List.replicate 128 65,
         want := some 4096 },
       ({ alloc_ok := false, garbage := fun _ => 7, pipe := [66], want := some 4096 } :
         OutputCall)] = pre ++ c :: post →
      ∃ reader0 rc reader1 rest,
        output_reader_run pre output_reader_init = some reader0 ∧ reader0.sound ∧
        output_reader_on_data_available__ c.alloc_ok c.garbage reader0 c.pipe c.want
          = some (rc, reader1, rest) ∧
        reader1.sound ∧ reader1.capacity = next_capacity c.alloc_ok reader0 ∧
        reader0.length ≤ reader1.length ∧
        reader1.length ≤ reader0.length + c.pipe.length :=
  output_reader_capacity_invariant _ (by
    simp only [offered, List.length_replicate, List.length_singleton]
    decide)

theorem output_reader_full_buffer_failed (garbage : Nat → Nat) :
    full_reader.capacity = some 128 ∧ full_reader.length = 128 ∧
    output_reader_on_data_available__ false garbage full_reader [66] (some 4096)
      = some (1, full_reader, []) := by
  have hl : (List.replicate 128 65).length = 128 := List.length_replicate 128 65
  have hfull : full_reader
      = { output := some { length := 128, data := List.replicate 128 65 }, length := 128 } :=
    collected_reader_full 128 _ hl
  refine ⟨?_, ?_, ?_⟩
  · rw [hfull]; rfl
  · rw [hfull]
  · rw [hfull]
    unfold output_reader_on_data_available__ output_reader_grow
    simp only [ge_iff_le, le_refl, if_true, ctest_output_resize_failed, Option.map_some']
    rw [output_reader_read_drain _ _ _ _ (Or.inr (Nat.le_refl _))]
    have hr : read_call [66] 4096 (some 4096) = (1, [66]) := rfl
    rw [hr]
    rfl

/-- A call that finds the buffer of 128 bytes full while its reallocation fails: the byte
waiting is read into the local array and the capacity is still 128. -/
theorem output_reader_full_buffer_keeps_capacity :
    full_reader.capacity = some 128 ∧ full_reader.length = 128 ∧
    output_reader_on_data_available__ false (fun _ => 0) full_reader [66] (some 4096)
      = some (1, full_reader, []) :=
  output_reader_full_buffer_failed (fun _ => 0)

/-! ### The partitioner on a grouped sequence -/

section Grouped
variable {TC T S : Type} [DecidableEq T] [DecidableEq S]
variable (get_test : TC → T) (get_testsuite : T → S)

theorem consecutive_tail {K : Type} (key : TC → K) (a : TC) (l : List TC)
    (h : consecutive key (a :: l)) : consecutive key l := by
  intro i j k x y z hij hjk hx hy hz hxz
  exact h (i + 1) (j + 1) (k + 1) x y z (by omega) (by omega)
    (by rw [List.getElem?_cons_succ]; exact hx) (by rw [List.getElem?_cons_succ]; exact hy)
    (by rw [List.getElem?_cons_succ]; exact hz) hxz

theorem consecutive_suffix {K : Type} (key : TC → K) : ∀ (A B : List TC),
    consecutive key (A ++ B) → consecutive key B
  | [], _, h => h
  | a :: A, B, h => consecutive_suffix key A B (consecutive_tail key a (A ++ B) h)

theorem consecutive_after {K : Type} (key : TC → K) (q h : TC) (o : List TC)
    (hc : consecutive key (q :: h :: o)) (hne : key h ≠ key q) :
    ∀ y ∈ o, key y ≠ key q := by
  intro y hy hyq
  obtain ⟨m, hm, rfl⟩ := List.getElem_of_mem hy
  have := hc 0 1 (m + 2) q h o[m] (by omega) (by omega) (List.getElem?_cons_zero)
    (by rw [List.getElem?_cons_succ]; exact List.getElem?_cons_zero)
    (by
      rw [List.getElem?_cons_succ, List.getElem?_cons_succ]
      exact List.getElem?_eq_getElem hm) hyq.symm
  exact hne this

theorem filter_split_consecutive (t : T) : ∀ (q : TC) (rest : List TC),
    consecutive get_test (q :: rest) → get_test q = t →
    rest.filter (fun c => decide (get_test c = t))
      ++ rest.filter (fun c => !decide (get_test c = t)) = rest := by
  intro q rest
  induction rest generalizing q with
  | nil => intro _ _; rfl
  | cons c r ih =>
    intro hc hq
    by_cases hct : get_test c = t
    · have := ih c (consecutive_tail get_test q _ hc) hct
      simp only [List.filter_cons, hct, decide_True, Bool.not_true, if_true, if_false,
        Bool.false_eq_true, List.cons_append, this]
    · have hall := consecutive_after get_test q c r hc (by rw [hq]; exact hct)
      have h1 : r.filter (fun c => decide (get_test c = t)) = [] := by
        rw [List.filter_eq_nil_iff]
        intro y hy
        have := hall y hy
        rw [hq] at this
        simp [this]
      have h2 : r.filter (fun c => !decide (get_test c = t)) = r := by
        rw [List.filter_eq_self]
        intro y hy
        have := hall y hy
        rw [hq] at this
        simp [this]
      simp only [List.filter_cons, hct, decide_False, Bool.not_false, if_true, if_false,
        Bool.false_eq_true, h1, h2, List.nil_append]

/-- After the cases of test `t`, which stand together in front, the read loop picks as the
next test the test of the case right behind them, or none. -/
theorem pick_next_head (t : T) (chunk others : List TC) (hne : chunk ≠ [])
    (hchunk : ∀ x ∈ chunk, get_test x = t) (hoth : ∀ y ∈ others, get_test y ≠ t)
    (hcS : consecutive (fun c => get_testsuite (get_test c)) (chunk ++ others)) :
    ∀ u, pick_next get_test get_testsuite t none (chunk ++ others) = some u →
      ∃ h o, others = h :: o ∧ get_test h = u := by
  intro u hu
  rw [pick_next_none_eq, List.find?_append] at hu
  have hnone : chunk.find? (fun c => decide (get_test c ≠ t ∧
      get_testsuite (get_test c) = get_testsuite t)) = none := by
    rw [List.find?_eq_none]
    intro x hx
    simp [hchunk x hx]
  rw [hnone, Option.none_or] at hu
  cases others with
  | nil => simp at hu
  | cons h o =>
    refine ⟨h, o, rfl, ?_⟩
    by_cases hs : get_testsuite (get_test h) = get_testsuite t
    · have hh : get_test h ≠ t := hoth h (List.mem_cons_self _ _)
      simp only [List.find?_cons, hh, hs, ne_eq, not_false_eq_true, and_self, decide_True,
        Option.map_some', Option.some.injEq] at hu
      exact hu
    · exfalso
      rcases List.eq_nil_or_concat chunk with h0 | ⟨A, q, hq⟩
      · exact hne h0
      · have hqt : get_test q = t := hchunk q (by rw [hq]; simp)
        have hcon : consecutive (fun c => get_testsuite (get_test c)) (q :: h :: o) := by
          apply consecutive_suffix _ A
          have : A ++ q :: h :: o = chunk ++ h :: o := by rw [hq]; simp
          rw [this]
          exact hcS
        have hall := consecutive_after _ q h o hcon (by
          show get_testsuite (get_test h) ≠ get_testsuite (get_test q)
          rw [hqt]; exact hs)
        have hfind : (h :: o).find? (fun c => decide (get_test c ≠ t ∧
            get_testsuite (get_test c) = get_testsuite t)) = none := by
          rw [List.find?_eq_none]
          intro y hy
          rcases List.mem_cons.mp hy with e | e
          · subst e; simp [hs]
          · have := hall y e
            rw [hqt] at this
            simp [this]
        rw [hfind] at hu
        simp at hu

end Grouped

/-! ### Repartitioning a grouped sequence -/

section GroupedRun
variable {TC T S : Type} [DecidableEq T] [DecidableEq S]
variable (get_test : TC → T) (get_testsuite : T → S)

/-- On a grouped remainder whose first case belongs to the test to collect, the loop over
the tests of one suite leaves the sequence as it is. -/
theorem test_loop_grouped : ∀ (fuel : Nat) (done rest : List TC) (nt : Option T),
    rest.length ≤ fuel → consecutive get_test rest →
    consecutive (fun c => get_testsuite (get_test c)) rest →
    (∀ t, nt = some t → ∃ c r, rest = c :: r ∧ get_test c = t) →
    ∃ done' rest', done' ++ rest' = done ++ rest ∧
      (∃ m, rest = m ++ rest' ∧ (nt ≠ none → m ≠ [])) ∧
      test_loop get_test get_testsuite fuel ⟨done ++ rest, done.length, nt⟩
        = some ⟨done' ++ rest', done'.length, none⟩ := by
  intro fuel
  induction fuel with
  | zero =>
    intro done rest nt hlen _ _ hnt
    cases nt with
    | none =>
      exact ⟨done, rest, rfl, ⟨[], rfl, fun h => absurd rfl h⟩,
        test_loop_none get_test get_testsuite 0 _ _⟩
    | some t =>
      obtain ⟨c, r, hr, _⟩ := hnt t rfl
      rw [hr] at hlen
      simp at hlen
  | succ fuel ih =>
    intro done rest nt hlen hT hS hnt
    cases nt with
    | none =>
      exact ⟨done, rest, rfl, ⟨[], rfl, fun h => absurd rfl h⟩,
        test_loop_none get_test get_testsuite _ _ _⟩
    | some t =>
      obtain ⟨c, r, hr, hct⟩ := hnt t rfl
      subst hr
      have hsplit0 := filter_split_consecutive get_test t c r hT hct
      have hchunk : (c :: r).filter (fun x => decide (get_test x = t))
          = c :: r.filter (fun x => decide (get_test x = t)) := by
        simp [List.filter_cons, hct]
      have hothers : (c :: r).filter (fun x => !decide (get_test x = t))
          = r.filter (fun x => !decide (get_test x = t)) := by
        simp [List.filter_cons, hct]
      have hsplit : (c :: r).filter (fun x => decide (get_test x = t))
          ++ (c :: r).filter (fun x => !decide (get_test x = t)) = c :: r := by
        rw [hchunk, hothers, List.cons_append, hsplit0]
      have hlen2 : ((c :: r).filter (fun x => !decide (get_test x = t))).length ≤ fuel := by
        rw [hothers]
        have := List.length_filter_le (fun x => !decide (get_test x = t)) r
        simp only [List.length_cons] at hlen
        omega
      have hT2 : consecutive get_test ((c :: r).filter (fun x => !decide (get_test x = t))) := by
        apply consecutive_suffix get_test ((c :: r).filter (fun x => decide (get_test x = t)))
        rw [hsplit]; exact hT
      have hS2 : consecutive (fun c => get_testsuite (get_test c))
          ((c :: r).filter (fun x => !decide (get_test x = t))) := by
        apply consecutive_suffix _ ((c :: r).filter (fun x => decide (get_test x = t)))
        rw [hsplit]; exact hS
      have hpick : ∀ u, pick_next get_test get_testsuite t none (c :: r) = some u →
          ∃ h o, (c :: r).filter (fun x => !decide (get_test x = t)) = h :: o ∧
            get_test h = u := by
        have := pick_next_head get_test get_testsuite t
          ((c :: r).filter (fun x => decide (get_test x = t)))
          ((c :: r).filter (fun x => !decide (get_test x = t)))
          (by rw [hchunk]; exact List.cons_ne_nil _ _)
          (fun x hx => ((mem_chunk get_test).mp hx).2)
          (fun y hy => ((mem_others get_test).mp hy).2)
          (by rw [hsplit]; exact hS)
        rw [hsplit] at this
        exact this
      obtain ⟨done', rest', he, ⟨m, hm, _⟩, hrun⟩ := ih
        (done ++ (c :: r).filter (fun x => decide (get_test x = t)))
        ((c :: r).filter (fun x => !decide (get_test x = t)))
        (pick_next get_test get_testsuite t none (c :: r)) hlen2 hT2 hS2 hpick
      refine ⟨done', rest', ?_,
        ⟨(c :: r).filter (fun x => decide (get_test x = t)) ++ m, ?_, ?_⟩, ?_⟩
      · rw [he, List.append_assoc, hsplit]
      · rw [List.append_assoc, ← hm, hsplit]
      · intro _
        rw [hchunk]
        exact List.cons_ne_nil _ _
      · rw [test_loop_some, read_loop_from_write, hrun]

/-- The first pass of the loop over the tests, entered behind the case `c` with the test of
`c` to collect, goes on as the pass entered at `c`. -/
theorem test_loop_first (fuel : Nat) (done : List TC) (c : TC) (rest0 : List TC) :
    test_loop get_test get_testsuite (fuel + 1)
        ⟨done ++ c :: rest0, done.length + 1, some (get_test c)⟩
      = test_loop get_test get_testsuite (fuel + 1)
        ⟨done ++ c :: rest0, done.length, some (get_test c)⟩ := by
  have e1 : done ++ c :: rest0 = (done ++ [c]) ++ rest0 := by simp
  have e2 : done.length + 1 = (done ++ [c]).length := by simp
  have hl : test_loop get_test get_testsuite (fuel + 1)
        ⟨done ++ c :: rest0, done.length + 1, some (get_test c)⟩
      = test_loop get_test get_testsuite fuel
          ⟨((done ++ [c]) ++ rest0.filter (fun x => decide (get_test x = get_test c)))
            ++ rest0.filter (fun x => !decide (get_test x = get_test c)),
          ((done ++ [c]) ++ rest0.filter (fun x => decide (get_test x = get_test c))).length,
          pick_next get_test get_testsuite (get_test c) none rest0⟩ := by
    rw [test_loop_some, e1, e2, read_loop_from_write]
  rw [hl, test_loop_some, read_loop_from_write,
    ← pick_next_cons_same get_test get_testsuite (get_test c) none c rest0 rfl]
  simp [List.filter_cons]

/-- On a grouped sequence the outer loop of `repartition_testcases__` leaves the sequence
as it is. -/
theorem write_loop_grouped : ∀ (fuel : Nat) (done rest : List TC),
    rest.length ≤ fuel → consecutive get_test rest →
    consecutive (fun c => get_testsuite (get_test c)) rest →
    write_loop get_test get_testsuite fuel (done ++ rest) done.length
      = some (done ++ rest) := by
  intro fuel
  induction fuel with
  | zero =>
    intro done rest hlen _ _
    have : rest = [] := List.length_eq_zero.mp (Nat.le_zero.mp hlen)
    subst this
    simp [write_loop]
  | succ fuel ih =>
    intro done rest hlen hT hS
    cases rest with
    | nil => simp [write_loop]
    | cons c rest0 =>
      have hget : (done ++ c :: rest0)[done.length]? = some c := by
        rw [List.getElem?_append_right (Nat.le_refl _)]; simp
      have hfuel : (c :: rest0).length ≤ (done ++ c :: rest0).length + 1 := by
        rw [List.length_append]; omega
      obtain ⟨done', rest', he, ⟨m, hm, hne⟩, hrun⟩ := test_loop_grouped get_test get_testsuite
        ((done ++ c :: rest0).length + 1) done (c :: rest0) (some (get_test c)) hfuel hT hS
        (fun t ht => ⟨c, rest0, rfl, Option.some.inj ht⟩)
      have hrest : rest'.length ≤ fuel := by
        have h1 : (c :: rest0).length = m.length + rest'.length := by
          rw [hm, List.length_append]
        have h2 : (done ++ c :: rest0).length = done'.length + rest'.length := by
          rw [← he, List.length_append]
        have h3 : 0 < m.length := List.length_pos.mpr (hne (by simp))
        simp only [List.length_cons] at hlen h1
        omega
      have hT2 : consecutive get_test rest' := by
        apply consecutive_suffix get_test m
        rw [← hm]; exact hT
      have hS2 : consecutive (fun c => get_testsuite (get_test c)) rest' := by
        apply consecutive_suffix _ m
        rw [← hm]; exact hS
      have hnext := ih done' rest' hrest hT2 hS2
      rw [write_loop]
      simp only [hget]
      rw [test_loop_first, hrun]
      simp only []
      rw [hnext, he]

end GroupedRun

/-! ### Repartitioning is the identity on a grouped sequence -/

section GroupedClaim
variable {TC T S : Type} [DecidableEq T] [DecidableEq S]
variable (get_test : TC → T) (get_testsuite : T → S)

/-- The sequence `repartition_testcases__` returns is grouped by test and by suite. -/
theorem repartition_output_consecutive (l out : List TC)
    (h : repartition_testcases__ get_test get_testsuite true l = some out) :
    consecutive get_test out ∧ consecutive (fun c => get_testsuite (get_test c)) out := by
  obtain ⟨out', ho, hinv⟩ := repartition_invariant get_test get_testsuite l
  rw [h] at ho
  cases ho
  constructor
  · intro i j k x y z hij hjk hx hy hz hxz
    have hxy := pairwise_at hinv.sorted hij hx hy
    have hyz := pairwise_at hinv.sorted hjk hy hz
    unfold grouped_before at hxy hyz
    rcases hxy with h | ⟨h1, h2⟩ | h
    · exact h.symm
    · rcases hyz with g | ⟨_, g2⟩ | g
      · rw [g, ← hxz] at h2; exact absurd h2 (Nat.lt_irrefl _)
      · rw [← hxz] at g2; exact absurd (Nat.lt_trans h2 g2) (Nat.lt_irrefl _)
      · rw [← h1, ← hxz] at g; exact absurd g (Nat.lt_irrefl _)
    · rcases hyz with g | ⟨g1, _⟩ | g
      · rw [g, ← hxz] at h; exact absurd h (Nat.lt_irrefl _)
      · rw [g1, ← hxz] at h; exact absurd h (Nat.lt_irrefl _)
      · rw [← hxz] at g; exact absurd (Nat.lt_trans h g) (Nat.lt_irrefl _)
  · intro i j k x y z hij hjk hx hy hz hxz
    have hxz : get_testsuite (get_test x) = get_testsuite (get_test z) := hxz
    show get_testsuite (get_test y) = get_testsuite (get_test x)
    have hxy := pairwise_at hinv.sorted hij hx hy
    have hyz := pairwise_at hinv.sorted hjk hy hz
    unfold grouped_before at hxy hyz
    rcases hxy with h | ⟨h1, _⟩ | h
    · rw [h]
    · exact h1.symm
    · rcases hyz with g | ⟨g1, _⟩ | g
      · rw [g, ← hxz] at h; exact absurd h (Nat.lt_irrefl _)
      · rw [g1, ← hxz] at h; exact absurd h (Nat.lt_irrefl _)
      · rw [← hxz] at g; exact absurd (Nat.lt_trans h g) (Nat.lt_irrefl _)

/-- C27. When in the input of `repartition_testcases__` the cases of each test stand
together and the cases of each suite stand together, the sequence returned is the input,
element for element; so the sequence returned for any input is returned again when it is
repartitioned. -/
theorem repartition_testcases_grouped_identity (l : List TC)
    (hT : consecutive get_test l)
    (hS : consecutive (fun c => get_testsuite (get_test c)) l) :
    repartition_testcases__ get_test get_testsuite true l = some l ∧
    ∀ l0 : List TC, ∃ out, repartition_testcases__ get_test get_testsuite true l0 = some out ∧
      repartition_testcases__ get_test get_testsuite true out = some out := by
  have hid : ∀ a : List TC, consecutive get_test a →
      consecutive (fun c => get_testsuite (get_test c)) a →
      repartition_testcases__ get_test get_testsuite true a = some a := by
    intro a h1 h2
    have := write_loop_grouped get_test get_testsuite a.length [] a (Nat.le_refl _) h1 h2
    simpa [repartition_testcases__] using this
  refine ⟨hid l hT hS, ?_⟩
  intro l0
  obtain ⟨out, ho, _⟩ := repartition_invariant get_test get_testsuite l0
  have hc := repartition_output_consecutive get_test get_testsuite l0 out ho
  exact ⟨out, ho, hid out hc.1 hc.2⟩

end GroupedClaim

theorem repartition_testcases_grouped_identity_witness :
    consecutive ExCase.test
      [ExCase.a1, ExCase.a2, ExCase.a3, ExCase.b1, ExCase.b2, ExCase.c1] ∧
    consecutive (fun c => ExTest.suite (ExCase.test c))
      [ExCase.a1, ExCase.a2, ExCase.a3, ExCase.b1, ExCase.b2, ExCase.c1] ∧
    repartition_testcases__ ExCase.test ExTest.suite true
        [ExCase.a1, ExCase.a2, ExCase.a3, ExCase.b1, ExCase.b2, ExCase.c1]
      = some [ExCase.a1, ExCase.a2, ExCase.a3, ExCase.b1, ExCase.b2, ExCase.c1] :=
  have hc := repartition_output_consecutive ExCase.test ExTest.suite
    [ExCase.a1, ExCase.b1, ExCase.a2, ExCase.c1, ExCase.b2, ExCase.a3]
    [ExCase.a1, ExCase.a2, ExCase.a3, ExCase.b1, ExCase.b2, ExCase.c1] (by decide)
  ⟨hc.1, hc.2,
    (repartition_testcases_grouped_identity ExCase.test ExTest.suite
      [ExCase.a1, ExCase.a2, ExCase.a3, ExCase.b1, ExCase.b2, ExCase.c1] hc.1 hc.2).1⟩

/-! ### Formatting into a buffer that is too short -/

theorem store64_length (buf : List Nat) (ofs v : Nat) (h : ofs + 8 ≤ buf.length) :
    (store64 buf ofs v).length = buf.length := by
  unfold store64
  exact write_bytes_length buf _ ofs (by rw [le_bytes_length]; exact h)

theorem store32_length (buf : List Nat) (ofs v : Nat) (h : ofs + 4 ≤ buf.length) :
    (store32 buf ofs v).length = buf.length := by
  unfold store32
  exact write_bytes_length buf _ ofs (by rw [le_bytes_length]; exact h)

theorem location_storage_format_short (base : Nat) (buf : List Nat) (l : ctest_location)
    (h : buf.length < location_storage_size l) :
    (location_storage_format base buf l).1 < 0 := by
  unfold location_storage_format
  unfold location_storage_size at h
  by_cases h16 : 16 > buf.length
  · rw [if_pos h16]; exact Int.negSucc_lt_zero 0
  · rw [if_neg h16]
    cases hf : l.filename with
    | none => rw [hf] at h; simp only [] at h; omega
    | some s =>
      rw [hf] at h
      simp only [serialize_pad_size_one] at h ⊢
      rw [if_pos (by omega)]
      exact Int.negSucc_lt_zero 0

theorem location_storage_format_fit (base : Nat) (buf : List Nat) (l : ctest_location)
    (h : location_storage_size l ≤ buf.length) :
    (location_storage_format base buf l).1 = (location_storage_size l : Int) ∧
    (location_storage_format base buf l).2.length = buf.length := by
  unfold location_storage_format
  unfold location_storage_size at h ⊢
  cases hf : l.filename with
  | none =>
    rw [hf] at h
    simp only [] at h ⊢
    rw [if_neg (by omega)]
    refine ⟨rfl, ?_⟩
    show (store32 (store64 buf 0 0) 8 _).length = buf.length
    rw [store32_length _ _ _ (by rw [store64_length _ _ _ (by omega)]; omega),
      store64_length _ _ _ (by omega)]
  | some s =>
    rw [hf] at h
    simp only [serialize_pad_size_one] at h ⊢
    rw [if_neg (by omega), if_neg (by omega)]
    refine ⟨by push_cast; rfl, ?_⟩
    have h1 : (store64 buf 0 (base + 16)).length = buf.length :=
      store64_length _ _ _ (by omega)
    have h2 : (write_bytes (store64 buf 0 (base + 16)) 16 (cstring_bytes s)).length
        = buf.length := by
      rw [write_bytes_length _ _ _ (by
        rw [h1]; simp only [cstring_bytes, List.length_append, List.length_singleton]; omega),
        h1]
    show (store32 _ 8 _).length = buf.length
    rw [store32_length _ _ _ (by rw [h2]; omega), h2]

theorem stacktrace_format_loop_short (base : Nat) :
    ∀ (frames : List ctest_stackframe) (i ofs : Nat) (buf : List Nat),
      8 + 24 * (i + frames.length) ≤ ofs → ofs ≤ buf.length →
      buf.length < stacktrace_size_loop frames ofs →
      (stacktrace_format_loop base frames i ofs buf).1 < 0 := by
  intro frames
  induction frames with
  | nil =>
    intro i ofs buf _ h2 h3
    rw [stacktrace_size_loop] at h3
    omega
  | cons f rest ih =>
    intro i ofs buf h1 h2 h3
    rw [stacktrace_size_loop] at h3
    rw [stacktrace_format_loop]
    simp only [List.length_cons] at h1
    cases hf : f.filename with
    | none =>
      rw [hf] at h3
      simp only [] at h3 ⊢
      have e1 : (store64 buf (8 + 24 * i + 8) 0).length = buf.length :=
        store64_length _ _ _ (by omega)
      have e2 : (store64 (store64 buf (8 + 24 * i + 8) 0) (8 + 24 * i) f.addr).length
          = buf.length := by
        rw [store64_length _ _ _ (by rw [e1]; omega), e1]
      have e3 : (store32 (store64 (store64 buf (8 + 24 * i + 8) 0) (8 + 24 * i) f.addr)
          (8 + 24 * i + 16) (int_bits f.line)).length = buf.length := by
        rw [store32_length _ _ _ (by rw [e2]; omega), e2]
      exact ih (i + 1) ofs _ (by omega) (by rw [e3]; exact h2) (by rw [e3]; exact h3)
    | some s =>
      rw [hf] at h3
      simp only [serialize_pad_size_one] at h3 ⊢
      by_cases hbig : ofs + (s.length + 1) > buf.length
      · rw [if_pos hbig]; exact Int.negSucc_lt_zero 0
      · rw [if_neg hbig]
        have e1 : (store64 buf (8 + 24 * i + 8) (base + ofs)).length = buf.length :=
          store64_length _ _ _ (by omega)
        have e1b : (write_bytes (store64 buf (8 + 24 * i + 8) (base + ofs)) ofs
            (cstring_bytes s)).length = buf.length := by
          rw [write_bytes_length _ _ _ (by
            rw [e1]; simp only [cstring_bytes, List.length_append, List.length_singleton]
            omega), e1]
        have e2 : (store64 (write_bytes (store64 buf (8 + 24 * i + 8) (base + ofs)) ofs
            (cstring_bytes s)) (8 + 24 * i) f.addr).length = buf.length := by
          rw [store64_length _ _ _ (by rw [e1b]; omega), e1b]
        have e3 : (store32 (store64 (write_bytes (store64 buf (8 + 24 * i + 8) (base + ofs))
            ofs (cstring_bytes s)) (8 + 24 * i) f.addr)
            (8 + 24 * i + 16) (int_bits f.line)).length = buf.length := by
          rw [store32_length _ _ _ (by rw [e2]; omega), e2]
        exact ih (i + 1) (ofs + (s.length + 1)) _ (by omega) (by rw [e3]; omega)
          (by rw [e3]; exact h3)

theorem stacktrace_storage_format_short (base : Nat) (buf : List Nat) (s : ctest_stacktrace)
    (h : buf.length < stacktrace_storage_size s) :
    (stacktrace_storage_format base buf s).1 < 0 := by
  unfold stacktrace_storage_format
  unfold stacktrace_storage_size at h
  by_cases hbig : 8 + 24 * s.frames.length > buf.length
  · simp only [hbig, if_true]; exact Int.negSucc_lt_zero 0
  · simp only [hbig, if_false]
    have e : (store64 buf 0 s.frames.length).length = buf.length :=
      store64_length _ _ _ (by omega)
    exact stacktrace_format_loop_short base s.frames 0 _ _ (by omega) (by rw [e]; omega)
      (by rw [e]; exact h)

theorem storage_format_stacktrace_short (base : Nat) (buf : List Nat) (ofs : Nat)
    (stacktrace : Option ctest_stacktrace) (h32 : 32 ≤ buf.length) (hofs : ofs ≤ buf.length)
    (h : buf.length < ofs + stacktrace_need ofs stacktrace) :
    (storage_format_stacktrace base buf ofs stacktrace).1 < 0 := by
  unfold storage_format_stacktrace
  cases stacktrace with
  | none => simp only [stacktrace_need] at h; omega
  | some s =>
    simp only [stacktrace_need] at h
    have hp := serialize_pad_size_ge ofs
    simp only []
    by_cases hbig : serialize_pad_size ofs 8 > buf.length
    · rw [if_pos hbig]; exact Int.negSucc_lt_zero 0
    · rw [if_neg hbig]
      have e : (store64 buf 24 (base + serialize_pad_size ofs 8)).length = buf.length :=
        store64_length _ _ _ (by omega)
      have hneg := stacktrace_storage_format_short (base + serialize_pad_size ofs 8)
        ((store64 buf 24 (base + serialize_pad_size ofs 8)).drop (serialize_pad_size ofs 8)) s
        (by rw [List.length_drop, e]; omega)
      rw [if_pos hneg]
      exact hneg

theorem storage_format_location_short (base : Nat) (buf : List Nat) (ofs : Nat)
    (location : Option ctest_location) (stacktrace : Option ctest_stacktrace)
    (h32 : 32 ≤ buf.length) (hofs : ofs ≤ buf.length)
    (h : buf.length < ofs + location_need ofs location
      + stacktrace_need (ofs + location_need ofs location) stacktrace) :
    (storage_format_location base buf ofs location stacktrace).1 < 0 := by
  unfold storage_format_location
  cases location with
  | none =>
    simp only [location_need, Nat.add_zero] at h
    exact storage_format_stacktrace_short base _ ofs stacktrace
      (by rw [store64_length _ _ _ (by omega)]; exact h32)
      (by rw [store64_length _ _ _ (by omega)]; exact hofs)
      (by rw [store64_length _ _ _ (by omega)]; exact h)
  | some l =>
    simp only [location_need] at h
    have hp := serialize_pad_size_ge ofs
    simp only []
    by_cases hbig : serialize_pad_size ofs 8 > buf.length
    · rw [if_pos hbig]; exact Int.negSucc_lt_zero 0
    · rw [if_neg hbig]
      have e : (store64 buf 16 (base + serialize_pad_size ofs 8)).length = buf.length :=
        store64_length _ _ _ (by omega)
      have ed : ((store64 buf 16 (base + serialize_pad_size ofs 8)).drop
          (serialize_pad_size ofs 8)).length = buf.length - serialize_pad_size ofs 8 := by
        rw [List.length_drop, e]
      by_cases hshort : buf.length - serialize_pad_size ofs 8 < location_storage_size l
      · have hneg := location_storage_format_short (base + serialize_pad_size ofs 8)
          ((store64 buf 16 (base + serialize_pad_size ofs 8)).drop (serialize_pad_size ofs 8)) l
          (by rw [ed]; exact hshort)
        rw [if_pos hneg]
        exact hneg
      · obtain ⟨hrc, hlen⟩ := location_storage_format_fit (base + serialize_pad_size ofs 8)
          ((store64 buf 16 (base + serialize_pad_size ofs 8)).drop (serialize_pad_size ofs 8)) l
          (by rw [ed]; omega)
        have hnn : ¬ (location_storage_format (base + serialize_pad_size ofs 8)
            ((store64 buf 16 (base + serialize_pad_size ofs 8)).drop
              (serialize_pad_size ofs 8)) l).1 < 0 := by
          rw [hrc]; exact Int.not_lt.mpr (Int.natCast_nonneg _)
        rw [if_neg hnn, hrc, Int.toNat_ofNat]
        have elen : ((store64 buf 16 (base + serialize_pad_size ofs 8)).take
            (serialize_pad_size ofs 8) ++
            (location_storage_format (base + serialize_pad_size ofs 8)
              ((store64 buf 16 (base + serialize_pad_size ofs 8)).drop
                (serialize_pad_size ofs 8)) l).2).length = buf.length := by
          rw [List.length_append, hlen, ed, List.length_take, e]
          omega
        have eofs : ofs + (serialize_pad_size ofs 8 - ofs + location_storage_size l)
            = serialize_pad_size ofs 8 + location_storage_size l := by omega
        rw [eofs] at h
        exact storage_format_stacktrace_short base _ _ stacktrace
          (by rw [elen]; exact h32) (by rw [elen]; omega) (by rw [elen]; exact h)

/-- A buffer shorter than `failure_storage_size` makes `failure_storage_format` return a
negative value. -/
theorem failure_storage_format_short (base : Nat) (buf : List Nat) (f : ctest_failure)
    (h : buf.length < failure_storage_size f) :
    (failure_storage_format base buf f).1 < 0 := by
  have hsize := failure_storage_size_eq f
  have hend := location_end_eq f
  have hde : description_end f = 32 + description_len f.description := rfl
  rw [hde] at hend
  rw [hsize, hend] at h
  have hneg : (storage_format__ base buf f.stage (description_len f.description) f.location
      f.stacktrace).1 < 0 := by
    unfold storage_format__
    by_cases h32 : 32 > buf.length
    · rw [if_pos h32]; exact Int.negSucc_lt_zero 0
    · rw [if_neg h32]
      have e0 : (store32 (List.replicate buf.length 0) 0 f.stage.value).length = buf.length := by
        rw [store32_length _ _ _ (by rw [List.length_replicate]; omega), List.length_replicate]
      simp only [serialize_pad_size_one]
      by_cases hd : description_len f.description > 0
      · rw [if_pos hd]
        by_cases hbig : 32 + description_len f.description > buf.length
        · rw [if_pos hbig]; exact Int.negSucc_lt_zero 0
        · rw [if_neg hbig]
          have e1 := store64_length (store32 (List.replicate buf.length 0) 0 f.stage.value) 8
            (base + 32) (by rw [e0]; omega)
          exact storage_format_location_short base _ _ f.location f.stacktrace
            (by rw [e1, e0]; omega) (by rw [e1, e0]; omega) (by rw [e1, e0]; exact h)
      · rw [if_neg hd]
        have hz : description_len f.description = 0 := by omega
        rw [hz] at h
        simp only [Nat.add_zero] at h
        have e1 := store64_length (store32 (List.replicate buf.length 0) 0 f.stage.value) 8
          0 (by rw [e0]; omega)
        exact storage_format_location_short base _ _ f.location f.stacktrace
          (by rw [e1, e0]; omega) (by rw [e1, e0]; omega) (by rw [e1, e0]; exact h)
  unfold failure_storage_format
  simp only [ge_iff_le, Int.not_le.mpr hneg, if_false]
  exact hneg

/-! ### Where the pointers of a formatted failure point -/

theorem frame_names_append : ∀ (a b : List ctest_stackframe),
    frame_names (a ++ b) = frame_names a ++ frame_names b := by
  intro a
  induction a with
  | nil => intro b; rfl
  | cons f rest ih =>
    intro b
    rw [List.cons_append, frame_names, frame_names, ih, List.append_assoc]

theorem frame_names_single (frame : ctest_stackframe) (n : List Nat)
    (hn : frame.filename = some n) : frame_names [frame] = cstring_bytes n := by
  rw [frame_names, frame_names, hn, List.append_nil]

/-- The names of the frames, split at the name of frame `i`. -/
theorem frame_names_split (frames : List ctest_stackframe) (i : Nat) (frame : ctest_stackframe)
    (n : List Nat) (hi : frames[i]? = some frame) (hn : frame.filename = some n) :
    frame_names frames = frame_names (frames.take i) ++ cstring_bytes n
      ++ frame_names (frames.drop (i + 1)) := by
  obtain ⟨hlt, hget⟩ := List.getElem?_eq_some.mp hi
  have h1 : frames = frames.take i ++ (frame :: frames.drop (i + 1)) := by
    have hd := List.drop_eq_getElem_cons hlt
    rw [hget] at hd
    rw [← hd, List.take_append_drop]
  conv_lhs => rw [h1]
  rw [frame_names_append, frame_names, hn, List.append_assoc]

/-- The name of a frame ends before the name of any later frame starts. -/
theorem frame_names_take_mono (frames : List ctest_stackframe) (i j : Nat)
    (frame : ctest_stackframe) (n : List Nat) (hij : i < j)
    (hi : frames[i]? = some frame) (hn : frame.filename = some n) :
    (frame_names (frames.take i)).length + (n.length + 1)
      ≤ (frame_names (frames.take j)).length := by
  obtain ⟨hlt, hget⟩ := List.getElem?_eq_some.mp hi
  have hi2 : (frames.take j)[i]? = some frame := by
    rw [List.getElem?_take_of_lt hij]; exact hi
  have := frame_names_split (frames.take j) i frame n hi2 hn
  rw [this, List.take_take, Nat.min_eq_left (Nat.le_of_lt hij)]
  simp only [List.length_append, cstring_bytes, List.length_singleton]
  omega

theorem frame_name_size_eq (f : ctest_stackframe) :
    frame_name_size f = (frame_names [f]).length := by
  rw [frame_names, frame_names, List.append_nil]
  unfold frame_name_size
  cases f.filename with
  | none => rfl
  | some s => simp [cstring_bytes]

/-- The `filename` pointer of frame `i` inside the frames of a flattened stack trace. -/
theorem frame_cells_filename (sb : Nat) : ∀ (frames : List ctest_stackframe) (ofs i : Nat)
    (frame : ctest_stackframe) (n : List Nat),
    frames[i]? = some frame → frame.filename = some n →
    ∃ A B, frame_cells (flat_cells sb frames ofs)
        = A ++ le_bytes 8 (sb + (ofs + (frame_names (frames.take i)).length)) ++ B ∧
      A.length = 24 * i + 8 := by
  intro frames
  induction frames with
  | nil => intro ofs i frame n hi _; simp at hi
  | cons f rest ih =>
    intro ofs i frame n hi hn
    cases i with
    | zero =>
      simp only [List.getElem?_cons_zero, Option.some.injEq] at hi
      subst hi
      rw [flat_cells, frame_cells]
      simp only [hn, List.take_zero, frame_names, List.length_nil, Nat.add_zero]
      exact ⟨le_bytes 8 f.addr, le_bytes 4 (int_bits f.line) ++ [0, 0, 0, 0]
        ++ frame_cells (flat_cells sb rest (ofs + frame_name_size f)),
        by simp only [List.append_assoc], by rw [le_bytes_length]⟩
    | succ i =>
      rw [List.getElem?_cons_succ] at hi
      obtain ⟨A, B, hAB, hA⟩ := ih (ofs + frame_name_size f) i frame n hi hn
      have harg : sb + (ofs + frame_name_size f + (frame_names (rest.take i)).length)
          = sb + (ofs + (frame_name_size f + (frame_names (rest.take i)).length)) := by omega
      rw [harg] at hAB
      rw [flat_cells, frame_cells, hAB]
      have hnames : (frame_names ((f :: rest).take (i + 1))).length
          = frame_name_size f + (frame_names (rest.take i)).length := by
        rw [List.take_succ_cons]
        have : f :: rest.take i = [f] ++ rest.take i := rfl
        rw [this, frame_names_append, List.length_append, frame_name_size_eq]
      rw [hnames]
      refine ⟨le_bytes 8 f.addr ++ le_bytes 8 (match f.filename with
          | some _ => sb + ofs
          | none => 0) ++ (le_bytes 4 (int_bits f.line) ++ [0, 0, 0, 0]) ++ A, B, ?_, ?_⟩
      · simp only [List.append_assoc]
      · simp only [List.length_append, le_bytes_length, List.length_cons, List.length_nil, hA]
        omega

/-! ### The pointers of the flattened failure `flat_abs` -/

theorem flat_abs_header (base : Nat) (f : ctest_failure) (T : List Nat)
    (h : base + failure_storage_size f < 18446744073709551616) :
    load64 (flat_abs base f T).bytes 8 = (flat_abs base f T).description ∧
    load64 (flat_abs base f T).bytes 16 = (flat_abs base f T).location ∧
    load64 (flat_abs base f T).bytes 24 = (flat_abs base f T).stacktrace := by
  obtain ⟨h8, hdp, hlp, hsp, _, _⟩ := flat_abs_wf base f T h
  have hstage : (flat_abs base f T).stage_bytes = le_bytes 4 f.stage.value ++ [0, 0, 0, 0] :=
    rfl
  have hb : (flat_abs base f T).bytes
      = le_bytes 4 f.stage.value ++ [0, 0, 0, 0] ++ le_bytes 8 (flat_abs base f T).description
        ++ le_bytes 8 (flat_abs base f T).location
        ++ le_bytes 8 (flat_abs base f T).stacktrace
        ++ ((flat_abs base f T).gap1 ++ opt_bytes LocationPart.bytes (flat_abs base f T).loc
          ++ (flat_abs base f T).gap2
          ++ opt_bytes StacktracePart.bytes (flat_abs base f T).st
          ++ (flat_abs base f T).tail) := by
    unfold FlatFailure.bytes
    rw [hstage]
    simp only [List.append_assoc]
  obtain ⟨_, r1, r2, r3⟩ := read_failure_header base
    ((flat_abs base f T).gap1 ++ opt_bytes LocationPart.bytes (flat_abs base f T).loc
      ++ (flat_abs base f T).gap2
      ++ opt_bytes StacktracePart.bytes (flat_abs base f T).st
      ++ (flat_abs base f T).tail) f.stage _ _ _ hdp hlp hsp
  rw [← hb] at r1 r2 r3
  exact ⟨r1, r2, r3⟩

theorem flat_abs_description (base : Nat) (f : ctest_failure) (T : List Nat) (s : List Nat)
    (hd : f.description = some s) (h : base + failure_storage_size f < 18446744073709551616) :
    load64 (flat_abs base f T).bytes 8 = base + 32 ∧
    read_bytes (flat_abs base f T).bytes 32 (s.length + 1) = cstring_bytes s := by
  have h1 : (flat_abs base f T).description = base + 32 := by
    unfold flat_abs flat_failure; simp only [hd]
  refine ⟨by rw [(flat_abs_header base f T h).1, h1], ?_⟩
  obtain ⟨pad, hg⟩ : ∃ pad, (flat_abs base f T).gap1 = cstring_bytes s ++ pad := by
    unfold flat_abs flat_failure description_bytes
    simp only [hd]
    exact ⟨_, rfl⟩
  have h8 : (flat_abs base f T).stage_bytes.length = 8 := by
    simp [flat_abs, flat_failure, le_bytes_length]
  have hb : (flat_abs base f T).bytes
      = ((flat_abs base f T).stage_bytes ++ le_bytes 8 (flat_abs base f T).description
        ++ le_bytes 8 (flat_abs base f T).location
        ++ le_bytes 8 (flat_abs base f T).stacktrace) ++ cstring_bytes s
        ++ (pad ++ opt_bytes LocationPart.bytes (flat_abs base f T).loc
          ++ (flat_abs base f T).gap2
          ++ opt_bytes StacktracePart.bytes (flat_abs base f T).st
          ++ (flat_abs base f T).tail) := by
    unfold FlatFailure.bytes
    rw [hg]
    simp only [List.append_assoc]
  have hl : ((flat_abs base f T).stage_bytes
      ++ le_bytes 8 (flat_abs base f T).description
      ++ le_bytes 8 (flat_abs base f T).location
      ++ le_bytes 8 (flat_abs base f T).stacktrace).length = 32 := by
    simp only [List.length_append, le_bytes_length, h8]
  have hc : (cstring_bytes s).length = s.length + 1 := by
    simp [cstring_bytes]
  have := read_bytes_at ((flat_abs base f T).stage_bytes
      ++ le_bytes 8 (flat_abs base f T).description
      ++ le_bytes 8 (flat_abs base f T).location
      ++ le_bytes 8 (flat_abs base f T).stacktrace) (cstring_bytes s)
    (pad ++ opt_bytes LocationPart.bytes (flat_abs base f T).loc
          ++ (flat_abs base f T).gap2
          ++ opt_bytes StacktracePart.bytes (flat_abs base f T).st
          ++ (flat_abs base f T).tail)
  rw [hl, hc, ← hb] at this
  exact this

theorem flat_abs_location (base : Nat) (f : ctest_failure) (T : List Nat) (l : ctest_location)
    (hl : f.location = some l) (h : base + failure_storage_size f < 18446744073709551616) :
    load64 (flat_abs base f T).bytes 16 = base + serialize_pad_size (description_end f) 8 ∧
    ∀ n, l.filename = some n →
      load64 (flat_abs base f T).bytes (serialize_pad_size (description_end f) 8)
        = base + (serialize_pad_size (description_end f) 8 + 16) ∧
      read_bytes (flat_abs base f T).bytes (serialize_pad_size (description_end f) 8 + 16)
        (n.length + 1) = cstring_bytes n := by
  have h8 : (flat_abs base f T).stage_bytes.length = 8 := by
    simp [flat_abs, flat_failure, le_bytes_length]
  have h1 : (flat_abs base f T).location
      = base + serialize_pad_size (description_end f) 8 := by
    unfold flat_abs flat_failure; simp only [hl]
  have h2 : (flat_abs base f T).loc
      = some (flat_location (base + serialize_pad_size (description_end f) 8) l) := by
    unfold flat_abs flat_failure; simp only [hl, Option.map_some']
  have hofs : (flat_abs base f T).loc_ofs = serialize_pad_size (description_end f) 8 :=
    flat_failure_loc_ofs _ _ _ f _ T (description_bytes_length f) l hl
  obtain ⟨P, hP, hb⟩ := flat_bytes_loc (flat_abs base f T) h8
  rw [hofs] at hP
  have hend := location_end_some f l hl
  have hle := location_end_le f
  have hge := location_storage_size_ge l
  refine ⟨by rw [(flat_abs_header base f T h).2.1, h1], ?_⟩
  intro n hn
  have hbytes : (flat_location (base + serialize_pad_size (description_end f) 8) l).bytes
      = le_bytes 8 (base + serialize_pad_size (description_end f) 8 + 16)
        ++ (le_bytes 4 (int_bits l.line) ++ [0, 0, 0, 0]) ++ cstring_bytes n := by
    unfold LocationPart.bytes flat_location location_rest
    simp only [hn, List.append_assoc]
  rw [h2, opt_bytes_some, hbytes] at hb
  have hc : (cstring_bytes n).length = n.length + 1 := by
    simp [cstring_bytes]
  constructor
  · have := load64_at P ((le_bytes 4 (int_bits l.line) ++ [0, 0, 0, 0]) ++ cstring_bytes n
      ++ ((flat_abs base f T).gap2 ++ opt_bytes StacktracePart.bytes (flat_abs base f T).st
        ++ (flat_abs base f T).tail))
      (base + serialize_pad_size (description_end f) 8 + 16) (by omega)
    rw [hP] at this
    rw [hb, ← Nat.add_assoc]
    simp only [List.append_assoc] at this ⊢
    exact this
  · have := read_bytes_at (P ++ le_bytes 8 (base + serialize_pad_size (description_end f) 8 + 16)
        ++ (le_bytes 4 (int_bits l.line) ++ [0, 0, 0, 0])) (cstring_bytes n)
      ((flat_abs base f T).gap2 ++ opt_bytes StacktracePart.bytes (flat_abs base f T).st
        ++ (flat_abs base f T).tail)
    have hA : (P ++ le_bytes 8 (base + serialize_pad_size (description_end f) 8 + 16)
        ++ (le_bytes 4 (int_bits l.line) ++ [0, 0, 0, 0])).length
        = serialize_pad_size (description_end f) 8 + 16 := by
      simp only [List.length_append, le_bytes_length, List.length_cons, List.length_nil, hP]
    rw [hA, hc] at this
    rw [hb]
    simp only [List.append_assoc] at this ⊢
    exact this

theorem flat_abs_stacktrace (base : Nat) (f : ctest_failure) (T : List Nat)
    (s : ctest_stacktrace) (hs : f.stacktrace = some s)
    (h : base + failure_storage_size f < 18446744073709551616) :
    load64 (flat_abs base f T).bytes 24 = base + serialize_pad_size (location_end f) 8 ∧
    load64 (flat_abs base f T).bytes (serialize_pad_size (location_end f) 8)
      = s.frames.length ∧
    ∀ (i : Nat) (frame : ctest_stackframe) (n : List Nat),
      s.frames[i]? = some frame → frame.filename = some n →
      load64 (flat_abs base f T).bytes (serialize_pad_size (location_end f) 8 + 8 + 24 * i + 8)
        = base + (serialize_pad_size (location_end f) 8
            + (8 + 24 * s.frames.length + (frame_names (s.frames.take i)).length)) ∧
      read_bytes (flat_abs base f T).bytes
        (serialize_pad_size (location_end f) 8
            + (8 + 24 * s.frames.length + (frame_names (s.frames.take i)).length))
        (n.length + 1) = cstring_bytes n := by
  have h8 : (flat_abs base f T).stage_bytes.length = 8 := by
    simp [flat_abs, flat_failure, le_bytes_length]
  have h1 : (flat_abs base f T).stacktrace
      = base + serialize_pad_size (location_end f) 8 := by
    unfold flat_abs flat_failure; simp only [hs]
  have h2 : (flat_abs base f T).st
      = some (flat_stacktrace (base + serialize_pad_size (location_end f) 8) s) := by
    unfold flat_abs flat_failure; simp only [hs, Option.map_some']
  have hofs : (flat_abs base f T).st_ofs = serialize_pad_size (location_end f) 8 :=
    flat_failure_st_ofs _ _ _ f _ T (description_bytes_length f) s hs
  obtain ⟨P, hP, hb⟩ := flat_bytes_st (flat_abs base f T) h8
  rw [hofs] at hP
  have hsz := failure_storage_size_some f s hs
  have hsize := stacktrace_storage_size_eq s
  have hbytes : (flat_stacktrace (base + serialize_pad_size (location_end f) 8) s).bytes
      = le_bytes 8 s.frames.length
        ++ frame_cells (flat_cells (base + serialize_pad_size (location_end f) 8) s.frames
          (8 + 24 * s.frames.length))
        ++ frame_names s.frames := by
    unfold StacktracePart.bytes flat_stacktrace
    simp only [flat_cells_length]
  rw [h2, opt_bytes_some, hbytes] at hb
  refine ⟨by rw [(flat_abs_header base f T h).2.2, h1], ?_, ?_⟩
  · have := load64_at P (frame_cells (flat_cells (base + serialize_pad_size (location_end f) 8)
      s.frames (8 + 24 * s.frames.length)) ++ frame_names s.frames ++ (flat_abs base f T).tail)
      s.frames.length (by omega)
    rw [hP] at this
    rw [hb]
    simp only [List.append_assoc] at this ⊢
    exact this
  · intro i frame n hi hn
    have hsplit := frame_names_split s.frames i frame n hi hn
    have hnl : (frame_names s.frames).length = (frame_names (s.frames.take i)).length
        + (n.length + 1) + (frame_names (s.frames.drop (i + 1))).length := by
      rw [hsplit]
      simp only [List.length_append, cstring_bytes, List.length_singleton]
    have hc : (cstring_bytes n).length = n.length + 1 := by
      simp [cstring_bytes]
    have hcl := frame_cells_flat_length (base + serialize_pad_size (location_end f) 8)
      s.frames (8 + 24 * s.frames.length)
    constructor
    · obtain ⟨A, B, hAB, hA⟩ := frame_cells_filename
        (base + serialize_pad_size (location_end f) 8) s.frames (8 + 24 * s.frames.length)
        i frame n hi hn
      rw [hAB] at hb
      have := load64_at (P ++ le_bytes 8 s.frames.length ++ A)
        (B ++ frame_names s.frames ++ (flat_abs base f T).tail)
        (base + serialize_pad_size (location_end f) 8
          + (8 + 24 * s.frames.length + (frame_names (s.frames.take i)).length)) (by omega)
      have hAl : (P ++ le_bytes 8 s.frames.length ++ A).length
          = serialize_pad_size (location_end f) 8 + 8 + 24 * i + 8 := by
        simp only [List.length_append, le_bytes_length, hP, hA]; omega
      rw [hAl] at this
      have e : base + (serialize_pad_size (location_end f) 8
            + (8 + 24 * s.frames.length + (frame_names (s.frames.take i)).length))
          = base + serialize_pad_size (location_end f) 8
            + (8 + 24 * s.frames.length + (frame_names (s.frames.take i)).length) := by omega
      rw [hb, e]
      simp only [List.append_assoc] at this ⊢
      exact this
    · rw [hsplit] at hb
      have := read_bytes_at (P ++ le_bytes 8 s.frames.length
          ++ frame_cells (flat_cells (base + serialize_pad_size (location_end f) 8) s.frames
            (8 + 24 * s.frames.length)) ++ frame_names (s.frames.take i)) (cstring_bytes n)
        (frame_names (s.frames.drop (i + 1)) ++ (flat_abs base f T).tail)
      have hAl : (P ++ le_bytes 8 s.frames.length
          ++ frame_cells (flat_cells (base + serialize_pad_size (location_end f) 8) s.frames
            (8 + 24 * s.frames.length)) ++ frame_names (s.frames.take i)).length
          = serialize_pad_size (location_end f) 8
            + (8 + 24 * s.frames.length + (frame_names (s.frames.take i)).length) := by
        simp only [List.length_append, le_bytes_length, hP, hcl]; omega
      rw [hAl, hc] at this
      rw [hb]
      simp only [List.append_assoc] at this ⊢
      exact this

/-! ### The value and the layout of `failure_storage_format` -/

/-- The value and the layout of `failure_storage_format` when the offset it returns is not
converted to `int`. For a buffer `buf` of `len` bytes at address `base` that lies in the
address space, the value is negative when `len` is less than `failure_storage_size(f)`, and
is `failure_storage_size(f)` otherwise. In that case the regions stand in the first
`failure_storage_size(f)` bytes in this order, each ending before the next starts: the 32
bytes of the header; the description at offset 32, where the `description` pointer points;
the location at the offset the `location` pointer holds, its file name 16 bytes further,
where its `filename` pointer points; the stack trace with its frames at the offset the
`stacktrace` pointer holds; and behind the frames the file names of the frames in the order
of the frames, each where the `filename` pointer of its frame points. -/
theorem failure_storage_format_offsets (base : Nat) (buf : List Nat) (f : ctest_failure)
    (hbuf : base + buf.length < 18446744073709551616) :
    (buf.length < failure_storage_size f → (failure_storage_format base buf f).1 < 0) ∧
    (failure_storage_size f ≤ buf.length →
      (failure_storage_format base buf f).1 = (failure_storage_size f : Int) ∧
      (failure_storage_format base buf f).2.length = buf.length ∧
      32 ≤ description_end f ∧ description_end f ≤ location_end f ∧
      location_end f ≤ failure_storage_size f ∧
      (∀ s, f.description = some s →
        load64 (failure_storage_format base buf f).2 8 = base + 32 ∧
        read_bytes (failure_storage_format base buf f).2 32 (s.length + 1) = cstring_bytes s ∧
        32 + (s.length + 1) = description_end f) ∧
      (f.description = none → load64 (failure_storage_format base buf f).2 8 = 0) ∧
      (∀ l, f.location = some l →
        load64 (failure_storage_format base buf f).2 16
          = base + serialize_pad_size (description_end f) 8 ∧
        description_end f ≤ serialize_pad_size (description_end f) 8 ∧
        serialize_pad_size (description_end f) 8 + location_storage_size l = location_end f ∧
        16 ≤ location_storage_size l ∧
        ∀ n, l.filename = some n →
          load64 (failure_storage_format base buf f).2
              (serialize_pad_size (description_end f) 8)
            = base + (serialize_pad_size (description_end f) 8 + 16) ∧
          read_bytes (failure_storage_format base buf f).2
              (serialize_pad_size (description_end f) 8 + 16) (n.length + 1)
            = cstring_bytes n ∧
          16 + (n.length + 1) = location_storage_size l) ∧
      (f.location = none → load64 (failure_storage_format base buf f).2 16 = 0) ∧
      (∀ st, f.stacktrace = some st →
        load64 (failure_storage_format base buf f).2 24
          = base + serialize_pad_size (location_end f) 8 ∧
        location_end f ≤ serialize_pad_size (location_end f) 8 ∧
        serialize_pad_size (location_end f) 8 + stacktrace_storage_size st
          = failure_storage_size f ∧
        load64 (failure_storage_format base buf f).2 (serialize_pad_size (location_end f) 8)
          = st.frames.length ∧
        ∀ (i : Nat) (frame : ctest_stackframe) (n : List Nat),
          st.frames[i]? = some frame → frame.filename = some n →
          load64 (failure_storage_format base buf f).2
              (serialize_pad_size (location_end f) 8 + 8 + 24 * i + 8)
            = base + (serialize_pad_size (location_end f) 8
                + (8 + 24 * st.frames.length + (frame_names (st.frames.take i)).length)) ∧
          read_bytes (failure_storage_format base buf f).2
              (serialize_pad_size (location_end f) 8
                + (8 + 24 * st.frames.length + (frame_names (st.frames.take i)).length))
              (n.length + 1) = cstring_bytes n ∧
          8 + 24 * st.frames.length + (frame_names (st.frames.take i)).length + (n.length + 1)
            ≤ stacktrace_storage_size st ∧
          ∀ j, i < j → (frame_names (st.frames.take i)).length + (n.length + 1)
            ≤ (frame_names (st.frames.take j)).length) ∧
      (f.stacktrace = none → load64 (failure_storage_format base buf f).2 24 = 0)) := by
  refine ⟨failure_storage_format_short base buf f, ?_⟩
  intro hfit
  have hle := location_end_le f
  have hend := location_end_eq f
  have hde : description_end f = 32 + description_len f.description := rfl
  have h : base + failure_storage_size f < 18446744073709551616 := by omega
  have hflat := failure_storage_format_flat base buf f hfit (by omega)
  have hhdr := flat_abs_header base f (List.replicate (buf.length - failure_storage_size f) 0) h
  rw [hflat]
  simp only []
  refine ⟨trivial, ?_, by omega, by omega, hle, ?_, ?_, ?_, ?_, ?_, ?_⟩
  · unfold flat_abs
    rw [flat_failure_bytes_length _ _ _ f _ _ (description_bytes_length f) (by
      intro s hs
      have := failure_storage_size_some f s hs
      omega), List.length_replicate]
    omega
  · intro s hs
    obtain ⟨h1, h2⟩ := flat_abs_description base f _ s hs h
    refine ⟨h1, h2, ?_⟩
    rw [hde, hs]
    rfl
  · intro hd
    rw [hhdr.1]
    unfold flat_abs flat_failure
    simp only [hd]
  · intro l hl
    obtain ⟨h1, h2⟩ := flat_abs_location base f _ l hl h
    refine ⟨h1, serialize_pad_size_ge _, (location_end_some f l hl).symm,
      location_storage_size_ge l, ?_⟩
    intro n hn
    refine ⟨(h2 n hn).1, (h2 n hn).2, ?_⟩
    unfold location_storage_size
    rw [hn]
    simp only [serialize_pad_size_one]
    omega
  · intro hl
    rw [hhdr.2.1]
    unfold flat_abs flat_failure
    simp only [hl]
  · intro st hs
    obtain ⟨h1, h2, h3⟩ := flat_abs_stacktrace base f _ st hs h
    refine ⟨h1, serialize_pad_size_ge _, (failure_storage_size_some f st hs).symm, h2, ?_⟩
    intro i frame n hi hn
    refine ⟨(h3 i frame n hi hn).1, (h3 i frame n hi hn).2, ?_, ?_⟩
    · rw [stacktrace_storage_size_eq, frame_names_split st.frames i frame n hi hn]
      simp only [List.length_append, cstring_bytes, List.length_singleton]
      omega
    · intro j hij
      exact frame_names_take_mono st.frames i j frame n hij hi hn
  · intro hs
    rw [hhdr.2.2]
    unfold flat_abs flat_failure
    simp only [hs]

/-! ### Roman numerals: the loop of `rntoi` on the characters in reverse -/

theorem take_succ_reverse (input : List Nat) (k : Nat) (c : Nat) (h : input[k]? = some c) :
    (input.take (k + 1)).reverse = c :: (input.take k).reverse := by
  rw [List.take_succ, h]
  simp

theorem take_reverse_head (input : List Nat) (k : Nat) (hk : k ≤ input.length) :
    ((input.take k).reverse).head? = if k = 0 then none else input[k - 1]? := by
  cases k with
  | zero => simp
  | succ k =>
    have hlt : k < input.length := hk
    rw [take_succ_reverse input k input[k] (List.getElem?_eq_getElem hlt)]
    simp [List.getElem?_eq_getElem hlt]

/-- With enough fuel the loop of `rntoi` at index `k - 1` is `rntoi_rev` on the first `k`
characters reversed. -/
theorem rntoi_loop_rev (input : List Nat) : ∀ (fuel k : Nat) (acc value count : Int)
    (prev_ch : Nat) (prev_numeral : numeral), k ≤ input.length → k < fuel →
    rntoi_loop input fuel ((k : Int) - 1) acc value count prev_ch prev_numeral
      = rntoi_rev (input.take k).reverse false acc value count prev_ch prev_numeral := by
  intro fuel
  induction fuel with
  | zero => intro k _ _ _ _ _ _ hf; omega
  | succ fuel ih =>
    intro k acc value count prev_ch prev_numeral hk hf
    cases k with
    | zero =>
      rw [rntoi_loop]
      simp [rntoi_rev]
    | succ k =>
      have hlt : k < input.length := hk
      have hget : input[k]? = some input[k] := List.getElem?_eq_getElem hlt
      have hi : ((k + 1 : Nat) : Int) - 1 = (k : Int) := by omega
      rw [take_succ_reverse input k _ hget, rntoi_loop, rntoi_rev, hi]
      have hge : (k : Int) ≥ 0 := Int.natCast_nonneg _
      rw [if_pos hge, Int.toNat_ofNat, hget]
      simp only []
      have hrec : ∀ a v c p q, rntoi_loop input fuel ((k : Int) - 1) a v c p q
          = rntoi_rev (input.take k).reverse false a v c p q :=
        fun a v c p q => ih k a v c p q (Nat.le_of_lt hlt) (by omega)
      have hhead := take_reverse_head input k (Nat.le_of_lt hlt)
      by_cases hsame : tolower input[k] = prev_ch
      · rw [if_pos hsame, if_pos hsame, hrec]
      · rw [if_neg hsame, if_neg hsame]
        cases hl : lval (tolower input[k]) with
        | none => rfl
        | some numeral =>
          simp only []
          cases k with
          | zero =>
            have hno : ¬ (((0 : Nat) : Int) > 0
                ∧ input[(((0 : Nat) : Int) - 1).toNat]? = some numeral.subtracts_from) :=
              fun h => absurd h.1 (by decide)
            rw [if_neg hno]
            have hno2 : ¬ ((input.take 0).reverse.head? = some numeral.subtracts_from) := by
              simp
            rw [if_neg hno2, hrec]
          | succ k0 =>
            have hlt0 : k0 < input.length := by omega
            have hidx : (((k0 + 1 : Nat) : Int) - 1).toNat = k0 := by omega
            have hpos : ((k0 + 1 : Nat) : Int) > 0 := by omega
            rw [hidx]
            rw [hhead]
            simp only [Nat.add_sub_cancel, Nat.succ_ne_zero, if_false, hpos, true_and]
            by_cases hsub : input[k0]? = some numeral.subtracts_from
            · rw [if_pos hsub, if_pos hsub]
              cases hb : (input[k0]?).bind lval with
              | none => rfl
              | some sub =>
                simp only []
                have hi2 : ((k0 + 1 : Nat) : Int) - 1 - 1 = (k0 : Int) - 1 := by omega
                rw [hi2, ih k0 _ _ _ _ _ (Nat.le_of_lt hlt0) (by omega),
                  take_succ_reverse input k0 _ (List.getElem?_eq_getElem hlt0), rntoi_rev]
            · rw [if_neg hsub, if_neg hsub, hrec]

/-! ### Roman numerals: one decimal place -/

/-- The loop of `rntoi` over the digit `k` of one decimal place, written with the letters
`o`, `f` and `t` for one, five and ten units `u` of the place: the digit adds `k * u`. -/
theorem rntoi_rev_digit (o f t s1 u mf : Nat) (N1 N5 N10 : numeral)
    (hlo : tolower o = o) (hlf : tolower f = f) (hlt : tolower t = t)
    (hN1 : lval o = some N1) (hN5 : lval f = some N5) (hN10 : lval t = some N10)
    (hv1 : N1.value = u) (hm1 : N1.max_follows = mf) (hc1 : N1.max_consecutive = 3)
    (hs1 : N1.subtracts_from = s1)
    (hv5 : N5.value = 5 * u) (hm5 : N5.max_follows = u) (hs5 : N5.subtracts_from = o)
    (hv10 : N10.value = 10 * u) (hs10 : N10.subtracts_from = o)
    (hof : o ≠ f) (hos : o ≠ s1) (hfs : f ≠ s1) (hmf : mf ≤ u)
    (k : Nat) (hk : k < 10) (Rest : List Nat) (acc value count : Int) (pc : Nat) (pn : numeral)
    (hval : value ≤ (mf : Int)) (hpo : pc ≠ o) (hpf : pc ≠ f) (hpt : pc ≠ t)
    (hpeek1 : Rest.head? ≠ some s1) (hpeek5 : Rest.head? ≠ some o) :
    ∃ (acc1 value1 count1 : Int) (pc1 : Nat) (pn1 : numeral),
      rntoi_rev ((roman_digit o f t k).reverse ++ Rest) false acc value count pc pn
        = rntoi_rev Rest false acc1 value1 count1 pc1 pn1 ∧
      acc1 = acc + ((k * u : Nat) : Int) ∧ value1 ≤ ((9 * u : Nat) : Int) ∧
      (pc1 = pc ∨ pc1 = o ∨ pc1 = f ∨ pc1 = 0) := by
  have hval5 : value ≤ (u : Int) := by omega
  have hop : ¬ (o = pc) := fun h => hpo h.symm
  have hfp : ¬ (f = pc) := fun h => hpf h.symm
  have htp : ¬ (t = pc) := fun h => hpt h.symm
  have hfo : ¬ (f = o) := fun h => hof h.symm
  have hso : ¬ (some o = some s1) := fun h => hos (Option.some.inj h)
  have hsf : ¬ (some f = some s1) := fun h => hfs (Option.some.inj h)
  have hle : (u : Int) ≤ (u : Int) := Int.le_refl _
  interval_cases k
  · exact ⟨acc, value, count, pc, pn, by simp [roman_digit], by simp, by omega, Or.inl rfl⟩
  · refine ⟨acc + u, u, 1, o, N1, ?_, by simp, by omega, Or.inr (Or.inl rfl)⟩
    simp [roman_digit, rntoi_rev, hlo, hop, hN1, hs1, hpeek1, hm1, hval, hv1]
  · refine ⟨acc + u + u, u, 1 + 1, o, N1, ?_, by push_cast; omega, by omega,
      Or.inr (Or.inl rfl)⟩
    simp [roman_digit, rntoi_rev, hlo, hop, hN1, hs1, hpeek1, hm1, hval, hv1, hso, hos, hc1]
  · refine ⟨acc + u + u + u, u, 1 + 1 + 1, o, N1, ?_, by push_cast; omega, by omega,
      Or.inr (Or.inl rfl)⟩
    simp [roman_digit, rntoi_rev, hlo, hop, hN1, hs1, hpeek1, hm1, hval, hv1, hso, hos, hc1]
  · refine ⟨acc + ((5 * u : Nat) - (u : Int)), ((5 * u : Nat) : Int) - (u : Int), 1, 0,
      romnum.undef, ?_, by push_cast; omega, by push_cast; omega, Or.inr (Or.inr (Or.inr rfl))⟩
    simp [roman_digit, rntoi_rev, hlf, hfp, hN5, hs5, hN1, hv5, hv1]
  · refine ⟨acc + (5 * u : Nat), (5 * u : Nat), 1, f, N5, ?_, by push_cast; omega,
      by push_cast; omega, Or.inr (Or.inr (Or.inl rfl))⟩
    simp [roman_digit, rntoi_rev, hlf, hfp, hN5, hs5, hpeek5, hm5, hval5, hv5]
  · refine ⟨acc + u + (5 * u : Nat), (5 * u : Nat), 1, f, N5, ?_, by push_cast; omega,
      by push_cast; omega, Or.inr (Or.inr (Or.inl rfl))⟩
    simp [roman_digit, rntoi_rev, hlo, hop, hN1, hs1, hm1, hval, hv1, hsf, hfs, hlf, hfo,
      hN5, hs5, hpeek5, hm5, hv5]
  · refine ⟨acc + u + u + (5 * u : Nat), (5 * u : Nat), 1, f, N5, ?_, by push_cast; omega,
      by push_cast; omega, Or.inr (Or.inr (Or.inl rfl))⟩
    simp [roman_digit, rntoi_rev, hlo, hop, hN1, hs1, hm1, hval, hv1, hso, hos, hc1, hsf,
      hfs, hlf, hfo, hN5, hs5, hpeek5, hm5, hv5]
  · refine ⟨acc + u + u + u + (5 * u : Nat), (5 * u : Nat), 1, f, N5, ?_,
      by push_cast; omega, by push_cast; omega, Or.inr (Or.inr (Or.inl rfl))⟩
    simp [roman_digit, rntoi_rev, hlo, hop, hN1, hs1, hm1, hval, hv1, hso, hos, hc1, hsf,
      hfs, hlf, hfo, hN5, hs5, hpeek5, hm5, hv5]
  · refine ⟨acc + ((10 * u : Nat) - (u : Int)), ((10 * u : Nat) : Int) - (u : Int), 1, 0,
      romnum.undef, ?_, by push_cast; omega, by push_cast; omega, Or.inr (Or.inr (Or.inr rfl))⟩
    simp [roman_digit, rntoi_rev, hlt, htp, hN10, hs10, hN1, hv10, hv1]

/-! ### Roman numerals: `rntoi` on the canonical numerals -/

theorem roman_digit_ne_nil (a b c k : Nat) (hk : k < 10) (h0 : k ≠ 0) :
    roman_digit a b c k ≠ [] := by
  interval_cases k <;> simp [roman_digit] at h0 ⊢

theorem roman_digit_mem (a b c k p : Nat) (hk : k < 10) (hp : p ∈ roman_digit a b c k) :
    p = a ∨ p = b ∨ p = c := by
  interval_cases k <;> simp [roman_digit] at hp <;> omega

theorem roman_digit_mem_one (a b c k p : Nat) (hk : k < 4) (hp : p ∈ roman_digit a b c k) :
    p = a := by
  interval_cases k <;> simp [roman_digit] at hp <;> omega

/-- The loop of `rntoi` over the thousands, the first characters of the numeral. -/
theorem rntoi_rev_thousands (k : Nat) (hk : k < 4) (acc value count : Int) (pc : Nat)
    (pn : numeral) (hval : value ≤ 900) (hpc : pc ≠ 109) :
    rntoi_rev (roman_digit 109 0 0 k).reverse false acc value count pc pn
      = some (acc + ((k * 1000 : Nat) : Int)) := by
  have hp : ¬ (109 = pc) := fun h => hpc h.symm
  have hl : tolower 109 = 109 := by decide
  have hN : lval 109 = some romnum.m := by decide
  interval_cases k
  · simp [roman_digit, rntoi_rev]
  · simp [roman_digit, rntoi_rev, hl, hp, hN, romnum.m, hval]
  · simp [roman_digit, rntoi_rev, hl, hp, hN, romnum.m, hval]
    omega
  · simp [roman_digit, rntoi_rev, hl, hp, hN, romnum.m, hval]
    omega

theorem head_mem {p : Nat} {l : List Nat} (h : l.head? = some p) : p ∈ l := by
  cases l with
  | nil => simp at h
  | cons a rest =>
    simp only [List.head?_cons, Option.some.injEq] at h
    rw [h]
    exact List.mem_cons_self _ _

theorem rntoi_roman (n : Nat) (h1 : 1 ≤ n) (h2 : n ≤ 3999) :
    rntoi (roman_numeral n) = some (n : Int) := by
  have hd0 : n % 10 < 10 := by omega
  have hd1 : n / 10 % 10 < 10 := by omega
  have hd2 : n / 100 % 10 < 10 := by omega
  have hd3 : n / 1000 < 4 := by omega
  have hne : (roman_numeral n).length ≠ 0 := by
    intro h
    have hnil := List.length_eq_zero.mp h
    unfold roman_numeral at hnil
    simp only [List.append_eq_nil] at hnil
    obtain ⟨⟨⟨ht, hh⟩, hx⟩, hu⟩ := hnil
    have e0 : n % 10 = 0 := by
      by_contra hc; exact roman_digit_ne_nil _ _ _ _ hd0 hc hu
    have e1 : n / 10 % 10 = 0 := by
      by_contra hc; exact roman_digit_ne_nil _ _ _ _ hd1 hc hx
    have e2 : n / 100 % 10 = 0 := by
      by_contra hc; exact roman_digit_ne_nil _ _ _ _ hd2 hc hh
    have e3 : n / 1000 = 0 := by
      by_contra hc; exact roman_digit_ne_nil _ _ _ _ (by omega) hc ht
    omega
  unfold rntoi
  rw [if_neg hne, rntoi_loop_rev (roman_numeral n) _ (roman_numeral n).length 0 0 0 0
    romnum.undef (Nat.le_refl _) (Nat.lt_succ_self _), List.take_length]
  unfold roman_numeral
  rw [List.reverse_append, List.reverse_append, List.reverse_append]
  -- the letters of the higher places
  have hT : ∀ p ∈ (roman_digit 109 0 0 (n / 1000)).reverse, p = 109 := fun p hp =>
    roman_digit_mem_one _ _ _ _ p hd3 (List.mem_reverse.mp hp)
  have hH : ∀ p ∈ (roman_digit 99 100 109 (n / 100 % 10)).reverse,
      p = 99 ∨ p = 100 ∨ p = 109 := fun p hp =>
    roman_digit_mem _ _ _ _ p hd2 (List.mem_reverse.mp hp)
  have hX : ∀ p ∈ (roman_digit 120 108 99 (n / 10 % 10)).reverse,
      p = 120 ∨ p = 108 ∨ p = 99 := fun p hp =>
    roman_digit_mem _ _ _ _ p hd1 (List.mem_reverse.mp hp)
  have hR2 : ∀ p ∈ (roman_digit 99 100 109 (n / 100 % 10)).reverse
      ++ (roman_digit 109 0 0 (n / 1000)).reverse, p = 99 ∨ p = 100 ∨ p = 109 := by
    intro p hp
    rcases List.mem_append.mp hp with h | h
    · exact hH p h
    · exact Or.inr (Or.inr (hT p h))
  have hR1 : ∀ p ∈ (roman_digit 120 108 99 (n / 10 % 10)).reverse
      ++ ((roman_digit 99 100 109 (n / 100 % 10)).reverse
        ++ (roman_digit 109 0 0 (n / 1000)).reverse),
      p = 120 ∨ p = 108 ∨ p = 99 ∨ p = 100 ∨ p = 109 := by
    intro p hp
    rcases List.mem_append.mp hp with h | h
    · have := hX p h; omega
    · have := hR2 p h; omega
  -- the units
  obtain ⟨a1, v1, c1, p1, q1, e1, ha1, hv1, hp1⟩ := rntoi_rev_digit 105 118 120 0 1 0
    romnum.i romnum.v romnum.x (by decide) (by decide) (by decide) (by decide) (by decide)
    (by decide) rfl rfl rfl rfl rfl rfl rfl rfl rfl (by decide) (by decide) (by decide)
    (by decide) (n % 10) hd0
    ((roman_digit 120 108 99 (n / 10 % 10)).reverse
      ++ ((roman_digit 99 100 109 (n / 100 % 10)).reverse
        ++ (roman_digit 109 0 0 (n / 1000)).reverse))
    0 0 0 0 romnum.undef (by decide) (by decide) (by decide) (by decide)
    (fun h => by have := hR1 _ (head_mem h); omega)
    (fun h => by have := hR1 _ (head_mem h); omega)
  -- the tens
  obtain ⟨a2, v2, c2, p2, q2, e2, ha2, hv2, hp2⟩ := rntoi_rev_digit 120 108 99 105 10 9
    romnum.x romnum.l romnum.c (by decide) (by decide) (by decide) (by decide) (by decide)
    (by decide) rfl rfl rfl rfl rfl rfl rfl rfl rfl (by decide) (by decide) (by decide)
    (by decide) (n / 10 % 10) hd1
    ((roman_digit 99 100 109 (n / 100 % 10)).reverse
        ++ (roman_digit 109 0 0 (n / 1000)).reverse)
    a1 v1 c1 p1 q1 (by omega) (by omega) (by omega) (by omega)
    (fun h => by have := hR2 _ (head_mem h); omega)
    (fun h => by have := hR2 _ (head_mem h); omega)
  -- the hundreds
  obtain ⟨a3, v3, c3, p3, q3, e3, ha3, hv3, hp3⟩ := rntoi_rev_digit 99 100 109 120 100 90
    romnum.c romnum.d romnum.m (by decide) (by decide) (by decide) (by decide) (by decide)
    (by decide) rfl rfl rfl rfl rfl rfl rfl rfl rfl (by decide) (by decide) (by decide)
    (by decide) (n / 100 % 10) hd2
    (roman_digit 109 0 0 (n / 1000)).reverse
    a2 v2 c2 p2 q2 (by omega) (by omega) (by omega) (by omega)
    (fun h => by have := hT _ (head_mem h); omega)
    (fun h => by have := hT _ (head_mem h); omega)
  rw [e1, e2, e3, rntoi_rev_thousands (n / 1000) hd3 a3 v3 c3 p3 q3 (by omega) (by omega)]
  congr 1
  push_cast at ha1 ha2 ha3 ⊢
  omega

set_option maxRecDepth 100000 in
theorem valid_input_rows : valid_input.length = 27 ∧
    ∀ row ∈ valid_input, roman_numeral row.2.toNat = row.1 ∧ rntoi row.1 = some row.2 := by
  decide

/-- C24. For every `n` from 1 to 3999, `rntoi` applied to the canonical lowercase Roman
numeral of `n` returns `n`; the 27 rows of the data-driven example test are such pairs of a
canonical numeral and its value. -/
theorem rntoi_canonical_numeral (n : Nat) (h1 : 1 ≤ n) (h2 : n ≤ 3999) :
    rntoi (roman_numeral n) = some (n : Int) ∧
    valid_input.length = 27 ∧
    ∀ row ∈ valid_input, roman_numeral row.2.toNat = row.1 ∧ rntoi row.1 = some row.2 :=
  ⟨rntoi_roman n h1 h2, valid_input_rows⟩

/-- The numeral "mcmlxx" of 1970. -/
theorem rntoi_canonical_numeral_witness :
    1 ≤ 1970 ∧ 1970 ≤ 3999 ∧ roman_numeral 1970 = [109, 99, 109, 108, 120, 120] ∧
    rntoi (roman_numeral 1970) = some 1970 :=
  ⟨by decide, by decide, by decide,
    (rntoi_canonical_numeral 1970 (by decide) (by decide)).1⟩

/-! ### Signal capture: the loops -/

theorem getD_set_ne (l : List saved_sigaction_t__) (i j : Nat) (a : saved_sigaction_t__)
    (h : i ≠ j) : (l.set i a).getD j saved_zero = l.getD j saved_zero := by
  simp only [List.getD_eq_getElem?_getD, List.getElem?_set_ne h]

theorem take_set_succ (l : List saved_sigaction_t__) (i : Nat) (a : saved_sigaction_t__)
    (h : i < l.length) : (l.set i a).take (i + 1) = l.take i ++ [a] := by
  induction l generalizing i with
  | nil => simp at h
  | cons b rest ih =>
    cases i with
    | zero => simp
    | succ i =>
      simp only [List.set_cons_succ, List.take_succ_cons, List.cons_append]
      rw [ih i (by simpa using h)]

theorem set_append_at (A M : List saved_sigaction_t__) (x a : saved_sigaction_t__) :
    (A ++ x :: M).set A.length a = (A ++ [a]) ++ M := by
  induction A with
  | nil => rfl
  | cons b rest ih =>
    simp only [List.cons_append, List.length_cons, List.set_cons_succ, ih]

theorem getD_append_at (A M : List saved_sigaction_t__) (x : saved_sigaction_t__) :
    (A ++ x :: M).getD A.length saved_zero = x := by
  rw [List.getD_eq_getElem?_getD, List.getElem?_append_right (Nat.le_refl _), Nat.sub_self,
    List.getElem?_cons_zero, Option.getD_some]

/-- The first loop of `sigcapture__` when every `sigaction` call succeeds and the slots from
`i` on hold nothing: each signal gets the capturing disposition and its slot the
disposition it had. -/
theorem capture_loop_ok (env : Nat → Int × Int) (sighandler full_mask : Nat)
    (henv : ∀ k, (env k).1 = 0) : ∀ (rest : List Int) (i : Nat) (st : sig_state),
    rest.Nodup → st.saved_sigaction__.length = i + rest.length →
    (∀ j, i ≤ j → (st.saved_sigaction__.getD j saved_zero).f_saved = 0) →
    (capture_loop env sighandler full_mask rest i st).1 = none ∧
    (capture_loop env sighandler full_mask rest i st).2.dispositions
      = (fun s => if s ∈ rest then capture_sigaction sighandler full_mask
          else st.dispositions s) ∧
    (capture_loop env sighandler full_mask rest i st).2.saved_sigaction__
      = st.saved_sigaction__.take i
        ++ rest.map (fun s => { f_saved := 1, sigaction := st.dispositions s }) ∧
    (capture_loop env sighandler full_mask rest i st).2.blocked = st.blocked ∧
    (capture_loop env sighandler full_mask rest i st).2.handler__ = st.handler__ ∧
    (capture_loop env sighandler full_mask rest i st).2.cookie__ = st.cookie__ := by
  intro rest
  induction rest with
  | nil =>
    intro i st _ hlen _
    refine ⟨rfl, ?_, ?_, rfl, rfl, rfl⟩
    · funext s; simp [capture_loop]
    · simp only [capture_loop, List.map_nil, List.append_nil]
      rw [List.take_of_length_le (by simp at hlen; omega)]
  | cons signum rest ih =>
    intro i st hnd hlen hun
    have hni : signum ∉ rest := (List.nodup_cons.mp hnd).1
    have hslot : (st.saved_sigaction__.getD i saved_zero).f_saved = 0 := hun i (Nat.le_refl _)
    have hlt : i < st.saved_sigaction__.length := by
      rw [hlen, List.length_cons]; omega
    rw [capture_loop]
    simp only [henv, if_true, hslot, ne_eq, not_true_eq_false, if_false]
    obtain ⟨h1, h2, h3, h4, h5, h6⟩ := ih (i + 1)
      { st with
        dispositions := set_disposition st.dispositions signum
          (capture_sigaction sighandler full_mask)
        saved_sigaction__ := st.saved_sigaction__.set i
          { f_saved := 1, sigaction := st.dispositions signum }
        calls := st.calls + 1 }
      (List.nodup_cons.mp hnd).2
      (by simp only [List.length_set, hlen, List.length_cons]; omega)
      (by
        intro j hj
        simp only []
        rw [getD_set_ne _ _ _ _ (by omega)]
        exact hun j (by omega))
    refine ⟨h1, ?_, ?_, h4, h5, h6⟩
    · rw [h2]
      funext s
      simp only [set_disposition, List.mem_cons]
      by_cases hs : s ∈ rest
      · simp [hs]
      · by_cases he : s = signum
        · simp [he]
        · simp [hs, he]
    · rw [h3]
      simp only []
      rw [take_set_succ _ _ _ hlt, List.map_cons, List.append_assoc, List.singleton_append]
      congr 2
      apply List.map_congr_left
      intro s hs
      have hne : s ≠ signum := fun h => hni (h ▸ hs)
      simp only [set_disposition, hne, if_false]

/-- The loop of `sigrestore__` when every `sigaction` call succeeds and the slots from `i`
on hold the dispositions `D`: each signal gets its disposition back and its slot is
cleared. -/
theorem restore_loop_ok (env : Nat → Int × Int) (henv : ∀ k, (env k).1 = 0)
    (D : Int → sigaction_t) : ∀ (rest : List Int) (i : Nat) (result result_errno : Int)
    (st : sig_state) (A : List saved_sigaction_t__), A.length = i →
    st.saved_sigaction__ = A ++ rest.map (fun s => { f_saved := 1, sigaction := D s }) →
    (restore_loop env rest i result result_errno st).1 = result ∧
    (restore_loop env rest i result result_errno st).2.1 = result_errno ∧
    (restore_loop env rest i result result_errno st).2.2.dispositions
      = (fun s => if s ∈ rest then D s else st.dispositions s) ∧
    (restore_loop env rest i result result_errno st).2.2.saved_sigaction__
      = A ++ rest.map (fun _ => saved_zero) ∧
    (restore_loop env rest i result result_errno st).2.2.blocked = st.blocked ∧
    (restore_loop env rest i result result_errno st).2.2.handler__ = st.handler__ ∧
    (restore_loop env rest i result result_errno st).2.2.cookie__ = st.cookie__ := by
  intro rest
  induction rest with
  | nil =>
    intro i result result_errno st A _ hs
    refine ⟨rfl, rfl, ?_, ?_, rfl, rfl, rfl⟩
    · funext s; simp [restore_loop]
    · simpa [restore_loop] using hs
  | cons signum rest ih =>
    intro i result result_errno st A hA hs
    rw [restore_loop]
    have hget : st.saved_sigaction__.getD i saved_zero
        = { f_saved := 1, sigaction := D signum } := by
      rw [hs, List.map_cons, ← hA, getD_append_at]
    have hone : ¬ ((1 : Int) = 0) := by decide
    simp only [hget, hone, if_false, henv, if_true]
    obtain ⟨h1, h2, h3, h4, h5, h6, h7⟩ := ih (i + 1) result result_errno
      { st with
        dispositions := set_disposition st.dispositions signum (D signum)
        saved_sigaction__ := st.saved_sigaction__.set i saved_zero
        calls := st.calls + 1 }
      (A ++ [saved_zero]) (by rw [List.length_append, hA]; rfl)
      (by
        simp only []
        rw [hs, List.map_cons, ← hA, set_append_at])
    refine ⟨h1, h2, ?_, ?_, h5, h6, h7⟩
    · rw [h3]
      funext s
      simp only [set_disposition, List.mem_cons]
      by_cases hs : s ∈ rest
      · by_cases he : s = signum
        · simp [he]
        · simp [hs, he]
      · by_cases he : s = signum
        · simp [he]
        · simp [hs, he]
    · rw [h4, List.map_cons, List.append_assoc, List.singleton_append]

/-- The loop of `sigrestore__` when no slot from `i` on holds a disposition: nothing
changes. -/
theorem restore_loop_unsaved (env : Nat → Int × Int) : ∀ (rest : List Int) (i : Nat)
    (result result_errno : Int) (st : sig_state),
    (∀ j, i ≤ j → (st.saved_sigaction__.getD j saved_zero).f_saved = 0) →
    restore_loop env rest i result result_errno st = (result, result_errno, st) := by
  intro rest
  induction rest with
  | nil => intro i result result_errno st _; rfl
  | cons signum rest ih =>
    intro i result result_errno st hun
    rw [restore_loop]
    simp only [hun i (Nat.le_refl _), if_true]
    exact ih (i + 1) result result_errno st (fun j hj => hun j (by omega))

/-! ### Signal capture: install, then restore -/

theorem unsaved_getD (l : List saved_sigaction_t__) (h : ∀ s ∈ l, s.f_saved = 0) (j : Nat) :
    (l.getD j saved_zero).f_saved = 0 := by
  rw [List.getD_eq_getElem?_getD]
  cases hj : l[j]? with
  | none => rfl
  | some s =>
    obtain ⟨hlt, hget⟩ := List.getElem?_eq_some.mp hj
    exact h s (hget ▸ List.getElem_mem hlt)

/-- With no disposition saved `sigrestore__` only clears the handler and the cookie. -/
theorem sigrestore_unsaved (env : Nat → Int × Int) (st : sig_state)
    (h : ∀ s ∈ st.saved_sigaction__, s.f_saved = 0) :
    sigrestore__ env 0 st
      = (0, { st with handler__ := 0, cookie__ := 0, errno := 0 }) := by
  unfold sigrestore__
  rw [restore_loop_unsaved env signals__ 0 0 0 { st with blocked := fun _ => true }
    (fun j _ => unsaved_getD st.saved_sigaction__ h j)]
  simp

/-- The state `sigcapture__` leaves when it installs the capture. -/
theorem sigcapture_ok (env : Nat → Int × Int) (sighandler full_mask handler cookie : Nat)
    (st : sig_state) (henv : ∀ k, (env k).1 = 0)
    (hlen : st.saved_sigaction__.length = 18) (hh : st.handler__ = 0)
    (hslots : ∀ s ∈ st.saved_sigaction__, s.f_saved = 0) (hhandler : handler ≠ 0) :
    (sigcapture__ env sighandler full_mask 0 handler cookie st).1 = 0 ∧
    (sigcapture__ env sighandler full_mask 0 handler cookie st).2.dispositions
      = (fun s => if s ∈ signals__ then capture_sigaction sighandler full_mask
          else st.dispositions s) ∧
    (sigcapture__ env sighandler full_mask 0 handler cookie st).2.saved_sigaction__
      = signals__.map (fun s => { f_saved := 1, sigaction := st.dispositions s }) ∧
    (sigcapture__ env sighandler full_mask 0 handler cookie st).2.blocked = st.blocked ∧
    (sigcapture__ env sighandler full_mask 0 handler cookie st).2.handler__ = handler ∧
    (sigcapture__ env sighandler full_mask 0 handler cookie st).2.cookie__ = cookie := by
  obtain ⟨h1, h2, h3, _, _, _⟩ := capture_loop_ok env sighandler full_mask henv signals__ 0
    { st with blocked := fun _ => true } (by decide) (by rw [hlen]; rfl)
    (fun j _ => unsaved_getD st.saved_sigaction__ hslots j)
  unfold sigcapture__
  rw [if_neg hhandler, if_neg (not_not.mpr hh), if_neg (not_not.mpr rfl)]
  simp only [h1]
  refine ⟨trivial, h2, ?_, trivial, trivial, trivial⟩
  simp only [h3, List.take_zero, List.nil_append]

/-- The state `sigrestore__` leaves when the slots hold the dispositions `D` of the 18
signals. -/
theorem sigrestore_ok (env : Nat → Int × Int) (st : sig_state) (D : Int → sigaction_t)
    (henv : ∀ k, (env k).1 = 0)
    (hs : st.saved_sigaction__
      = signals__.map (fun s => { f_saved := 1, sigaction := D s })) :
    (sigrestore__ env 0 st).1 = 0 ∧
    (sigrestore__ env 0 st).2.dispositions
      = (fun s => if s ∈ signals__ then D s else st.dispositions s) ∧
    (sigrestore__ env 0 st).2.saved_sigaction__ = List.replicate 18 saved_zero ∧
    (sigrestore__ env 0 st).2.blocked = st.blocked ∧
    (sigrestore__ env 0 st).2.handler__ = 0 ∧
    (sigrestore__ env 0 st).2.cookie__ = 0 := by
  obtain ⟨r1, _, r3, r4, _, _, _⟩ := restore_loop_ok env henv D signals__ 0 0 0
    { st with blocked := fun _ => true } [] rfl (by simp only [hs, List.nil_append])
  unfold sigrestore__
  simp only [ne_eq, not_true_eq_false, if_false, r1, if_true]
  refine ⟨trivial, r3, ?_, trivial, trivial, trivial⟩
  rw [r4]
  rfl

/-- C22. From a process state in which no capture is installed (no handler, no slot
holding a disposition), `sigcapture__` followed by `sigrestore__`, every `sigaction`
call and the `sigprocmask` call of `sigrestore__` succeeding, leaves every signal with the
disposition it had, all 18 slots without a saved disposition, no handler and no cookie, and
the blocked signals as they were. When the handler is not `NULL` and the `sigprocmask` call
of `sigcapture__` succeeds, the capture is installed in between: the 18 signals, which are
distinct, have the capturing disposition and the slots hold the dispositions to restore. -/
theorem sigcapture_sigrestore_roundtrip (env : Nat → Int × Int)
    (sighandler full_mask : Nat) (block_rc : Int) (handler cookie : Nat) (st : sig_state)
    (henv : ∀ k, (env k).1 = 0)
    (hlen : st.saved_sigaction__.length = 18) (hh : st.handler__ = 0)
    (hslots : ∀ s ∈ st.saved_sigaction__, s.f_saved = 0) :
    (capture_then_restore env sighandler full_mask block_rc handler cookie st).1 = 0 ∧
    (∀ signum,
      (capture_then_restore env sighandler full_mask block_rc handler cookie st).2.dispositions
        signum = st.dispositions signum) ∧
    (capture_then_restore env sighandler full_mask block_rc handler cookie
      st).2.saved_sigaction__.length = 18 ∧
    (∀ s ∈ (capture_then_restore env sighandler full_mask block_rc handler cookie
      st).2.saved_sigaction__, s.f_saved = 0) ∧
    (capture_then_restore env sighandler full_mask block_rc handler cookie st).2.handler__
      = 0 ∧
    (capture_then_restore env sighandler full_mask block_rc handler cookie st).2.cookie__
      = 0 ∧
    (capture_then_restore env sighandler full_mask block_rc handler cookie st).2.blocked
      = st.blocked ∧
    signals__.length = 18 ∧ signals__.Nodup ∧
    (handler ≠ 0 → block_rc = 0 →
      (sigcapture__ env sighandler full_mask block_rc handler cookie st).1 = 0 ∧
      (sigcapture__ env sighandler full_mask block_rc handler cookie st).2.handler__
        = handler ∧
      (sigcapture__ env sighandler full_mask block_rc handler cookie st).2.cookie__
        = cookie ∧
      (∀ signum ∈ signals__,
        (sigcapture__ env sighandler full_mask block_rc handler cookie st).2.dispositions
          signum = capture_sigaction sighandler full_mask) ∧
      (sigcapture__ env sighandler full_mask block_rc handler cookie st).2.saved_sigaction__
        = signals__.map (fun s => { f_saved := 1, sigaction := st.dispositions s }) ∧
      (capture_then_restore env sighandler full_mask block_rc handler cookie
        st).2.saved_sigaction__ = List.replicate 18 saved_zero) := by
  by_cases hcap : handler ≠ 0 ∧ block_rc = 0
  · obtain ⟨hhandler, hb⟩ := hcap
    subst hb
    obtain ⟨c1, c2, c3, c4, c5, c6⟩ := sigcapture_ok env sighandler full_mask handler cookie
      st henv hlen hh hslots hhandler
    obtain ⟨r1, r2, r3, r4, r5, r6⟩ := sigrestore_ok env
      (sigcapture__ env sighandler full_mask 0 handler cookie st).2 st.dispositions henv c3
    unfold capture_then_restore
    refine ⟨r1, ?_, by rw [r3]; rfl, ?_, r5, r6, by rw [r4, c4], rfl, by decide, ?_⟩
    · intro signum
      rw [r2, c2]
      by_cases hs : signum ∈ signals__ <;> simp [hs]
    · intro s hs
      rw [r3] at hs
      rw [List.eq_of_mem_replicate hs]
      rfl
    · intro _ _
      refine ⟨c1, c5, c6, ?_, c3, r3⟩
      intro signum hs
      rw [c2]
      simp only [hs, if_true]
  · have hsame :
        (sigcapture__ env sighandler full_mask block_rc handler cookie st).2.saved_sigaction__
          = st.saved_sigaction__ ∧
        (sigcapture__ env sighandler full_mask block_rc handler cookie st).2.dispositions
          = st.dispositions ∧
        (sigcapture__ env sighandler full_mask block_rc handler cookie st).2.blocked
          = st.blocked := by
      unfold sigcapture__
      by_cases h0 : handler = 0
      · rw [if_pos h0]; exact ⟨rfl, rfl, rfl⟩
      · have hb : block_rc ≠ 0 := fun h => hcap ⟨h0, h⟩
        rw [if_neg h0, if_neg (not_not.mpr hh), if_pos hb]
        exact ⟨rfl, rfl, rfl⟩
    obtain ⟨s1, s2, s3⟩ := hsame
    unfold capture_then_restore
    rw [sigrestore_unsaved env _ (by rw [s1]; exact hslots)]
    refine ⟨rfl, fun signum => by simp only [s2], by simp only [s1, hlen],
      by simp only [s1]; exact hslots, rfl, rfl, by simp only [s3], rfl, by decide, ?_⟩
    intro h1 h2
    exact absurd ⟨h1, h2⟩ hcap

/-- The capture installed and removed in `sample_sig_state`, where `SIGINT` has a handler
and `SIGPIPE` is ignored. -/
theorem sigcapture_sigrestore_roundtrip_witness :
    (∀ k : Nat, ((fun _ => ((0 : Int), (0 : Int))) k).1 = 0) ∧
    sample_sig_state.saved_sigaction__.length = 18 ∧ sample_sig_state.handler__ = 0 ∧
    (∀ s ∈ sample_sig_state.saved_sigaction__, s.f_saved = 0) ∧
    (capture_then_restore (fun _ => (0, 0)) 4198400 18446744073709551615 0 4202496 8192
      sample_sig_state).1 = 0 ∧
    (capture_then_restore (fun _ => (0, 0)) 4198400 18446744073709551615 0 4202496 8192
      sample_sig_state).2.dispositions 2
        = { sa_sigaction := 7340032, sa_mask := 0, sa_flags := 268435456 } ∧
    (sigcapture__ (fun _ => (0, 0)) 4198400 18446744073709551615 0 4202496 8192
      sample_sig_state).2.dispositions 2
        = capture_sigaction 4198400 18446744073709551615 :=
  have hs : ∀ s ∈ sample_sig_state.saved_sigaction__, s.f_saved = 0 := fun s hs => by
    rw [List.eq_of_mem_replicate hs]; rfl
  have h := sigcapture_sigrestore_roundtrip (fun _ => (0, 0)) 4198400 18446744073709551615 0
    4202496 8192 sample_sig_state (fun _ => rfl) rfl rfl hs
  ⟨fun _ => rfl, rfl, rfl, hs, h.1, h.2.1 2,
    (h.2.2.2.2.2.2.2.2.2 (by decide) rfl).2.2.2.1 2 (by decide)⟩

/-! ### Creation of test cases -/

theorem write_bytes_after (A R bs : List Nat) :
    write_bytes (A ++ R) A.length bs = A ++ bs ++ R.drop bs.length := by
  unfold write_bytes
  rw [List.take_left, List.append_assoc]
  congr 2
  rw [List.drop_append_eq_append_drop, List.drop_of_length_le (by omega)]
  simp

/-- The block `testcase_create__` fills for a row with a rendering that is not empty: the
name of the test, `[`, the rendering, `]` and the NUL, and nothing else. -/
theorem testcase_create_named (garbage : Nat → Nat) (test_def : ctest_def_test)
    (data_provider : ctest_def_data_provider) (index : Nat) (text : List Nat)
    (hr : data_provider.rendering (data_provider.data + index * data_provider.size)
      = some text) (hne : text ≠ []) :
    testcase_create__ true true garbage test_def data_provider index
      = some { name_buf := some (test_def.name ++ [91] ++ text ++ [93] ++ [0]),
               data := data_provider.data + index * data_provider.size } := by
  have hpos : 0 < text.length := List.length_pos.mpr hne
  unfold testcase_create__ to_string_call
  simp only [hr, if_true, Bool.true_eq_false, if_false]
  have hgt : ((text.length : Nat) : Int) > 0 := by omega
  rw [if_pos hgt, Int.toNat_ofNat]
  have hlen : test_def.name.length + 1 + text.length + 1 + 1 - test_def.name.length - 1
      = text.length + 2 := by omega
  have hl0 : ¬ (text.length + 2 = 0) := by omega
  simp only [hlen, hl0, if_false]
  have htake : text.take (text.length + 2 - 1) = text := List.take_of_length_le (by omega)
  rw [htake]
  -- the block `malloc` returns
  obtain ⟨G, hG, hGl⟩ : ∃ G : List Nat,
      (List.range (test_def.name.length + 1 + text.length + 1 + 1)).map garbage = G ∧
      G.length = test_def.name.length + 1 + text.length + 1 + 1 :=
    ⟨_, rfl, by simp⟩
  rw [hG]
  have e1 : write_bytes G 0 test_def.name = test_def.name ++ G.drop test_def.name.length := by
    have := write_bytes_after [] G test_def.name
    simpa using this
  rw [e1]
  have e2 : write_bytes (test_def.name ++ G.drop test_def.name.length) test_def.name.length
      [91] = (test_def.name ++ [91]) ++ G.drop (test_def.name.length + 1) := by
    rw [write_bytes_after, List.drop_drop]
    simp [Nat.add_comm]
  rw [e2]
  have e3 : write_bytes ((test_def.name ++ [91]) ++ G.drop (test_def.name.length + 1))
      (test_def.name.length + 1) (text ++ [0])
      = (test_def.name ++ [91] ++ text) ++ ([0] ++ G.drop (test_def.name.length + 1
          + (text.length + 1))) := by
    have := write_bytes_after (test_def.name ++ [91]) (G.drop (test_def.name.length + 1))
      (text ++ [0])
    simp only [List.length_append, List.length_singleton, List.drop_drop] at this
    rw [this]
    simp [Nat.add_comm, Nat.add_left_comm]
  rw [e3]
  have e4 : write_bytes ((test_def.name ++ [91] ++ text) ++ ([0] ++ G.drop
      (test_def.name.length + 1 + (text.length + 1))))
      (test_def.name.length + 1 + text.length) [93]
      = (test_def.name ++ [91] ++ text ++ [93]) ++ G.drop
          (test_def.name.length + 1 + (text.length + 1)) := by
    have := write_bytes_after (test_def.name ++ [91] ++ text)
      ([0] ++ G.drop (test_def.name.length + 1 + (text.length + 1))) [93]
    simp only [List.length_append, List.length_singleton] at this
    rw [this]
    simp
  rw [e4]
  have e5 : write_bytes ((test_def.name ++ [91] ++ text ++ [93]) ++ G.drop
      (test_def.name.length + 1 + (text.length + 1)))
      (test_def.name.length + 1 + text.length + 1) [0]
      = test_def.name ++ [91] ++ text ++ [93] ++ [0] := by
    have := write_bytes_after (test_def.name ++ [91] ++ text ++ [93])
      (G.drop (test_def.name.length + 1 + (text.length + 1))) [0]
    simp only [List.length_append, List.length_singleton, List.drop_drop] at this
    rw [this, List.drop_of_length_le (by rw [hGl]; omega), List.append_nil]
  rw [e5]

/-- A row with an empty rendering, or one `to_string` fails on, gets the name of the test
itself. -/
theorem testcase_create_plain (malloc_ok : Bool) (garbage : Nat → Nat)
    (test_def : ctest_def_test) (data_provider : ctest_def_data_provider) (index : Nat)
    (hr : data_provider.rendering (data_provider.data + index * data_provider.size) = some []
      ∨ data_provider.rendering (data_provider.data + index * data_provider.size) = none) :
    testcase_create__ true malloc_ok garbage test_def data_provider index
      = some { name_buf := none,
               data := data_provider.data + index * data_provider.size } := by
  unfold testcase_create__ to_string_call
  rcases hr with h | h <;> simp [h]

/-! ### Creation of the test cases of a test -/

/-- The loop of `test_create__` when every allocation succeeds: one test case for each of
the `k` rows from index `i` on. -/
theorem test_create_loop_spec (garbage : Nat → Nat) (test_def : ctest_def_test)
    (p : ctest_def_data_provider) : ∀ (k i : Nat),
    ∃ cases, test_create_loop (fun _ => true) (fun _ => true) garbage test_def p k i
        = some cases ∧ cases.length = k ∧
      ∀ j, j < k → cases[j]?
        = testcase_create__ true true garbage test_def p (i + j) := by
  intro k
  induction k with
  | zero => intro i; exact ⟨[], rfl, rfl, fun j hj => absurd hj (Nat.not_lt_zero j)⟩
  | succ k ih =>
    intro i
    obtain ⟨rest, hrest, hlen, hget⟩ := ih (i + 1)
    have hsome : ∃ tc, testcase_create__ true true garbage test_def p i = some tc := by
      cases hr : p.rendering (p.data + i * p.size) with
      | none => exact ⟨_, testcase_create_plain true garbage test_def p i (Or.inr hr)⟩
      | some text =>
        cases text with
        | nil => exact ⟨_, testcase_create_plain true garbage test_def p i (Or.inl hr)⟩
        | cons c rest =>
          exact ⟨_, testcase_create_named garbage test_def p i (c :: rest) hr
            (List.cons_ne_nil _ _)⟩
    obtain ⟨tc, htc⟩ := hsome
    refine ⟨tc :: rest, ?_, by rw [List.length_cons, hlen], ?_⟩
    · rw [test_create_loop]
      simp only [htc, hrest]
    · intro j hj
      cases j with
      | zero => rw [List.getElem?_cons_zero, Nat.add_zero, htc]
      | succ j =>
        rw [List.getElem?_cons_succ, hget j (by omega)]
        congr 1
        omega

/-- C23 (as amended). For a test definition with a data provider of `n` rows, when every
allocation succeeds `test_create__` makes exactly `n` test cases, the `i`-th bound to row
`i`. When the rendering of row `i` is not empty, the name of the case is a block that holds
the name of the test, `[`, the rendering, `]` and the NUL, and is exactly that long; when
the rendering is empty or `to_string` fails, the name is the name of the test itself. -/
theorem test_create_materializes (garbage : Nat → Nat) (test_def : ctest_def_test)
    (p : ctest_def_data_provider) (hp : test_def.data_provider = some p) :
    ∃ t, test_create__ true true (fun _ => true) (fun _ => true) garbage test_def = some t ∧
      t.testcase_count = p.count ∧ t.testcases.length = p.count ∧
      ∀ i, i < p.count → ∃ tc, t.testcases[i]? = some tc ∧
        tc.data = p.data + i * p.size ∧
        (∀ text, p.rendering (p.data + i * p.size) = some text → text ≠ [] →
          tc.name_buf = some (test_def.name ++ [91] ++ text ++ [93] ++ [0]) ∧
          (test_def.name ++ [91] ++ text ++ [93] ++ [0]).length
            = test_def.name.length + 1 + text.length + 1 + 1 ∧
          (is_cstring test_def.name → is_cstring text →
            tc.name test_def = test_def.name ++ [91] ++ text ++ [93])) ∧
        (p.rendering (p.data + i * p.size) = some [] ∨
            p.rendering (p.data + i * p.size) = none →
          tc.name_buf = none ∧ tc.name test_def = test_def.name) := by
  obtain ⟨cases, hcases, hlen, hget⟩ := test_create_loop_spec garbage test_def p p.count 0
  refine ⟨{ testcases := cases, testcase_count := p.count }, ?_, rfl, hlen, ?_⟩
  · unfold test_create__
    simp only [hp, Bool.true_eq_false, if_false, hcases]
  · intro i hi
    have hgi := hget i hi
    rw [Nat.zero_add] at hgi
    cases hr : p.rendering (p.data + i * p.size) with
    | none =>
      rw [testcase_create_plain true garbage test_def p i (Or.inr hr)] at hgi
      refine ⟨_, hgi, rfl, ?_, ?_⟩
      · intro text ht; cases ht
      · intro _; exact ⟨rfl, rfl⟩
    | some text =>
      cases text with
      | nil =>
        rw [testcase_create_plain true garbage test_def p i (Or.inl hr)] at hgi
        refine ⟨_, hgi, rfl, ?_, ?_⟩
        · intro text ht hne
          cases ht
          exact absurd rfl hne
        · intro _; exact ⟨rfl, rfl⟩
      | cons c rest =>
        rw [testcase_create_named garbage test_def p i (c :: rest) hr
          (List.cons_ne_nil _ _)] at hgi
        refine ⟨_, hgi, rfl, ?_, ?_⟩
        · intro text ht _
          cases ht
          refine ⟨rfl, by simp only [List.length_append, List.length_singleton], ?_⟩
          intro hn ht
          show (test_def.name ++ [91] ++ (c :: rest) ++ [93] ++ [0]).takeWhile
            (fun c => decide (c ≠ 0)) = _
          have hall : is_cstring (test_def.name ++ [91] ++ (c :: rest) ++ [93]) := by
            intro x hx
            simp only [List.mem_append, List.mem_singleton] at hx
            rcases hx with ((h | h) | h) | h
            · exact hn x h
            · rw [h]; decide
            · exact ht x h
            · rw [h]; decide
          have := takeWhile_cstring _ [] hall
          exact this
        · intro h
          rcases h with h | h <;> cases h

/-- The three test cases of `sample_test_def`; the first is named
`valid_input[{rn="i", value=1}]`. -/
theorem test_create_materializes_witness :
    sample_test_def.data_provider = some sample_provider ∧
    ∃ t, test_create__ true true (fun _ => true) (fun _ => true) (fun _ => 255)
        sample_test_def = some t ∧
      t.testcases.length = 3 ∧
      ∃ tc, t.testcases[0]? = some tc ∧ tc.data = 8192 ∧
        tc.name_buf = some ([118, 97, 108, 105, 100, 95, 105, 110, 112, 117, 116] ++ [91]
          ++ [123, 114, 110, 61, 34, 105, 34, 44, 32, 118, 97, 108, 117, 101, 61, 49, 125]
          ++ [93] ++ [0]) := by
  obtain ⟨t, ht, _, hlen, hrows⟩ := test_create_materializes (fun _ => 255) sample_test_def
    sample_provider rfl
  obtain ⟨tc, htc, hdata, hname, _⟩ := hrows 0 (by decide)
  exact ⟨rfl, t, ht, hlen, tc, htc, hdata,
    (hname [123, 114, 110, 61, 34, 105, 34, 44, 32, 118, 97, 108, 117, 101, 61, 49, 125]
      rfl (by decide)).1⟩

/-- A row whose rendering is empty: the test case of the test `t` is named `t`, not
`t[]`. -/
theorem test_create_empty_rendering_plain_name :
    empty_text_test_def.data_provider = some empty_text_provider ∧
    empty_text_provider.count = 1 ∧
    empty_text_provider.rendering (empty_text_provider.data + 0 * empty_text_provider.size)
      = some [] ∧
    test_create__ true true (fun _ => true) (fun _ => true) (fun _ => 255) empty_text_test_def
      = some { testcases := [{ name_buf := none, data := 8192 }], testcase_count := 1 } ∧
    testcase_t.name empty_text_test_def { name_buf := none, data := 8192 } = [116] := by
  refine ⟨rfl, rfl, rfl, ?_, rfl⟩
  decide

/-! ### The reader on a stage-change frame -/

theorem header_done_stage (malloc : Nat → Nat) (r0 : exec_event_reader) (stg : List Nat)
    (h0 : r0.header.length = 4) :
    reader_on_msg_header_done__ malloc (header_phase r0 (le_bytes 2 0 ++ le_bytes 2 4) 4)
      = stage_phase r0 (le_bytes 2 0 ++ le_bytes 2 4) stg 0 := by
  have hf : fill (le_bytes 2 0 ++ le_bytes 2 4) r0.header 4 = le_bytes 2 0 ++ le_bytes 2 4 := by
    have := fill_full (le_bytes 2 0 ++ le_bytes 2 4) r0.header
      (by simp [le_bytes_length, h0])
    simpa [le_bytes_length] using this
  have ht : le_value ((le_bytes 2 0 ++ le_bytes 2 4).take 2) = 0 := by decide
  have hl : le_value (((le_bytes 2 0 ++ le_bytes 2 4).drop 2).take 2) = 4 := by decide
  unfold reader_on_msg_header_done__ header_phase stage_phase
  simp only [hf, ht, hl, if_true, fill_zero, ge_iff_le, le_refl]

theorem stage_step_more (malloc : Nat → Nat) (r0 : exec_event_reader)
    (hdr stg rest : List Nat) (o w : Nat) (hs : stg.length = 4) (h0 : r0.stage.length = 4)
    (hw : o + w < 4) :
    reader_op_on_data_available__ malloc (stage_phase r0 hdr stg o) (stg.drop o ++ rest) w
      = some ((w : Int), stage_phase r0 hdr stg (o + w), stg.drop (o + w) ++ rest) := by
  have hmin : min w (4 - o) = w := by omega
  have hlen := take_length_append stg rest o w (by omega)
  have hfill := fill_write stg r0.stage rest o w (by omega) (by omega)
  unfold reader_op_on_data_available__ stage_phase
  simp only [reduceCtorEq, false_and, if_false, hmin, hlen, hfill,
    take_drop_append stg rest o w (by omega)]
  rw [if_neg (by omega)]

theorem stage_step_done (malloc : Nat → Nat) (r0 : exec_event_reader)
    (hdr stg rest : List Nat) (o w : Nat) (hs : stg.length = 4) (h0 : r0.stage.length = 4)
    (ho : o < 4) (hw : 4 ≤ o + w) :
    reader_op_on_data_available__ malloc (stage_phase r0 hdr stg o) (stg.drop o ++ rest) w
      = some (((4 - o : Nat) : Int), stage_delivered_phase r0 hdr stg, rest) := by
  have hmin : min w (4 - o) = 4 - o := by omega
  have hlen := take_length_append stg rest o (4 - o) (by omega)
  have hfill := fill_write stg r0.stage rest o (4 - o) (by omega) (by omega)
  have hdrop := take_drop_append stg rest o (4 - o) (by omega)
  have e4 : o + (4 - o) = 4 := by omega
  rw [e4] at hfill hdrop
  have hd4 : stg.drop 4 = [] := List.drop_of_length_le (by omega)
  rw [hd4, List.nil_append] at hdrop
  have hfull : fill stg r0.stage 4 = stg := by
    have := fill_full stg r0.stage (by omega)
    rw [hs] at this
    exact this
  rw [hfull] at hfill
  unfold reader_op_on_data_available__ stage_phase
  simp only [reduceCtorEq, false_and, if_false, hmin, hlen, hfill, hdrop, e4]
  rw [if_pos (by omega)]
  simp only [reader_call_on_done, reader_on_msg_body_done__, Nat.lt_irrefl, if_false,
    reader_prep_next_msg__, stage_delivered_phase]

theorem feed_stage (malloc : Nat → Nat) (r0 : exec_event_reader) (hdr stg rest : List Nat)
    (hs : stg.length = 4) (h0 : r0.stage.length = 4) :
    ∀ (wants : List Nat) (o : Nat), o < 4 → (∀ w ∈ wants, 0 < w) → 4 - o ≤ wants.length →
    ∃ wants1, wants.length ≤ wants1.length + (4 - o) ∧ (∀ w ∈ wants1, 0 < w) ∧
      reader_feed malloc wants (stage_phase r0 hdr stg o) (stg.drop o ++ rest)
        = reader_feed malloc wants1 (stage_delivered_phase r0 hdr stg) rest := by
  intro wants
  induction wants with
  | nil => intro o ho _ hl; simp only [List.length_nil] at hl; omega
  | cons w ws ih =>
    intro o ho hpos hl
    have hw : 0 < w := hpos w (List.mem_cons_self _ _)
    have hws : ∀ x ∈ ws, 0 < x := fun x hx => hpos x (List.mem_cons_of_mem _ hx)
    have hp : stg.drop o ++ rest ≠ [] := by
      intro h
      have := congrArg List.length h
      simp only [List.length_append, List.length_drop, List.length_nil] at this
      omega
    simp only [List.length_cons] at hl ⊢
    by_cases hc : o + w < 4
    · rw [reader_feed_step malloc w ws _ _ _ _ w hp
        (stage_step_more malloc r0 hdr stg rest o w hs h0 hc)]
      obtain ⟨wants1, h1, h2, h3⟩ := ih (o + w) hc hws (by omega)
      exact ⟨wants1, by omega, h2, h3⟩
    · rw [reader_feed_step malloc w ws _ _ _ _ (4 - o) hp
        (stage_step_done malloc r0 hdr stg rest o w hs h0 ho (by omega))]
      exact ⟨ws, by omega, hws, rfl⟩

/-- A stage-change frame fed to a reader that waits for a header: the stage is delivered
and the reader waits for the next header. -/
theorem feed_stage_message (malloc : Nat → Nat) (r0 : exec_event_reader)
    (stage : ctest_stage) (rest wants : List Nat) (h0 : r0.header.length = 4)
    (hs0 : r0.stage.length = 4) (hpos : ∀ w ∈ wants, 0 < w) (hl : 8 ≤ wants.length) :
    ∃ wants1, wants.length ≤ wants1.length + 8 ∧ (∀ w ∈ wants1, 0 < w) ∧
      reader_feed malloc wants (header_phase r0 (le_bytes 2 0 ++ le_bytes 2 4) 0)
          (exec_event_writer_op_on_stage_change__ stage ++ rest)
        = reader_feed malloc wants1
            (stage_delivered_phase r0 (le_bytes 2 0 ++ le_bytes 2 4)
              (le_bytes 4 stage.value)) rest := by
  have hh : (le_bytes 2 0 ++ le_bytes 2 4).length = 4 := by simp [le_bytes_length]
  obtain ⟨w1, a1, a2, a3⟩ := feed_header malloc r0 (le_bytes 2 0 ++ le_bytes 2 4)
    (le_bytes 4 stage.value ++ rest) hh h0 wants 0 (by omega) hpos (by omega)
  rw [header_done_stage malloc r0 (le_bytes 4 stage.value) h0] at a3
  obtain ⟨w2, b1, b2, b3⟩ := feed_stage malloc r0 (le_bytes 2 0 ++ le_bytes 2 4)
    (le_bytes 4 stage.value) rest (le_bytes_length _ _) hs0 w1 0 (by omega) a2 (by omega)
  refine ⟨w2, by omega, b2, ?_⟩
  unfold exec_event_writer_op_on_stage_change__
  simp only [List.drop_zero, List.append_assoc] at a3 b3 ⊢
  rw [a3, b3]

/-! ### The reader on a stream of frames -/

theorem awaiting_header_phase (r : exec_event_reader) (hdr : List Nat)
    (h : r.awaiting_header) : header_phase r hdr 0 = r := by
  obtain ⟨h1, h2, h3, h4, h5⟩ := h
  cases r
  simp only at h1 h2 h3 h4 h5
  subst h1 h2 h3 h4 h5
  rfl

theorem stage_bytes_value (stage : ctest_stage) :
    le_value (le_bytes 4 stage.value) = stage.value := by
  cases stage <;> decide

/-- A stream of frames fed to a reader that waits for a header: every event is delivered,
in order, and the reader waits for a header again. -/
theorem feed_events (wbase : Nat) (malloc : Nat → Nat) : ∀ (events : List ExecEvent)
    (r0 : exec_event_reader) (wants stream : List Nat),
    r0.awaiting_header → r0.header.length = 4 → r0.stage.length = 4 →
    (∀ e ∈ events, event_fits wbase malloc e) →
    event_stream wbase events = some stream →
    (∀ w ∈ wants, 0 < w) → stream.length ≤ wants.length →
    ∃ r calls, reader_feed malloc wants r0 stream = some (r, []) ∧ r.awaiting_header ∧
      r.calls = r0.calls ++ calls ∧ List.Forall₂ delivers events calls := by
  intro events
  induction events with
  | nil =>
    intro r0 wants stream ha _ _ _ hst _ _
    simp only [event_stream, Option.some.injEq] at hst
    subst hst
    exact ⟨r0, [], reader_feed_nil malloc wants r0, ha, by simp, List.Forall₂.nil⟩
  | cons e es ih =>
    intro r0 wants stream ha h0 hs0 hfit hst hpos hlen
    have hfits : ∀ x ∈ es, event_fits wbase malloc x :=
      fun x hx => hfit x (List.mem_cons_of_mem _ hx)
    have hfe := hfit e (List.mem_cons_self _ _)
    rw [event_stream] at hst
    cases hfr : event_frame wbase e with
    | none => rw [hfr] at hst; simp at hst
    | some frame =>
      cases hrs : event_stream wbase es with
      | none => rw [hfr, hrs] at hst; simp at hst
      | some stream1 =>
        rw [hfr, hrs] at hst
        simp only [Option.some.injEq] at hst
        subst hst
        cases e with
        | stage_change stage =>
          simp only [event_frame, Option.some.injEq] at hfr
          subst hfr
          have hfl : (exec_event_writer_op_on_stage_change__ stage).length = 8 := by
            simp [exec_event_writer_op_on_stage_change__, le_bytes_length]
          rw [List.length_append, hfl] at hlen
          obtain ⟨w1, a1, a2, a3⟩ := feed_stage_message malloc r0 stage stream1 wants h0 hs0
            hpos (by omega)
          rw [awaiting_header_phase r0 _ ha] at a3
          obtain ⟨r, calls, b1, b2, b3, b4⟩ := ih
            (stage_delivered_phase r0 (le_bytes 2 0 ++ le_bytes 2 4) (le_bytes 4 stage.value))
            w1 stream1 ⟨rfl, rfl, rfl, rfl, rfl⟩ (by simp [stage_delivered_phase, le_bytes_length])
            (by simp [stage_delivered_phase, le_bytes_length]) hfits hrs a2 (by omega)
          refine ⟨r, ReaderCall.on_stage_change stage.value :: calls, by rw [a3, b1], b2, ?_,
            List.Forall₂.cons rfl b4⟩
          rw [b3]
          simp only [stage_delivered_phase, stage_bytes_value, List.append_assoc,
            List.singleton_append]
        | failure f =>
          obtain ⟨hv, hsize, hw, hm, hm2⟩ := hfe
          simp only [event_frame] at hfr
          rw [writer_output wbase f hw] at hfr
          simp only [Option.some.injEq] at hfr
          subst hfr
          have hsz : 32 ≤ failure_storage_size f := by
            have h1 := location_end_eq f
            have h2 := location_end_le f
            have h3 : description_end f = 32 + description_len f.description := rfl
            omega
          have hbl := flat_rel_length f (by omega)
          simp only [List.length_append, le_bytes_length, hbl] at hlen
          obtain ⟨w1, a1, a2, a3⟩ := feed_failure_message malloc r0
            (flat_rel f []).bytes (flat_abs (malloc (failure_storage_size f)) f []).bytes
            stream1 wants (failure_storage_size f) h0 hbl (by omega) hsize hm
            (reader_deserialize _ f hm2) hpos (by omega)
          rw [awaiting_header_phase r0 _ ha] at a3
          obtain ⟨r, calls, b1, b2, b3, b4⟩ := ih
            (delivered_phase r0 (le_bytes 2 1 ++ le_bytes 2 (failure_storage_size f))
              (malloc (failure_storage_size f))
              (flat_abs (malloc (failure_storage_size f)) f []).bytes)
            w1 stream1 ⟨rfl, rfl, rfl, rfl, rfl⟩ (by simp [delivered_phase, le_bytes_length])
            (by simpa [delivered_phase] using hs0) hfits hrs a2 (by omega)
          refine ⟨r, ReaderCall.on_failure (malloc (failure_storage_size f))
              (flat_abs (malloc (failure_storage_size f)) f []).bytes :: calls,
            by rw [a3, b1], b2, ?_,
            List.Forall₂.cons (read_failure_flat_abs _ f [] hv hm2) b4⟩
          rw [b3]
          simp only [delivered_phase, List.append_assoc, List.singleton_append]

/-- The writer emits a frame for every event that fits. -/
theorem event_stream_some (wbase : Nat) (malloc : Nat → Nat) : ∀ (events : List ExecEvent),
    (∀ e ∈ events, event_fits wbase malloc e) →
    ∃ stream, event_stream wbase events = some stream := by
  intro events
  induction events with
  | nil => intro _; exact ⟨[], rfl⟩
  | cons e es ih =>
    intro hfit
    obtain ⟨s1, hs1⟩ := ih (fun x hx => hfit x (List.mem_cons_of_mem _ hx))
    have hfe := hfit e (List.mem_cons_self _ _)
    cases e with
    | stage_change stage =>
      exact ⟨exec_event_writer_op_on_stage_change__ stage ++ s1,
        by simp only [event_stream, event_frame, hs1]⟩
    | failure f =>
      obtain ⟨_, _, hw, _, _⟩ := hfe
      exact ⟨le_bytes 2 1 ++ le_bytes 2 (failure_storage_size f) ++ (flat_rel f []).bytes
          ++ s1,
        by simp only [event_stream, event_frame, writer_output wbase f hw, hs1]⟩

/-! ### The reader on the frames of the writer -/

/-- C21 (as amended). For every sequence of events whose failures are made of C values,
flatten to fewer than 65536 bytes and fit the address space at the writer's buffer and at
the block `malloc` hands the reader, `malloc` not failing: the writer emits a stream of
frames, and for every way the reads split it (each read handing over at least one byte,
with enough reads to drain it) the reader delivers exactly the events of the frames, in
order, and ends waiting for a header, with `ofs` 0 and `cap` 4. -/
theorem exec_event_stream_delivered (wbase : Nat) (malloc : Nat → Nat)
    (events : List ExecEvent) (hfit : ∀ e ∈ events, event_fits wbase malloc e) :
    ∃ stream, event_stream wbase events = some stream ∧
      ∀ wants : List Nat, (∀ w ∈ wants, 0 < w) → stream.length ≤ wants.length →
        ∃ r, reader_feed malloc wants exec_event_reader_init stream = some (r, []) ∧
          r.buf = ReaderBuf.header ∧ r.ofs = 0 ∧ r.cap = 4 ∧
          r.on_done = ReaderDone.reader_on_msg_header_done__ ∧
          List.Forall₂ delivers events r.calls := by
  obtain ⟨stream, hs⟩ := event_stream_some wbase malloc events hfit
  refine ⟨stream, hs, ?_⟩
  intro wants hpos hlen
  obtain ⟨r, calls, h1, h2, h3, h4⟩ := feed_events wbase malloc events exec_event_reader_init
    wants stream ⟨rfl, rfl, rfl, rfl, rfl⟩ rfl rfl hfit hs hpos hlen
  have hc : r.calls = calls := by
    rw [h3]
    rfl
  rw [← hc] at h4
  exact ⟨r, h1, h2.1, h2.2.1, h2.2.2.1, h2.2.2.2.2, h4⟩

theorem sample_events_fit : ∀ e ∈ sample_events, event_fits 4096 (fun _ => 8192) e := by
  intro e he
  simp only [sample_events, List.mem_cons, List.mem_singleton, List.not_mem_nil,
    or_false] at he
  rcases he with h | h
  · subst h; trivial
  · subst h
    exact ⟨sample_failure_valid, by decide, by decide, by decide, by decide⟩

/-- The stage `EXECUTION` and then `sample_failure`, the reader's block at 8192. -/
theorem exec_event_stream_delivered_witness :
    (∀ e ∈ sample_events, event_fits 4096 (fun _ => 8192) e) ∧
    ∃ stream, event_stream 4096 sample_events = some stream ∧
      ∀ wants : List Nat, (∀ w ∈ wants, 0 < w) → stream.length ≤ wants.length →
        ∃ r, reader_feed (fun _ => 8192) wants exec_event_reader_init stream
            = some (r, []) ∧
          r.buf = ReaderBuf.header ∧ r.ofs = 0 ∧ r.cap = 4 ∧
          r.on_done = ReaderDone.reader_on_msg_header_done__ ∧
          List.Forall₂ delivers sample_events r.calls :=
  ⟨sample_events_fit,
    exec_event_stream_delivered 4096 (fun _ => 8192) sample_events sample_events_fit⟩

theorem header_done_failure_null (malloc : Nat → Nat) (r0 : exec_event_reader) (n : Nat)
    (h0 : r0.header.length = 4) (hn : n < 65536) (hm : malloc n = 0) :
    reader_on_msg_header_done__ malloc (header_phase r0 (le_bytes 2 1 ++ le_bytes 2 n) 4)
      = null_phase r0 (le_bytes 2 1 ++ le_bytes 2 n) n 0 := by
  have hf : fill (le_bytes 2 1 ++ le_bytes 2 n) r0.header 4 = le_bytes 2 1 ++ le_bytes 2 n := by
    have := fill_full (le_bytes 2 1 ++ le_bytes 2 n) r0.header
      (by simp [le_bytes_length, h0])
    simpa [le_bytes_length] using this
  have ht : le_value ((le_bytes 2 1 ++ le_bytes 2 n).take 2) = 1 := by
    rw [List.take_left' (le_bytes_length 2 1)]
    decide
  have hl : le_value (((le_bytes 2 1 ++ le_bytes 2 n).drop 2).take 2) = n := by
    rw [List.drop_left' (le_bytes_length 2 1)]
    have : (le_bytes 2 n).take 2 = le_bytes 2 n := by
      rw [List.take_of_length_le (by rw [le_bytes_length])]
    rw [this, le_value_le_bytes_of_lt 2 n (by simpa using hn)]
  unfold reader_on_msg_header_done__ header_phase null_phase
  simp only [hf, ht, hl, hm, if_true, Nat.one_ne_zero, if_false]

/-- The first read of a body for which `malloc` returned `NULL` goes to the local array
`garbage`. -/
theorem null_step_first (malloc : Nat → Nat) (r0 : exec_event_reader) (hdr pipe : List Nat)
    (n w : Nat) (hw : w < n) (hw2 : w ≤ 1024) (hp : w ≤ pipe.length) :
    reader_op_on_data_available__ malloc (null_phase r0 hdr n 0) pipe w
      = some ((w : Int), null_phase r0 hdr n w, pipe.drop w) := by
  have hmin : min w (min n 1024) = w := by omega
  have hlen : (pipe.take w).length = w := by rw [List.length_take]; omega
  unfold reader_op_on_data_available__ null_phase
  simp only [Nat.sub_zero, true_and, if_true, ne_eq, not_true_eq_false, false_and, and_false,
    if_false, hmin, hlen, Nat.zero_add]
  rw [if_neg (by omega)]

/-- Every later read fails: `reader->buf + reader->ofs` is not `NULL` and points
nowhere. -/
theorem null_step_stuck (malloc : Nat → Nat) (r0 : exec_event_reader) (hdr pipe : List Nat)
    (n o w : Nat) (ho : 0 < o) (hon : o < n) (hw : 0 < w) (hp : pipe ≠ []) :
    reader_op_on_data_available__ malloc (null_phase r0 hdr n o) pipe w
      = some (-1, null_phase r0 hdr n o, pipe) := by
  unfold reader_op_on_data_available__ null_phase
  have h1 : ¬ (o = 0) := by omega
  have h2 : 0 < min w (n - o) := Nat.lt_min.mpr ⟨hw, by omega⟩
  simp only [true_and, h1, false_and, and_false, if_false, ne_eq, not_false_eq_true, h2, hp,
    and_self, if_true]

/-- A stage and a failure whose body `malloc` cannot provide, read in chunks of up to 8
bytes: the stage is delivered, the failure never is, and the reader is stuck in the body
with the rest of the frame unread. -/
theorem feed_failure_malloc_failed (wbase : Nat) (malloc : Nat → Nat) (stage : ctest_stage)
    (f : ctest_failure) (hm : malloc (failure_storage_size f) = 0)
    (hn : failure_storage_size f < 65536)
    (hw : wbase + failure_storage_size f < 18446744073709551616) :
    ∃ stream r, event_stream wbase [ExecEvent.stage_change stage, ExecEvent.failure f]
        = some stream ∧
      reader_feed malloc [8, 8, 8, 8, 8] exec_event_reader_init stream
        = some (r, (flat_rel f []).bytes.drop 8) ∧
      r.calls = [ReaderCall.on_stage_change stage.value] ∧
      r.buf = ReaderBuf.null ∧ r.ofs = 8 ∧ r.cap = failure_storage_size f := by
  have hsz : 32 ≤ failure_storage_size f := by
    have h1 := location_end_eq f
    have h2 := location_end_le f
    have h3 : description_end f = 32 + description_len f.description := rfl
    omega
  have hbl := flat_rel_length f (by omega)
  refine ⟨exec_event_writer_op_on_stage_change__ stage
      ++ (le_bytes 2 1 ++ le_bytes 2 (failure_storage_size f) ++ (flat_rel f []).bytes),
    null_phase (stage_delivered_phase exec_event_reader_init (le_bytes 2 0 ++ le_bytes 2 4)
        (le_bytes 4 stage.value))
      (le_bytes 2 1 ++ le_bytes 2 (failure_storage_size f)) (failure_storage_size f) 8,
    ?_, ?_, ?_, rfl, rfl, rfl⟩
  · simp only [event_stream, event_frame, writer_output wbase f hw, List.append_nil]
  · have hne : ∀ (A B : List Nat), 0 < A.length → A ++ B ≠ [] := by
      intro A B hA h
      have := congrArg List.length h
      simp only [List.length_append, List.length_nil] at this
      omega
    -- the header of the stage frame
    have s1 := header_step_done malloc exec_event_reader_init (le_bytes 2 0 ++ le_bytes 2 4)
      (le_bytes 4 stage.value ++ (le_bytes 2 1 ++ le_bytes 2 (failure_storage_size f)
        ++ (flat_rel f []).bytes)) 0 8 rfl rfl (by omega) (by omega)
    rw [awaiting_header_phase _ _ ⟨rfl, rfl, rfl, rfl, rfl⟩,
      header_done_stage malloc exec_event_reader_init (le_bytes 4 stage.value) rfl] at s1
    -- the stage
    have s2 := stage_step_done malloc exec_event_reader_init (le_bytes 2 0 ++ le_bytes 2 4)
      (le_bytes 4 stage.value) (le_bytes 2 1 ++ le_bytes 2 (failure_storage_size f)
        ++ (flat_rel f []).bytes) 0 8 (le_bytes_length _ _) rfl (by omega) (by omega)
    -- the header of the failure frame
    have s3 := header_step_done malloc
      (stage_delivered_phase exec_event_reader_init (le_bytes 2 0 ++ le_bytes 2 4)
        (le_bytes 4 stage.value))
      (le_bytes 2 1 ++ le_bytes 2 (failure_storage_size f)) (flat_rel f []).bytes 0 8
      (by simp [le_bytes_length]) (by simp [stage_delivered_phase, le_bytes_length])
      (by omega) (by omega)
    rw [awaiting_header_phase _ _ ⟨rfl, rfl, rfl, rfl, rfl⟩,
      header_done_failure_null malloc
        (stage_delivered_phase exec_event_reader_init (le_bytes 2 0 ++ le_bytes 2 4)
          (le_bytes 4 stage.value)) (failure_storage_size f)
        (by simp [stage_delivered_phase, le_bytes_length]) hn hm] at s3
    -- the body
    have s4 := null_step_first malloc
      (stage_delivered_phase exec_event_reader_init (le_bytes 2 0 ++ le_bytes 2 4)
        (le_bytes 4 stage.value))
      (le_bytes 2 1 ++ le_bytes 2 (failure_storage_size f)) (flat_rel f []).bytes
      (failure_storage_size f) 8 (by omega) (by omega) (by omega)
    have hrest : (flat_rel f []).bytes.drop 8 ≠ [] := by
      intro h
      have := congrArg List.length h
      simp only [List.length_drop, List.length_nil] at this
      omega
    have s5 := null_step_stuck malloc
      (stage_delivered_phase exec_event_reader_init (le_bytes 2 0 ++ le_bytes 2 4)
        (le_bytes 4 stage.value))
      (le_bytes 2 1 ++ le_bytes 2 (failure_storage_size f)) ((flat_rel f []).bytes.drop 8)
      (failure_storage_size f) 8 8 (by omega) (by omega) (by omega) hrest
    simp only [List.drop_zero, Nat.sub_zero] at s1 s2 s3
    have hstream : exec_event_writer_op_on_stage_change__ stage
        ++ (le_bytes 2 1 ++ le_bytes 2 (failure_storage_size f) ++ (flat_rel f []).bytes)
        = (le_bytes 2 0 ++ le_bytes 2 4) ++ (le_bytes 4 stage.value
          ++ (le_bytes 2 1 ++ le_bytes 2 (failure_storage_size f)
            ++ (flat_rel f []).bytes)) := by
      simp only [exec_event_writer_op_on_stage_change__, List.append_assoc]
    rw [hstream,
      reader_feed_step malloc 8 _ _ _ _ _ 4 (hne _ _ (by simp [le_bytes_length])) s1,
      reader_feed_step malloc 8 _ _ _ _ _ 4 (hne _ _ (by simp [le_bytes_length])) s2,
      reader_feed_step malloc 8 _ _ _ _ _ 4 (hne _ _ (by simp [le_bytes_length])) s3,
      reader_feed_step malloc 8 _ _ _ _ _ 8 (by
        intro h
        have := congrArg List.length h
        simp only [List.length_nil] at this
        omega) s4]
    rw [reader_feed, if_neg hrest, s5]
    rfl
  · simp only [null_phase, stage_delivered_phase, stage_bytes_value]
    rfl

/-- The stage `EXECUTION` and then `sample_failure`, the reader's `malloc` returning
`NULL`: only the stage is delivered and the reader does not get back to waiting for a
header. -/
theorem exec_event_stream_malloc_failure :
    failure_storage_size sample_failure = 124 ∧
    ∃ stream r, event_stream 4096 sample_events = some stream ∧
      reader_feed (fun _ => 0) [8, 8, 8, 8, 8] exec_event_reader_init stream
        = some (r, (flat_rel sample_failure []).bytes.drop 8) ∧
      ((flat_rel sample_failure []).bytes.drop 8).length = 116 ∧
      r.calls = [ReaderCall.on_stage_change 1] ∧
      r.buf = ReaderBuf.null ∧ r.ofs = 8 ∧ r.cap = 124 := by
  obtain ⟨stream, r, h1, h2, h3, h4, h5, h6⟩ := feed_failure_malloc_failed 4096 (fun _ => 0)
    ctest_stage.CTEST_STAGE_EXECUTION sample_failure rfl (by decide) (by decide)
  have hsize : failure_storage_size sample_failure = 124 := by decide
  refine ⟨hsize, stream, r, h1, h2, ?_, h3, h4, h5, by rw [h6, hsize]⟩
  rw [List.length_drop, flat_rel_length sample_failure (by decide), hsize]

/-! ### The `int` results of the formatters -/

theorem to_int_small (v : Nat) (h : v < 2147483648) : to_int v = (v : Int) := by
  unfold to_int bits_int
  rw [Nat.mod_eq_of_lt (by omega), if_pos h]

theorem c_int_location_storage_format_eq (base : Nat) (buf : List Nat) (l : ctest_location)
    (h : location_storage_size l < 2147483648) :
    c_int.location_storage_format base buf l = location_storage_format base buf l := by
  unfold c_int.location_storage_format location_storage_format
  unfold location_storage_size at h
  by_cases h16 : 16 > buf.length
  · rw [if_pos h16, if_pos h16]
  · rw [if_neg h16, if_neg h16]
    cases hf : l.filename with
    | none =>
      simp only []
      rw [to_int_small 16 (by decide)]
      rfl
    | some s =>
      rw [hf] at h
      simp only [serialize_pad_size_one] at h ⊢
      by_cases hbig : 16 + (s.length + 1) > buf.length
      · rw [if_pos hbig, if_pos hbig]
      · rw [if_neg hbig, if_neg hbig, to_int_small (16 + (s.length + 1)) (by omega)]

/-- The value the loop of `stacktrace_storage_format` ends with is `-1` or the size the
loop of `stacktrace_storage_size` computes. -/
theorem stacktrace_format_loop_value (base : Nat) :
    ∀ (frames : List ctest_stackframe) (i ofs : Nat) (buf : List Nat),
      (stacktrace_format_loop base frames i ofs buf).1 = -1 ∨
      (stacktrace_format_loop base frames i ofs buf).1
        = (stacktrace_size_loop frames ofs : Int) := by
  intro frames
  induction frames with
  | nil => intro i ofs buf; exact Or.inr rfl
  | cons f rest ih =>
    intro i ofs buf
    rw [stacktrace_format_loop, stacktrace_size_loop]
    cases hf : f.filename with
    | none => exact ih _ _ _
    | some s =>
      simp only []
      by_cases hbig : serialize_pad_size ofs 1 + (s.length + 1) > buf.length
      · rw [if_pos hbig]; exact Or.inl rfl
      · rw [if_neg hbig]; exact ih _ _ _

theorem stacktrace_storage_format_value (base : Nat) (buf : List Nat) (s : ctest_stacktrace) :
    (stacktrace_storage_format base buf s).1 = -1 ∨
    (stacktrace_storage_format base buf s).1 = (stacktrace_storage_size s : Int) := by
  unfold stacktrace_storage_format stacktrace_storage_size
  by_cases hbig : 8 + 24 * s.frames.length > buf.length
  · simp only []
    rw [if_pos hbig]; exact Or.inl rfl
  · simp only []
    rw [if_neg hbig]; exact stacktrace_format_loop_value base _ _ _ _

theorem c_int_stacktrace_format_loop_eq (base : Nat) :
    ∀ (frames : List ctest_stackframe) (i ofs : Nat) (buf : List Nat),
      stacktrace_size_loop frames ofs < 2147483648 →
      c_int.stacktrace_format_loop base frames i ofs buf
        = stacktrace_format_loop base frames i ofs buf := by
  intro frames
  induction frames with
  | nil =>
    intro i ofs buf h
    rw [stacktrace_size_loop] at h
    rw [c_int.stacktrace_format_loop, stacktrace_format_loop, to_int_small ofs h]
  | cons f rest ih =>
    intro i ofs buf h
    rw [stacktrace_size_loop] at h
    rw [c_int.stacktrace_format_loop, stacktrace_format_loop]
    cases hf : f.filename with
    | none =>
      rw [hf] at h
      exact ih _ _ _ h
    | some s =>
      rw [hf] at h
      simp only [] at h ⊢
      by_cases hbig : serialize_pad_size ofs 1 + (s.length + 1) > buf.length
      · rw [if_pos hbig, if_pos hbig]
      · rw [if_neg hbig, if_neg hbig]; exact ih _ _ _ h

theorem c_int_stacktrace_storage_format_eq (base : Nat) (buf : List Nat)
    (s : ctest_stacktrace) (h : stacktrace_storage_size s < 2147483648) :
    c_int.stacktrace_storage_format base buf s = stacktrace_storage_format base buf s := by
  unfold c_int.stacktrace_storage_format stacktrace_storage_format
  unfold stacktrace_storage_size at h
  by_cases hbig : 8 + 24 * s.frames.length > buf.length
  · simp only [hbig, if_true]
  · simp only [hbig, if_false]
    exact c_int_stacktrace_format_loop_eq base _ _ _ _ h

theorem c_int_storage_format_stacktrace_eq (base : Nat) (buf : List Nat) (ofs : Nat)
    (stacktrace : Option ctest_stacktrace)
    (h : ofs + stacktrace_need ofs stacktrace < 2147483648) :
    c_int.storage_format_stacktrace base buf ofs stacktrace
      = storage_format_stacktrace base buf ofs stacktrace := by
  unfold c_int.storage_format_stacktrace storage_format_stacktrace
  cases stacktrace with
  | none =>
    simp only [stacktrace_need, Nat.add_zero] at h
    simp only []
    rw [to_int_small ofs h]
  | some s =>
    simp only [stacktrace_need] at h
    have hp := serialize_pad_size_ge ofs
    simp only []
    by_cases hbig : serialize_pad_size ofs 8 > buf.length
    · rw [if_pos hbig, if_pos hbig]
    · rw [if_neg hbig, if_neg hbig,
        c_int_stacktrace_storage_format_eq _ _ s (by omega)]
      by_cases hneg : (stacktrace_storage_format (base + serialize_pad_size ofs 8)
          ((store64 buf 24 (base + serialize_pad_size ofs 8)).drop
            (serialize_pad_size ofs 8)) s).1 < 0
      · rw [if_pos hneg, if_pos hneg]
      · rw [if_neg hneg, if_neg hneg]
        rcases stacktrace_storage_format_value (base + serialize_pad_size ofs 8)
          ((store64 buf 24 (base + serialize_pad_size ofs 8)).drop
            (serialize_pad_size ofs 8)) s with hv | hv
        · rw [hv] at hneg; exact absurd (Int.negSucc_lt_zero 0) hneg
        · rw [hv, Int.toNat_ofNat, Nat.mod_eq_of_lt (by omega), to_int_small _ (by omega)]
          push_cast
          rfl

theorem c_int_storage_format_location_eq (base : Nat) (buf : List Nat) (ofs : Nat)
    (location : Option ctest_location) (stacktrace : Option ctest_stacktrace)
    (h : ofs + location_need ofs location
      + stacktrace_need (ofs + location_need ofs location) stacktrace < 2147483648) :
    c_int.storage_format_location base buf ofs location stacktrace
      = storage_format_location base buf ofs location stacktrace := by
  unfold c_int.storage_format_location storage_format_location
  cases location with
  | none =>
    simp only [location_need, Nat.add_zero] at h
    simp only []
    exact c_int_storage_format_stacktrace_eq base _ ofs stacktrace h
  | some l =>
    simp only [location_need] at h
    have hp := serialize_pad_size_ge ofs
    simp only []
    by_cases hbig : serialize_pad_size ofs 8 > buf.length
    · rw [if_pos hbig, if_pos hbig]
    · rw [if_neg hbig, if_neg hbig,
        c_int_location_storage_format_eq _ _ l (by omega)]
      by_cases hneg : (location_storage_format (base + serialize_pad_size ofs 8)
          ((store64 buf 16 (base + serialize_pad_size ofs 8)).drop
            (serialize_pad_size ofs 8)) l).1 < 0
      · rw [if_pos hneg, if_pos hneg]
      · rw [if_neg hneg, if_neg hneg]
        have hfit : location_storage_size l ≤
            ((store64 buf 16 (base + serialize_pad_size ofs 8)).drop
              (serialize_pad_size ofs 8)).length := by
          by_contra hc
          exact hneg (location_storage_format_short _ _ l (by omega))
        have hv := (location_storage_format_fit (base + serialize_pad_size ofs 8)
          ((store64 buf 16 (base + serialize_pad_size ofs 8)).drop
            (serialize_pad_size ofs 8)) l hfit).1
        have eofs : ofs + (serialize_pad_size ofs 8 - ofs + location_storage_size l)
            = serialize_pad_size ofs 8 + location_storage_size l := by omega
        rw [eofs] at h
        rw [hv, Int.toNat_ofNat, Nat.mod_eq_of_lt (by omega)]
        exact c_int_storage_format_stacktrace_eq base _ _ stacktrace h

theorem c_int_storage_format_eq (base : Nat) (buf : List Nat) (f : ctest_failure)
    (h : failure_storage_size f < 2147483648) :
    c_int.storage_format__ base buf f.stage (description_len f.description) f.location
        f.stacktrace
      = storage_format__ base buf f.stage (description_len f.description) f.location
        f.stacktrace := by
  have hsize := failure_storage_size_eq f
  have hend := location_end_eq f
  have hde : description_end f = 32 + description_len f.description := rfl
  rw [hde] at hend
  rw [hsize, hend] at h
  unfold c_int.storage_format__ storage_format__
  by_cases h32 : 32 > buf.length
  · rw [if_pos h32, if_pos h32]
  · rw [if_neg h32, if_neg h32]
    simp only [serialize_pad_size_one]
    by_cases hd : description_len f.description > 0
    · rw [if_pos hd, if_pos hd]
      by_cases hbig : 32 + description_len f.description > buf.length
      · rw [if_pos hbig, if_pos hbig]
      · rw [if_neg hbig, if_neg hbig]
        exact c_int_storage_format_location_eq base _ _ f.location f.stacktrace h
    · rw [if_neg hd, if_neg hd]
      have hz : description_len f.description = 0 := by omega
      rw [hz] at h
      simp only [Nat.add_zero] at h
      exact c_int_storage_format_location_eq base _ _ f.location f.stacktrace h

/-- For a failure that flattens to fewer than `2^31` bytes the conversion to `int` changes
nothing: `failure_storage_format` returns the offset and fills the buffer as the
definition without the conversion does. -/
theorem c_int_failure_storage_format_eq (base : Nat) (buf : List Nat) (f : ctest_failure)
    (h : failure_storage_size f < 2147483648) :
    c_int.failure_storage_format base buf f = failure_storage_format base buf f := by
  unfold c_int.failure_storage_format failure_storage_format
  rw [c_int_storage_format_eq base buf f h]
  all_goals (simp only []; split_ifs <;> (cases f.description <;> rfl))

/-- C25, as the code has it. For a failure `f` that flattens to fewer than `2^31` bytes and
a buffer `buf` of `len` bytes at address `base` that lies in the address space,
`failure_storage_format(buf, len, f)` returns a negative `int` when `len` is less than
`failure_storage_size(f)`, and returns `failure_storage_size(f)` otherwise. In that case the
regions stand in the first `failure_storage_size(f)` bytes in this order, each ending before
the next starts: the 32 bytes of the header; the description at offset 32, where the
`description` pointer points; the location at the offset the `location` pointer holds, its
file name 16 bytes further, where its `filename` pointer points; the stack trace with its
frames at the offset the `stacktrace` pointer holds; and behind the frames the file names of
the frames in the order of the frames, each where the `filename` pointer of its frame
points. -/
theorem failure_storage_format_size_layout (base : Nat) (buf : List Nat) (f : ctest_failure)
    (hbuf : base + buf.length < 18446744073709551616)
    (hsize : failure_storage_size f < 2147483648) :
    (buf.length < failure_storage_size f → (c_int.failure_storage_format base buf f).1 < 0) ∧
    (failure_storage_size f ≤ buf.length →
      (c_int.failure_storage_format base buf f).1 = (failure_storage_size f : Int) ∧
      (c_int.failure_storage_format base buf f).2.length = buf.length ∧
      32 ≤ description_end f ∧ description_end f ≤ location_end f ∧
      location_end f ≤ failure_storage_size f ∧
      (∀ s, f.description = some s →
        load64 (c_int.failure_storage_format base buf f).2 8 = base + 32 ∧
        read_bytes (c_int.failure_storage_format base buf f).2 32 (s.length + 1) = cstring_bytes s ∧
        32 + (s.length + 1) = description_end f) ∧
      (f.description = none → load64 (c_int.failure_storage_format base buf f).2 8 = 0) ∧
      (∀ l, f.location = some l →
        load64 (c_int.failure_storage_format base buf f).2 16
          = base + serialize_pad_size (description_end f) 8 ∧
        description_end f ≤ serialize_pad_size (description_end f) 8 ∧
        serialize_pad_size (description_end f) 8 + location_storage_size l = location_end f ∧
        16 ≤ location_storage_size l ∧
        ∀ n, l.filename = some n →
          load64 (c_int.failure_storage_format base buf f).2
              (serialize_pad_size (description_end f) 8)
            = base + (serialize_pad_size (description_end f) 8 + 16) ∧
          read_bytes (c_int.failure_storage_format base buf f).2
              (serialize_pad_size (description_end f) 8 + 16) (n.length + 1)
            = cstring_bytes n ∧
          16 + (n.length + 1) = location_storage_size l) ∧
      (f.location = none → load64 (c_int.failure_storage_format base buf f).2 16 = 0) ∧
      (∀ st, f.stacktrace = some st →
        load64 (c_int.failure_storage_format base buf f).2 24
          = base + serialize_pad_size (location_end f) 8 ∧
        location_end f ≤ serialize_pad_size (location_end f) 8 ∧
        serialize_pad_size (location_end f) 8 + stacktrace_storage_size st
          = failure_storage_size f ∧
        load64 (c_int.failure_storage_format base buf f).2 (serialize_pad_size (location_end f) 8)
          = st.frames.length ∧
        ∀ (i : Nat) (frame : ctest_stackframe) (n : List Nat),
          st.frames[i]? = some frame → frame.filename = some n →
          load64 (c_int.failure_storage_format base buf f).2
              (serialize_pad_size (location_end f) 8 + 8 + 24 * i + 8)
            = base + (serialize_pad_size (location_end f) 8
                + (8 + 24 * st.frames.length + (frame_names (st.frames.take i)).length)) ∧
          read_bytes (c_int.failure_storage_format base buf f).2
              (serialize_pad_size (location_end f) 8
                + (8 + 24 * st.frames.length + (frame_names (st.frames.take i)).length))
              (n.length + 1) = cstring_bytes n ∧
          8 + 24 * st.frames.length + (frame_names (st.frames.take i)).length + (n.length + 1)
            ≤ stacktrace_storage_size st ∧
          ∀ j, i < j → (frame_names (st.frames.take i)).length + (n.length + 1)
            ≤ (frame_names (st.frames.take j)).length) ∧
      (f.stacktrace = none → load64 (c_int.failure_storage_format base buf f).2 24 = 0)) := by
  rw [c_int_failure_storage_format_eq base buf f hsize]
  exact failure_storage_format_offsets base buf f hbuf

/-- The failure "oops" formatted into a buffer of 256 bytes and into one of 80 bytes, at
address 4096. -/
theorem failure_storage_format_size_layout_witness :
    4096 + (List.replicate 256 0).length < 18446744073709551616 ∧
    failure_storage_size sample_failure < 2147483648 ∧
    (c_int.failure_storage_format 4096 (List.replicate 256 0) sample_failure).1
      = (failure_storage_size sample_failure : Int) ∧
    (c_int.failure_storage_format 4096 (List.replicate 80 0) sample_failure).1 < 0 :=
  ⟨by rw [List.length_replicate]; decide, by decide,
    ((failure_storage_format_size_layout 4096 (List.replicate 256 0) sample_failure
      (by rw [List.length_replicate]; decide) (by decide)).2
      (by rw [List.length_replicate]; decide)).1,
    (failure_storage_format_size_layout 4096 (List.replicate 80 0) sample_failure
      (by rw [List.length_replicate]; decide) (by decide)).1
      (by rw [List.length_replicate]; decide)⟩

/-- The value `failure_storage_format` returns for a failure that has only a description,
of `n` characters, in a buffer with room for it: the size `33 + n` converted to `int`. -/
theorem c_int_format_description_only (base n : Nat) (buf : List Nat)
    (h : 33 + n ≤ buf.length) :
    (c_int.failure_storage_format base buf (long_failure_of n)).1 = to_int (33 + n) := by
  have hr : (c_int.storage_format__ base buf (long_failure_of n).stage
      (description_len (long_failure_of n).description) (long_failure_of n).location
      (long_failure_of n).stacktrace).1 = to_int (33 + n) := by
    have hd : description_len (long_failure_of n).description = n + 1 := by
      show (List.replicate n 97).length + 1 = n + 1
      rw [List.length_replicate]
    have hl : (long_failure_of n).location = none := rfl
    have hs : (long_failure_of n).stacktrace = none := rfl
    rw [hd, hl, hs]
    unfold c_int.storage_format__
    rw [if_neg (by omega), if_pos (by omega)]
    simp only [serialize_pad_size_one]
    rw [if_neg (by omega)]
    have e : 32 + (n + 1) = 33 + n := by omega
    rw [e]
    rfl
  unfold c_int.failure_storage_format
  simp only []
  split_ifs
  · rw [← hr]
    rfl
  · exact hr

/-- A failure whose description has 2147483615 characters flattens to `2^31` bytes; in a
buffer of `2^31` bytes `failure_storage_format` returns `-2147483648`: a negative value,
not the size, although the buffer has room for the failure. -/
theorem failure_storage_format_int_wraps :
    failure_storage_size (long_failure_of 2147483615) = 2147483648 ∧
    (List.replicate 2147483648 0).length = 2147483648 ∧
    (c_int.failure_storage_format 4096 (List.replicate 2147483648 0)
      (long_failure_of 2147483615)).1 = -2147483648 := by
  refine ⟨long_failure_of_size 2147483615, List.length_replicate _ _, ?_⟩
  rw [c_int_format_description_only 4096 2147483615 _ (by rw [List.length_replicate])]
  decide

/-! ### Readers that can be fed what waits -/

/-- A reader that waits for a header at the start of a stream of frames of the writer can
be fed the stream. -/
theorem reader_drains_stream (wbase : Nat) (malloc : Nat → Nat) (events : List ExecEvent)
    (stream : List Nat) (hfit : ∀ e ∈ events, event_fits wbase malloc e)
    (hs : event_stream wbase events = some stream) :
    reader_drains malloc exec_event_reader_init stream := by
  intro ws hpos
  have hpos1 : ∀ w ∈ List.replicate stream.length 1, 0 < w := by
    intro w hw
    rw [List.eq_of_mem_replicate hw]
    exact Nat.one_pos
  obtain ⟨r, calls, h1, h2, _, _⟩ := feed_events wbase malloc events exec_event_reader_init
    (ws ++ List.replicate stream.length 1) stream ⟨rfl, rfl, rfl, rfl, rfl⟩ rfl rfl hfit hs
    (by
      intro w hw
      rcases List.mem_append.mp hw with h | h
      · exact hpos w h
      · exact hpos1 w h)
    (by rw [List.length_append, List.length_replicate]; omega)
  exact ⟨List.replicate stream.length 1, r, hpos1, h1, h2⟩

/-- With nothing waiting, a reader that can be fed waits for a header. -/
theorem reader_drains_nil (malloc : Nat → Nat) (r : exec_event_reader)
    (h : reader_drains malloc r []) : r.awaiting_header := by
  obtain ⟨ws1, r1, _, hfeed, ha⟩ := h [] (by intro w hw; cases hw)
  rw [List.nil_append, reader_feed_nil] at hfeed
  have e : r = r1 := congrArg Prod.fst (Option.some.inj hfeed)
  rw [e]
  exact ha

/-- One data-available call of a reader that can be fed, with bytes waiting: the call stays
inside the buffers, and unless it returns a negative value the reader can be fed what is
left. -/
theorem reader_drains_step (malloc : Nat → Nat) (r : exec_event_reader) (p : List Nat)
    (w : Nat) (h : reader_drains malloc r p) (hp : p ≠ []) (hw : 0 < w) :
    ∃ rc r1 rest, reader_op_on_data_available__ malloc r p w = some (rc, r1, rest) ∧
      (0 ≤ rc → reader_drains malloc r1 rest) := by
  cases hcall : reader_op_on_data_available__ malloc r p w with
  | none =>
    obtain ⟨ws1, r1, _, hfeed, _⟩ := h [w] (by
      intro x hx
      rw [List.mem_singleton.mp hx]
      exact hw)
    rw [List.singleton_append, reader_feed, if_neg hp, hcall] at hfeed
    exact Option.noConfusion hfeed
  | some res =>
    obtain ⟨rc, r1, rest⟩ := res
    refine ⟨rc, r1, rest, rfl, ?_⟩
    intro hrc ws hpos
    obtain ⟨ws1, r2, hpos1, hfeed, ha⟩ := h (w :: ws) (by
      intro x hx
      rcases List.mem_cons.mp hx with e | e
      · rw [e]; exact hw
      · exact hpos x e)
    rw [List.cons_append, reader_feed, if_neg hp, hcall] at hfeed
    simp only [] at hfeed
    rw [if_neg (by omega)] at hfeed
    exact ⟨ws1, r2, hpos1, hfeed, ha⟩

/-- A data-available call of a reader that waits for a header, with nothing waiting: the
`read` hands over nothing and the call returns 0. -/
theorem reader_awaiting_eof (malloc : Nat → Nat) (r : exec_event_reader) (w : Nat)
    (h : r.awaiting_header) :
    ∃ r1, reader_op_on_data_available__ malloc r [] w = some (0, r1, []) := by
  obtain ⟨h1, h2, h3, _, _⟩ := h
  unfold reader_op_on_data_available__
  simp only [h1, h2, h3, reduceCtorEq, false_and, if_false, List.take_nil, List.drop_nil,
    List.length_nil, Nat.add_zero]
  rw [if_neg (by omega)]
  exact ⟨_, rfl⟩

/-! ### The rounds of the parent's loop -/

theorem output_reader_read_rest (reader : output_reader) (output : Option ctest_output)
    (pipe : List Nat) (want : Option Nat) (rc : Int) (r1 : output_reader) (rest : List Nat)
    (h : output_reader_read reader output pipe want = some (rc, r1, rest)) :
    r1.length + rest.length ≤ reader.length + pipe.length := by
  have hr1 := (read_call_length pipe 4096 want).2
  have hr2 := (read_call_length pipe (output_length output - reader.length) want).2
  unfold output_reader_read at h
  simp only [] at h
  split_ifs at h <;>
    (have e := Option.some.inj h
     have e1 := congrArg (fun x => x.2.1.length) e
     have e2 := congrArg (fun x => x.2.2.length) e
     simp only [List.length_drop] at e1 e2
     omega)

/-- A data-available call of the output reader does not make bytes: those collected and
those left waiting are at most those collected and waiting before. -/
theorem output_reader_step_rest (alloc_ok : Bool) (garbage : Nat → Nat)
    (reader : output_reader) (pipe : List Nat) (want : Option Nat) (rc : Int)
    (r1 : output_reader) (rest : List Nat)
    (h : output_reader_on_data_available__ alloc_ok garbage reader pipe want
      = some (rc, r1, rest)) :
    r1.length + rest.length ≤ reader.length + pipe.length := by
  unfold output_reader_on_data_available__ at h
  cases hg : output_reader_grow alloc_ok garbage reader with
  | none => rw [hg] at h; exact Option.noConfusion h
  | some output =>
    rw [hg] at h
    exact output_reader_read_rest reader output pipe want rc r1 rest h

/-- The build of the output of a sound reader stays inside the buffer when its `realloc`
succeeds. -/
theorem output_reader_build_sound (garbage : Nat → Nat) (reader : output_reader)
    (hs : reader.sound) (hb : reader.length < 4611686018427387904) :
    ∃ out r1, output_reader_build true garbage reader = some (out, r1) := by
  unfold output_reader.sound at hs
  unfold output_reader_build
  cases ho : reader.output with
  | none => exact ⟨_, _, rfl⟩
  | some o =>
    rw [ho] at hs
    obtain ⟨h1, h2, _⟩ := hs
    simp only []
    by_cases h0 : reader.length = 0
    · rw [if_pos h0]; exact ⟨_, _, rfl⟩
    · rw [if_neg h0, Nat.mod_eq_of_lt (by omega),
        ctest_output_resize_eq garbage (some o) (reader.length + 1)
          (by simp only [output_length, output_data]; omega) (by omega)]
      simp only [output_length, output_data]
      rw [if_pos (by
        rw [List.length_append, List.length_take, List.length_replicate]
        omega)]
      exact ⟨_, _, rfl⟩

/-- The execution-hooks part of a round of the loop, from a sound state: the handler stays
inside its buffers, the state is sound afterwards, the output part is untouched, a closed
descriptor stays closed and a descriptor reported `POLLHUP` is closed. -/
theorem poll_hooks_sound (malloc : Nat → Nat) (st : wait_state) (ev : Revents)
    (hs : st.sound malloc)
    (hev : ∀ p, ev = Revents.pollin p → ∀ w, p.read = some w → 0 < w) :
    ∃ st1, poll_hooks malloc st (if st.hooks_fd < 0 then Revents.neither else ev) = some st1 ∧
      st1.sound malloc ∧ st1.output_fd = st.output_fd ∧
      (st.hooks_fd < 0 → st1.hooks_fd < 0) ∧ (ev = Revents.pollhup → st1.hooks_fd < 0) := by
  obtain ⟨hh, ho⟩ := hs
  by_cases hneg : st.hooks_fd < 0
  · rw [if_pos hneg]
    exact ⟨st, rfl, ⟨hh, ho⟩, rfl, fun h => h, fun _ => hneg⟩
  · rw [if_neg hneg]
    have hpos : 0 < st.hooks_fd ∧ reader_drains malloc st.event_reader st.hooks_pipe := by
      rcases hh with h | h
      · exact absurd h hneg
      · exact h
    have hclosed : -st.hooks_fd < 0 := by omega
    cases ev with
    | neither => exact ⟨st, rfl, ⟨hh, ho⟩, rfl, fun h => h, fun h => Revents.noConfusion h⟩
    | pollhup =>
      exact ⟨{ st with hooks_fd := -st.hooks_fd }, rfl, ⟨Or.inl hclosed, ho⟩, rfl,
        fun _ => hclosed, fun _ => hclosed⟩
    | pollin p =>
      have hcases : ∃ rc r1 rest,
          (match p.read with
            | none => some (-1, st.event_reader, st.hooks_pipe)
            | some want =>
              reader_op_on_data_available__ malloc st.event_reader st.hooks_pipe want)
            = some (rc, r1, rest) ∧
          (0 < rc → reader_drains malloc r1 rest) := by
        cases hr : p.read with
        | none =>
          exact ⟨-1, _, _, rfl, fun h => absurd h (by decide)⟩
        | some w =>
          have hw : 0 < w := hev p rfl w hr
          by_cases hp : st.hooks_pipe = []
          · obtain ⟨r1, h1⟩ := reader_awaiting_eof malloc st.event_reader w
              (reader_drains_nil malloc _ (by rw [← hp]; exact hpos.2))
            refine ⟨0, r1, [], ?_, fun h => absurd h (by decide)⟩
            simp only [hp]
            exact h1
          · obtain ⟨rc, r1, rest, h1, h2⟩ :=
              reader_drains_step malloc st.event_reader st.hooks_pipe w hpos.2 hp hw
            exact ⟨rc, r1, rest, h1, fun h => h2 (by omega)⟩
      obtain ⟨rc, r1, rest, hcall, hdr⟩ := hcases
      rw [poll_hooks, hcall]
      simp only []
      by_cases h1 : rc < 0
      · rw [if_pos h1]
        exact ⟨_, rfl, ⟨Or.inl hclosed, ho⟩, rfl, fun _ => hclosed,
          fun h => Revents.noConfusion h⟩
      · rw [if_neg h1]
        by_cases h2 : rc = 0
        · rw [if_pos h2]
          exact ⟨_, rfl, ⟨Or.inl hclosed, ho⟩, rfl, fun _ => hclosed,
            fun h => Revents.noConfusion h⟩
        · rw [if_neg h2]
          exact ⟨_, rfl, ⟨Or.inr ⟨hpos.1, hdr (by omega)⟩, ho⟩, rfl,
            fun h => absurd h hneg, fun h => Revents.noConfusion h⟩

/-- The output part of a round of the loop, from a sound state: the handler stays inside
its buffer, the state is sound afterwards, the execution-hooks descriptor is untouched, a
closed descriptor stays closed and a descriptor reported `POLLHUP` is closed. -/
theorem poll_output_sound (malloc garbage : Nat → Nat) (st : wait_state) (ev : Revents)
    (hs : st.sound malloc) :
    ∃ st1, poll_output garbage st (if st.output_fd < 0 then Revents.neither else ev)
        = some st1 ∧
      st1.sound malloc ∧ st1.hooks_fd = st.hooks_fd ∧
      (st.output_fd < 0 → st1.output_fd < 0) ∧ (ev = Revents.pollhup → st1.output_fd < 0) := by
  obtain ⟨hh, hfd, hsound, hlen⟩ := hs
  by_cases hneg : st.output_fd < 0
  · rw [if_pos hneg]
    exact ⟨st, rfl, ⟨hh, hfd, hsound, hlen⟩, rfl, fun h => h, fun _ => hneg⟩
  · rw [if_neg hneg]
    have hclosed : -st.output_fd < 0 := by omega
    have hne : -st.output_fd ≠ 0 := by omega
    cases ev with
    | neither =>
      exact ⟨st, rfl, ⟨hh, hfd, hsound, hlen⟩, rfl, fun h => h,
        fun h => Revents.noConfusion h⟩
    | pollhup =>
      exact ⟨{ st with output_fd := -st.output_fd }, rfl, ⟨hh, hne, hsound, hlen⟩, rfl,
        fun _ => hclosed, fun _ => hclosed⟩
    | pollin p =>
      obtain ⟨rc, r1, rest, hcall, hs1, _, _, _⟩ := output_reader_step_sound
        { alloc_ok := p.alloc_ok, garbage := garbage, pipe := st.output_pipe, want := p.read }
        st.output_reader hsound (by omega)
      have hrest := output_reader_step_rest p.alloc_ok garbage st.output_reader
        st.output_pipe p.read rc r1 rest hcall
      have hlen1 : r1.length + rest.length < 4611686018427387904 := by omega
      rw [poll_output]
      simp only [] at hcall
      rw [hcall]
      simp only []
      by_cases h1 : rc < 0
      · rw [if_pos h1]
        exact ⟨_, rfl, ⟨hh, hne, hs1, hlen1⟩, rfl, fun _ => hclosed,
          fun h => Revents.noConfusion h⟩
      · rw [if_neg h1]
        by_cases h2 : rc = 0
        · rw [if_pos h2]
          exact ⟨_, rfl, ⟨hh, hne, hs1, hlen1⟩, rfl, fun _ => hclosed,
            fun h => Revents.noConfusion h⟩
        · rw [if_neg h2]
          exact ⟨_, rfl, ⟨hh, hfd, hs1, hlen1⟩, rfl, fun h => absurd h hneg,
            fun h => Revents.noConfusion h⟩

/-- The loop of `wait_for_child__` from a sound state: when the `poll` calls report
`POLLHUP` on each descriptor that is not closed yet, the loop is left, in a state whose
output reader is sound. -/
theorem poll_loop_returns (malloc garbage : Nat → Nat) :
    ∀ (steps : List PollStep) (st : wait_state), st.sound malloc →
      (∀ s ∈ steps, s.hooks_read_some) →
      (st.hooks_fd < 0 ∨ ∃ s ∈ steps, s.hooks = Revents.pollhup) →
      (st.output_fd < 0 ∨ ∃ s ∈ steps, s.output = Revents.pollhup) →
      ∃ st1, poll_loop malloc garbage steps st = some st1 ∧ st1.output_reader.sound ∧
        st1.output_reader.length < 4611686018427387904 := by
  intro steps
  induction steps with
  | nil =>
    intro st hs _ h1 h2
    have g1 : st.hooks_fd < 0 := by
      rcases h1 with h | ⟨s, hm, _⟩
      · exact h
      · cases hm
    have g2 : st.output_fd < 0 := by
      rcases h2 with h | ⟨s, hm, _⟩
      · exact h
      · cases hm
    exact ⟨st, poll_loop_closed malloc garbage [] st g1 g2, hs.2.2.1, by
      have := hs.2.2.2
      omega⟩
  | cons step rest ih =>
    intro st hs hread h1 h2
    have hlen : st.output_reader.length < 4611686018427387904 := by
      have := hs.2.2.2
      omega
    by_cases hdone : st.hooks_fd < 0 ∧ st.output_fd < 0
    · exact ⟨st, poll_loop_closed malloc garbage _ st hdone.1 hdone.2, hs.2.2.1, hlen⟩
    · rw [poll_loop, if_neg hdone]
      cases hp : step.poll_errno with
      | some errno => exact ⟨_, rfl, hs.2.2.1, hlen⟩
      | none =>
        simp only []
        obtain ⟨st1, e1, hs1, hfd1, hk1, hc1⟩ := poll_hooks_sound malloc st step.hooks hs
          (hread step (List.mem_cons_self _ _))
        obtain ⟨st2, e2, hs2, hfd2, hk2, hc2⟩ :=
          poll_output_sound malloc garbage st1 step.output hs1
        rw [hfd1] at e2 hk2
        rw [e1]
        simp only []
        rw [e2]
        simp only []
        refine ih st2 hs2 (fun s hm => hread s (List.mem_cons_of_mem _ hm)) ?_ ?_
        · rw [hfd2]
          rcases h1 with h | ⟨s, hm, hup⟩
          · exact Or.inl (hk1 h)
          · rcases List.mem_cons.mp hm with e | e
            · rw [e] at hup
              exact Or.inl (hc1 hup)
            · exact Or.inr ⟨s, e, hup⟩
        · rcases h2 with h | ⟨s, hm, hup⟩
          · exact Or.inl (hk2 h)
          · rcases List.mem_cons.mp hm with e | e
            · rw [e] at hup
              exact Or.inl (hc2 hup)
            · exact Or.inr ⟨s, e, hup⟩

/-- The two parts of a round keep a descriptor or negate it. -/
theorem poll_hooks_fds (malloc : Nat → Nat) (st st1 : wait_state) (ev : Revents)
    (h : poll_hooks malloc st ev = some st1) :
    (st1.hooks_fd = st.hooks_fd ∨ st1.hooks_fd = -st.hooks_fd) ∧
    st1.output_fd = st.output_fd := by
  cases ev with
  | neither =>
    have e : st = st1 := Option.some.inj h
    rw [← e]
    exact ⟨Or.inl rfl, rfl⟩
  | pollhup =>
    have e : { st with hooks_fd := -st.hooks_fd } = st1 := Option.some.inj h
    rw [← e]
    exact ⟨Or.inr rfl, rfl⟩
  | pollin p =>
    rw [poll_hooks] at h
    simp only [] at h
    split at h
    · exact Option.noConfusion h
    · split_ifs at h <;>
        (have e := Option.some.inj h
         rw [← e]
         first
           | exact ⟨Or.inl rfl, rfl⟩
           | exact ⟨Or.inr rfl, rfl⟩)

theorem poll_output_fds (garbage : Nat → Nat) (st st1 : wait_state) (ev : Revents)
    (h : poll_output garbage st ev = some st1) :
    (st1.output_fd = st.output_fd ∨ st1.output_fd = -st.output_fd) ∧
    st1.hooks_fd = st.hooks_fd := by
  cases ev with
  | neither =>
    have e : st = st1 := Option.some.inj h
    rw [← e]
    exact ⟨Or.inl rfl, rfl⟩
  | pollhup =>
    have e : { st with output_fd := -st.output_fd } = st1 := Option.some.inj h
    rw [← e]
    exact ⟨Or.inr rfl, rfl⟩
  | pollin p =>
    rw [poll_output] at h
    split at h
    · exact Option.noConfusion h
    · split_ifs at h <;>
        (have e := Option.some.inj h
         rw [← e]
         first
           | exact ⟨Or.inl rfl, rfl⟩
           | exact ⟨Or.inr rfl, rfl⟩)

/-- The loop of `wait_for_child__` when one of the descriptors is 0: the negation that is
to close it leaves it 0, so the loop is not left however many `poll` calls succeed. -/
theorem poll_loop_descriptor_zero (malloc garbage : Nat → Nat) :
    ∀ (steps : List PollStep) (st : wait_state), (st.hooks_fd = 0 ∨ st.output_fd = 0) →
      (∀ s ∈ steps, s.poll_errno = none) → poll_loop malloc garbage steps st = none := by
  intro steps
  induction steps with
  | nil =>
    intro st h0 _
    rw [poll_loop, if_neg (by omega)]
  | cons step rest ih =>
    intro st h0 hpoll
    rw [poll_loop, if_neg (by omega)]
    simp only [hpoll step (List.mem_cons_self _ _)]
    cases e1 : poll_hooks malloc st (if st.hooks_fd < 0 then Revents.neither else step.hooks) with
    | none => rfl
    | some st1 =>
      simp only []
      obtain ⟨f1, f2⟩ := poll_hooks_fds malloc st st1 _ e1
      cases e2 : poll_output garbage st1
          (if st.output_fd < 0 then Revents.neither else step.output) with
      | none => rfl
      | some st2 =>
        simp only []
        obtain ⟨g1, g2⟩ := poll_output_fds garbage st1 st2 _ e2
        exact ih st2 (by omega) (fun s hm => hpoll s (List.mem_cons_of_mem _ hm))

/-! ### The parent returns -/

/-- The function `wait_for_child__` returns when the read ends of the pipes are descriptors
above 0, the child has sent frames of the event writer (`events`, each fitting), fewer than
`2^62` bytes of output wait, every successful `read` of the execution-hooks descriptor
hands over at least one byte when bytes wait, `poll` reports `POLLHUP` on each of the two
descriptors in some round, and the `realloc` of `output_reader_build` succeeds: the loop is
left in a state `st`, and the value returned and the result are those of
`wait_status_result` for `st`, with the output built. -/
theorem wait_for_child_returns (wbase : Nat) (malloc garbage : Nat → Nat)
    (result : ctest_result) (child hooks_fd output_fd : Int) (run : ChildRun)
    (events : List ExecEvent)
    (hfd : 0 < hooks_fd ∧ 0 < output_fd)
    (hfit : ∀ e ∈ events, event_fits wbase malloc e)
    (hstream : event_stream wbase events = some run.hooks_bytes)
    (hout : run.output_bytes.length < 4611686018427387904)
    (hread : ∀ s ∈ run.steps, s.hooks_read_some)
    (hhup : (∃ s ∈ run.steps, s.hooks = Revents.pollhup) ∧
      ∃ s ∈ run.steps, s.output = Revents.pollhup)
    (hre : run.realloc_ok = true) :
    ∃ st output,
      poll_loop malloc garbage run.steps (wait_state_init result hooks_fd output_fd run)
        = some st ∧
      wait_for_child__ malloc garbage result child hooks_fd output_fd run =
        some ((wait_status_result st child run.create_ok run.status).1,
          { (wait_status_result st child run.create_ok run.status).2 with
            output := output }) := by
  have hinit : (wait_state_init result hooks_fd output_fd run).sound malloc := by
    refine ⟨Or.inr ⟨hfd.1, reader_drains_stream wbase malloc events _ hfit hstream⟩, ?_,
      output_reader_init_sound, ?_⟩
    · show output_fd ≠ 0
      omega
    · show 0 + run.output_bytes.length < 4611686018427387904
      omega
  obtain ⟨st, hloop, hsound, hlen⟩ := poll_loop_returns malloc garbage run.steps _ hinit
    hread (Or.inr hhup.1) (Or.inr hhup.2)
  obtain ⟨out, r1, hbuild⟩ := output_reader_build_sound garbage st.output_reader hsound hlen
  rw [← hre] at hbuild
  exact ⟨st, out, hloop,
    wait_for_child_eq malloc garbage result child hooks_fd output_fd run st out r1 hloop
      hbuild⟩

theorem bare_failure_valid : bare_failure.valid := by
  refine ⟨trivial, ?_, ?_⟩
  · intro l hl; cases hl
  · intro s hs; cases hs

theorem sample_run_events_fit :
    ∀ e ∈ sample_run_events, event_fits 4096 (fun _ => 8192) e := by
  intro e he
  simp only [sample_run_events, List.mem_cons, List.mem_singleton, List.not_mem_nil,
    or_false] at he
  rcases he with h | h
  · subst h; trivial
  · subst h
    exact ⟨bare_failure_valid, by decide, by decide, by decide, by decide⟩

set_option maxRecDepth 100000 in
theorem sample_run_stream (status : WaitStatus) :
    event_stream 4096 sample_run_events = some (sample_child_run status).hooks_bytes := by
  show event_stream 4096 sample_run_events = some sample_hooks_bytes
  decide

theorem sample_steps_read : ∀ s ∈ sample_steps, s.hooks_read_some := by
  intro s hs p hp w hw
  simp only [sample_steps, List.mem_cons, List.mem_singleton, List.not_mem_nil,
    or_false] at hs
  rcases hs with h | h | h | h | h <;> subst h <;>
    first
      | (have e : p = { read := some 4096, errno := 0, alloc_ok := true, create_ok := true } :=
           (Revents.pollin.inj hp).symm
         rw [e] at hw
         have e2 : w = 4096 := (Option.some.inj hw).symm
         rw [e2]
         decide)
      | exact Revents.noConfusion hp

theorem sample_steps_hup :
    (∃ s ∈ sample_steps, s.hooks = Revents.pollhup) ∧
    ∃ s ∈ sample_steps, s.output = Revents.pollhup :=
  ⟨⟨poll_step Revents.pollhup Revents.neither, by simp [sample_steps], rfl⟩,
    ⟨poll_step (pollin 4096) Revents.pollhup, by simp [sample_steps], rfl⟩⟩

/-! ### The result of a child that exits with a valid outcome code -/

/-- The result of a child that exits normally with an exit code `c` in 0..3, in a run in
which `wait_for_child__` returns (`wait_for_child_returns`): the outcome of the result is
the one whose discriminator is `c`; for fail (1) and error (3) the failure of the result is
the most recent failure the event reader handed to the consumer, absent when none was
handed over, and for pass (0) the result has no failure. -/
theorem wait_for_child_exit_outcome (wbase : Nat) (malloc garbage : Nat → Nat)
    (result : ctest_result) (child hooks_fd output_fd : Int) (run : ChildRun)
    (events : List ExecEvent) (c : Int)
    (hc : 0 ≤ c ∧ c ≤ 3) (hs : run.status = WaitStatus.exited c)
    (hfd : 0 < hooks_fd ∧ 0 < output_fd)
    (hfit : ∀ e ∈ events, event_fits wbase malloc e)
    (hstream : event_stream wbase events = some run.hooks_bytes)
    (hout : run.output_bytes.length < 4611686018427387904)
    (hread : ∀ s ∈ run.steps, s.hooks_read_some)
    (hhup : (∃ s ∈ run.steps, s.hooks = Revents.pollhup) ∧
      ∃ s ∈ run.steps, s.output = Revents.pollhup)
    (hre : run.realloc_ok = true) :
    ∃ st retval result1,
      poll_loop malloc garbage run.steps (wait_state_init result hooks_fd output_fd run)
        = some st ∧
      wait_for_child__ malloc garbage result child hooks_fd output_fd run
        = some (retval, result1) ∧
      result1.type.value = c ∧
      (c = 1 ∨ c = 3 →
        result1.failure = (received_failures st.event_reader.calls).getLast?) ∧
      (c = 0 → result1.failure = none) := by
  obtain ⟨st, output, hloop, hret⟩ := wait_for_child_returns wbase malloc garbage result
    child hooks_fd output_fd run events hfd hfit hstream hout hread hhup hre
  rw [hs] at hret
  have hw := wait_status_exited st child run.create_ok c hc
  exact ⟨st, _, _, hloop, hret, hw.1, fun h13 => hw.2.1 (by omega), fun h0 => hw.2.2.1 h0⟩

/-- C14, where the read end of a pipe is descriptor 0: `wait_for_child__` closes a
descriptor by negating it, which leaves 0 as it is, so the descriptor is polled again in
every round and the loop is never left: however many `poll` calls succeed and whatever
they report, the parent does not get to `waitpid`, and no result is made from the exit
code of the child. -/
theorem wait_for_child_descriptor_zero (malloc garbage : Nat → Nat) (result : ctest_result)
    (child hooks_fd output_fd : Int) (run : ChildRun)
    (h0 : hooks_fd = 0 ∨ output_fd = 0) (hpoll : ∀ s ∈ run.steps, s.poll_errno = none) :
    wait_for_child__ malloc garbage result child hooks_fd output_fd run = none := by
  unfold wait_for_child__
  rw [poll_loop_descriptor_zero malloc garbage run.steps _ h0 hpoll]

/-- The sample run of a child that exits with code 0 for which the parent has the
execution-hooks pipe on descriptor 0: the parent is still in its loop after the last
`poll` call; with the pipe on descriptor 3 the same run gives the result of a pass. -/
theorem wait_for_child_descriptor_zero_witness :
    ((0 : Int) = 0 ∨ (5 : Int) = 0) ∧
    (∀ s ∈ (sample_child_run (WaitStatus.exited 0)).steps, s.poll_errno = none) ∧
    wait_for_child__ (fun _ => 8192) (fun _ => 7) ctest_result_create_empty 42 0 5
      (sample_child_run (WaitStatus.exited 0)) = none ∧
    wait_for_child__ (fun _ => 8192) (fun _ => 7) ctest_result_create_empty 42 3 5
      (sample_child_run (WaitStatus.exited 0)) =
        some (0, { type := ctest_result_type.CTEST_RESULT_PASS, output := some sample_output,
                   failure := none }) :=
  ⟨Or.inl rfl, by decide,
    wait_for_child_descriptor_zero (fun _ => 8192) (fun _ => 7) ctest_result_create_empty 42
      0 5 (sample_child_run (WaitStatus.exited 0)) (Or.inl rfl) (by decide),
    (sample_wait_for_child (WaitStatus.exited 0)).trans rfl⟩

/-! ### The result of a child that exits with another code -/

/-- C15, as the code has it. When the read ends of the pipes are descriptors above 0, the
child has sent frames of the event writer (`events`, each fitting), fewer than `2^62`
bytes of output wait, every successful `read` of the execution-hooks descriptor hands over
at least one byte when bytes wait, `poll` reports `POLLHUP` on each of the two descriptors
in some round, the `realloc` of `output_reader_build` succeeds and the child exited
normally with an exit code outside 0..3: `wait_for_child__` returns, the outcome of the
result is error, the value returned is 1, and the failure of the result is the most recent
failure the event reader handed to the consumer, absent when none was handed over. -/
theorem wait_for_child_invalid_exit_code (wbase : Nat) (malloc garbage : Nat → Nat)
    (result : ctest_result) (child hooks_fd output_fd : Int) (run : ChildRun)
    (events : List ExecEvent) (c : Int)
    (hc : c < 0 ∨ 3 < c) (hs : run.status = WaitStatus.exited c)
    (hfd : 0 < hooks_fd ∧ 0 < output_fd)
    (hfit : ∀ e ∈ events, event_fits wbase malloc e)
    (hstream : event_stream wbase events = some run.hooks_bytes)
    (hout : run.output_bytes.length < 4611686018427387904)
    (hread : ∀ s ∈ run.steps, s.hooks_read_some)
    (hhup : (∃ s ∈ run.steps, s.hooks = Revents.pollhup) ∧
      ∃ s ∈ run.steps, s.output = Revents.pollhup)
    (hre : run.realloc_ok = true) :
    ∃ st retval result1,
      poll_loop malloc garbage run.steps (wait_state_init result hooks_fd output_fd run)
        = some st ∧
      wait_for_child__ malloc garbage result child hooks_fd output_fd run
        = some (retval, result1) ∧
      result1.type = ctest_result_type.CTEST_RESULT_ERROR ∧
      result1.failure = (received_failures st.event_reader.calls).getLast? ∧
      retval = 1 := by
  obtain ⟨st, output, hloop, hret⟩ := wait_for_child_returns wbase malloc garbage result
    child hooks_fd output_fd run events hfd hfit hstream hout hread hhup hre
  rw [hs, wait_status_exited_invalid st child run.create_ok c hc] at hret
  exact ⟨st, _, _, hloop, hret, rfl, rfl, rfl⟩

/-- The sample run ending with exit code 7, the read ends of the pipes being the
descriptors 3 and 5: the parent returns 1 with an error result whose failure is the one
the child handed over. -/
theorem wait_for_child_invalid_exit_code_witness :
    (∃ st retval result1,
      poll_loop (fun _ => 8192) (fun _ => 7) (sample_child_run (WaitStatus.exited 7)).steps
        (wait_state_init ctest_result_create_empty 3 5
          (sample_child_run (WaitStatus.exited 7))) = some st ∧
      wait_for_child__ (fun _ => 8192) (fun _ => 7) ctest_result_create_empty 42 3 5
        (sample_child_run (WaitStatus.exited 7)) = some (retval, result1) ∧
      result1.type = ctest_result_type.CTEST_RESULT_ERROR ∧
      result1.failure = (received_failures st.event_reader.calls).getLast? ∧
      retval = 1) ∧
    wait_for_child__ (fun _ => 8192) (fun _ => 7) ctest_result_create_empty 42 3 5
        (sample_child_run (WaitStatus.exited 7))
      = some (1, sample_result ctest_result_type.CTEST_RESULT_ERROR) :=
  ⟨wait_for_child_invalid_exit_code 4096 (fun _ => 8192) (fun _ => 7)
      ctest_result_create_empty 42 3 5 (sample_child_run (WaitStatus.exited 7))
      sample_run_events 7 (by decide) rfl ⟨by decide, by decide⟩ sample_run_events_fit
      (sample_run_stream _) (by decide) sample_steps_read sample_steps_hup rfl,
    (sample_wait_for_child (WaitStatus.exited 7)).trans rfl⟩

/-- A child that hands over no failure and exits with code 7 (the read ends of the pipes
being the descriptors 3 and 5): the result is an error without a failure, so without a
description. -/
theorem wait_for_child_exit_code_without_failure :
    wait_for_child__ (fun _ => 8192) (fun _ => 7) ctest_result_create_empty 42 3 5
        (quiet_child_run (WaitStatus.exited 7)) =
      some (1, { type := ctest_result_type.CTEST_RESULT_ERROR, output := some sample_output,
                 failure := none }) :=
  (quiet_wait_for_child (WaitStatus.exited 7)).trans rfl

end Ctest
